import Mathlib

/-!
# Lexical analyzer and object utilities of the Lua fork (llex.c, lobject.c)

A shallow embedding of the numeral conversion of `lobject.c` and of the scanner
of `llex.c`.  Characters are integers (the C `int` of `ls->current`, with
`EOZ = -1`), stored bytes are naturals below 256, C strings are the lists of
their bytes before the terminating NUL, unsigned 64-bit arithmetic is done on
naturals modulo `2^64`.
-/

namespace Lua

/-! ## Character classes (lctype.h) -/

/-- Modelled from the spec: `lisdigit` is a macro of lctype.h, which is not part
of the sources at hand; it holds of the decimal digits `0`..`9`. -/
def lisdigit (c : Int) : Bool := decide (48 ≤ c ∧ c ≤ 57)

/-- Modelled from the spec: `lisodigit` is a macro of lctype.h (absent); it
holds of the octal digits `0`..`7`. -/
def lisodigit (c : Int) : Bool := decide (48 ≤ c ∧ c ≤ 55)

/-- Modelled from the spec: `lisxdigit` is a macro of lctype.h (absent); it
holds of the hexadecimal digits `0`..`9`, `a`..`f`, `A`..`F`. -/
def lisxdigit (c : Int) : Bool :=
  decide ((48 ≤ c ∧ c ≤ 57) ∨ (97 ≤ c ∧ c ≤ 102) ∨ (65 ≤ c ∧ c ≤ 70))

/-- Modelled from the spec: `lisspace` is a macro of lctype.h (absent); it holds
of the blank and of the control characters tab, newline, vertical tab, form
feed and carriage return. -/
def lisspace (c : Int) : Bool := decide (c = 32 ∨ (9 ≤ c ∧ c ≤ 13))

/-- Modelled from the spec: `lislalpha` is a macro of lctype.h (absent); it
holds of the identifier-start characters, the ASCII letters and `_`. -/
def lislalpha (c : Int) : Bool :=
  decide ((97 ≤ c ∧ c ≤ 122) ∨ (65 ≤ c ∧ c ≤ 90) ∨ c = 95)

/-- Modelled from the spec: `lislalnum` is a macro of lctype.h (absent); it
holds of the identifier characters, the ASCII letters, the digits and `_`. -/
def lislalnum (c : Int) : Bool := lislalpha c || lisdigit c

/-- Modelled from the spec: `lisprint` is a macro of lctype.h (absent); it holds
of the printable ASCII characters, blank included. -/
def lisprint (c : Int) : Bool := decide (32 ≤ c ∧ c ≤ 126)

/-- Modelled from the spec: `ltolower` is a macro of lctype.h (absent); it is
applied to letters only and gives the lower-case letter. -/
def ltolower (c : Int) : Int := if 65 ≤ c ∧ c ≤ 90 then c + 32 else c

/-! ## Numeral conversion (lobject.c) -/

/-- `luaO_octavalue`: the value of an octal digit. -/
def luaO_octavalue (c : Int) : Nat := ((c - 48) % 256).toNat

/-- `luaO_hexavalue`: the value of a hexadecimal digit. -/
def luaO_hexavalue (c : Int) : Nat :=
  if lisdigit c then ((c - 48) % 256).toNat
  else (((ltolower c - 97) + 10) % 256).toNat

/-- `isneg`: reads an optional sign; gives the flag and the text after it. -/
def isneg : List Nat → Bool × List Nat
  | 45 :: s => (true, s)
  | 43 :: s => (false, s)
  | s => (false, s)

/-- The loop `while (lisspace(cast_uchar(*s))) s++`. -/
def skipSpaces : List Nat → List Nat
  | [] => []
  | c :: s => if lisspace c then skipSpaces s else c :: s

/-- Modelled from the spec: `LUA_MAXINTEGER` is a macro of luaconf.h (absent),
the largest value of the signed 64-bit `lua_Integer`. -/
def LUA_MAXINTEGER : Nat := 2 ^ 63 - 1

/-- `MAXBY10`. -/
def MAXBY10 : Nat := LUA_MAXINTEGER / 10

/-- `MAXLASTD`. -/
def MAXLASTD : Nat := LUA_MAXINTEGER % 10

/-- `l_castU2S`: a `lua_Unsigned` read as a two's-complement `lua_Integer`. -/
def l_castU2S (a : Nat) : Int :=
  if a % 2 ^ 64 < 2 ^ 63 then ((a % 2 ^ 64 : Nat) : Int)
  else ((a % 2 ^ 64 : Nat) : Int) - 2 ^ 64

/-- The hexadecimal loop of `l_str2int`: accumulator, emptiness flag and the
text left. -/
def hexLoop : List Nat → Nat → Bool → Nat × Bool × List Nat
  | [], a, empty => (a, empty, [])
  | c :: s, a, empty =>
    if lisxdigit c then hexLoop s ((a * 16 + luaO_hexavalue c) % 2 ^ 64) false
    else (a, empty, c :: s)

/-- The octal loop of `l_str2int`. -/
def octLoop : List Nat → Nat → Bool → Nat × Bool × List Nat
  | [], a, empty => (a, empty, [])
  | c :: s, a, empty =>
    if lisodigit c then octLoop s ((a * 8 + luaO_octavalue c) % 2 ^ 64) false
    else (a, empty, c :: s)

/-- The decimal loop of `l_str2int`; `none` is the early `return NULL` of the
overflow test. -/
def decLoop (neg : Bool) : List Nat → Nat → Bool → Option (Nat × Bool × List Nat)
  | [], a, empty => some (a, empty, [])
  | c :: s, a, empty =>
    if lisdigit c then
      let d : Int := (c : Int) - 48
      if a ≥ MAXBY10 ∧ (a > MAXBY10 ∨ d > (MAXLASTD : Int) + (if neg then 1 else 0)) then none
      else decLoop neg s ((a * 10 + d.toNat) % 2 ^ 64) false
    else some (a, empty, c :: s)

/-- The end of `l_str2int`: trailing blanks, the test for an empty numeral or
trailing characters, and the signed result. -/
def l_str2int_finish (neg : Bool) (r : Nat × Bool × List Nat) : Option Int :=
  match r with
  | (a, empty, s) =>
    if empty ∨ skipSpaces s ≠ [] then none
    else some (l_castU2S (if neg then (2 ^ 64 - a) % 2 ^ 64 else a))

/-- The part of `l_str2int` after the sign: the choice of the base by the
prefix, the digit loop and the end. -/
def l_str2int_base (neg : Bool) (s1 : List Nat) : Option Int :=
  match s1 with
  | 48 :: 120 :: s2 => l_str2int_finish neg (hexLoop s2 0 true)
  | 48 :: 88 :: s2 => l_str2int_finish neg (hexLoop s2 0 true)
  | 48 :: 111 :: s2 => l_str2int_finish neg (octLoop s2 0 true)
  | 48 :: 79 :: s2 => l_str2int_finish neg (octLoop s2 0 true)
  | _ =>
    match decLoop neg s1 0 true with
    | none => none
    | some r => l_str2int_finish neg r

/-- `l_str2int` on the C string `s`.  On success the C function returns the
address of the terminating NUL, so the result carries the value only. -/
def l_str2int (s : List Nat) : Option Int :=
  match isneg (skipSpaces s) with
  | (neg, s1) => l_str2int_base neg s1

/-- What the C library and the build fix: the float type `lua_Number`, the
float conversion `l_str2d` (built on `strtod` and the locale; `none` is its
NULL), the float formatter `tostringbuffFloat`, and the byte that lies in
memory after the one-byte string literal `""`, which `check_next2` reads as
`set[1]`; `compatGlobal` tells whether the build defines `LUA_COMPAT_GLOBAL`. -/
structure Platform where
  Number : Type
  l_str2d : List Nat → Option Number
  tostringbuffFloat : Number → List Nat
  pad : Int
  compatGlobal : Bool

/-- The numeric `TValue`s: an integer or a float. -/
inductive TValue (P : Platform) where
  | int (i : Int)
  | flt (n : P.Number)

/-- `luaO_str2num` on the C string `s`: the value stored in `o` and the
returned size (length of the string plus one); `none` is the return value 0. -/
def luaO_str2num (P : Platform) (s : List Nat) : Option (TValue P × Nat) :=
  match l_str2int s with
  | some i => some (TValue.int i, s.length + 1)
  | none =>
    match P.l_str2d s with
    | some n => some (TValue.flt n, s.length + 1)
    | none => none

/-- The digits of `n` in base ten, most significant first, put before `acc`;
`fuel` bounds the number of digits. -/
def decimalTextAux : Nat → Nat → List Nat → List Nat
  | 0, _, acc => acc
  | fuel + 1, n, acc =>
    if n < 10 then (n + 48) :: acc
    else decimalTextAux fuel (n / 10) ((n % 10 + 48) :: acc)

/-- The decimal text of a natural number, as `printf` writes it. -/
def decimalText (n : Nat) : List Nat := decimalTextAux (n + 1) n []

/-- Modelled from the spec: `lua_integer2str` is a macro of luaconf.h (absent);
it is `snprintf` with the format `%lld`, the decimal text of the integer with a
leading `-` when it is negative (the spec's format_number on integers). -/
def lua_integer2str (i : Int) : List Nat :=
  if i < 0 then 45 :: decimalText i.natAbs else decimalText i.toNat

/-- `luaO_tostringbuff`: the text written to the buffer. -/
def luaO_tostringbuff (P : Platform) (obj : TValue P) : List Nat :=
  match obj with
  | TValue.int i => lua_integer2str i
  | TValue.flt n => P.tostringbuffFloat n

/-- The value that a text of decimal digits denotes. -/
def decimalValue (ds : List Nat) : Nat := ds.foldl (fun a c => a * 10 + (c - 48)) 0

/-- The value that an optional sign (`+`, `-` or nothing) followed by decimal
digits denotes. -/
def signedDecimalValue (sign ds : List Nat) : Int :=
  if sign = [45] then -(decimalValue ds : Int) else (decimalValue ds : Int)

/-- The text `9223372036854775808`, the decimal digits of 2^63. -/
def text2p63 : List Nat :=
  [57, 50, 50, 51, 51, 55, 50, 48, 51, 54, 56, 53, 52, 55, 55, 53, 56, 48, 56]



/-- A platform without floats: every float conversion fails.  It serves to
evaluate the scanner on texts that hold no float. -/
def integerPlatform : Platform where
  Number := Unit
  l_str2d := fun _ => none
  tostringbuffFloat := fun _ => []
  pad := 0
  compatGlobal := false

/-! ## The scanner state (llex.h, lzio.h) -/

/-- Modelled from the spec: `EOZ` is a macro of lzio.h (absent), the
end-of-stream marker, which is no byte value. -/
def EOZ : Int := -1

/-- Modelled from the spec: `INT_MAX` of the C library, for a 32-bit `int`. -/
def INT_MAX : Int := 2147483647

/-- Modelled from the spec: `MAX_SIZE` is a macro of llimits.h (absent), the
absolute maximum of a size; on a 64-bit build it is `LUA_MAXINTEGER`. -/
def MAX_SIZE : Nat := 2 ^ 63 - 1

/-- `LUA_MINBUFFER`. -/
def LUA_MINBUFFER : Nat := 32

/-- `Mbuffer` of lzio.h: `buffer` holds the `n` bytes in use (so `n` is its
length) and `buffsize` is the allocated capacity. -/
structure Mbuffer where
  buffer : List Nat
  buffsize : Nat
deriving DecidableEq, Repr

/-- The fields of `LexState` that the scanner reads and writes: the current
character, the bytes of the stream `z` not yet read, the line counter and the
scratch buffer. -/
structure LexState where
  current : Int
  z : List Nat
  linenumber : Int
  buff : Mbuffer
deriving DecidableEq, Repr

/-- How a scan ends when it does not return: `lexerror` is the `luaD_throw` of
`lexerror`, with the message given to `luaG_addinfo`, the line number given to
it and the text of `txtToken` when a token is named; `underflow` is a
`luaZ_buffremove` of more bytes than the buffer holds; `nofuel` means that a
loop of the model ran out of its iteration bound. -/
inductive Raised where
  | lexerror (msg : String) (line : Int) (near : Option (List Nat))
  | underflow
  | nofuel
deriving DecidableEq, Repr

/-- Modelled from the spec: `FIRST_RESERVED` is a macro of llex.h (absent),
`UCHAR_MAX + 1`: the single-byte tokens are their own tags below it. -/
def FIRST_RESERVED : Int := 256

/-- `luaX_tokens` (ORDER RESERVED). -/
def luaX_tokens : List String :=
  ["and", "break", "do", "else", "elseif",
   "end", "false", "for", "function", "global", "goto", "if",
   "in", "local", "nil", "not", "or", "repeat",
   "return", "then", "true", "until", "while",
   "//", "..", "...", "==", ">=", "<=", "!=",
   "<<", ">>", "::", "<eof>",
   "<number>", "<integer>", "<name>", "<string>"]

/-- Modelled from the spec: `NUM_RESERVED` is a macro of llex.h (absent), the
number of reserved words, `TK_WHILE - FIRST_RESERVED + 1`. -/
def NUM_RESERVED : Nat := 23

/-- Modelled from the spec: the token tags are the enumeration RESERVED of
llex.h (absent); they number the entries of `luaX_tokens` from
`FIRST_RESERVED` on, in the order of that table. -/
def TK_WHILE : Int := FIRST_RESERVED + 22
/-- See `TK_WHILE`. -/
def TK_IDIV : Int := FIRST_RESERVED + 23
/-- See `TK_WHILE`. -/
def TK_CONCAT : Int := FIRST_RESERVED + 24
/-- See `TK_WHILE`. -/
def TK_DOTS : Int := FIRST_RESERVED + 25
/-- See `TK_WHILE`. -/
def TK_EQ : Int := FIRST_RESERVED + 26
/-- See `TK_WHILE`. -/
def TK_GE : Int := FIRST_RESERVED + 27
/-- See `TK_WHILE`. -/
def TK_LE : Int := FIRST_RESERVED + 28
/-- See `TK_WHILE`. -/
def TK_NE : Int := FIRST_RESERVED + 29
/-- See `TK_WHILE`. -/
def TK_SHL : Int := FIRST_RESERVED + 30
/-- See `TK_WHILE`. -/
def TK_SHR : Int := FIRST_RESERVED + 31
/-- See `TK_WHILE`. -/
def TK_DBCOLON : Int := FIRST_RESERVED + 32
/-- See `TK_WHILE`. -/
def TK_EOS : Int := FIRST_RESERVED + 33
/-- See `TK_WHILE`. -/
def TK_FLT : Int := FIRST_RESERVED + 34
/-- See `TK_WHILE`. -/
def TK_INT : Int := FIRST_RESERVED + 35
/-- See `TK_WHILE`. -/
def TK_NAME : Int := FIRST_RESERVED + 36
/-- See `TK_WHILE`. -/
def TK_STRING : Int := FIRST_RESERVED + 37

/-- `SemInfo`: what a call of `llex` stores through its `seminfo` argument;
`none` when it stores nothing. -/
inductive SemInfo (P : Platform) where
  | none
  | r (n : P.Number)
  | i (v : Int)
  | ts (s : List Nat)

/-- The bytes of a string literal of the C source. -/
def bytes (s : String) : List Nat := s.toList.map Char.toNat

/-- The C string that starts at the beginning of `mem`: the bytes before the
first NUL. -/
def cstr (mem : List Nat) : List Nat := mem.takeWhile (fun c => c ≠ 0)

/-- `cast_char` followed by the reading of the stored byte as unsigned. -/
def cast_char (c : Int) : Nat := (c % 256).toNat

/-- The macro `next`: `ls->current = zgetc(ls->z)`; an exhausted stream keeps
giving `EOZ`. -/
def next (ls : LexState) : LexState :=
  match ls.z with
  | [] => { ls with current := EOZ }
  | c :: z => { ls with current := (c : Int), z := z }

/-- The macro `currIsNewline`. -/
def currIsNewline (ls : LexState) : Bool := decide (ls.current = 10 ∨ ls.current = 13)

/-- `luaZ_resetbuffer`. -/
def luaZ_resetbuffer (ls : LexState) : LexState :=
  { ls with buff := { ls.buff with buffer := [] } }

/-- `luaZ_buffremove`: drops the last `i` bytes; taking more than there are is
the outcome `underflow`. -/
def luaZ_buffremove (ls : LexState) (i : Nat) : Except Raised LexState :=
  if ls.buff.buffer.length < i then Except.error Raised.underflow
  else Except.ok { ls with buff := { ls.buff with
    buffer := ls.buff.buffer.take (ls.buff.buffer.length - i) } }

/-- `lexerror` with `token = 0`: no token text is added to the message. -/
def lexerror0 (ls : LexState) (msg : String) : Raised :=
  Raised.lexerror msg ls.linenumber none

/-- `save`: appends a byte, first growing a full buffer from `n` to
`n + n/2`, unless its size has reached `MAX_SIZE/3 * 2`.  The allocation done by
`luaZ_resizebuffer` is taken to succeed. -/
def save (ls : LexState) (c : Int) : Except Raised LexState :=
  if ls.buff.buffer.length + 1 > ls.buff.buffsize then
    if ls.buff.buffsize ≥ MAX_SIZE / 3 * 2 then
      Except.error (lexerror0 ls "lexical element too long")
    else
      Except.ok { ls with buff :=
        { buffer := ls.buff.buffer ++ [cast_char c],
          buffsize := ls.buff.buffsize + ls.buff.buffsize / 2 } }
  else
    Except.ok { ls with buff := { ls.buff with buffer := ls.buff.buffer ++ [cast_char c] } }

/-- The macro `save_and_next`. -/
def save_and_next (ls : LexState) : Except Raised LexState :=
  match save ls ls.current with
  | Except.error e => Except.error e
  | Except.ok ls1 => Except.ok (next ls1)

/-- `luaX_token2str`: the text of a token, as `luaO_pushfstring` builds it with
the formats `'%c'`, `'<\%d>'` and `'%s'`. -/
def luaX_token2str (token : Int) : List Nat :=
  if token < FIRST_RESERVED then
    if lisprint token then [39, cast_char token, 39]
    else [39, 60, 92] ++ lua_integer2str token ++ [62, 39]
  else
    let s := bytes (luaX_tokens.getD (token - FIRST_RESERVED).toNat "")
    if token < TK_EOS then [39] ++ s ++ [39] else s

/-- `txtToken`: for names, strings and numerals the scratch buffer, closed by
a NUL and read as a C string, between quotes. -/
def txtToken (ls : LexState) (token : Int) : Except Raised (List Nat) :=
  if token = TK_NAME ∨ token = TK_STRING ∨ token = TK_FLT ∨ token = TK_INT then
    match save ls 0 with
    | Except.error e => Except.error e
    | Except.ok ls1 => Except.ok ([39] ++ cstr ls1.buff.buffer ++ [39])
  else Except.ok (luaX_token2str token)

/-- `lexerror`: what is thrown.  The message goes to `luaG_addinfo` with the
current line; when `token` is not 0 the text of `txtToken` follows `near`. -/
def lexerror (ls : LexState) (msg : String) (token : Int) : Raised :=
  if token = 0 then lexerror0 ls msg
  else
    match txtToken ls token with
    | Except.error e => e
    | Except.ok txt => Raised.lexerror msg ls.linenumber (some txt)

/-- `inclinenumber`: skips `\n`, `\r`, `\n\r` or `\r\n` and counts one line. -/
def inclinenumber (ls : LexState) : Except Raised LexState :=
  let old := ls.current
  let ls1 := next ls
  let ls2 := if currIsNewline ls1 ∧ ls1.current ≠ old then next ls1 else ls1
  let ls3 := { ls2 with linenumber := ls2.linenumber + 1 }
  if ls3.linenumber ≥ INT_MAX then Except.error (lexerror0 ls3 "chunk has too many lines")
  else Except.ok ls3

/-- The state in which the first call of `llex` finds a scanner set up by
`luaX_setinput` on the source `src`: the first character is current, the line
is 1 and the buffer is empty with the capacity `LUA_MINBUFFER`. -/
def luaX_setinput (src : List Nat) : LexState :=
  next { current := EOZ, z := src, linenumber := 1,
         buff := { buffer := [], buffsize := LUA_MINBUFFER } }

/-- `check_next1`. -/
def check_next1 (ls : LexState) (c : Int) : Bool × LexState :=
  if ls.current = c then (true, next ls) else (false, ls)

/-- `check_next2`, the two characters of `set` given apart. -/
def check_next2 (ls : LexState) (set0 set1 : Int) : Except Raised (Bool × LexState) :=
  if ls.current = set0 ∨ ls.current = set1 then
    match save_and_next ls with
    | Except.error e => Except.error e
    | Except.ok ls1 => Except.ok (true, ls1)
  else Except.ok (false, ls)

/-- The loop of `read_numeral`; `expo` holds `expo[0]` and `expo[1]`. -/
def read_numeral_loop (expo : Int × Int) : Nat → LexState → Except Raised LexState
  | 0, _ => Except.error Raised.nofuel
  | fuel + 1, ls =>
    match check_next2 ls expo.1 expo.2 with
    | Except.error e => Except.error e
    | Except.ok (true, ls1) =>
      match check_next2 ls1 45 43 with
      | Except.error e => Except.error e
      | Except.ok (_, ls2) => read_numeral_loop expo fuel ls2
    | Except.ok (false, ls1) =>
      if lisxdigit ls1.current ∨ ls1.current = 46 ∨ lisodigit ls1.current then
        match save_and_next ls1 with
        | Except.error e => Except.error e
        | Except.ok ls2 => read_numeral_loop expo fuel ls2
      else Except.ok ls1

/-- The choice of the exponent marks at the start of `read_numeral`: `Pp`
after `0x`/`0X`, the literal `""` after `0o`/`0O` (its `expo[0]` is the NUL,
its `expo[1]` the byte after it in memory), `Ee` otherwise. -/
def read_numeral_expo (P : Platform) (first : Int) (ls : LexState) :
    Except Raised ((Int × Int) × LexState) :=
  if first = 48 then
    match check_next2 ls 120 88 with
    | Except.error e => Except.error e
    | Except.ok (true, ls1) => Except.ok ((80, 112), ls1)
    | Except.ok (false, ls1) =>
      match check_next2 ls1 111 79 with
      | Except.error e => Except.error e
      | Except.ok (true, ls2) => Except.ok ((0, P.pad), ls2)
      | Except.ok (false, ls2) => Except.ok ((69, 101), ls2)
  else Except.ok ((69, 101), ls)

/-- `read_numeral`: the token, the value stored in `seminfo` and the state.
Every round of the loop that does not end it saves a byte, and a round that
reads no character is only possible at the end of the stream (when `expo[1]` is
`EOZ`): the bound of the loop covers the characters left and the `MAX_SIZE`
bytes that a buffer can take before `save` gives up. -/
def read_numeral (P : Platform) (ls : LexState) : Except Raised (Int × SemInfo P × LexState) :=
  let first := ls.current
  match save_and_next ls with
  | Except.error e => Except.error e
  | Except.ok ls1 =>
    match read_numeral_expo P first ls1 with
    | Except.error e => Except.error e
    | Except.ok (expo, ls2) =>
      match read_numeral_loop expo (ls2.z.length + 2 + MAX_SIZE) ls2 with
      | Except.error e => Except.error e
      | Except.ok ls3 =>
        match (if lislalpha ls3.current then save_and_next ls3 else Except.ok ls3) with
        | Except.error e => Except.error e
        | Except.ok ls4 =>
          match save ls4 0 with
          | Except.error e => Except.error e
          | Except.ok ls5 =>
            match luaO_str2num P (cstr ls5.buff.buffer) with
            | none => Except.error (lexerror ls5 "malformed number" TK_FLT)
            | some (TValue.int i, _) => Except.ok (TK_INT, SemInfo.i i, ls5)
            | some (TValue.flt n, _) => Except.ok (TK_FLT, SemInfo.r n, ls5)

/-- The `while` loop of `skip_sep`; `count` is a `size_t`. -/
def skip_sep_loop : Nat → LexState → Nat → Except Raised (Nat × LexState)
  | 0, _, _ => Except.error Raised.nofuel
  | fuel + 1, ls, count =>
    if ls.current = 61 then
      match save_and_next ls with
      | Except.error e => Except.error e
      | Except.ok ls1 => skip_sep_loop fuel ls1 ((count + 1) % 2 ^ 64)
    else Except.ok (count, ls)

/-- `skip_sep`: the returned level and the state. -/
def skip_sep (ls : LexState) : Except Raised (Nat × LexState) :=
  let s := ls.current
  match save_and_next ls with
  | Except.error e => Except.error e
  | Except.ok ls1 =>
    match skip_sep_loop (ls1.z.length + 2) ls1 0 with
    | Except.error e => Except.error e
    | Except.ok (count, ls2) =>
      Except.ok (if ls2.current = s then (count + 2) % 2 ^ 64
                 else if count = 0 then 1 else 0, ls2)

/-- `luaX_newstring`: the string made of `l` bytes from the offset `off` of the
scratch buffer; a string is given by its bytes. -/
def luaX_newstring (ls : LexState) (off l : Nat) : List Nat :=
  (ls.buff.buffer.drop off).take l

/-- The `for (;;)` loop of `read_long_string`; `seminfo` tells whether the
`seminfo` pointer is not NULL and `line` is the line of the opener. -/
def read_long_string_loop (seminfo : Bool) (sep : Nat) (line : Int) :
    Nat → LexState → Except Raised LexState
  | 0, _ => Except.error Raised.nofuel
  | fuel + 1, ls =>
    if ls.current = EOZ then
      Except.error (lexerror ls
        ("unfinished long " ++ (if seminfo then "string" else "comment") ++
          " (starting at line " ++ toString line ++ ")") TK_EOS)
    else if ls.current = 93 then
      match skip_sep ls with
      | Except.error e => Except.error e
      | Except.ok (lvl, ls1) =>
        if lvl = sep then save_and_next ls1
        else read_long_string_loop seminfo sep line fuel ls1
    else if ls.current = 10 ∨ ls.current = 13 then
      match save ls 10 with
      | Except.error e => Except.error e
      | Except.ok ls1 =>
        match inclinenumber ls1 with
        | Except.error e => Except.error e
        | Except.ok ls2 =>
          read_long_string_loop seminfo sep line fuel
            (if seminfo then ls2 else luaZ_resetbuffer ls2)
    else if seminfo then
      match save_and_next ls with
      | Except.error e => Except.error e
      | Except.ok ls1 => read_long_string_loop seminfo sep line fuel ls1
    else read_long_string_loop seminfo sep line fuel (next ls)

/-- `read_long_string`: the string stored in `seminfo->ts` (when `seminfo` is
not NULL) and the state. -/
def read_long_string (ls : LexState) (seminfo : Bool) (sep : Nat) :
    Except Raised (Option (List Nat) × LexState) :=
  let line := ls.linenumber
  match save_and_next ls with
  | Except.error e => Except.error e
  | Except.ok ls1 =>
    match (if currIsNewline ls1 then inclinenumber ls1 else Except.ok ls1) with
    | Except.error e => Except.error e
    | Except.ok ls2 =>
      match read_long_string_loop seminfo sep line (ls2.z.length + 2) ls2 with
      | Except.error e => Except.error e
      | Except.ok ls3 =>
        Except.ok (if seminfo then
            some (luaX_newstring ls3 sep (ls3.buff.buffer.length - 2 * sep))
          else none, ls3)

/-- `esccheck`: when `c` is false, saves the current character (unless the
stream is at its end) and throws. -/
def esccheck (ls : LexState) (c : Bool) (msg : String) : Except Raised LexState :=
  if c then Except.ok ls
  else
    match (if ls.current ≠ EOZ then save_and_next ls else Except.ok ls) with
    | Except.error e => Except.error e
    | Except.ok ls1 => Except.error (lexerror ls1 msg TK_STRING)

/-- `getocta`. -/
def getocta (ls : LexState) : Except Raised (Nat × LexState) :=
  match save_and_next ls with
  | Except.error e => Except.error e
  | Except.ok ls1 =>
    match esccheck ls1 (lisodigit ls1.current) "octal digit expected" with
    | Except.error e => Except.error e
    | Except.ok ls2 => Except.ok (luaO_octavalue ls2.current, ls2)

/-- `readoctaesc`. -/
def readoctaesc (ls : LexState) : Except Raised (Nat × LexState) :=
  match getocta ls with
  | Except.error e => Except.error e
  | Except.ok (r, ls1) =>
    match getocta ls1 with
    | Except.error e => Except.error e
    | Except.ok (r2, ls2) =>
      match luaZ_buffremove ls2 2 with
      | Except.error e => Except.error e
      | Except.ok ls3 => Except.ok (r * 8 + r2, ls3)

/-- `gethexa`. -/
def gethexa (ls : LexState) : Except Raised (Nat × LexState) :=
  match save_and_next ls with
  | Except.error e => Except.error e
  | Except.ok ls1 =>
    match esccheck ls1 (lisxdigit ls1.current) "hexadecimal digit expected" with
    | Except.error e => Except.error e
    | Except.ok ls2 => Except.ok (luaO_hexavalue ls2.current, ls2)

/-- `readhexaesc`. -/
def readhexaesc (ls : LexState) : Except Raised (Nat × LexState) :=
  match gethexa ls with
  | Except.error e => Except.error e
  | Except.ok (r, ls1) =>
    match gethexa ls1 with
    | Except.error e => Except.error e
    | Except.ok (r2, ls2) =>
      match luaZ_buffremove ls2 2 with
      | Except.error e => Except.error e
      | Except.ok ls3 => Except.ok (r * 16 + r2, ls3)

/-- The `while` loop of `readutf8esc`; `r` is an `l_uint32` and `i` counts the
saved characters. -/
def readutf8esc_loop : Nat → LexState → Nat → Nat → Except Raised (Nat × Nat × LexState)
  | 0, _, _, _ => Except.error Raised.nofuel
  | fuel + 1, ls, r, i =>
    match save_and_next ls with
    | Except.error e => Except.error e
    | Except.ok ls1 =>
      if lisxdigit ls1.current then
        match esccheck ls1 (decide (r ≤ 0x7FFFFFFF / 16)) "UTF-8 value too large" with
        | Except.error e => Except.error e
        | Except.ok ls2 =>
          readutf8esc_loop fuel ls2 ((r * 16 + luaO_hexavalue ls2.current) % 2 ^ 32) (i + 1)
      else Except.ok (r, i, ls1)

/-- `readutf8esc`. -/
def readutf8esc (ls : LexState) : Except Raised (Nat × LexState) :=
  match save_and_next ls with
  | Except.error e => Except.error e
  | Except.ok ls1 =>
    match esccheck ls1 (decide (ls1.current = 123)) "missing '\x7b'" with
    | Except.error e => Except.error e
    | Except.ok ls2 =>
      match gethexa ls2 with
      | Except.error e => Except.error e
      | Except.ok (r, ls3) =>
        match readutf8esc_loop (ls3.z.length + 2) ls3 r 4 with
        | Except.error e => Except.error e
        | Except.ok (r1, i, ls4) =>
          match esccheck ls4 (decide (ls4.current = 125)) "missing '\x7d'" with
          | Except.error e => Except.error e
          | Except.ok ls5 =>
            match luaZ_buffremove (next ls5) i with
            | Except.error e => Except.error e
            | Except.ok ls6 => Except.ok (r1, ls6)

/-- The `do ... while` loop of `luaO_utf8esc`: the continuation bytes are put
in front of `acc`; it gives the `x` and `mfb` left and the bytes. -/
def luaO_utf8esc_loop : Nat → Nat → Nat → List Nat → Nat × Nat × List Nat
  | 0, x, mfb, acc => (x, mfb, acc)
  | fuel + 1, x, mfb, acc =>
    let acc1 := ((0x80 ||| (x &&& 0x3f)) % 256) :: acc
    let x1 := x >>> 6
    let mfb1 := mfb >>> 1
    if x1 > mfb1 then luaO_utf8esc_loop fuel x1 mfb1 acc1 else (x1, mfb1, acc1)

/-- `luaO_utf8esc`: the bytes written at the end of `buff`, in order (their
number is the returned `n`).  `x` is an `l_uint32`; the loop ends within six
rounds. -/
def luaO_utf8esc (x : Nat) : List Nat :=
  if x < 0x80 then [x % 256]
  else
    match luaO_utf8esc_loop 6 x 0x3f [] with
    | (x1, mfb1, acc) => (((((2 ^ 32 - 1 - mfb1) * 2) % 2 ^ 32) ||| x1) % 256) :: acc

/-- The loop of `utf8esc` that saves the bytes of `buff`. -/
def save_bytes : List Nat → LexState → Except Raised LexState
  | [], ls => Except.ok ls
  | b :: bs, ls =>
    match save ls (b : Int) with
    | Except.error e => Except.error e
    | Except.ok ls1 => save_bytes bs ls1

/-- `utf8esc`. -/
def utf8esc (ls : LexState) : Except Raised LexState :=
  match readutf8esc ls with
  | Except.error e => Except.error e
  | Except.ok (r, ls1) => save_bytes (luaO_utf8esc r) ls1

/-- The `for` loop of `readdecesc`: at most `k` more digits are read. -/
def readdecesc_loop : Nat → LexState → Int → Nat → Except Raised (Int × Nat × LexState)
  | 0, ls, r, i => Except.ok (r, i, ls)
  | k + 1, ls, r, i =>
    if lisdigit ls.current then
      match save_and_next ls with
      | Except.error e => Except.error e
      | Except.ok ls1 => readdecesc_loop k ls1 (10 * r + ls.current - 48) (i + 1)
    else Except.ok (r, i, ls)

/-- `readdecesc`. -/
def readdecesc (ls : LexState) : Except Raised (Int × LexState) :=
  match readdecesc_loop 3 ls 0 0 with
  | Except.error e => Except.error e
  | Except.ok (r, i, ls1) =>
    match esccheck ls1 (decide (r ≤ 255)) "decimal escape too large" with
    | Except.error e => Except.error e
    | Except.ok ls2 =>
      match luaZ_buffremove ls2 i with
      | Except.error e => Except.error e
      | Except.ok ls3 => Except.ok (r, ls3)

/-- The label `only_save` of `read_string`: removes the backslash and saves
`c`. -/
def only_save (ls : LexState) (c : Int) : Except Raised LexState :=
  match luaZ_buffremove ls 1 with
  | Except.error e => Except.error e
  | Except.ok ls1 => save ls1 c

/-- The label `read_save` of `read_string`: `next`, then `only_save`. -/
def read_save (ls : LexState) (c : Int) : Except Raised LexState :=
  only_save (next ls) c

/-- The loop of the escape `\z` that skips the following white space. -/
def zap_loop : Nat → LexState → Except Raised LexState
  | 0, _ => Except.error Raised.nofuel
  | fuel + 1, ls =>
    if lisspace ls.current then
      if currIsNewline ls then
        match inclinenumber ls with
        | Except.error e => Except.error e
        | Except.ok ls1 => zap_loop fuel ls1
      else zap_loop fuel (next ls)
    else Except.ok ls

/-- The inner `switch` of `read_string`, entered after the backslash was
saved, up to the label `no_save`. -/
def read_escape (ls : LexState) : Except Raised LexState :=
  let c := ls.current
  if c = 97 then read_save ls 7
  else if c = 98 then read_save ls 8
  else if c = 102 then read_save ls 12
  else if c = 110 then read_save ls 10
  else if c = 114 then read_save ls 13
  else if c = 116 then read_save ls 9
  else if c = 118 then read_save ls 11
  else if c = 120 then
    match readhexaesc ls with
    | Except.error e => Except.error e
    | Except.ok (r, ls1) => read_save ls1 (r : Int)
  else if c = 111 then
    match readoctaesc ls with
    | Except.error e => Except.error e
    | Except.ok (r, ls1) => read_save ls1 (r : Int)
  else if c = 117 then utf8esc ls
  else if c = 10 ∨ c = 13 then
    match inclinenumber ls with
    | Except.error e => Except.error e
    | Except.ok ls1 => only_save ls1 10
  else if c = 92 ∨ c = 34 ∨ c = 39 then read_save ls c
  else if c = EOZ then Except.ok ls
  else if c = 122 then
    match luaZ_buffremove ls 1 with
    | Except.error e => Except.error e
    | Except.ok ls1 => zap_loop ((next ls1).z.length + 2) (next ls1)
  else
    match esccheck ls (lisdigit ls.current) "invalid escape sequence" with
    | Except.error e => Except.error e
    | Except.ok ls1 =>
      match readdecesc ls1 with
      | Except.error e => Except.error e
      | Except.ok (r, ls2) => only_save ls2 r

/-- The `while` loop of `read_string`. -/
def read_string_loop (del : Int) : Nat → LexState → Except Raised LexState
  | 0, _ => Except.error Raised.nofuel
  | fuel + 1, ls =>
    if ls.current = del then Except.ok ls
    else if ls.current = EOZ then Except.error (lexerror ls "unfinished string" TK_EOS)
    else if ls.current = 10 ∨ ls.current = 13 then
      Except.error (lexerror ls "unfinished string" TK_STRING)
    else if ls.current = 92 then
      match save_and_next ls with
      | Except.error e => Except.error e
      | Except.ok ls1 =>
        match read_escape ls1 with
        | Except.error e => Except.error e
        | Except.ok ls2 => read_string_loop del fuel ls2
    else
      match save_and_next ls with
      | Except.error e => Except.error e
      | Except.ok ls1 => read_string_loop del fuel ls1

/-- `read_string`: the string stored in `seminfo->ts` and the state. -/
def read_string (ls : LexState) (del : Int) : Except Raised (List Nat × LexState) :=
  match save_and_next ls with
  | Except.error e => Except.error e
  | Except.ok ls1 =>
    match read_string_loop del (ls1.z.length + 2) ls1 with
    | Except.error e => Except.error e
    | Except.ok ls2 =>
      match save_and_next ls2 with
      | Except.error e => Except.error e
      | Except.ok ls3 => Except.ok (luaX_newstring ls3 1 (ls3.buff.buffer.length - 2), ls3)

/-- The field `extra` that `luaX_init` (and `luaX_setinput` under
`LUA_COMPAT_GLOBAL`) leaves in the string with the bytes `s`: the index of the
reserved word plus one, 0 for another string. -/
def reservedExtra (P : Platform) (s : List Nat) : Nat :=
  let i := ((luaX_tokens.take NUM_RESERVED).map bytes).indexOf s
  if i < NUM_RESERVED ∧ ¬ (P.compatGlobal = true ∧ s = bytes "global") then i + 1 else 0

/-- The loop that skips a short comment, up to the end of the line or of the
stream. -/
def skip_comment_loop : Nat → LexState → Except Raised LexState
  | 0, _ => Except.error Raised.nofuel
  | fuel + 1, ls =>
    if ¬ currIsNewline ls ∧ ls.current ≠ EOZ then skip_comment_loop fuel (next ls)
    else Except.ok ls

/-- The `do ... while` loop that reads an identifier. -/
def read_name_loop : Nat → LexState → Except Raised LexState
  | 0, _ => Except.error Raised.nofuel
  | fuel + 1, ls =>
    match save_and_next ls with
    | Except.error e => Except.error e
    | Except.ok ls1 =>
      if lislalnum ls1.current then read_name_loop fuel ls1 else Except.ok ls1

/-- The `for (;;)` loop of `llex`: the token, what is stored in `seminfo` and
the state. -/
def llex_loop (P : Platform) : Nat → LexState → Except Raised (Int × SemInfo P × LexState)
  | 0, _ => Except.error Raised.nofuel
  | fuel + 1, ls =>
    let c := ls.current
    if c = 10 ∨ c = 13 then
      match inclinenumber ls with
      | Except.error e => Except.error e
      | Except.ok ls1 => llex_loop P fuel ls1
    else if c = 32 ∨ c = 12 ∨ c = 9 ∨ c = 11 then llex_loop P fuel (next ls)
    else if c = 45 then
      let ls1 := next ls
      if ls1.current ≠ 45 then Except.ok (45, SemInfo.none, ls1)
      else
        let ls2 := next ls1
        match (if ls2.current = 91 then
                match skip_sep ls2 with
                | Except.error e => Except.error e
                | Except.ok (sep, ls3) => Except.ok (sep, luaZ_resetbuffer ls3)
              else Except.ok (1, ls2)) with
        | Except.error e => Except.error e
        | Except.ok (sep, ls3) =>
          if ls2.current = 91 ∧ sep ≥ 2 then
            match read_long_string ls3 false sep with
            | Except.error e => Except.error e
            | Except.ok (_, ls4) => llex_loop P fuel (luaZ_resetbuffer ls4)
          else
            match skip_comment_loop (ls3.z.length + 2) ls3 with
            | Except.error e => Except.error e
            | Except.ok ls4 => llex_loop P fuel ls4
    else if c = 91 then
      match skip_sep ls with
      | Except.error e => Except.error e
      | Except.ok (sep, ls1) =>
        if sep ≥ 2 then
          match read_long_string ls1 true sep with
          | Except.error e => Except.error e
          | Except.ok (ts, ls2) => Except.ok (TK_STRING, SemInfo.ts (ts.getD []), ls2)
        else if sep = 0 then
          Except.error (lexerror ls1 "invalid long string delimiter" TK_STRING)
        else Except.ok (91, SemInfo.none, ls1)
    else if c = 61 then
      match check_next1 (next ls) 61 with
      | (true, ls1) => Except.ok (TK_EQ, SemInfo.none, ls1)
      | (false, ls1) => Except.ok (61, SemInfo.none, ls1)
    else if c = 60 then
      match check_next1 (next ls) 61 with
      | (true, ls1) => Except.ok (TK_LE, SemInfo.none, ls1)
      | (false, ls1) =>
        match check_next1 ls1 60 with
        | (true, ls2) => Except.ok (TK_SHL, SemInfo.none, ls2)
        | (false, ls2) => Except.ok (60, SemInfo.none, ls2)
    else if c = 62 then
      match check_next1 (next ls) 61 with
      | (true, ls1) => Except.ok (TK_GE, SemInfo.none, ls1)
      | (false, ls1) =>
        match check_next1 ls1 62 with
        | (true, ls2) => Except.ok (TK_SHR, SemInfo.none, ls2)
        | (false, ls2) => Except.ok (62, SemInfo.none, ls2)
    else if c = 47 then
      match check_next1 (next ls) 47 with
      | (true, ls1) => Except.ok (TK_IDIV, SemInfo.none, ls1)
      | (false, ls1) => Except.ok (47, SemInfo.none, ls1)
    else if c = 126 then
      match check_next1 (next ls) 61 with
      | (true, ls1) => Except.ok (TK_NE, SemInfo.none, ls1)
      | (false, ls1) => Except.ok (126, SemInfo.none, ls1)
    else if c = 58 then
      match check_next1 (next ls) 58 with
      | (true, ls1) => Except.ok (TK_DBCOLON, SemInfo.none, ls1)
      | (false, ls1) => Except.ok (58, SemInfo.none, ls1)
    else if c = 33 then
      match check_next1 (next ls) 61 with
      | (true, ls1) => Except.ok (TK_NE, SemInfo.none, ls1)
      | (false, ls1) => Except.ok (33, SemInfo.none, ls1)
    else if c = 34 ∨ c = 39 then
      match read_string ls c with
      | Except.error e => Except.error e
      | Except.ok (ts, ls1) => Except.ok (TK_STRING, SemInfo.ts ts, ls1)
    else if c = 46 then
      match save_and_next ls with
      | Except.error e => Except.error e
      | Except.ok ls1 =>
        match check_next1 ls1 46 with
        | (true, ls2) =>
          match check_next1 ls2 46 with
          | (true, ls3) => Except.ok (TK_DOTS, SemInfo.none, ls3)
          | (false, ls3) => Except.ok (TK_CONCAT, SemInfo.none, ls3)
        | (false, ls2) =>
          if ¬ lisdigit ls2.current then Except.ok (46, SemInfo.none, ls2)
          else read_numeral P ls2
    else if lisdigit c then read_numeral P ls
    else if c = EOZ then Except.ok (TK_EOS, SemInfo.none, ls)
    else if lislalpha c then
      match read_name_loop (ls.z.length + 2) ls with
      | Except.error e => Except.error e
      | Except.ok ls1 =>
        let ts := luaX_newstring ls1 0 ls1.buff.buffer.length
        if reservedExtra P ts > 0 then
          Except.ok ((reservedExtra P ts : Int) - 1 + FIRST_RESERVED, SemInfo.none, ls1)
        else Except.ok (TK_NAME, SemInfo.ts ts, ls1)
    else Except.ok (c, SemInfo.none, next ls)

/-- `llex`: resets the buffer and runs the loop.  Every round of the loop that
does not return or throw reads at least one character, so the bound is never
reached. -/
def llex (P : Platform) (ls : LexState) : Except Raised (Int × SemInfo P × LexState) :=
  llex_loop P (ls.z.length + 2) (luaZ_resetbuffer ls)

/-! ## Notions used to state the properties of the scanner -/

/-- The character that `zgetc` gives on the text `t`: its first byte, or `EOZ`
when it is empty. -/
def peek (t : List Nat) : Int :=
  match t with
  | [] => EOZ
  | c :: _ => (c : Int)

/-- The scanner state whose unread text, current character included, is `t`. -/
def atText (t : List Nat) (line : Int) (b : Mbuffer) : LexState :=
  { current := peek t, z := t.tail, linenumber := line, buff := b }

/-- The buffer after one more byte was saved in it. -/
def Mbuffer.push (b : Mbuffer) (c : Nat) : Mbuffer :=
  if b.buffer.length + 1 > b.buffsize then
    { buffer := b.buffer ++ [c], buffsize := b.buffsize + b.buffsize / 2 }
  else { b with buffer := b.buffer ++ [c] }

/-- The buffer after the bytes `bs` were saved in it, one by one. -/
def Mbuffer.pushAll (b : Mbuffer) (bs : List Nat) : Mbuffer := bs.foldl Mbuffer.push b

/-- The buffer is well formed (its length is within its capacity, which is at
least 2) and `m` more bytes stay below the size at which `save` gives up. -/
def BufferRoom (b : Mbuffer) (m : Nat) : Prop :=
  b.buffer.length ≤ b.buffsize ∧ 2 ≤ b.buffsize ∧ b.buffer.length + m ≤ MAX_SIZE / 3 * 2

instance (b : Mbuffer) (m : Nat) : Decidable (BufferRoom b m) := by
  unfold BufferRoom
  infer_instance

/-- The level that `skip_sep` returns on a bracket `s`, `k` signs `=` and a
text `rest` that does not start with `=`. -/
def sepLevel (s : Nat) (k : Nat) (rest : List Nat) : Nat :=
  if peek rest = (s : Int) then k + 2 else if k = 0 then 1 else 0

/-- The closing bracket of a long string opened with `n` signs `=`:
`]`, `n` signs `=`, `]`. -/
def longCloser (n : Nat) : List Nat := 93 :: (List.replicate n 61 ++ [93])

/-- The opening bracket with `n` signs `=`: `[`, `n` signs `=`, `[`. -/
def longOpener (n : Nat) : List Nat := 91 :: (List.replicate n 61 ++ [91])

/-- The closer of level `n` does not start anywhere inside `body` when `body`
is followed by that closer and by `rest`: the closer after `body` is the first
one. -/
def CloserFree (n : Nat) (body rest : List Nat) : Prop :=
  ∀ i, i < body.length → ¬ longCloser n <+: (body ++ (longCloser n ++ rest)).drop i

/-- The text with every newline sequence (`\n`, `\r`, `\r\n` or `\n\r`, read
from left to right) replaced by one `\n`. -/
def normalizeNewlines : List Nat → List Nat
  | [] => []
  | [c] => if c = 10 ∨ c = 13 then [10] else [c]
  | c :: d :: s =>
    if c = 10 ∨ c = 13 then
      if (d = 10 ∨ d = 13) ∧ d ≠ c then 10 :: normalizeNewlines s
      else 10 :: normalizeNewlines (d :: s)
    else c :: normalizeNewlines (d :: s)

/-- The number of newline sequences of the text, read from left to right. -/
def countNewlines : List Nat → Nat
  | [] => 0
  | [c] => if c = 10 ∨ c = 13 then 1 else 0
  | c :: d :: s =>
    if c = 10 ∨ c = 13 then
      if (d = 10 ∨ d = 13) ∧ d ≠ c then 1 + countNewlines s
      else 1 + countNewlines (d :: s)
    else countNewlines (d :: s)

/-- The text without the newline sequence it starts with, if it starts with
one. -/
def dropFirstNewline : List Nat → List Nat
  | [] => []
  | [c] => if c = 10 ∨ c = 13 then [] else [c]
  | c :: d :: s =>
    if c = 10 ∨ c = 13 then
      if (d = 10 ∨ d = 13) ∧ d ≠ c then s else d :: s
    else c :: d :: s

/-- What follows a newline sequence that starts with the newline character
`c`: the text `t` after `c`, less its first character when that is the other
newline character. -/
def afterNewline (c : Nat) : List Nat → List Nat
  | [] => []
  | d :: s => if (d = 10 ∨ d = 13) ∧ d ≠ c then s else d :: s

instance (n : Nat) (body rest : List Nat) : Decidable (CloserFree n body rest) := by
  unfold CloserFree
  infer_instance

/-- The closer of level `n` occurs nowhere in `body`. -/
def CloserAbsent (n : Nat) (body : List Nat) : Prop :=
  ∀ i, i < body.length → ¬ longCloser n <+: body.drop i

instance (n : Nat) (body : List Nat) : Decidable (CloserAbsent n body) := by
  unfold CloserAbsent
  infer_instance

/-- The message that `read_long_string` builds with `luaO_pushfstring` when
the stream ends inside a long string (`seminfo` not NULL) or a long comment
that started on line `line`. -/
def unfinishedLongMessage (seminfo : Bool) (line : Int) : String :=
  "unfinished long " ++ (if seminfo then "string" else "comment") ++
    " (starting at line " ++ toString line ++ ")"

/-- The buffer after `luaZ_buffremove` took its last `i` bytes away. -/
def Mbuffer.remove (b : Mbuffer) (i : Nat) : Mbuffer :=
  { b with buffer := b.buffer.take (b.buffer.length - i) }

/-- The byte that a one-letter escape of a short string stands for: `\a`,
`\b`, `\f`, `\n`, `\r`, `\t`, `\v`, the backslash and the two quotes. -/
def simpleEscape (c : Nat) : Option Nat :=
  if c = 97 then some 7
  else if c = 98 then some 8
  else if c = 102 then some 12
  else if c = 110 then some 10
  else if c = 114 then some 13
  else if c = 116 then some 9
  else if c = 118 then some 11
  else if c = 92 then some 92
  else if c = 34 then some 34
  else if c = 39 then some 39
  else none

/-- The characters that may follow a backslash in a short string: the letters
of the escapes, the backslash, the quotes, the newline characters and the
decimal digits. -/
def escapeStart (c : Nat) : Bool :=
  decide (c = 97 ∨ c = 98 ∨ c = 102 ∨ c = 110 ∨ c = 114 ∨ c = 116 ∨ c = 118 ∨ c = 120 ∨
    c = 111 ∨ c = 117 ∨ c = 122 ∨ c = 92 ∨ c = 34 ∨ c = 39 ∨ c = 10 ∨ c = 13 ∨
    (48 ≤ c ∧ c ≤ 57))

/-- The value of the hexadecimal digit character `c`: `0`..`9` stand for 0 to
9, `a`..`f` and `A`..`F` for 10 to 15. -/
def hexDigitValue (c : Nat) : Nat :=
  if 48 ≤ c ∧ c ≤ 57 then c - 48
  else if 97 ≤ c ∧ c ≤ 102 then c - 87
  else c - 55

/-- The value that a run of hexadecimal digit characters denotes. -/
def hexValue (ds : List Nat) : Nat :=
  ds.foldl (fun a c => a * 16 + hexDigitValue c) 0

/-- The text that the state has not read yet, the current character
included. -/
def unread (ls : LexState) : List Nat :=
  if ls.current < 0 then [] else ls.current.toNat :: ls.z

/-- The state `ls` stands somewhere in the text `t`: what it has not read yet
is an end of `t`. -/
def ReadsOn (t : List Nat) (ls : LexState) : Prop :=
  ls = atText (unread ls) ls.linenumber ls.buff ∧ unread ls <:+ t

instance (t : List Nat) (ls : LexState) : Decidable (ReadsOn t ls) := by
  unfold ReadsOn
  infer_instance

/-- The number of bytes of the UTF-8 form (extended to 6 bytes) of `x`. -/
def utf8Length (x : Nat) : Nat :=
  if x < 0x80 then 1
  else if x < 0x800 then 2
  else if x < 0x10000 then 3
  else if x < 0x200000 then 4
  else if x < 0x4000000 then 5
  else 6

/-- The lead byte of a UTF-8 form of `n ≥ 2` bytes: `n` high one-bits, a zero
bit and the bits of `x` above the `6 * (n - 1)` low ones. -/
def utf8Lead (n x : Nat) : Nat := (256 - 2 ^ (8 - n)) + x / 64 ^ (n - 1)

/-- The continuation byte `10xxxxxx` that carries the six bits of `x` from the
bit `6 * k` on. -/
def utf8Cont (x k : Nat) : Nat := 128 + (x / 64 ^ k) % 64

/-- The UTF-8 form (extended to 6 bytes) of `x`, as the property words it:
`x` itself when one byte is enough, otherwise the lead byte followed by the
continuation bytes, the high bits first. -/
def utf8Encode (x : Nat) : List Nat :=
  if x < 0x80 then [x]
  else utf8Lead (utf8Length x) x :: (List.range (utf8Length x - 1)).reverse.map (utf8Cont x)

/-- The value of the continuation bytes `cs` added to `acc`, six bits for each;
`none` when a byte is not of the form `10xxxxxx`. -/
def utf8DecodeCont (acc : Nat) : List Nat → Option Nat
  | [] => some acc
  | c :: cs => if 0x80 ≤ c ∧ c < 0xC0 then utf8DecodeCont (acc * 64 + (c - 0x80)) cs else none

/-- The decoding of one UTF-8 sequence (extended to 6 bytes): the lead byte
gives the number of continuation bytes and the high bits. -/
def utf8Decode : List Nat → Option Nat
  | [] => none
  | c :: cs =>
    if c < 0x80 then (if cs.length = 0 then some c else none)
    else if c < 0xC0 then none
    else if c < 0xE0 then (if cs.length = 1 then utf8DecodeCont (c - 0xC0) cs else none)
    else if c < 0xF0 then (if cs.length = 2 then utf8DecodeCont (c - 0xE0) cs else none)
    else if c < 0xF8 then (if cs.length = 3 then utf8DecodeCont (c - 0xF0) cs else none)
    else if c < 0xFC then (if cs.length = 4 then utf8DecodeCont (c - 0xF8) cs else none)
    else if c < 0xFE then (if cs.length = 5 then utf8DecodeCont (c - 0xFC) cs else none)
    else none

/-- The platform `integerPlatform` built with `LUA_COMPAT_GLOBAL`, which makes
`global` an ordinary name. -/
def compatPlatform : Platform where
  Number := Unit
  l_str2d := fun _ => none
  tostringbuffFloat := fun _ => []
  pad := 0
  compatGlobal := true

/-! ## String objects and the scanner's table (lstring.c, ltable.c: absent) -/

/-- `TString`: a string object, known by its address `ref`, with its bytes. -/
structure TString where
  ref : Nat
  bytes : List Nat
deriving DecidableEq, Repr

/-- Modelled from the spec: `LUAI_MAXSHORTLEN` is a macro of llimits.h
(absent); the strings of at most 40 bytes are the short strings. -/
def LUAI_MAXSHORTLEN : Nat := 40

/-- The part of `global_State` that `luaS_newlstr` uses: the table `strt` of
the short strings and the address of the next object. -/
structure StringHeap where
  strt : List TString
  top : Nat
deriving DecidableEq, Repr

/-- Modelled from the spec: `luaS_newlstr` is a function of lstring.c
(absent).  A short string is interned: the object of the string table that has
these bytes is returned when there is one, and a new object is put in the table
otherwise; a long string is a new object at every call. -/
def luaS_newlstr (g : StringHeap) (str : List Nat) : TString × StringHeap :=
  if str.length ≤ LUAI_MAXSHORTLEN then
    match g.strt.find? (fun t => decide (t.bytes = str)) with
    | some ts => (ts, g)
    | none =>
      ({ ref := g.top, bytes := str },
        { strt := { ref := g.top, bytes := str } :: g.strt, top := g.top + 1 })
  else ({ ref := g.top, bytes := str }, { g with top := g.top + 1 })

/-- Modelled from the spec: what a table compares of a string key (ltable.c
is absent): a short string is known by its address, a long string by its
bytes. -/
def strKey (t : TString) : Nat ⊕ List Nat :=
  if t.bytes.length ≤ LUAI_MAXSHORTLEN then Sum.inl t.ref else Sum.inr t.bytes

/-- The table `ls->h` of the scanner: its entries, key and value. -/
abbrev Table := List (TString × TString)

/-- Modelled from the spec: `luaH_getstr` is a function of ltable.c (absent);
it gives the value stored under the string key, `none` standing for the empty
tag. -/
def luaH_getstr (h : Table) (key : TString) : Option TString :=
  (h.find? (fun e => decide (strKey e.1 = strKey key))).map Prod.snd

/-- Modelled from the spec: `luaH_set` is a function of ltable.c (absent); it
stores the value under the key, replacing the value of an entry with that
key. -/
def luaH_set (h : Table) (key val : TString) : Table :=
  if h.any (fun e => decide (strKey e.1 = strKey key)) then
    h.map (fun e => if strKey e.1 = strKey key then (e.1, val) else e)
  else (key, val) :: h

/-- What `anchorstr` and `luaX_newstring` use of the scanner and of the Lua
state: the string heap and the scanner's table. -/
structure InternState where
  g : StringHeap
  h : Table
deriving DecidableEq, Repr

/-- `anchorstr`: the string stored in the scanner's table under `ts` when
there is one, and otherwise `ts` itself, which is then stored under itself.
The stack slot that anchors the string during `luaH_set` and the call of the
collector have no effect on the strings of the table. -/
def anchorstr (st : InternState) (ts : TString) : TString × InternState :=
  match luaH_getstr st.h ts with
  | some oldts => (oldts, st)
  | none => (ts, { st with h := luaH_set st.h ts ts })

namespace Intern

/-- `luaX_newstring`, with the string objects and the table: the string is
created by `luaS_newlstr` and anchored. -/
def luaX_newstring (st : InternState) (str : List Nat) : TString × InternState :=
  anchorstr { st with g := (luaS_newlstr st.g str).2 } (luaS_newlstr st.g str).1

end Intern

/-! ## Tokens and the lookahead slot (llex.h, llex.c) -/

/-- `Token`: the tag and the slot `seminfo`. -/
structure Token (P : Platform) where
  token : Int
  seminfo : SemInfo P

/-- The fields of the C `LexState` that `luaX_next` and `luaX_lookahead` use:
the character-level state `ls`, the current token `t`, the lookahead slot and
`lastline`. -/
structure TokenState (P : Platform) where
  ls : LexState
  t : Token P
  lookahead : Token P
  lastline : Int

/-- The content of a slot `seminfo` after a call of `llex` that was given its
address: `llex` overwrites it when it stores a value and leaves it as it was
otherwise. -/
def storeSemInfo {P : Platform} (old new : SemInfo P) : SemInfo P :=
  match new with
  | SemInfo.none => old
  | s => s

/-- `luaX_next`. -/
def luaX_next (P : Platform) (s : TokenState P) : Except Raised (TokenState P) :=
  let s1 : TokenState P := { s with lastline := s.ls.linenumber }
  if s1.lookahead.token ≠ TK_EOS then
    Except.ok { s1 with t := s1.lookahead,
                        lookahead := { s1.lookahead with token := TK_EOS } }
  else
    match llex P s1.ls with
    | Except.error e => Except.error e
    | Except.ok (tok, sem, ls1) =>
      Except.ok { s1 with ls := ls1,
                          t := { token := tok, seminfo := storeSemInfo s1.t.seminfo sem } }

/-- `luaX_lookahead`: the returned token and the state; the assertion that the
lookahead slot is empty is a precondition. -/
def luaX_lookahead (P : Platform) (s : TokenState P) : Except Raised (Int × TokenState P) :=
  match llex P s.ls with
  | Except.error e => Except.error e
  | Except.ok (tok, sem, ls1) =>
    let la : Token P := { token := tok, seminfo := storeSemInfo s.lookahead.seminfo sem }
    Except.ok (tok, { s with ls := ls1, lookahead := la })

/-- Whether `llex` stored a value. -/
def SemInfo.isStored {P : Platform} : SemInfo P → Bool
  | SemInfo.none => false
  | _ => true

/-- The tags of the tokens that carry a payload: names, strings and
numerals. -/
def isLiteralTag (tok : Int) : Bool :=
  decide (tok = TK_NAME ∨ tok = TK_STRING ∨ tok = TK_FLT ∨ tok = TK_INT)

/-- The payload of a token: what its slot `seminfo` holds when its tag is one
of a name, a string or a numeral; the other tokens carry none. -/
def Token.payload {P : Platform} (t : Token P) : SemInfo P :=
  if isLiteralTag t.token then t.seminfo else SemInfo.none

/-! ## The source name of a chunk (lobject.c) -/

/-- Modelled from the spec: `LUA_IDSIZE` is a macro of luaconf.h (absent), the
configured maximum of a rendered source name; its default value is 60. -/
def LUA_IDSIZE : Nat := 60

/-- `RETS`. -/
def RETS : List Nat := bytes "..."

/-- `PRE`. -/
def PRE : List Nat := bytes "[string \""

/-- `POS`. -/
def POS : List Nat := bytes "\"]"

/-- The macro `LL`: the length of a string literal, its terminator apart. -/
def LL (s : List Nat) : Nat := s.length

/-- `strchr` on the C string that starts the memory `mem`: the offset of the
first byte `c` before the first NUL; `none` is NULL. -/
def strchr (mem : List Nat) (c : Nat) : Option Nat :=
  if (cstr mem).indexOf c < (cstr mem).length then some ((cstr mem).indexOf c) else none

/-- `luaO_chunkid`: the bytes written to `out`, in order.  The source is given
by the `srclen` bytes of the string; in memory a NUL follows them. -/
def luaO_chunkid (source : List Nat) (srclen : Nat) : List Nat :=
  let mem := source ++ [0]
  let bufflen := LUA_IDSIZE
  if mem.head? = some 61 then
    if srclen ≤ bufflen then (mem.drop 1).take srclen
    else (mem.drop 1).take (bufflen - 1) ++ [0]
  else if mem.head? = some 64 then
    if srclen ≤ bufflen then (mem.drop 1).take srclen
    else RETS ++ (mem.drop (1 + srclen - (bufflen - LL RETS))).take (bufflen - LL RETS)
  else
    let nl := strchr mem 10
    let bufflen1 := bufflen - (LL (PRE ++ RETS ++ POS) + 1)
    if srclen < bufflen1 ∧ nl = none then PRE ++ mem.take srclen ++ (POS ++ [0])
    else
      let srclen1 := match nl with
        | some i => i
        | none => srclen
      let srclen2 := if srclen1 > bufflen1 then bufflen1 else srclen1
      PRE ++ mem.take srclen2 ++ RETS ++ (POS ++ [0])


/-- The first line of a source: its bytes before the first newline. -/
def firstLine (source : List Nat) : List Nat := source.takeWhile (fun c => c ≠ 10)

/-- The room `luaO_chunkid` leaves for the text of an inline chunk: `LUA_IDSIZE`
minus the lengths of `PRE`, `RETS`, `POS` and the terminator. -/
def inlineRoom : Nat := LUA_IDSIZE - (PRE.length + RETS.length + POS.length + 1)

/-! ## The message formatter (lobject.c) -/

/-- Modelled from the spec: `LUA_N2SBUFFSZ` is a macro of luaconf.h (absent),
the size of the buffer that receives a converted number; its default is 64. -/
def LUA_N2SBUFFSZ : Nat := 64

/-- `BUFVFS`: the size of the initial, static buffer of the formatter. -/
def BUFVFS : Nat := LUA_IDSIZE + LUA_N2SBUFFSZ + 95

/-- An argument of the variable list, with the type it was passed with.  For
`str` the list is the memory that the pointer designates (`none` is NULL), the
string being its bytes before the first NUL.  Modelled from the spec:
`lua_pointer2str` is a macro of luaconf.h (absent), `snprintf` with `%p`; a
pointer argument is given by the text this conversion writes for it. -/
inductive VaArg (P : Platform) where
  | str (s : Option (List Nat))
  | int (i : Int)
  | integer (i : Int)
  | number (n : P.Number)
  | pointer (text : List Nat)
  | ulong (u : Nat)

/-- Modelled from the spec: the memory manager (lmem.c, lstring.c, absent).
`realloc n` tells whether `luaM_reallocvector` to `n` bytes succeeds (the sizes
asked during one call are all different), `newlstr n` whether `luaS_newlstr`
can create a string of `n` bytes. -/
structure Allocator where
  realloc : Nat → Bool
  newlstr : Nat → Bool

/-- `BuffFS`: `b` holds the `blen` bytes written so far, `dynamic` tells
whether `b` is no longer the static `space`. -/
structure BuffFS where
  b : List Nat
  dynamic : Bool
  buffsize : Nat
  err : Nat

/-- `initbuff`. -/
def initbuff : BuffFS := { b := [], dynamic := false, buffsize := BUFVFS, err := 0 }

/-- `addstr2buff`: `str` is the `slen` bytes to add.  The difference
`MAX_SIZE/2 - blen` is taken in `size_t` (64 bits) and wraps when `blen` is
above `MAX_SIZE/2`; `blen` never exceeds `buffsize`, and `buffsize + slen` is
below 2^64 because the buffer and the piece are distinct objects in memory. -/
def addstr2buff (A : Allocator) (buff : BuffFS) (str : List Nat) : BuffFS :=
  let slen := str.length
  let blen := buff.b.length
  let left := buff.buffsize - blen
  if buff.err ≠ 0 then buff
  else if slen > left then
    if slen > (MAX_SIZE / 2 + 2 ^ 64 - blen) % 2 ^ 64 then
      { buff with b := buff.b ++ str.take left, err := 2 }
    else
      let newsize := buff.buffsize + slen
      if A.realloc newsize = false then { buff with err := 1 }
      else { buff with b := buff.b ++ str, dynamic := true, buffsize := newsize }
  else { buff with b := buff.b ++ str }

/-- `addnum2buff`. -/
def addnum2buff (P : Platform) (A : Allocator) (buff : BuffFS) (num : TValue P) : BuffFS :=
  addstr2buff A buff (luaO_tostringbuff P num)

/-- How a run of the formatter can fail: `memory` is the NULL result (memory
error), `undefined` a step that C leaves undefined (an argument of another
type than the conversion reads, a read past the terminator of the template),
`nofuel` the exhaustion of the iteration bound of the model. -/
inductive FmtErr where
  | memory
  | undefined
  | nofuel

/-- The `switch` of `luaO_pushvfstring` on the conversion specifier `spec`;
`e2` is the two bytes at `e`.  It gives the buffer and the arguments left. -/
def conversion (P : Platform) (A : Allocator) (buff : BuffFS) (spec : Nat) (e2 : List Nat)
    (argp : List (VaArg P)) : Except FmtErr (BuffFS × List (VaArg P)) :=
  if spec = 115 then
    match argp with
    | VaArg.str s :: rest =>
      Except.ok (addstr2buff A buff (match s with
        | some mem => cstr mem
        | none => bytes "(null)"), rest)
    | _ => Except.error FmtErr.undefined
  else if spec = 99 then
    match argp with
    | VaArg.int c :: rest => Except.ok (addstr2buff A buff [cast_char c], rest)
    | _ => Except.error FmtErr.undefined
  else if spec = 100 then
    match argp with
    | VaArg.int i :: rest => Except.ok (addnum2buff P A buff (TValue.int i), rest)
    | _ => Except.error FmtErr.undefined
  else if spec = 73 then
    match argp with
    | VaArg.integer i :: rest => Except.ok (addnum2buff P A buff (TValue.int i), rest)
    | _ => Except.error FmtErr.undefined
  else if spec = 102 then
    match argp with
    | VaArg.number n :: rest => Except.ok (addnum2buff P A buff (TValue.flt n), rest)
    | _ => Except.error FmtErr.undefined
  else if spec = 112 then
    match argp with
    | VaArg.pointer text :: rest => Except.ok (addstr2buff A buff text, rest)
    | _ => Except.error FmtErr.undefined
  else if spec = 85 then
    match argp with
    | VaArg.ulong u :: rest =>
      Except.ok (addstr2buff A buff (luaO_utf8esc (u % 2 ^ 32)), rest)
    | _ => Except.error FmtErr.undefined
  else if spec = 37 then Except.ok (addstr2buff A buff [37], argp)
  else Except.ok (addstr2buff A buff e2, argp)

/-- The `while` loop of `luaO_pushvfstring` and the addition of the rest of
the template; `fmt` is the bytes of the template from the current position to
its terminating NUL (excluded). -/
def pushvfstring_loop (P : Platform) (A : Allocator) :
    Nat → BuffFS → List Nat → List (VaArg P) → Except FmtErr BuffFS
  | 0, _, _, _ => Except.error FmtErr.nofuel
  | fuel + 1, buff, fmt, argp =>
    match strchr (fmt ++ [0]) 37 with
    | none => Except.ok (addstr2buff A buff (cstr (fmt ++ [0])))
    | some e =>
      match conversion P A (addstr2buff A buff ((fmt ++ [0]).take e))
          ((fmt ++ [0]).getD (e + 1) 0) (((fmt ++ [0]).drop e).take 2) argp with
      | Except.error err => Except.error err
      | Except.ok (buff1, argp1) =>
        if e + 2 ≤ fmt.length then pushvfstring_loop P A fuel buff1 (fmt.drop (e + 2)) argp1
        else Except.error FmtErr.undefined

/-- `pushbuff`: the string created from the buffer.  After a length overflow
the three bytes `...` end the text (with three or more bytes left they would
be added, with less than three bytes written the copy would start before the
buffer); the bytes that `strcpy` writes are listed by `pushbuffWrites`. -/
def pushbuff (A : Allocator) (buff : BuffFS) : Except FmtErr (List Nat) :=
  if buff.err = 1 then Except.error FmtErr.memory
  else if buff.err = 2 ∧ buff.buffsize - buff.b.length < 3 ∧ buff.b.length < 3 then
    Except.error FmtErr.undefined
  else
    let b1 :=
      if buff.err = 2 then
        if buff.buffsize - buff.b.length < 3 then
          buff.b.take (buff.b.length - 3) ++ bytes "..."
        else buff.b ++ bytes "..."
      else buff.b
    if A.newlstr b1.length = true then Except.ok b1 else Except.error FmtErr.memory

/-- The bytes that the `strcpy` of `pushbuff` writes into the buffer in the
case `err = 2`, each with its index: the three bytes `...` and the terminator
that follows them. -/
def pushbuffWrites (buff : BuffFS) : List (Nat × Nat) :=
  if buff.err = 2 then
    if buff.buffsize - buff.b.length < 3 then
      [(buff.b.length - 3, 46), (buff.b.length - 2, 46), (buff.b.length - 1, 46),
        (buff.b.length, 0)]
    else
      [(buff.b.length, 46), (buff.b.length + 1, 46), (buff.b.length + 2, 46),
        (buff.b.length + 3, 0)]
  else []

/-- `clearbuff`: the result of the protected run of `pushbuff`. -/
def clearbuff (A : Allocator) (buff : BuffFS) : Except FmtErr (List Nat) := pushbuff A buff

/-- `luaO_pushvfstring` on the template `fmt` (its bytes before the
terminating NUL) and the arguments `argp`: the bytes of the string it returns.
Every round of the loop moves at least two bytes on. -/
def luaO_pushvfstring (P : Platform) (A : Allocator) (fmt : List Nat)
    (argp : List (VaArg P)) : Except FmtErr (List Nat) :=
  match pushvfstring_loop P A (fmt.length + 1) initbuff fmt argp with
  | Except.error err => Except.error err
  | Except.ok buff => clearbuff A buff

/-- The rendering of one conversion in the words of the specification: the
text that `%` followed by `x` stands for, and the arguments left; any other
`%x` stands for itself and takes no argument. -/
def spec_conversion (P : Platform) (x : Nat) (args : List (VaArg P)) :
    Option (List Nat × List (VaArg P)) :=
  match x, args with
  | 115, VaArg.str (some mem) :: rest => some (cstr mem, rest)
  | 115, VaArg.str none :: rest => some (bytes "(null)", rest)
  | 115, _ => none
  | 99, VaArg.int c :: rest => some ([cast_char c], rest)
  | 99, _ => none
  | 100, VaArg.int i :: rest => some (lua_integer2str i, rest)
  | 100, _ => none
  | 73, VaArg.integer i :: rest => some (lua_integer2str i, rest)
  | 73, _ => none
  | 102, VaArg.number n :: rest => some (P.tostringbuffFloat n, rest)
  | 102, _ => none
  | 112, VaArg.pointer text :: rest => some (text, rest)
  | 112, _ => none
  | 85, VaArg.ulong u :: rest => some (luaO_utf8esc (u % 2 ^ 32), rest)
  | 85, _ => none
  | 37, args => some ([37], args)
  | x, args => some ([37, x], args)

/-- The message in the words of the specification: the concatenation, in
order, of the literal segments of the template and of the renderings of its
conversions; `none` when an argument is missing or of another type, or when
the template ends in a lone `%`. -/
def spec_format (P : Platform) : List Nat → List (VaArg P) → Option (List Nat)
  | [], _ => some []
  | [c], _ => if c = 37 then none else some [c]
  | c :: x :: t, args =>
    if c = 37 then
      match spec_conversion P x args with
      | none => none
      | some (text, rest) =>
        match spec_format P t rest with
        | none => none
        | some r => some (text ++ r)
    else
      match spec_format P (x :: t) args with
      | none => none
      | some r => some (c :: r)

/-- The specifiers that `luaO_pushvfstring` converts: `s`, `c`, `d`, `I`, `f`,
`p`, `U` and `%`. -/
def conversionSpecifiers : List Nat := [115, 99, 100, 73, 102, 112, 85, 37]

/-- A memory manager that never fails. -/
def plainAllocator : Allocator := { realloc := fun _ => true, newlstr := fun _ => true }

/-! ## Logarithm and parameter bytes (lobject.c) -/

/-- The table `log_2` of `luaO_ceillog2`: `log_2[i - 1] = ceil(log2(i))`. -/
def log_2 : List Nat := [
  0,1,2,2,3,3,3,3,4,4,4,4,4,4,4,4,5,5,5,5,5,5,5,5,5,5,5,5,5,5,5,5,
  6,6,6,6,6,6,6,6,6,6,6,6,6,6,6,6,6,6,6,6,6,6,6,6,6,6,6,6,6,6,6,6,
  7,7,7,7,7,7,7,7,7,7,7,7,7,7,7,7,7,7,7,7,7,7,7,7,7,7,7,7,7,7,7,7,
  7,7,7,7,7,7,7,7,7,7,7,7,7,7,7,7,7,7,7,7,7,7,7,7,7,7,7,7,7,7,7,7,
  8,8,8,8,8,8,8,8,8,8,8,8,8,8,8,8,8,8,8,8,8,8,8,8,8,8,8,8,8,8,8,8,
  8,8,8,8,8,8,8,8,8,8,8,8,8,8,8,8,8,8,8,8,8,8,8,8,8,8,8,8,8,8,8,8,
  8,8,8,8,8,8,8,8,8,8,8,8,8,8,8,8,8,8,8,8,8,8,8,8,8,8,8,8,8,8,8,8,
  8,8,8,8,8,8,8,8,8,8,8,8,8,8,8,8,8,8,8,8,8,8,8,8,8,8,8,8,8,8,8,8]

/-- The `while` loop of `luaO_ceillog2`; an `unsigned int` of 32 bits leaves
it within four rounds. -/
def luaO_ceillog2_loop : Nat → Nat → Nat → Nat × Nat
  | 0, l, x => (l, x)
  | fuel + 1, l, x =>
    if x ≥ 256 then luaO_ceillog2_loop fuel (l + 8) (x >>> 8) else (l, x)

/-- `luaO_ceillog2` on the `unsigned int` (32 bits) `x`; `x--` wraps. -/
def luaO_ceillog2 (x : Nat) : Nat :=
  let lx := luaO_ceillog2_loop 4 0 ((x + 2 ^ 32 - 1) % 2 ^ 32)
  (lx.1 + log_2.getD lx.2 0) % 256

/-- `luaO_codeparam` on the `unsigned int` (32 bits) `p`; the arithmetic is
unsigned, on 32 bits, and the result is cast to a byte. -/
def luaO_codeparam (p : Nat) : Nat :=
  if p ≥ (0x1F <<< (0xF - 7 - 1)) * 100 then 0xFF
  else
    let p1 := ((p * 128 + 99) % 2 ^ 32) / 100
    if p1 < 0x10 then p1 % 256
    else
      let log := (luaO_ceillog2 (p1 + 1) + 2 ^ 32 - 5) % 2 ^ 32
      ((((p1 >>> log) + 2 ^ 32 - 0x10) % 2 ^ 32) ||| (((log + 1) <<< 4) % 2 ^ 32)) % 256

/-- Modelled from the spec: `MAX_LMEM` is a macro of llimits.h (absent), the
largest value of the signed type `l_mem`; on a 64-bit build it is 2^63 - 1. -/
def MAX_LMEM : Int := 2 ^ 63 - 1

/-- A signed operation on `l_mem`: `none` when the exact result is not a value
of the type (C leaves the overflow undefined). -/
def lmem (v : Int) : Option Int :=
  if -(2 : Int) ^ 63 ≤ v ∧ v ≤ MAX_LMEM then some v else none

/-- The left shift of an `l_mem`, undefined on a negative value or when the
result overflows. -/
def lmemShl (v : Int) (e : Nat) : Option Int :=
  if v < 0 then none else lmem (v * 2 ^ e)

/-- `luaO_applyparam` on the byte `p` and the `l_mem` `x`; `none` when a step
overflows.  The right shift of a signed value is the division by the power of
two, rounded down. -/
def luaO_applyparam (p : Nat) (x : Int) : Option Int :=
  let m0 : Nat := p &&& 0xF
  let e0 : Nat := p >>> 4
  let m : Int := if e0 > 0 then ((m0 + 0x10 : Nat) : Int) else (m0 : Int)
  let e : Int := (if e0 > 0 then (e0 : Int) - 1 else (e0 : Int)) - 7
  if e ≥ 0 then
    if x < (MAX_LMEM / 0x1F) / 2 ^ e.toNat then
      match lmem (x * m) with
      | some v => lmemShl v e.toNat
      | none => none
    else some MAX_LMEM
  else
    if x < MAX_LMEM / 0x1F then
      match lmem (x * m) with
      | some v => some (v / 2 ^ (-e).toNat)
      | none => none
    else if x / 2 ^ (-e).toNat < MAX_LMEM / 0x1F then lmem (x / 2 ^ (-e).toNat * m)
    else some MAX_LMEM

/-- The number of bits of `n` (0 for 0), counted by halving; `fuel` bounds the
number of rounds. -/
def bitLengthAux : Nat → Nat → Nat
  | 0, _ => 0
  | fuel + 1, n => if n = 0 then 0 else bitLengthAux fuel (n / 2) + 1

/-- The number of bits of `n`. -/
def bitLength (n : Nat) : Nat := bitLengthAux n n

/-- The multiplier of the specification, times 128: `ceil(128 * p / 100)` with
the bits below its five most significant bits cleared. -/
def spec_paramT (p : Nat) : Nat :=
  (128 * p + 99) / 100 / 2 ^ (bitLength ((128 * p + 99) / 100) - 5)
    * 2 ^ (bitLength ((128 * p + 99) / 100) - 5)

/-- The value, times 128, that the documented format gives to the byte
`eeeexxxx`: `(1xxxx) * 2^(eeee - 8)`, or `xxxx * 2^-7` when `eeee = 0`. -/
def spec_byteValue (b : Nat) : Nat :=
  if b / 16 = 0 then b % 16 else (16 + b % 16) * 2 ^ (b / 16 - 1)


/-- The value that a run of octal digit characters denotes. -/
def octValue (ds : List Nat) : Nat :=
  ds.foldl (fun a c => a * 8 + (c - 48)) 0

/-- The scanner states reached from `luaX_setinput` through `next`, `save`,
resets and removals of the buffer, and changes of the line counter. -/
inductive ScanReach : LexState → Prop where
  | init (src : List Nat) : ScanReach (luaX_setinput src)
  | byNext {ls : LexState} : ScanReach ls → ScanReach (next ls)
  | bySave {ls ls1 : LexState} (c : Int) :
      ScanReach ls → save ls c = Except.ok ls1 → ScanReach ls1
  | byReset {ls : LexState} : ScanReach ls → ScanReach (luaZ_resetbuffer ls)
  | byRemove {ls ls1 : LexState} (i : Nat) :
      ScanReach ls → luaZ_buffremove ls i = Except.ok ls1 → ScanReach ls1
  | byLine {ls : LexState} (line : Int) :
      ScanReach ls → ScanReach { ls with linenumber := line }


/-- The thrown value is an error raised by `lexerror` (not an outcome that only
the model has). -/
def Raised.isLexerror : Raised → Bool
  | Raised.lexerror _ _ _ => true
  | _ => false

/-- The outcome `r` of a step of the scanner is settled: it is a result that
satisfies `Q`, or an error raised by `lexerror`. -/
def Settles {α : Type} (r : Except Raised α) (Q : α → Prop) : Prop :=
  match r with
  | Except.ok a => Q a
  | Except.error e => e.isLexerror = true

/-! ## The hexadecimal float conversion of lobject.c -/

/-- What the C language leaves undefined in the code at hand: the overflow of an
arithmetic expression of the signed type `int`. -/
inductive Undefined where
  | signedOverflow
deriving DecidableEq, Repr

/-- The least value of an `int` of 32 bits. -/
def INT_MIN : Int := -2147483648

/-- The value of an arithmetic expression of type `int` whose mathematical
value is `v`: undefined outside the range of `int`. -/
def cint (v : Int) : Except Undefined Int :=
  if INT_MIN ≤ v ∧ v ≤ INT_MAX then Except.ok v else Except.error Undefined.signedOverflow

/-- What the C implementation fixes for `lua_strx2number`: the float type
`lua_Number`; the conversion of an integer value to it (`ofNat`, which gives the
constants `0.0` and `16.0` and the converted value of a digit); its product, its
sum and its negation; the library function `ldexp`; and the decimal point of the
current locale (`lua_getlocaledecpoint`), taken not to be the NUL. -/
structure FloatArith where
  Number : Type
  ofNat : Nat → Number
  mul : Number → Number → Number
  add : Number → Number → Number
  neg : Number → Number
  ldexp : Number → Int → Number
  dot : Nat

/-- `MAXSIGDIG`. -/
def MAXSIGDIG : Int := 30

/-- The local variables of `lua_strx2number` that its loop updates. -/
structure StrxState (N : Type) where
  r : N
  sigdig : Int
  nosigdig : Int
  e : Int
  hasdot : Bool

/-- The branch of the loop of `lua_strx2number` for a hexadecimal digit `c`. -/
def strx_digit (F : FloatArith) (c : Nat) (st : StrxState F.Number) :
    Except Undefined (StrxState F.Number) :=
  match (if st.sigdig = 0 ∧ c = 48 then
      match cint (st.nosigdig + 1) with
      | Except.error u => Except.error u
      | Except.ok n => Except.ok { st with nosigdig := n }
    else
      match cint (st.sigdig + 1) with
      | Except.error u => Except.error u
      | Except.ok sd =>
        if sd ≤ MAXSIGDIG then
          Except.ok { st with
            sigdig := sd,
            r := F.add (F.mul st.r (F.ofNat 16)) (F.ofNat (luaO_hexavalue c)) }
        else
          match cint (st.e + 1) with
          | Except.error u => Except.error u
          | Except.ok e1 => Except.ok { st with sigdig := sd, e := e1 }) with
  | Except.error u => Except.error u
  | Except.ok st1 =>
    if st1.hasdot then
      match cint (st1.e - 1) with
      | Except.error u => Except.error u
      | Except.ok e2 => Except.ok { st1 with e := e2 }
    else Except.ok st1

/-- The `for` loop of `lua_strx2number` on the text `s`, whose end reads as the
NUL: the variables at the `break` and the text that starts there. -/
def strx_loop (F : FloatArith) :
    List Nat → StrxState F.Number → Except Undefined (StrxState F.Number × List Nat)
  | [], st => Except.ok (st, [])
  | c :: s, st =>
    if c = F.dot then
      if st.hasdot then Except.ok (st, c :: s)
      else strx_loop F s { st with hasdot := true }
    else if lisxdigit c then
      match strx_digit F c st with
      | Except.error u => Except.error u
      | Except.ok st1 => strx_loop F s st1
    else Except.ok (st, c :: s)

/-- The loop `while (lisdigit(cast_uchar(*s))) exp1 = exp1 * 10 + *(s++) - '0'`:
the exponent read and the text after it. -/
def strx_exp : List Nat → Int → Except Undefined (Int × List Nat)
  | [], exp1 => Except.ok (exp1, [])
  | c :: s, exp1 =>
    if lisdigit c then
      match cint (exp1 * 10) with
      | Except.error u => Except.error u
      | Except.ok a =>
        match cint (a + c) with
        | Except.error u => Except.error u
        | Except.ok a1 =>
          match cint (a1 - 48) with
          | Except.error u => Except.error u
          | Except.ok a2 => strx_exp s a2
    else Except.ok (exp1, c :: s)

/-- `lua_strx2number`: the returned number and `*endptr`, given as the text that
starts there; `*endptr` is the whole of `s` when nothing is valid. -/
def lua_strx2number (F : FloatArith) (s : List Nat) : Except Undefined (F.Number × List Nat) :=
  let neg := (isneg (skipSpaces s)).1
  let s2 := (isneg (skipSpaces s)).2
  if ¬ (s2.head? = some 48 ∧ (s2.tail.head? = some 120 ∨ s2.tail.head? = some 88)) then
    Except.ok (F.ofNat 0, s)
  else
    match strx_loop F s2.tail.tail
        { r := F.ofNat 0, sigdig := 0, nosigdig := 0, e := 0, hasdot := false } with
    | Except.error u => Except.error u
    | Except.ok (st, s4) =>
      match cint (st.nosigdig + st.sigdig) with
      | Except.error u => Except.error u
      | Except.ok n =>
        if n = 0 then Except.ok (F.ofNat 0, s)
        else
          match cint (st.e * 4) with
          | Except.error u => Except.error u
          | Except.ok e4 =>
            if s4.head? = some 112 ∨ s4.head? = some 80 then
              if ¬ lisdigit ((isneg s4.tail).2.headD 0) then Except.ok (F.ofNat 0, s4)
              else
                match strx_exp (isneg s4.tail).2 0 with
                | Except.error u => Except.error u
                | Except.ok (exp1, s7) =>
                  match cint (if (isneg s4.tail).1 then -exp1 else exp1) with
                  | Except.error u => Except.error u
                  | Except.ok exp2 =>
                    match cint (e4 + exp2) with
                    | Except.error u => Except.error u
                    | Except.ok e5 =>
                      Except.ok (F.ldexp (if neg then F.neg st.r else st.r) e5, s7)
            else Except.ok (F.ldexp (if neg then F.neg st.r else st.r) e4, s4)

/-- `l_str2dloc`: `none` is its NULL, otherwise the number and the text at the
returned address.  `str2number` stands for `lua_str2number`, the conversion of
the C library that the other modes use, with the text at its `*endptr`. -/
def l_str2dloc (F : FloatArith) (str2number : List Nat → F.Number × List Nat) (s : List Nat)
    (mode : Nat) : Except Undefined (Option (F.Number × List Nat)) :=
  match (if mode = 120 then lua_strx2number F s else Except.ok (str2number s)) with
  | Except.error u => Except.error u
  | Except.ok (r, endptr) =>
    if endptr.length = s.length then Except.ok none
    else if (skipSpaces endptr).headD 0 = 0 then Except.ok (some (r, skipSpaces endptr))
    else Except.ok none

/-- A value of the format binary64 of IEEE 754: `finite neg m e` has the value
`m * 2 ^ e`, negated when `neg` holds (one value has several such forms; those
that the operations below return have `m < 2 ^ 53` or `m = 2 ^ 53`,
`-1074 ≤ e` and a value below `2 ^ 1024`). -/
inductive Binary64 where
  | finite (neg : Bool) (m : Nat) (e : Int)
  | inf (neg : Bool)
  | nan
deriving DecidableEq, Repr

/-- The binary64 nearest to the exact value `m * 2 ^ e` (negated when `neg`),
ties going to the even significand: the rounding of the default mode. -/
def Binary64.round (neg : Bool) (m : Nat) (e : Int) : Binary64 :=
  if max ((bitLength m : Int) - 53) (-1074 - e) ≤ 0 then
    if m = 0 ∨ (bitLength m : Int) + e ≤ 1024 then Binary64.finite neg m e
    else Binary64.inf neg
  else
    let k := (max ((bitLength m : Int) - 53) (-1074 - e)).toNat
    let q := m / 2 ^ k
    let m1 := if m % 2 ^ k > 2 ^ (k - 1) ∨ (m % 2 ^ k = 2 ^ (k - 1) ∧ q % 2 = 1) then q + 1
      else q
    if (bitLength m1 : Int) + (e + k) ≤ 1024 then Binary64.finite neg m1 (e + k)
    else Binary64.inf neg

/-- The product of two binary64 values, rounded. -/
def Binary64.mul : Binary64 → Binary64 → Binary64
  | Binary64.finite n1 m1 e1, Binary64.finite n2 m2 e2 =>
    Binary64.round (n1 != n2) (m1 * m2) (e1 + e2)
  | Binary64.finite n1 m1 _, Binary64.inf n2 =>
    if m1 = 0 then Binary64.nan else Binary64.inf (n1 != n2)
  | Binary64.inf n1, Binary64.finite n2 m2 _ =>
    if m2 = 0 then Binary64.nan else Binary64.inf (n1 != n2)
  | Binary64.inf n1, Binary64.inf n2 => Binary64.inf (n1 != n2)
  | _, _ => Binary64.nan

/-- The sum of two binary64 values, rounded; an exact sum zero is `+0` unless
both terms are negative. -/
def Binary64.add : Binary64 → Binary64 → Binary64
  | Binary64.finite n1 m1 e1, Binary64.finite n2 m2 e2 =>
    let e := min e1 e2
    let v : Int := (if n1 then -1 else 1) * (m1 : Int) * 2 ^ (e1 - e).toNat
      + (if n2 then -1 else 1) * (m2 : Int) * 2 ^ (e2 - e).toNat
    if v = 0 then Binary64.finite (n1 && n2) 0 e
    else Binary64.round (decide (v < 0)) v.natAbs e
  | Binary64.finite _ _ _, Binary64.inf n2 => Binary64.inf n2
  | Binary64.inf n1, Binary64.finite _ _ _ => Binary64.inf n1
  | Binary64.inf n1, Binary64.inf n2 => if n1 = n2 then Binary64.inf n1 else Binary64.nan
  | _, _ => Binary64.nan

/-- The negation of a binary64 value. -/
def Binary64.neg : Binary64 → Binary64
  | Binary64.finite n m e => Binary64.finite (!n) m e
  | Binary64.inf n => Binary64.inf (!n)
  | Binary64.nan => Binary64.nan

/-- The function `ldexp` on a binary64: `x * 2 ^ k`, rounded. -/
def Binary64.ldexp : Binary64 → Int → Binary64
  | Binary64.finite n m e, k => Binary64.round n m (e + k)
  | x, _ => x

/-- The arithmetic of a build whose `lua_Number` is a `double` of the format
binary64, evaluated in that format in the default rounding mode, with the
decimal point of the C locale. -/
def binary64 : FloatArith where
  Number := Binary64
  ofNat := fun n => Binary64.round false n 0
  mul := Binary64.mul
  add := Binary64.add
  neg := Binary64.neg
  ldexp := Binary64.ldexp
  dot := 46

/-- The accumulation `r = (r * 16.0) + luaO_hexavalue(*s)` over the digits `ds`,
from `0.0`. -/
def strx_acc (F : FloatArith) (ds : List Nat) : F.Number :=
  ds.foldl (fun (r : F.Number) (c : Nat) =>
    F.add (F.mul r (F.ofNat 16)) (F.ofNat (luaO_hexavalue (c : Int)))) (F.ofNat 0)

/-- The significant digits of the hexadecimal digits `ds`: those from the first
that is not `0`. -/
def significantDigits (ds : List Nat) : List Nat := ds.dropWhile (fun c => c = 48)

/-- The text of the fraction of a hexadecimal numeral: nothing, or the point
and the digits `f`. -/
def fractionText (dot : Nat) (Fr : Option (List Nat)) : List Nat :=
  match Fr with
  | none => []
  | some f => dot :: f

/-- The text of the exponent of a hexadecimal numeral: nothing, or `p`, a sign
(or nothing) and the decimal digits. -/
def exponentText (ex : Option (List Nat × List Nat)) : List Nat :=
  match ex with
  | none => []
  | some x => 112 :: (x.1 ++ x.2)

/-- The text of a hexadecimal numeral: a sign (or nothing), `0x`, the digits
`H`, the fraction (when given) and the exponent (when given). -/
def hexNumeral (dot : Nat) (sign H : List Nat) (Fr : Option (List Nat))
    (ex : Option (List Nat × List Nat)) : List Nat :=
  sign ++ [48, 120] ++ H ++ fractionText dot Fr ++ exponentText ex

/-- The exponent that the claim gives for the numeral: four times the number of
significant digits beyond the 30th less the number of digits after the point,
plus the signed decimal exponent. -/
def spec_strx_exponent (H : List Nat) (Fr : Option (List Nat))
    (ex : Option (List Nat × List Nat)) : Int :=
  4 * ((((significantDigits (H ++ Fr.getD [])).length - 30 : Nat) : Int) - ((Fr.getD []).length : Int))
    + (match ex with
       | none => 0
       | some x => signedDecimalValue x.1 x.2)

/-- The value of the decimal digits of the exponent of a hexadecimal numeral, 0
when it has no exponent. -/
def exponentDigitsValue (ex : Option (List Nat × List Nat)) : Nat :=
  match ex with
  | none => 0
  | some x => decimalValue x.2

/-- The buffer is one that the scanner can hold: its length is within its
capacity, and the capacity is at least 2 (so that `save` makes it grow) and at
most `MAX_SIZE`.  `luaX_setinput` makes such a buffer and `save` keeps it so. -/
def BufferSound (b : Mbuffer) : Prop :=
  b.buffer.length ≤ b.buffsize ∧ 2 ≤ b.buffsize ∧ b.buffsize ≤ MAX_SIZE

instance (b : Mbuffer) : Decidable (BufferSound b) := by
  unfold BufferSound
  infer_instance

/-! ## Theorems: decimal integers -/

theorem foldl_decimal_ge (ds : List Nat) (a : Nat) :
    a ≤ ds.foldl (fun a c => a * 10 + (c - 48)) a := by
  induction ds generalizing a with
  | nil => simp
  | cons c s ih =>
    simp only [List.foldl_cons]
    exact le_trans (by omega) (ih _)

theorem decLoop_digits (neg : Bool) (ds : List Nat) (hds : ∀ c ∈ ds, 48 ≤ c ∧ c ≤ 57)
    (a : Nat) (e : Bool) (ha : a ≤ LUA_MAXINTEGER + (if neg then 1 else 0)) :
    decLoop neg ds a e =
      if ds.foldl (fun a c => a * 10 + (c - 48)) a ≤ LUA_MAXINTEGER + (if neg then 1 else 0)
      then some (ds.foldl (fun a c => a * 10 + (c - 48)) a, (e && ds.isEmpty), [])
      else none := by
  induction ds generalizing a e with
  | nil => simp [decLoop, ha]
  | cons c s ih =>
    have hc := hds c (List.mem_cons_self _ _)
    have hs : ∀ x ∈ s, 48 ≤ x ∧ x ≤ 57 := fun x hx => hds x (List.mem_cons_of_mem _ hx)
    have hdig : lisdigit (c : Int) = true := by simp [lisdigit]; omega
    simp only [decLoop, hdig, if_true, List.foldl_cons, List.isEmpty_cons, Bool.and_false]
    have hge := foldl_decimal_ge s (a * 10 + (c - 48))
    by_cases hov : a ≥ MAXBY10 ∧ (a > MAXBY10 ∨ (c : Int) - 48 > (MAXLASTD : Int) + (if neg then 1 else 0))
    · rw [if_pos hov]
      have : ¬ (s.foldl (fun a c => a * 10 + (c - 48)) (a * 10 + (c - 48))
          ≤ LUA_MAXINTEGER + (if neg then 1 else 0)) := by
        simp only [MAXBY10, MAXLASTD, LUA_MAXINTEGER] at hov ⊢
        norm_num at hov ⊢
        cases neg <;> simp at hov ⊢ <;> omega
      rw [if_neg this]
    · rw [if_neg hov]
      have hx : a * 10 + (c - 48) ≤ LUA_MAXINTEGER + (if neg then 1 else 0) := by
        simp only [MAXBY10, MAXLASTD, LUA_MAXINTEGER] at hov ha ⊢
        norm_num at hov ha ⊢
        cases neg <;> simp at hov ha ⊢ <;> omega
      have hmod : (a * 10 + ((c : Int) - 48).toNat) % 2 ^ 64 = a * 10 + (c - 48) := by
        have h1 : ((c : Int) - 48).toNat = c - 48 := by omega
        rw [h1]
        apply Nat.mod_eq_of_lt
        simp only [LUA_MAXINTEGER] at hx
        cases neg <;> simp at hx <;> omega
      rw [hmod, ih hs _ _ hx]
      simp

theorem skipSpaces_of_not_space (c : Nat) (s : List Nat) (h : lisspace (c : Int) = false) :
    skipSpaces (c :: s) = c :: s := by
  simp [skipSpaces, h]

theorem l_str2int_base_digits (neg : Bool) (ds : List Nat) (hne : ds ≠ [])
    (hds : ∀ c ∈ ds, 48 ≤ c ∧ c ≤ 57) :
    l_str2int_base neg ds =
      if decimalValue ds ≤ LUA_MAXINTEGER + (if neg then 1 else 0)
      then some (if neg then -(decimalValue ds : Int) else (decimalValue ds : Int))
      else none := by
  have hdec := decLoop_digits neg ds hds 0 true (Nat.zero_le _)
  have hempty : ds.isEmpty = false := by cases ds <;> simp_all
  have key : (match decLoop neg ds 0 true with
        | none => none
        | some r => l_str2int_finish neg r) =
      if decimalValue ds ≤ LUA_MAXINTEGER + (if neg then 1 else 0)
      then some (if neg then -(decimalValue ds : Int) else (decimalValue ds : Int))
      else none := by
    rw [hdec]
    unfold decimalValue
    by_cases hle : ds.foldl (fun a c => a * 10 + (c - 48)) 0 ≤ LUA_MAXINTEGER + (if neg then 1 else 0)
    · simp only [if_pos hle, hempty, Bool.and_false, l_str2int_finish, skipSpaces]
      simp only [LUA_MAXINTEGER] at hle
      cases neg
      · simp at hle
        simp [l_str2int_finish, skipSpaces, l_castU2S]
        omega
      · simp at hle
        simp only [l_castU2S, if_true, Bool.false_eq_true, false_or, ne_eq, not_true_eq_false,
          if_false]
        congr 1
        split <;> omega
    · simp [if_neg hle]
  have h2 : ∀ c d s, ds = c :: d :: s → 48 ≤ d ∧ d ≤ 57 := by
    intro c d s h
    exact hds d (by simp [h])
  unfold l_str2int_base
  split
  · have := h2 _ _ _ rfl; omega
  · have := h2 _ _ _ rfl; omega
  · have := h2 _ _ _ rfl; omega
  · have := h2 _ _ _ rfl; omega
  · exact key

theorem l_str2int_sign_digits (sign ds : List Nat)
    (hsign : sign = [] ∨ sign = [43] ∨ sign = [45])
    (hne : ds ≠ []) (hds : ∀ c ∈ ds, 48 ≤ c ∧ c ≤ 57) :
    l_str2int (sign ++ ds) =
      if -(2 : Int) ^ 63 ≤ signedDecimalValue sign ds ∧ signedDecimalValue sign ds ≤ 2 ^ 63 - 1
      then some (signedDecimalValue sign ds) else none := by
  obtain ⟨c, s, rfl⟩ : ∃ c s, ds = c :: s := by
    cases ds with
    | nil => exact absurd rfl hne
    | cons c s => exact ⟨c, s, rfl⟩
  have hc := hds c (by simp)
  have hnsp : lisspace (c : Int) = false := by simp [lisspace]; omega
  have hv := l_str2int_base_digits
  rcases hsign with rfl | rfl | rfl
  · have h1 : isneg (c :: s) = (false, c :: s) := by
      unfold isneg
      split <;> simp_all
    simp only [l_str2int, List.nil_append, skipSpaces_of_not_space c s hnsp, h1]
    rw [hv false (c :: s) hne hds]
    simp only [signedDecimalValue, LUA_MAXINTEGER]
    simp
    split <;> split <;> first | rfl | omega
  · have h0 : skipSpaces ([43] ++ c :: s) = 43 :: c :: s := by
      simp [skipSpaces, lisspace]
    simp only [l_str2int, h0, isneg]
    rw [hv false (c :: s) hne hds]
    simp only [signedDecimalValue, LUA_MAXINTEGER]
    simp
    split <;> split <;> first | rfl | omega
  · have h0 : skipSpaces ([45] ++ c :: s) = 45 :: c :: s := by
      simp [skipSpaces, lisspace]
    simp only [l_str2int, h0, isneg]
    rw [hv true (c :: s) hne hds]
    simp only [signedDecimalValue, LUA_MAXINTEGER]
    simp
    split <;> split <;> first | rfl | omega

theorem decimalTextAux_digits (fuel n : Nat) (acc : List Nat) (hn : n < fuel)
    (hacc : ∀ c ∈ acc, 48 ≤ c ∧ c ≤ 57) :
    decimalTextAux fuel n acc ≠ [] ∧ (∀ c ∈ decimalTextAux fuel n acc, 48 ≤ c ∧ c ≤ 57) ∧
      ∀ a, (decimalTextAux fuel n acc).foldl (fun a c => a * 10 + (c - 48)) a =
        acc.foldl (fun a c => a * 10 + (c - 48)) (a * 10 ^ (decimalTextAux fuel n []).length + n) := by
  induction fuel generalizing n acc with
  | zero => omega
  | succ fuel ih =>
    unfold decimalTextAux
    by_cases h10 : n < 10
    · simp only [if_pos h10]
      refine ⟨by simp, ?_, ?_⟩
      · intro c hc
        rcases List.mem_cons.1 hc with rfl | hc
        · omega
        · exact hacc c hc
      · intro a
        simp
    · simp only [if_neg h10]
      have hlt : n / 10 < fuel := by omega
      have h1 := ih (n / 10) ((n % 10 + 48) :: acc) hlt (by
        intro c hc
        rcases List.mem_cons.1 hc with rfl | hc
        · omega
        · exact hacc c hc)
      have h2 := ih (n / 10) [n % 10 + 48] hlt (by
        intro c hc
        simp at hc
        omega)
      have h3 := ih (n / 10) [] hlt (by simp)
      refine ⟨h1.1, h1.2.1, ?_⟩
      intro a
      rw [h1.2.2 a]
      simp only [List.foldl_cons]
      congr 1
      have hlen : (decimalTextAux fuel (n / 10) [n % 10 + 48]).length
          = (decimalTextAux fuel (n / 10) []).length + 1 := by
        have key : ∀ (f m : Nat) (acc : List Nat),
            (decimalTextAux f m acc).length = (decimalTextAux f m []).length + acc.length := by
          intro f
          induction f with
          | zero => intro m acc; simp [decimalTextAux]
          | succ f ihf =>
            intro m acc
            unfold decimalTextAux
            split
            · simp
              omega
            · rw [ihf _ ((m % 10 + 48) :: acc), ihf _ [m % 10 + 48]]
              simp
              omega
        rw [key]
        simp
      rw [hlen, pow_succ]
      have : n % 10 + 48 - 48 = n % 10 := by omega
      rw [this]
      have hdiv := Nat.div_add_mod n 10
      generalize 10 ^ (decimalTextAux fuel (n / 10) []).length = p at *
      have e1 : (a * p + n / 10) * 10 = a * (p * 10) + (n / 10) * 10 := by ring
      omega

theorem decimalText_spec (n : Nat) :
    decimalText n ≠ [] ∧ (∀ c ∈ decimalText n, 48 ≤ c ∧ c ≤ 57) ∧
      decimalValue (decimalText n) = n := by
  have h := decimalTextAux_digits (n + 1) n [] (by omega) (by simp)
  refine ⟨h.1, h.2.1, ?_⟩
  have := h.2.2 0
  simpa [decimalValue, decimalText] using this

/-- C1: for a text made of an optional sign and one or more decimal digits,
`l_str2int` succeeds exactly when the denoted value lies in the signed 64-bit
range, and then returns that value; the text of 2^63 is not an integer, and
`luaO_str2num` passes it to the float conversion. -/
theorem l_str2int_decimal_exact (sign ds : List Nat)
    (hsign : sign = [] ∨ sign = [43] ∨ sign = [45])
    (hne : ds ≠ []) (hds : ∀ c ∈ ds, 48 ≤ c ∧ c ≤ 57) :
    (l_str2int (sign ++ ds) =
        if -(2 : Int) ^ 63 ≤ signedDecimalValue sign ds ∧ signedDecimalValue sign ds ≤ 2 ^ 63 - 1
        then some (signedDecimalValue sign ds) else none)
    ∧ l_str2int text2p63 = none
    ∧ ∀ P : Platform, luaO_str2num P text2p63 =
        (P.l_str2d text2p63).map (fun n => (TValue.flt n, 20)) := by
  have h63 : l_str2int text2p63 = none := by decide
  refine ⟨l_str2int_sign_digits sign ds hsign hne hds, h63, ?_⟩
  intro P
  simp only [luaO_str2num, h63]
  cases P.l_str2d text2p63 <;> simp [text2p63]

/-- Witness of C1: the text of the least 64-bit integer is accepted with its
value, and the text of 2^63 without a sign is refused. -/
theorem l_str2int_decimal_exact_witness :
    l_str2int ([45] ++ text2p63) = some (-(2 : Int) ^ 63) ∧ l_str2int text2p63 = none := by
  have h := l_str2int_decimal_exact [45] text2p63 (by simp) (by simp [text2p63])
    (by intro c hc; simp [text2p63] at hc; omega)
  refine ⟨?_, h.2.1⟩
  rw [h.1]
  decide

/-- C2: an integer of the signed 64-bit range, written by `luaO_tostringbuff`
and read back by `luaO_str2num`, gives the same integer. -/
theorem tostringbuff_str2num_roundtrip (P : Platform) (i : Int)
    (hlo : -(2 : Int) ^ 63 ≤ i) (hhi : i ≤ 2 ^ 63 - 1) :
    luaO_str2num P (luaO_tostringbuff P (TValue.int i)) =
      some (TValue.int i, (luaO_tostringbuff P (TValue.int i)).length + 1) := by
  have hint : l_str2int (lua_integer2str i) = some i := by
    unfold lua_integer2str
    by_cases hneg : i < 0
    · rw [if_pos hneg]
      have hs := decimalText_spec i.natAbs
      have h := l_str2int_sign_digits [45] (decimalText i.natAbs) (by simp) hs.1 hs.2.1
      have hv : signedDecimalValue [45] (decimalText i.natAbs) = i := by
        simp only [signedDecimalValue, if_true, hs.2.2]
        omega
      rw [hv, if_pos ⟨hlo, hhi⟩] at h
      simpa using h
    · rw [if_neg hneg]
      have hs := decimalText_spec i.toNat
      have h := l_str2int_sign_digits [] (decimalText i.toNat) (by simp) hs.1 hs.2.1
      have hv : signedDecimalValue [] (decimalText i.toNat) = i := by
        simp only [signedDecimalValue, hs.2.2]
        simp
        omega
      rw [hv, if_pos ⟨hlo, hhi⟩] at h
      simpa using h
  simp only [luaO_tostringbuff, luaO_str2num, hint]

/-- Witness of C2: the least 64-bit integer. -/
theorem tostringbuff_str2num_roundtrip_witness :
    luaO_str2num integerPlatform
        (luaO_tostringbuff integerPlatform (TValue.int (-(2 : Int) ^ 63))) =
      some (TValue.int (-(2 : Int) ^ 63),
        (luaO_tostringbuff integerPlatform (TValue.int (-(2 : Int) ^ 63))).length + 1) :=
  tostringbuff_str2num_roundtrip integerPlatform (-(2 : Int) ^ 63) (by norm_num) (by norm_num)


/-! ## Theorems: saving bytes -/

theorem next_atText (c : Nat) (t : List Nat) (line : Int) (b : Mbuffer) :
    next (atText (c :: t) line b) = atText t line b := by
  cases t <;> rfl

theorem luaX_setinput_eq (src : List Nat) :
    luaX_setinput src = atText src 1 { buffer := [], buffsize := LUA_MINBUFFER } := by
  cases src <;> rfl

theorem eq_atText (ls : LexState) (c : Nat) (hc : ls.current = (c : Int)) :
    ls = atText (c :: ls.z) ls.linenumber ls.buff := by
  cases ls
  simp_all [atText, peek]

theorem push_buffer (b : Mbuffer) (c : Nat) : (b.push c).buffer = b.buffer ++ [c] := by
  unfold Mbuffer.push
  split <;> rfl

theorem pushAll_buffer (bs : List Nat) (b : Mbuffer) :
    (b.pushAll bs).buffer = b.buffer ++ bs := by
  induction bs generalizing b with
  | nil => simp [Mbuffer.pushAll]
  | cons c bs ih =>
    have := ih (b.push c)
    simp only [Mbuffer.pushAll, List.foldl_cons] at this ⊢
    rw [this, push_buffer]
    simp

theorem pushAll_append (b : Mbuffer) (xs ys : List Nat) :
    b.pushAll (xs ++ ys) = (b.pushAll xs).pushAll ys := by
  simp [Mbuffer.pushAll, List.foldl_append]

theorem pushAll_cons (b : Mbuffer) (x : Nat) (ys : List Nat) :
    b.pushAll (x :: ys) = (b.push x).pushAll ys := rfl

theorem pushAll_nil (b : Mbuffer) : b.pushAll [] = b := rfl

theorem push_eq_pushAll (b : Mbuffer) (x : Nat) : b.push x = b.pushAll [x] := rfl

theorem BufferRoom.mono {b : Mbuffer} {m k : Nat} (h : BufferRoom b m) (hk : k ≤ m) :
    BufferRoom b k := by
  unfold BufferRoom at *
  omega

theorem BufferRoom.push {b : Mbuffer} {m : Nat} (h : BufferRoom b (m + 1)) (c : Nat) :
    BufferRoom (b.push c) m := by
  unfold BufferRoom at *
  unfold Mbuffer.push
  split
  · simp only [List.length_append, List.length_singleton]
    omega
  · simp only [List.length_append, List.length_singleton]
    omega

theorem BufferRoom.pushAll {b : Mbuffer} (bs : List Nat) {m : Nat}
    (h : BufferRoom b (m + bs.length)) : BufferRoom (b.pushAll bs) m := by
  induction bs generalizing b with
  | nil => simpa using h
  | cons c bs ih =>
    rw [pushAll_cons]
    apply ih
    apply BufferRoom.push
    simp only [List.length_cons] at h
    have : m + bs.length + 1 = m + (bs.length + 1) := by omega
    rw [this]
    exact h

theorem save_of_room (ls : LexState) (c : Int) (m : Nat) (h : BufferRoom ls.buff (m + 1)) :
    save ls c = Except.ok { ls with buff := ls.buff.push (cast_char c) } := by
  unfold save Mbuffer.push
  unfold BufferRoom at h
  by_cases h1 : ls.buff.buffer.length + 1 > ls.buff.buffsize
  · have h2 : ¬ ls.buff.buffsize ≥ MAX_SIZE / 3 * 2 := by omega
    simp only [if_pos h1, if_neg h2]
  · simp only [if_neg h1]

theorem cast_char_natCast (c : Nat) (hc : c < 256) : cast_char (c : Int) = c := by
  unfold cast_char
  omega

theorem save_atText (t : List Nat) (line : Int) (b : Mbuffer) (c : Int) (m : Nat)
    (h : BufferRoom b (m + 1)) :
    save (atText t line b) c = Except.ok (atText t line (b.push (cast_char c))) := by
  rw [save_of_room _ c m h]
  rfl

theorem save_and_next_atText (c : Nat) (t : List Nat) (line : Int) (b : Mbuffer) (m : Nat)
    (hc : c < 256) (h : BufferRoom b (m + 1)) :
    save_and_next (atText (c :: t) line b) = Except.ok (atText t line (b.push c)) := by
  unfold save_and_next
  rw [save_atText _ _ _ _ m h]
  simp only [atText, peek, cast_char_natCast c hc]
  exact congrArg Except.ok (next_atText c t line _)

/-! ## Theorems: `skip_sep` -/

theorem skip_sep_loop_run (k : Nat) (rest : List Nat) (hrest : rest.head? ≠ some 61)
    (line : Int) (b : Mbuffer) (fuel count : Nat) (hfuel : k + 1 ≤ fuel)
    (hroom : BufferRoom b k) (hcount : count + k < 2 ^ 64) :
    skip_sep_loop fuel (atText (List.replicate k 61 ++ rest) line b) count =
      Except.ok (count + k, atText rest line (b.pushAll (List.replicate k 61))) := by
  induction k generalizing fuel count b with
  | zero =>
    obtain ⟨f, rfl⟩ : ∃ f, fuel = f + 1 := ⟨fuel - 1, by omega⟩
    have hcur : ¬ (atText rest line b).current = 61 := by
      cases rest with
      | nil => simp [atText, peek, EOZ]
      | cons c t =>
        simp only [atText, peek]
        simp only [List.head?_cons, ne_eq, Option.some.injEq] at hrest
        omega
    simp [skip_sep_loop, hcur, pushAll_nil]
  | succ k ih =>
    obtain ⟨f, rfl⟩ : ∃ f, fuel = f + 1 := ⟨fuel - 1, by omega⟩
    have hcur : (atText (List.replicate (k + 1) 61 ++ rest) line b).current = 61 := by
      simp [atText, peek, List.replicate_succ]
    have hsn := save_and_next_atText 61 (List.replicate k 61 ++ rest) line b k (by omega) hroom
    simp only [List.replicate_succ, List.cons_append] at hcur ⊢
    simp only [skip_sep_loop, hcur, if_true, hsn]
    have hmod : (count + 1) % 2 ^ 64 = count + 1 := Nat.mod_eq_of_lt (by omega)
    rw [hmod, ih (b.push 61) f (count + 1) (by omega) (BufferRoom.push hroom 61) (by omega)]
    rw [pushAll_cons]
    congr 2
    omega

theorem skip_sep_atText (s k : Nat) (rest : List Nat) (hs : s < 256)
    (hrest : rest.head? ≠ some 61) (line : Int) (b : Mbuffer)
    (hroom : BufferRoom b (k + 1)) :
    skip_sep (atText (s :: (List.replicate k 61 ++ rest)) line b) =
      Except.ok (sepLevel s k rest, atText rest line (b.pushAll (s :: List.replicate k 61))) := by
  unfold skip_sep
  have hsn := save_and_next_atText s (List.replicate k 61 ++ rest) line b k hs hroom
  simp only [hsn]
  have hk : k < 2 ^ 63 := by
    unfold BufferRoom MAX_SIZE at hroom
    omega
  rw [skip_sep_loop_run k rest hrest line (b.push s) _ 0 (by
      simp only [atText, List.length_tail, List.length_append, List.length_replicate]
      omega) (BufferRoom.push hroom s) (by omega)]
  simp only [Nat.zero_add, pushAll_cons, sepLevel]
  have hmod : (k + 2) % 2 ^ 64 = k + 2 := Nat.mod_eq_of_lt (by omega)
  simp only [atText, hmod]
  rfl

/-- C6: `skip_sep`, started on a bracket `s` followed by `k` signs `=`, gives
`k + 2` when the next character is `s` again, 1 when `k = 0` and it is not, 0
when `k > 0` and it is not; it reads the bracket and the `k` signs, saves
them, and leaves the next character current. -/
theorem skip_sep_level (ls : LexState) (s k : Nat) (rest : List Nat)
    (hs : s = 91 ∨ s = 93) (hcur : ls.current = (s : Int))
    (hz : ls.z = List.replicate k 61 ++ rest) (hrest : rest.head? ≠ some 61)
    (hroom : BufferRoom ls.buff (k + 1)) :
    ∃ ls1, skip_sep ls =
        Except.ok (if peek rest = (s : Int) then k + 2 else if k = 0 then 1 else 0, ls1)
      ∧ ls1.current = peek rest ∧ ls1.z = rest.tail
      ∧ ls1.linenumber = ls.linenumber
      ∧ ls1.buff.buffer = ls.buff.buffer ++ s :: List.replicate k 61 := by
  have hls := eq_atText ls s hcur
  rw [hz] at hls
  refine ⟨atText rest ls.linenumber (ls.buff.pushAll (s :: List.replicate k 61)), ?_, rfl, rfl,
    rfl, ?_⟩
  · rw [hls]
    exact skip_sep_atText s k rest (by omega) hrest _ _ hroom
  · simp [atText, pushAll_buffer]

/-- Witness of C6: on `[==[` with an empty buffer of capacity 32 the level is 4. -/
theorem skip_sep_level_witness :
    ∃ ls1, skip_sep (atText [91, 61, 61, 91, 120] 1 { buffer := [], buffsize := 32 }) =
        Except.ok (4, ls1)
      ∧ ls1.current = 91 ∧ ls1.z = [120] ∧ ls1.linenumber = 1
      ∧ ls1.buff.buffer = [91, 61, 61] :=
  skip_sep_level (atText [91, 61, 61, 91, 120] 1 { buffer := [], buffsize := 32 }) 91 2 [91, 120]
    (Or.inl rfl) rfl rfl (by simp) (by decide)

/-! ## Theorems: numerals in `llex` -/

/-- C3, counterexample: on `0xe+1` the first token is the integer 14 and the
scan stops in front of `+1`; the numeral does not cover the whole text. -/
theorem llex_0xe_plus_1_stops_at_plus :
    llex integerPlatform (luaX_setinput (bytes "0xe+1")) =
      Except.ok (TK_INT, SemInfo.i 14,
        atText [43, 49] 1 { buffer := [48, 120, 101, 0], buffsize := 32 }) := by
  rfl

/-- C3, amended: the text `0xe+1` scans as the three tokens integer 14, `+`
and integer 1, followed by the end of the stream. -/
theorem llex_0xe_plus_1_three_tokens (P : Platform) :
    ∃ s1 s2 s3 : LexState,
      llex P (luaX_setinput (bytes "0xe+1")) = Except.ok (TK_INT, SemInfo.i 14, s1)
      ∧ llex P s1 = Except.ok (43, SemInfo.none, s2)
      ∧ llex P s2 = Except.ok (TK_INT, SemInfo.i 1, s3)
      ∧ llex P s3 = Except.ok (TK_EOS, SemInfo.none, luaZ_resetbuffer s3) :=
  ⟨atText [43, 49] 1 { buffer := [48, 120, 101, 0], buffsize := 32 },
   atText [49] 1 { buffer := [], buffsize := 32 },
   atText [] 1 { buffer := [49, 0], buffsize := 32 }, rfl, rfl, rfl, rfl⟩

/-- One round of the loop of `read_numeral`, with the bound of the loop written
as a successor. -/
theorem read_numeral_loop_step (expo : Int × Int) (k : Nat) (ls : LexState) :
    read_numeral_loop expo (k + 1 + MAX_SIZE) ls =
      match check_next2 ls expo.1 expo.2 with
      | Except.error e => Except.error e
      | Except.ok (true, ls1) =>
        match check_next2 ls1 45 43 with
        | Except.error e => Except.error e
        | Except.ok (_, ls2) => read_numeral_loop expo (k + MAX_SIZE) ls2
      | Except.ok (false, ls1) =>
        if lisxdigit ls1.current ∨ ls1.current = 46 ∨ lisodigit ls1.current then
          match save_and_next ls1 with
          | Except.error e => Except.error e
          | Except.ok ls2 => read_numeral_loop expo (k + MAX_SIZE) ls2
        else Except.ok ls1 := by
  rw [show k + 1 + MAX_SIZE = (k + MAX_SIZE) + 1 by omega, read_numeral_loop]

/-- C4, the failing input: after the prefix `0o` a NUL byte is read as an
exponent mark, so on the bytes `0o7`, NUL, `+`, `;` the sign `+` is saved into the
numeral although no `e`, `E`, `p` or `P` precedes it, and the token is the
integer 7.  The text `3-4`, on the other hand, scans as integer 3, `-`,
integer 4. -/
theorem llex_octal_nul_saves_sign (P : Platform) :
    (∃ ls1, llex P (luaX_setinput [48, 111, 55, 0, 43, 59]) =
        Except.ok (TK_INT, SemInfo.i 7, ls1)
      ∧ ls1.buff.buffer.take 5 = [48, 111, 55, 0, 43])
    ∧ ∃ s1 s2 s3 : LexState,
        llex P (luaX_setinput (bytes "3-4")) = Except.ok (TK_INT, SemInfo.i 3, s1)
        ∧ llex P s1 = Except.ok (45, SemInfo.none, s2)
        ∧ llex P s2 = Except.ok (TK_INT, SemInfo.i 4, s3)
        ∧ llex P s3 = Except.ok (TK_EOS, SemInfo.none, luaZ_resetbuffer s3) := by
  refine ⟨?_, atText [45, 52] 1 { buffer := [51, 0], buffsize := 32 },
    atText [52] 1 { buffer := [], buffsize := 32 },
    atText [] 1 { buffer := [52, 0], buffsize := 32 }, rfl, rfl, rfl, rfl⟩
  obtain ⟨N, f, g, pad, cg⟩ := P
  by_cases h1 : pad = 55
  · subst h1
    exact ⟨_, rfl, rfl⟩
  by_cases h2 : pad = 59
  · subst h2
    exact ⟨_, rfl, rfl⟩
  have h1' : ¬ (55 : Int) = pad := fun h => h1 h.symm
  have h2' : ¬ (59 : Int) = pad := fun h => h2 h.symm
  have h7 : l_str2int [48, 111, 55] = some 7 := by decide
  refine ⟨atText [59] 1 { buffer := [48, 111, 55, 0, 43, 0], buffsize := 32 }, ?_, rfl⟩
  simp [llex, llex_loop, luaX_setinput, next, luaZ_resetbuffer, lisdigit, read_numeral,
    save_and_next, save, read_numeral_expo, check_next2, read_numeral_loop_step, cast_char,
    lisxdigit, lisodigit, lislalpha, h1', h2', luaO_str2num, cstr, atText, peek,
    LUA_MINBUFFER, EOZ, h7]

/-- C5, the failing input: on the bytes `0o7`, NUL, `x` the letter `x` touches
the numeral and is read with it, yet no error is raised: the conversion stops
at the NUL that the scan took for an exponent mark, and the token is the
integer 7 with the whole text read. -/
theorem llex_octal_nul_letter_no_error (P : Platform) :
    llex P (luaX_setinput [48, 111, 55, 0, 120]) =
      Except.ok (TK_INT, SemInfo.i 7,
        atText [] 1 { buffer := [48, 111, 55, 0, 120, 0], buffsize := 32 }) := by
  obtain ⟨N, f, g, pad, cg⟩ := P
  by_cases h1 : pad = 55
  · subst h1
    rfl
  by_cases h2 : pad = 120
  · subst h2
    rfl
  have h1' : ¬ (55 : Int) = pad := fun h => h1 h.symm
  have h2' : ¬ (120 : Int) = pad := fun h => h2 h.symm
  have h7 : l_str2int [48, 111, 55] = some 7 := by decide
  simp [llex, llex_loop, luaX_setinput, next, luaZ_resetbuffer, lisdigit, read_numeral,
    save_and_next, save, read_numeral_expo, check_next2, read_numeral_loop_step, cast_char,
    lisxdigit, lisodigit, lislalpha, h1', h2', luaO_str2num, cstr, atText, peek,
    LUA_MINBUFFER, EOZ, h7]

/-! ## Theorems: malformed long-bracket openers -/

theorem cstr_append_nul (xs ys : List Nat) (h : ∀ c ∈ xs, c ≠ 0) :
    cstr (xs ++ 0 :: ys) = xs := by
  unfold cstr
  induction xs with
  | nil => simp
  | cons c t ih =>
    have hc := h c (List.mem_cons_self _ _)
    simp only [List.cons_append, List.takeWhile_cons, hc, ne_eq, not_false_eq_true,
      decide_True, if_true]
    rw [ih (fun x hx => h x (List.mem_cons_of_mem _ hx))]

theorem llex_loop_bracket (P : Platform) (fuel : Nat) (ls : LexState) (hcur : ls.current = 91) :
    llex_loop P (fuel + 1) ls =
      match skip_sep ls with
      | Except.error e => Except.error e
      | Except.ok (sep, ls1) =>
        if sep ≥ 2 then
          match read_long_string ls1 true sep with
          | Except.error e => Except.error e
          | Except.ok (ts, ls2) => Except.ok (TK_STRING, SemInfo.ts (ts.getD []), ls2)
        else if sep = 0 then
          Except.error (lexerror ls1 "invalid long string delimiter" TK_STRING)
        else Except.ok (91, SemInfo.none, ls1) := by
  rw [llex_loop]
  simp [hcur]

theorem lexerror_string_atText (t : List Nat) (line : Int) (b : Mbuffer) (msg : String)
    (hroom : BufferRoom b 1) (hnz : ∀ c ∈ b.buffer, c ≠ 0) :
    lexerror (atText t line b) msg TK_STRING =
      Raised.lexerror msg line (some ([39] ++ b.buffer ++ [39])) := by
  have hs := save_atText t line b 0 0 hroom
  have h0 : TK_STRING ≠ 0 := by decide
  simp only [lexerror, if_neg h0, txtToken, or_true, true_or, if_true, hs]
  simp only [atText, push_buffer]
  have : cast_char 0 = 0 := rfl
  rw [this]
  have hc := cstr_append_nul b.buffer [] hnz
  rw [hc]

/-- C9: when the token starts with `[` followed by `k ≥ 1` signs `=` and then
something else than `[` (the end of the stream included), `llex` raises the
error "invalid long string delimiter", naming the opener only; no token is
returned. -/
theorem llex_invalid_long_delimiter (P : Platform) (ls : LexState) (k : Nat) (rest : List Nat)
    (hk : 1 ≤ k) (hcur : ls.current = 91) (hz : ls.z = List.replicate k 61 ++ rest)
    (h61 : rest.head? ≠ some 61) (h91 : rest.head? ≠ some 91)
    (hroom : BufferRoom (luaZ_resetbuffer ls).buff (k + 2)) :
    llex P ls = Except.error (Raised.lexerror "invalid long string delimiter" ls.linenumber
      (some ([39, 91] ++ List.replicate k 61 ++ [39]))) := by
  have hls : luaZ_resetbuffer ls = atText (91 :: (List.replicate k 61 ++ rest)) ls.linenumber
      { buffer := [], buffsize := ls.buff.buffsize } := by
    have h := eq_atText (luaZ_resetbuffer ls) 91 hcur
    simp only [luaZ_resetbuffer] at h ⊢
    rw [hz] at h ⊢
    exact h
  simp only [luaZ_resetbuffer] at hroom
  unfold llex
  rw [show ls.z.length + 2 = (ls.z.length + 1) + 1 from rfl,
    llex_loop_bracket P _ _ (show (luaZ_resetbuffer ls).current = 91 from hcur), hls,
    skip_sep_atText 91 k rest (by omega) h61 _ _ (hroom.mono (by omega))]
  have hlvl : sepLevel 91 k rest = 0 := by
    unfold sepLevel
    have : ¬ peek rest = ((91 : Nat) : Int) := by
      cases rest with
      | nil => simp [peek, EOZ]
      | cons c t =>
        simp only [List.head?_cons, ne_eq, Option.some.injEq] at h91
        simp only [peek]
        omega
    rw [if_neg this, if_neg (by omega)]
  simp only [hlvl, ge_iff_le, Nat.not_succ_le_zero, if_false, if_true]
  have hroom1 : BufferRoom (Mbuffer.pushAll { buffer := [], buffsize := ls.buff.buffsize }
      (91 :: List.replicate k 61)) 1 := by
    apply BufferRoom.pushAll
    simpa [Nat.add_comm, Nat.add_left_comm] using hroom
  rw [lexerror_string_atText _ _ _ _ hroom1 (by
    intro c hc
    rw [pushAll_buffer] at hc
    simp only [List.nil_append, List.mem_cons, List.mem_replicate] at hc
    omega)]
  simp [pushAll_buffer]

/-- Witness of C9: the text `[==x` in the state that `luaX_setinput` builds. -/
theorem llex_invalid_long_delimiter_witness :
    llex integerPlatform (luaX_setinput (bytes "[==x")) =
      Except.error (Raised.lexerror "invalid long string delimiter"
        (luaX_setinput (bytes "[==x")).linenumber
        (some ([39, 91] ++ List.replicate 2 61 ++ [39]))) :=
  llex_invalid_long_delimiter integerPlatform (luaX_setinput (bytes "[==x")) 2 [120]
    (by decide) rfl rfl (by simp) (by simp) (by decide)

theorem skip_comment_loop_line (body : List Nat) (hbody : ∀ c ∈ body, c ≠ 10 ∧ c ≠ 13)
    (line : Int) (b : Mbuffer) (fuel : Nat) (hfuel : body.length + 1 ≤ fuel) :
    skip_comment_loop fuel (atText body line b) = Except.ok (atText [] line b) := by
  induction body generalizing fuel with
  | nil =>
    obtain ⟨f, rfl⟩ : ∃ f, fuel = f + 1 := ⟨fuel - 1, by simp at hfuel; omega⟩
    simp [skip_comment_loop, atText, peek, currIsNewline, EOZ]
  | cons c t ih =>
    obtain ⟨f, rfl⟩ : ∃ f, fuel = f + 1 := ⟨fuel - 1, by simp at hfuel; omega⟩
    have hc := hbody c (List.mem_cons_self _ _)
    have h1 : ¬ currIsNewline (atText (c :: t) line b) = true := by
      simp only [currIsNewline, atText, peek, decide_eq_true_eq]
      omega
    have h2 : (atText (c :: t) line b).current ≠ EOZ := by
      simp only [atText, peek, EOZ]
      omega
    rw [skip_comment_loop, if_pos ⟨h1, h2⟩, next_atText]
    exact ih (fun x hx => hbody x (List.mem_cons_of_mem _ hx)) f (by
      simp only [List.length_cons] at hfuel
      omega)

theorem llex_loop_eos (P : Platform) (fuel : Nat) (line : Int) (b : Mbuffer) :
    llex_loop P (fuel + 1) (atText [] line b) =
      Except.ok (TK_EOS, SemInfo.none, atText [] line b) := by
  rw [llex_loop]
  simp [atText, peek, EOZ, lisdigit]

/-- C10, counterexample: in the comment `--[==` the opener has level 0, and
`llex` raises no error; it skips the comment and returns the end of the
stream. -/
theorem llex_comment_level0_no_error :
    skip_sep (atText (bytes "[==") 1 { buffer := [], buffsize := 32 }) =
      Except.ok (0, atText [] 1 { buffer := [91, 61, 61], buffsize := 32 })
    ∧ llex integerPlatform (luaX_setinput (bytes "--[==")) =
      Except.ok (TK_EOS, SemInfo.none, atText [] 1 { buffer := [], buffsize := 32 }) :=
  ⟨rfl, rfl⟩

theorem llex_loop_comment (P : Platform) (fuel : Nat) (t : List Nat) (line : Int) (b : Mbuffer) :
    llex_loop P (fuel + 1) (atText (45 :: 45 :: t) line b) =
      match (if peek t = 91 then
              match skip_sep (atText t line b) with
              | Except.error e => Except.error e
              | Except.ok (sep, ls3) => Except.ok (sep, luaZ_resetbuffer ls3)
            else Except.ok (1, atText t line b)) with
      | Except.error e => Except.error e
      | Except.ok (sep, ls3) =>
        if peek t = 91 ∧ sep ≥ 2 then
          match read_long_string ls3 false sep with
          | Except.error e => Except.error e
          | Except.ok (_, ls4) => llex_loop P fuel (luaZ_resetbuffer ls4)
        else
          match skip_comment_loop (ls3.z.length + 2) ls3 with
          | Except.error e => Except.error e
          | Except.ok ls4 => llex_loop P fuel ls4 := by
  rw [llex_loop]
  have e1 : (atText (45 :: 45 :: t) line b).current = 45 := rfl
  have e2 : next (atText (45 :: 45 :: t) line b) = atText (45 :: t) line b := next_atText _ _ _ _
  have e3 : next (atText (45 :: t) line b) = atText t line b := next_atText _ _ _ _
  have e4 : (atText (45 :: t) line b).current = 45 := rfl
  have e5 : (atText t line b).current = peek t := rfl
  simp only [e1, e2, e3, e4, e5]
  simp

/-- C10, amended: when `skip_sep` reports level 0 at the `[` token case, `llex`
raises the lexical error "invalid long string delimiter".  At the comment case
a level 0 is no error: `--[` followed by `k ≥ 1` signs `=` and a text without a
second `[` is skipped as a short comment (here up to the end of the stream,
where `llex` returns the end-of-stream token). -/
theorem llex_level0_token_error_comment_skipped (P : Platform) :
    (∀ ls ls1 : LexState, ls.current = 91 →
        skip_sep (luaZ_resetbuffer ls) = Except.ok (0, ls1) →
        llex P ls = Except.error (lexerror ls1 "invalid long string delimiter" TK_STRING))
    ∧ (∀ (k : Nat) (body : List Nat) (line : Int) (b : Mbuffer), 1 ≤ k →
        body.head? ≠ some 61 → body.head? ≠ some 91 → (∀ c ∈ body, c ≠ 10 ∧ c ≠ 13) →
        BufferRoom { b with buffer := [] } (k + 1) →
        ∃ ls1, skip_sep (atText (91 :: (List.replicate k 61 ++ body)) line { b with buffer := [] })
            = Except.ok (0, ls1)
          ∧ llex P (atText (45 :: 45 :: 91 :: (List.replicate k 61 ++ body)) line b) =
            Except.ok (TK_EOS, SemInfo.none, atText [] line (luaZ_resetbuffer ls1).buff)) := by
  constructor
  · intro ls ls1 hcur hsep
    unfold llex
    rw [show ls.z.length + 2 = (ls.z.length + 1) + 1 from rfl,
      llex_loop_bracket P _ _ (show (luaZ_resetbuffer ls).current = 91 from hcur), hsep]
    simp
  · intro k body line b hk h61 h91 hbody hroom
    have hlvl : sepLevel 91 k body = 0 := by
      unfold sepLevel
      have : ¬ peek body = ((91 : Nat) : Int) := by
        cases body with
        | nil => simp [peek, EOZ]
        | cons c t =>
          simp only [List.head?_cons, ne_eq, Option.some.injEq] at h91
          simp only [peek]
          omega
      rw [if_neg this, if_neg (by omega)]
    have hsep := skip_sep_atText 91 k body (by omega) h61 line _ hroom
    rw [hlvl] at hsep
    refine ⟨_, hsep, ?_⟩
    unfold llex
    have hst : luaZ_resetbuffer (atText (45 :: 45 :: 91 :: (List.replicate k 61 ++ body)) line b)
        = atText (45 :: 45 :: 91 :: (List.replicate k 61 ++ body)) line { b with buffer := [] } :=
      rfl
    have hpk : peek (91 :: (List.replicate k 61 ++ body)) = 91 := rfl
    rw [show (atText (45 :: 45 :: 91 :: (List.replicate k 61 ++ body)) line b).z.length + 2
        = ((atText (45 :: 45 :: 91 :: (List.replicate k 61 ++ body)) line b).z.length + 1) + 1
        from rfl, hst, llex_loop_comment, hpk, hsep]
    simp only [if_true, Nat.not_succ_le_zero, ge_iff_le, and_false, if_false]
    have e6 : ∀ b1, luaZ_resetbuffer (atText body line b1) =
        atText body line (luaZ_resetbuffer (atText body line b1)).buff := fun _ => rfl
    rw [e6, skip_comment_loop_line body hbody line]
    · rw [if_neg (by omega)]
      exact llex_loop_eos P _ line _
    · simp only [atText, List.length_tail]
      omega

/-- Witness of C10 (amended): the opener `[=x` as a token, and the comment
`--[=x`. -/
theorem llex_level0_token_error_comment_skipped_witness :
    llex integerPlatform (luaX_setinput (bytes "[=x")) =
        Except.error (lexerror (atText [120] 1 { buffer := [91, 61], buffsize := 32 })
          "invalid long string delimiter" TK_STRING)
    ∧ ∃ ls1, skip_sep (atText (91 :: (List.replicate 1 61 ++ [120])) 1
            { buffer := [], buffsize := 32 }) = Except.ok (0, ls1)
        ∧ llex integerPlatform (atText (45 :: 45 :: 91 :: (List.replicate 1 61 ++ [120])) 1
            { buffer := [], buffsize := 32 }) =
          Except.ok (TK_EOS, SemInfo.none, atText [] 1 (luaZ_resetbuffer ls1).buff) :=
  ⟨(llex_level0_token_error_comment_skipped integerPlatform).1
      (luaX_setinput (bytes "[=x")) (atText [120] 1 { buffer := [91, 61], buffsize := 32 })
      rfl rfl,
   (llex_level0_token_error_comment_skipped integerPlatform).2 1 [120] 1
      { buffer := [], buffsize := 32 } (by decide) (by simp) (by simp) (by simp) (by decide)⟩

/-! ## Theorems: long strings -/

theorem normalizeNewlines_newline (c : Nat) (s : List Nat) (hc : c = 10 ∨ c = 13) :
    normalizeNewlines (c :: s) = 10 :: normalizeNewlines (afterNewline c s) := by
  cases s with
  | nil => simp [normalizeNewlines, afterNewline, hc]
  | cons d s =>
    simp only [normalizeNewlines, afterNewline, if_pos hc]
    split <;> rfl

theorem normalizeNewlines_other (c : Nat) (s : List Nat) (hc : ¬ (c = 10 ∨ c = 13)) :
    normalizeNewlines (c :: s) = c :: normalizeNewlines s := by
  cases s with
  | nil => simp [normalizeNewlines, hc]
  | cons d s => simp only [normalizeNewlines, if_neg hc]

theorem countNewlines_newline (c : Nat) (s : List Nat) (hc : c = 10 ∨ c = 13) :
    countNewlines (c :: s) = 1 + countNewlines (afterNewline c s) := by
  cases s with
  | nil => simp [countNewlines, afterNewline, hc]
  | cons d s =>
    simp only [countNewlines, afterNewline, if_pos hc]
    split <;> rfl

theorem countNewlines_other (c : Nat) (s : List Nat) (hc : ¬ (c = 10 ∨ c = 13)) :
    countNewlines (c :: s) = countNewlines s := by
  cases s with
  | nil => simp [countNewlines, hc]
  | cons d s => simp only [countNewlines, if_neg hc]

theorem dropFirstNewline_newline (c : Nat) (s : List Nat) (hc : c = 10 ∨ c = 13) :
    dropFirstNewline (c :: s) = afterNewline c s := by
  cases s with
  | nil => simp [dropFirstNewline, afterNewline, hc]
  | cons d s => simp only [dropFirstNewline, afterNewline, if_pos hc]

theorem dropFirstNewline_other (c : Nat) (s : List Nat) (hc : ¬ (c = 10 ∨ c = 13)) :
    dropFirstNewline (c :: s) = c :: s := by
  cases s with
  | nil => simp [dropFirstNewline, hc]
  | cons d s => simp only [dropFirstNewline, if_neg hc]

theorem afterNewline_append (c : Nat) (s ys : List Nat)
    (hys : ∀ d, ys.head? = some d → ¬ (d = 10 ∨ d = 13)) :
    afterNewline c (s ++ ys) = afterNewline c s ++ ys := by
  cases s with
  | nil =>
    cases ys with
    | nil => rfl
    | cons d t =>
      have := hys d rfl
      simp only [List.nil_append, afterNewline]
      rw [if_neg (fun h => this h.1)]
  | cons d s =>
    simp only [List.cons_append, afterNewline]
    split <;> rfl

theorem afterNewline_suffix (c : Nat) (s : List Nat) :
    ∃ pre, c :: s = pre ++ afterNewline c s ∧ pre ≠ [] := by
  cases s with
  | nil => exact ⟨[c], rfl, by simp⟩
  | cons d s =>
    simp only [afterNewline]
    split
    · exact ⟨[c, d], rfl, by simp⟩
    · exact ⟨[c], rfl, by simp⟩

theorem CloserFree.suffix {n : Nat} (pre : List Nat) {body rest : List Nat}
    (h : CloserFree n (pre ++ body) rest) : CloserFree n body rest := by
  intro i hi
  have := h (pre.length + i) (by simp only [List.length_append]; omega)
  rw [List.append_assoc, ← List.drop_drop, List.drop_left] at this
  exact this

theorem run_of_equals (l : List Nat) :
    ∃ j l1, l = List.replicate j 61 ++ l1 ∧ l1.head? ≠ some 61 := by
  induction l with
  | nil => exact ⟨0, [], rfl, by simp⟩
  | cons c t ih =>
    by_cases hc : c = 61
    · obtain ⟨j, l1, h1, h2⟩ := ih
      exact ⟨j + 1, l1, by rw [hc, h1]; rfl, h2⟩
    · exact ⟨0, c :: t, rfl, by simpa using hc⟩

theorem inclinenumber_atText (c : Nat) (t : List Nat) (line : Int) (b : Mbuffer)
    (hline : line + 1 < INT_MAX) :
    inclinenumber (atText (c :: t) line b) = Except.ok (atText (afterNewline c t) (line + 1) b) := by
  unfold inclinenumber
  simp only [next_atText]
  have hnot : ¬ (line + 1 ≥ INT_MAX) := by omega
  cases t with
  | nil =>
    have h1 : ¬ (currIsNewline (atText [] line b) = true ∧
        (atText [] line b).current ≠ (atText [c] line b).current) := by
      simp [currIsNewline, atText, peek, EOZ]
    simp only [if_neg h1]
    simp only [atText, afterNewline] at hnot ⊢
    rw [if_neg hnot]
  | cons d s =>
    simp only [afterNewline]
    by_cases hd : (d = 10 ∨ d = 13) ∧ d ≠ c
    · have h1 : currIsNewline (atText (d :: s) line b) = true ∧
          (atText (d :: s) line b).current ≠ (atText (c :: d :: s) line b).current := by
        simp only [currIsNewline, atText, peek, decide_eq_true_eq, ne_eq]
        omega
      simp only [if_pos h1, if_pos hd, next_atText]
      simp only [atText] at hnot ⊢
      rw [if_neg hnot]
    · have h1 : ¬ (currIsNewline (atText (d :: s) line b) = true ∧
          (atText (d :: s) line b).current ≠ (atText (c :: d :: s) line b).current) := by
        simp only [currIsNewline, atText, peek, decide_eq_true_eq, ne_eq]
        omega
      simp only [if_neg h1, if_neg hd]
      simp only [atText] at hnot ⊢
      rw [if_neg hnot]

theorem normalizeNewlines_plain (pre s : List Nat) (hpre : ∀ c ∈ pre, ¬ (c = 10 ∨ c = 13)) :
    normalizeNewlines (pre ++ s) = pre ++ normalizeNewlines s := by
  induction pre with
  | nil => rfl
  | cons c t ih =>
    rw [List.cons_append, normalizeNewlines_other _ _ (hpre c (List.mem_cons_self _ _)),
      ih (fun x hx => hpre x (List.mem_cons_of_mem _ hx))]
    rfl

theorem countNewlines_plain (pre s : List Nat) (hpre : ∀ c ∈ pre, ¬ (c = 10 ∨ c = 13)) :
    countNewlines (pre ++ s) = countNewlines s := by
  induction pre with
  | nil => rfl
  | cons c t ih =>
    rw [List.cons_append, countNewlines_other _ _ (hpre c (List.mem_cons_self _ _)),
      ih (fun x hx => hpre x (List.mem_cons_of_mem _ hx))]

theorem read_long_string_loop_close (n : Nat) (rest : List Nat) (line0 line : Int)
    (b : Mbuffer) (fuel : Nat) (hroom : BufferRoom b (n + 2)) :
    read_long_string_loop true (n + 2) line0 (fuel + 1)
        (atText (longCloser n ++ rest) line b) =
      Except.ok (atText rest line (b.pushAll (longCloser n))) := by
  have hT : longCloser n ++ rest = 93 :: (List.replicate n 61 ++ (93 :: rest)) := by
    simp [longCloser]
  rw [hT, read_long_string_loop]
  have hcur : (atText (93 :: (List.replicate n 61 ++ 93 :: rest)) line b).current = 93 := rfl
  have h1 : ¬ ((93 : Int) = EOZ) := by decide
  simp only [hcur, if_neg h1, if_true]
  rw [skip_sep_atText 93 n (93 :: rest) (by omega) (by simp) line b (hroom.mono (by omega))]
  have hl : sepLevel 93 n (93 :: rest) = n + 2 := by simp [sepLevel, peek]
  simp only [hl, if_true]
  have hroom2 : BufferRoom (b.pushAll (93 :: List.replicate n 61)) (0 + 1) := by
    apply BufferRoom.pushAll
    simp only [List.length_cons, List.length_replicate]
    exact hroom.mono (by omega)
  rw [save_and_next_atText 93 rest line _ 0 (by omega) hroom2]
  congr 2
  rw [push_eq_pushAll, ← pushAll_append]
  simp [longCloser]

theorem read_long_string_loop_body (n : Nat) (rest : List Nat) (line0 : Int) (m : Nat) :
    ∀ (body : List Nat) (line : Int) (b : Mbuffer) (fuel : Nat),
      body.length ≤ m → (∀ c ∈ body, c < 256) → CloserFree n body rest →
      body.length + 1 ≤ fuel → BufferRoom b (body.length + n + 2) →
      line + (countNewlines body : Int) < INT_MAX →
      read_long_string_loop true (n + 2) line0 fuel
          (atText (body ++ (longCloser n ++ rest)) line b) =
        Except.ok (atText rest (line + (countNewlines body : Int))
          (b.pushAll (normalizeNewlines body ++ longCloser n))) := by
  induction m with
  | zero =>
    intro body line b fuel hlen _ _ hfuel hroom _
    have hb : body = [] := List.length_eq_zero.1 (by omega)
    subst hb
    obtain ⟨f, rfl⟩ : ∃ f, fuel = f + 1 := ⟨fuel - 1, by omega⟩
    have := read_long_string_loop_close n rest line0 line b f (hroom.mono (by simp))
    simpa [countNewlines, normalizeNewlines] using this
  | succ m ih =>
    intro body line b fuel hlen hbytes hfree hfuel hroom hline
    obtain ⟨f, rfl⟩ : ∃ f, fuel = f + 1 := ⟨fuel - 1, by omega⟩
    cases body with
    | nil =>
      have := read_long_string_loop_close n rest line0 line b f (hroom.mono (by simp))
      simpa [countNewlines, normalizeNewlines] using this
    | cons c body1 =>
      have hc256 : c < 256 := hbytes c (List.mem_cons_self _ _)
      have hbytes1 : ∀ x ∈ body1, x < 256 := fun x hx => hbytes x (List.mem_cons_of_mem _ hx)
      simp only [List.length_cons] at hlen hfuel hroom
      have hcur : (atText (c :: body1 ++ (longCloser n ++ rest)) line b).current = (c : Int) := rfl
      have hEOZ : ¬ ((c : Int) = EOZ) := by
        simp only [EOZ]
        omega
      rw [read_long_string_loop]
      simp only [hcur, if_neg hEOZ]
      by_cases h93 : c = 93
      · -- a closing bracket of another level
        subst h93
        obtain ⟨j, l1, hj, hl1⟩ := run_of_equals body1
        subst hj
        have hhead : (l1 ++ (longCloser n ++ rest)).head? ≠ some 61 := by
          cases l1 with
          | nil => simp [longCloser]
          | cons d t => simpa using hl1
        have hT : 93 :: (List.replicate j 61 ++ l1) ++ (longCloser n ++ rest) =
            93 :: (List.replicate j 61 ++ (l1 ++ (longCloser n ++ rest))) := by simp
        simp only [List.length_append, List.length_replicate] at hlen hfuel hroom
        rw [hT, skip_sep_atText 93 j _ (by omega) hhead line b (hroom.mono (by omega))]
        have hlvl : ¬ sepLevel 93 j (l1 ++ (longCloser n ++ rest)) = n + 2 := by
          intro hl
          unfold sepLevel at hl
          split at hl
          · rename_i hp
            have hjn : j = n := by omega
            subst hjn
            apply hfree 0 (by simp)
            rw [List.drop_zero, hT]
            cases hr : l1 ++ (longCloser j ++ rest) with
            | nil => rw [hr] at hp; simp [peek, EOZ] at hp
            | cons d t =>
              rw [hr] at hp
              simp only [peek] at hp
              have hd : d = 93 := by omega
              subst hd
              exact ⟨t, by simp [longCloser]⟩
          · split at hl <;> omega
        simp only [Nat.cast_ofNat, if_true, if_neg hlvl]
        have hpre : 93 :: (List.replicate j 61 ++ l1) = (93 :: List.replicate j 61) ++ l1 := rfl
        have hplain : ∀ x ∈ (93 :: List.replicate j 61), ¬ (x = 10 ∨ x = 13) := by
          intro x hx
          simp only [List.mem_cons, List.mem_replicate] at hx
          omega
        rw [ih l1 line _ f (by omega)
          (fun x hx => hbytes1 x (by simp [hx]))
          (CloserFree.suffix (93 :: List.replicate j 61) hfree) (by omega)
          (by
            apply BufferRoom.pushAll
            simp only [List.length_cons, List.length_replicate]
            exact hroom.mono (by omega))
          (by
            rw [hpre, countNewlines_plain _ _ hplain] at hline
            exact hline)]
        rw [hpre, countNewlines_plain _ _ hplain, normalizeNewlines_plain _ _ hplain,
          ← pushAll_append, List.append_assoc]
      · have h93' : ¬ ((c : Int) = 93) := by omega
        simp only [if_neg h93']
        by_cases hnl : c = 10 ∨ c = 13
        · -- a newline sequence
          have hnl' : (c : Int) = 10 ∨ (c : Int) = 13 := by omega
          simp only [if_pos hnl']
          have hcount := countNewlines_newline c body1 hnl
          have hsave := save_atText (c :: body1 ++ (longCloser n ++ rest)) line b 10
            (body1.length + 1 + n + 1) (hroom.mono (by omega))
          have h10 : cast_char 10 = 10 := rfl
          rw [hsave, h10]
          simp only
          rw [List.cons_append, inclinenumber_atText c _ line _ (by rw [hcount] at hline; omega)]
          simp only [if_true]
          rw [afterNewline_append c body1 _ (by
            intro d hd
            simp only [longCloser, List.cons_append, List.head?_cons, Option.some.injEq] at hd
            omega)]
          obtain ⟨pre, hpre, hne⟩ := afterNewline_suffix c body1
          have hlen2 : (afterNewline c body1).length ≤ body1.length := by
            have := congrArg List.length hpre
            simp only [List.length_cons, List.length_append] at this
            have : 0 < pre.length := List.length_pos.2 hne
            omega
          rw [ih (afterNewline c body1) (line + 1) _ f (by omega)
            (fun x hx => hbytes x (by rw [hpre]; simp [hx]))
            (CloserFree.suffix pre (by rw [← hpre]; exact hfree)) (by omega)
            ((BufferRoom.push (hroom.mono (Nat.le_refl _)) 10).mono (by omega))
            (by rw [hcount] at hline; push_cast at hline; omega)]
          rw [hcount, normalizeNewlines_newline c body1 hnl]
          congr 2
          push_cast
          omega
        · -- any other character
          have hnl' : ¬ ((c : Int) = 10 ∨ (c : Int) = 13) := by omega
          simp only [if_neg hnl', if_true]
          rw [List.cons_append, save_and_next_atText c _ line b (body1.length + 1 + n)
            hc256 (hroom.mono (by omega))]
          simp only
          rw [ih body1 line _ f (by omega) hbytes1 (CloserFree.suffix [c] hfree)
            (by omega) ((BufferRoom.push (hroom.mono (Nat.le_refl _)) c).mono (by omega))
            (by rw [countNewlines_other c body1 hnl] at hline; exact hline)]
          rw [countNewlines_other c body1 hnl, normalizeNewlines_other c body1 hnl]
          rfl

theorem dropFirstNewline_spec (body : List Nat) :
    ∃ pre, body = pre ++ dropFirstNewline body ∧
      (countNewlines body : Int) =
        (if peek body = 10 ∨ peek body = 13 then 1 else 0) + countNewlines (dropFirstNewline body) := by
  cases body with
  | nil => exact ⟨[], rfl, by simp [peek, EOZ, dropFirstNewline, countNewlines]⟩
  | cons c s =>
    by_cases hc : c = 10 ∨ c = 13
    · obtain ⟨pre, hpre, _⟩ := afterNewline_suffix c s
      refine ⟨pre, by rw [dropFirstNewline_newline c s hc]; exact hpre, ?_⟩
      have hc' : (c : Int) = 10 ∨ (c : Int) = 13 := by omega
      rw [dropFirstNewline_newline c s hc, countNewlines_newline c s hc]
      simp only [peek, if_pos hc']
      push_cast
      rfl
    · refine ⟨[], by rw [dropFirstNewline_other c s hc]; rfl, ?_⟩
      have hc' : ¬ ((c : Int) = 10 ∨ (c : Int) = 13) := by omega
      rw [dropFirstNewline_other c s hc]
      simp only [peek, if_neg hc', zero_add]

theorem read_long_string_atText (n : Nat) (body rest : List Nat) (line : Int) (b : Mbuffer)
    (hbytes : ∀ c ∈ body, c < 256) (hfree : CloserFree n body rest)
    (hroom : BufferRoom b (body.length + n + 3))
    (hline : line + (countNewlines body : Int) < INT_MAX) :
    read_long_string (atText (91 :: (body ++ (longCloser n ++ rest))) line b) true (n + 2) =
      Except.ok
        (some (luaX_newstring
            (atText rest (line + (countNewlines body : Int))
              ((b.push 91).pushAll (normalizeNewlines (dropFirstNewline body) ++ longCloser n)))
            (n + 2)
            (((b.push 91).pushAll
              (normalizeNewlines (dropFirstNewline body) ++ longCloser n)).buffer.length
                - 2 * (n + 2))),
          atText rest (line + (countNewlines body : Int))
            ((b.push 91).pushAll (normalizeNewlines (dropFirstNewline body) ++ longCloser n))) := by
  unfold read_long_string
  rw [save_and_next_atText 91 _ line b (body.length + n + 2) (by omega) hroom]
  simp only
  obtain ⟨pre, hpre, hcount⟩ := dropFirstNewline_spec body
  have hlenpre : (dropFirstNewline body).length ≤ body.length := by
    have := congrArg List.length hpre
    simp only [List.length_append] at this
    omega
  have hroom1 : BufferRoom (b.push 91) ((dropFirstNewline body).length + n + 2) :=
    (BufferRoom.push (hroom.mono (Nat.le_refl _)) 91).mono (by omega)
  have hfree1 : CloserFree n (dropFirstNewline body) rest :=
    CloserFree.suffix pre (by rw [← hpre]; exact hfree)
  have hbytes1 : ∀ c ∈ dropFirstNewline body, c < 256 :=
    fun x hx => hbytes x (by rw [hpre]; simp [hx])
  have hloop := fun line1 hl => read_long_string_loop_body n rest line
    (dropFirstNewline body).length (dropFirstNewline body) line1 (b.push 91)
    ((atText (dropFirstNewline body ++ (longCloser n ++ rest)) line1 (b.push 91)).z.length + 2)
    (Nat.le_refl _) hbytes1 hfree1
    (by
      simp only [atText, List.length_tail, List.length_append, longCloser, List.length_cons]
      omega) hroom1 hl
  have step : (if currIsNewline (atText (body ++ (longCloser n ++ rest)) line (b.push 91)) = true
      then inclinenumber (atText (body ++ (longCloser n ++ rest)) line (b.push 91))
      else Except.ok (atText (body ++ (longCloser n ++ rest)) line (b.push 91))) =
      Except.ok (atText (dropFirstNewline body ++ (longCloser n ++ rest))
        (line + (if peek body = 10 ∨ peek body = 13 then 1 else 0)) (b.push 91)) := by
    cases body with
    | nil =>
      have h1 : ¬ currIsNewline (atText ([] ++ (longCloser n ++ rest)) line (b.push 91)) = true := by
        simp [currIsNewline, atText, peek, longCloser]
      rw [if_neg h1]
      simp [peek, EOZ, dropFirstNewline]
    | cons c s =>
      by_cases hc : c = 10 ∨ c = 13
      · have hc' : (c : Int) = 10 ∨ (c : Int) = 13 := by omega
        have h1 : currIsNewline (atText (c :: s ++ (longCloser n ++ rest)) line (b.push 91))
            = true := by
          simp only [currIsNewline, atText, List.cons_append, peek, decide_eq_true_eq]
          exact hc'
        rw [if_pos h1, List.cons_append, inclinenumber_atText c _ line _ (by
          rw [countNewlines_newline c s hc] at hline
          push_cast at hline
          omega)]
        rw [afterNewline_append c s _ (by
          intro d hd
          simp only [longCloser, List.cons_append, List.head?_cons, Option.some.injEq] at hd
          omega), dropFirstNewline_newline c s hc]
        simp only [peek, if_pos hc']
      · have hc' : ¬ ((c : Int) = 10 ∨ (c : Int) = 13) := by omega
        have h1 : ¬ currIsNewline (atText (c :: s ++ (longCloser n ++ rest)) line (b.push 91))
            = true := by
          simp only [currIsNewline, atText, List.cons_append, peek, decide_eq_true_eq]
          exact hc'
        rw [if_neg h1, dropFirstNewline_other c s hc]
        simp only [peek, if_neg hc', add_zero]
  rw [step]
  simp only [show (atText (91 :: (body ++ (longCloser n ++ rest))) line b).linenumber = line
    from rfl]
  rw [hloop _ (by rw [hcount] at hline; omega)]
  simp only [if_true]
  have e : line + (if peek body = 10 ∨ peek body = 13 then 1 else 0)
      + (countNewlines (dropFirstNewline body) : Int) = line + (countNewlines body : Int) := by
    rw [hcount]
    omega
  rw [e]
  rfl

theorem normalizeNewlines_append (m : Nat) :
    ∀ (xs ys : List Nat), xs.length ≤ m →
      (∀ d, ys.head? = some d → ¬ (d = 10 ∨ d = 13)) →
      normalizeNewlines (xs ++ ys) = normalizeNewlines xs ++ normalizeNewlines ys := by
  induction m with
  | zero =>
    intro xs ys hlen _
    have : xs = [] := List.length_eq_zero.1 (by omega)
    subst this
    rfl
  | succ m ih =>
    intro xs ys hlen hys
    cases xs with
    | nil => rfl
    | cons c t =>
      simp only [List.length_cons] at hlen
      by_cases hc : c = 10 ∨ c = 13
      · obtain ⟨pre, hpre, hne⟩ := afterNewline_suffix c t
        have hl : (afterNewline c t).length ≤ m := by
          have := congrArg List.length hpre
          simp only [List.length_cons, List.length_append] at this
          have : 0 < pre.length := List.length_pos.2 hne
          omega
        rw [List.cons_append, normalizeNewlines_newline c _ hc, normalizeNewlines_newline c t hc,
          afterNewline_append c t ys hys, ih _ ys hl hys]
        rfl
      · rw [List.cons_append, normalizeNewlines_other c _ hc, normalizeNewlines_other c t hc,
          ih t ys (by omega) hys]
        rfl

theorem dropFirstNewline_append (xs ys : List Nat) (hne : ys ≠ [])
    (hys : ∀ d, ys.head? = some d → ¬ (d = 10 ∨ d = 13)) :
    dropFirstNewline (xs ++ ys) = dropFirstNewline xs ++ ys := by
  cases xs with
  | nil =>
    cases ys with
    | nil => exact absurd rfl hne
    | cons d t => rw [List.nil_append, dropFirstNewline_other d t (hys d rfl)]; rfl
  | cons c t =>
    by_cases hc : c = 10 ∨ c = 13
    · rw [List.cons_append, dropFirstNewline_newline c _ hc, dropFirstNewline_newline c t hc,
        afterNewline_append c t ys hys]
    · rw [List.cons_append, dropFirstNewline_other c _ hc, dropFirstNewline_other c t hc]
      rfl

theorem longCloser_plain (j : Nat) : ∀ x ∈ longCloser j, ¬ (x = 10 ∨ x = 13) := by
  intro x hx
  simp only [longCloser, List.mem_cons, List.mem_append, List.mem_replicate,
    List.mem_singleton, List.not_mem_nil, or_false] at hx
  omega

theorem longCloser_infix_content (j : Nat) (pre post : List Nat) :
    longCloser j <:+: normalizeNewlines (dropFirstNewline (pre ++ (longCloser j ++ post))) := by
  have hhead : ∀ d, (longCloser j ++ post).head? = some d → ¬ (d = 10 ∨ d = 13) := by
    intro d hd
    simp only [longCloser, List.cons_append, List.head?_cons, Option.some.injEq] at hd
    omega
  rw [dropFirstNewline_append pre _ (by simp [longCloser]) hhead,
    normalizeNewlines_append _ _ _ (Nat.le_refl _) hhead,
    normalizeNewlines_plain _ _ (longCloser_plain j)]
  exact ⟨normalizeNewlines (dropFirstNewline pre), normalizeNewlines post, by simp⟩

theorem long_string_payload (n : Nat) (X rest : List Nat) (line : Int) (b : Mbuffer)
    (hb : b.buffer.length = n + 1) :
    luaX_newstring (atText rest line ((b.push 91).pushAll (X ++ longCloser n))) (n + 2)
      (((b.push 91).pushAll (X ++ longCloser n)).buffer.length - 2 * (n + 2)) = X := by
  have hbuf : ((b.push 91).pushAll (X ++ longCloser n)).buffer =
      (b.buffer ++ [91]) ++ (X ++ longCloser n) := by
    rw [pushAll_buffer, push_buffer]
  have hl : (b.buffer ++ [91]).length = n + 2 := by simp [hb]
  unfold luaX_newstring
  simp only [atText]
  rw [hbuf, List.drop_left' hl]
  have : ((b.buffer ++ [91]) ++ (X ++ longCloser n)).length - 2 * (n + 2) = X.length := by
    simp only [List.length_append, hl, longCloser, List.length_cons, List.length_replicate,
      List.length_nil]
    omega
  rw [this, List.take_left']
  rfl

/-- C7: when the closer of level `n` that follows `body` is the first one,
`read_long_string` ends the literal right after it (the text `rest` is left
unread); a bracket of another level inside `body`, such as `]=]` in a string
opened by `[==[`, is part of the content. -/
theorem read_long_string_first_closer (ls : LexState) (n : Nat) (body rest : List Nat)
    (hcur : ls.current = 91) (hz : ls.z = body ++ (longCloser n ++ rest))
    (hbuf : ls.buff.buffer.length = n + 1)
    (hbytes : ∀ c ∈ body, c < 256) (hfree : CloserFree n body rest)
    (hroom : BufferRoom ls.buff (body.length + n + 3))
    (hline : ls.linenumber + (countNewlines body : Int) < INT_MAX) :
    ∃ ts ls1, read_long_string ls true (n + 2) = Except.ok (some ts, ls1)
      ∧ ls1.current = peek rest ∧ ls1.z = rest.tail
      ∧ ∀ j pre post, body = pre ++ (longCloser j ++ post) → longCloser j <:+: ts := by
  have hls := eq_atText ls 91 hcur
  rw [hz] at hls
  refine ⟨normalizeNewlines (dropFirstNewline body),
    atText rest (ls.linenumber + (countNewlines body : Int))
      ((ls.buff.push 91).pushAll (normalizeNewlines (dropFirstNewline body) ++ longCloser n)),
    ?_, rfl, rfl, ?_⟩
  · rw [hls, read_long_string_atText n body rest _ _ hbytes hfree hroom hline,
      long_string_payload n _ rest _ _ hbuf]
    rfl
  · intro j pre post hbody
    rw [hbody]
    exact longCloser_infix_content j pre post

/-- Witness of C7: the body `a]=]b` of the literal `[==[a]=]b]==]`, followed
by `x`. -/
theorem read_long_string_first_closer_witness :
    ∃ ts ls1, read_long_string (atText (bytes "[a]=]b]==]x") 1
          { buffer := [91, 61, 61], buffsize := 32 }) true (2 + 2) = Except.ok (some ts, ls1)
      ∧ ls1.current = peek [120] ∧ ls1.z = [120].tail
      ∧ ∀ j pre post, bytes "a]=]b" = pre ++ (longCloser j ++ post) → longCloser j <:+: ts :=
  read_long_string_first_closer (atText (bytes "[a]=]b]==]x") 1
      { buffer := [91, 61, 61], buffsize := 32 }) 2 (bytes "a]=]b") [120] rfl rfl rfl
    (by decide) (by decide) (by decide) (by decide)

/-- C8: the string of a long-string token is the text between the opener and
the first closer, without the newline sequence that directly follows the
opener and with every other newline sequence replaced by one `\n`; the line
counter is increased by the number of newline sequences of that text. -/
theorem llex_long_string_value (P : Platform) (n : Nat) (body rest : List Nat) (line : Int)
    (b : Mbuffer) (hbytes : ∀ c ∈ body, c < 256) (hfree : CloserFree n body rest)
    (hroom : BufferRoom { b with buffer := [] } (body.length + 2 * n + 4))
    (hline : line + (countNewlines body : Int) < INT_MAX) :
    ∃ ls1, llex P (atText (longOpener n ++ (body ++ (longCloser n ++ rest))) line b) =
        Except.ok (TK_STRING, SemInfo.ts (normalizeNewlines (dropFirstNewline body)), ls1)
      ∧ ls1.linenumber = line + (countNewlines body : Int)
      ∧ ls1.current = peek rest ∧ ls1.z = rest.tail := by
  have hT : longOpener n ++ (body ++ (longCloser n ++ rest)) =
      91 :: (List.replicate n 61 ++ (91 :: (body ++ (longCloser n ++ rest)))) := by
    simp [longOpener]
  have hroom0 : BufferRoom (Mbuffer.pushAll { b with buffer := [] } (91 :: List.replicate n 61))
      (body.length + n + 3) := by
    apply BufferRoom.pushAll
    simp only [List.length_cons, List.length_replicate]
    exact hroom.mono (by omega)
  have hb0 : (Mbuffer.pushAll { b with buffer := [] } (91 :: List.replicate n 61)).buffer.length
      = n + 1 := by
    rw [pushAll_buffer]
    simp
  refine ⟨atText rest (line + (countNewlines body : Int))
    (((Mbuffer.pushAll { b with buffer := [] } (91 :: List.replicate n 61)).push 91).pushAll
      (normalizeNewlines (dropFirstNewline body) ++ longCloser n)), ?_, rfl, rfl, rfl⟩
  unfold llex
  rw [show (atText (longOpener n ++ (body ++ (longCloser n ++ rest))) line b).z.length + 2
      = ((atText (longOpener n ++ (body ++ (longCloser n ++ rest))) line b).z.length + 1) + 1
      from rfl,
    llex_loop_bracket P _ _ (by rw [hT]; rfl)]
  have hreset : luaZ_resetbuffer (atText (longOpener n ++ (body ++ (longCloser n ++ rest))) line b)
      = atText (91 :: (List.replicate n 61 ++ (91 :: (body ++ (longCloser n ++ rest))))) line
        { b with buffer := [] } := by
    rw [hT]
    rfl
  rw [hreset, skip_sep_atText 91 n _ (by omega) (by simp) line _ (hroom.mono (by omega))]
  have hl : sepLevel 91 n (91 :: (body ++ (longCloser n ++ rest))) = n + 2 := by
    simp [sepLevel, peek]
  simp only [hl]
  rw [if_pos (by omega), read_long_string_atText n body rest _ _ hbytes hfree hroom0 hline,
    long_string_payload n _ rest _ _ hb0]
  rfl

/-- Witness of C8: the literal `[==[`, CR LF, `a`, LF, `b]=]c`, LF CR, `d]==]`
followed by `x`. -/
theorem llex_long_string_value_witness :
    ∃ ls1, llex integerPlatform
          (atText (longOpener 2 ++ ([13, 10, 97, 10, 98, 93, 61, 93, 99, 10, 13, 100] ++
            (longCloser 2 ++ [120]))) 1 { buffer := [], buffsize := 32 }) =
        Except.ok (TK_STRING, SemInfo.ts (normalizeNewlines
          (dropFirstNewline [13, 10, 97, 10, 98, 93, 61, 93, 99, 10, 13, 100])), ls1)
      ∧ ls1.linenumber = 1 + (countNewlines [13, 10, 97, 10, 98, 93, 61, 93, 99, 10, 13, 100] : Int)
      ∧ ls1.current = peek [120] ∧ ls1.z = [120].tail :=
  llex_long_string_value integerPlatform 2 [13, 10, 97, 10, 98, 93, 61, 93, 99, 10, 13, 100]
    [120] 1 { buffer := [], buffsize := 32 } (by decide) (by decide) (by decide) (by decide)

/-! ## Theorems: line breaks -/

/-- C13: on a newline character `inclinenumber` adds exactly 1 to the line
counter; it reads that character, and the next one as well exactly when it is
the other newline character (two equal newline characters are two line breaks).
Scanning the source `a`, CR, LF, `b`, LF, CR, `c` gives the names `a`, `b`,
`c` with the line counter at 1 after `a` and at 3 after `c`. -/
theorem inclinenumber_counts_once (ls : LexState) (c : Nat) (hcur : ls.current = (c : Int))
    (hc : c = 10 ∨ c = 13) (hline : ls.linenumber + 1 < INT_MAX) :
    (∃ ls1, inclinenumber ls = Except.ok ls1
      ∧ ls1.linenumber = ls.linenumber + 1 ∧ ls1.buff = ls.buff
      ∧ (if (c = 10 ∧ peek ls.z = 13) ∨ (c = 13 ∧ peek ls.z = 10)
         then ls1.current = peek ls.z.tail ∧ ls1.z = ls.z.tail.tail
         else ls1.current = peek ls.z ∧ ls1.z = ls.z.tail))
    ∧ ∀ P : Platform, ∃ s1 s2 s3 : LexState,
        llex P (luaX_setinput [97, 13, 10, 98, 10, 13, 99]) =
          Except.ok (TK_NAME, SemInfo.ts [97], s1) ∧ s1.linenumber = 1
        ∧ llex P s1 = Except.ok (TK_NAME, SemInfo.ts [98], s2)
        ∧ llex P s2 = Except.ok (TK_NAME, SemInfo.ts [99], s3) ∧ s3.linenumber = 3 := by
  constructor
  · have hls := eq_atText ls c hcur
    refine ⟨atText (afterNewline c ls.z) (ls.linenumber + 1) ls.buff, ?_, rfl, rfl, ?_⟩
    · rw [hls]
      exact inclinenumber_atText c ls.z ls.linenumber ls.buff hline
    · cases hz : ls.z with
      | nil =>
        simp [peek, EOZ, afterNewline, atText]
      | cons d t =>
        simp only [afterNewline, peek, List.tail_cons]
        by_cases h : (d = 10 ∨ d = 13) ∧ d ≠ c
        · have h' : (c = 10 ∧ (d : Int) = 13) ∨ (c = 13 ∧ (d : Int) = 10) := by omega
          rw [if_pos h, if_pos h']
          exact ⟨rfl, rfl⟩
        · have h' : ¬ ((c = 10 ∧ (d : Int) = 13) ∨ (c = 13 ∧ (d : Int) = 10)) := by omega
          rw [if_neg h, if_neg h']
          exact ⟨rfl, rfl⟩
  · intro P
    exact ⟨atText [13, 10, 98, 10, 13, 99] 1 { buffer := [97], buffsize := 32 },
      atText [10, 13, 99] 2 { buffer := [98], buffsize := 32 },
      atText [] 3 { buffer := [99], buffsize := 32 }, rfl, rfl, rfl, rfl, rfl⟩

/-- Witness of C13: the two characters CR, LF in front of `b` are one line
break. -/
theorem inclinenumber_counts_once_witness :
    ∃ ls1, inclinenumber (atText [13, 10, 98] 1 { buffer := [], buffsize := 32 }) = Except.ok ls1
      ∧ ls1.linenumber = 2 ∧ ls1.current = 98 :=
  match (inclinenumber_counts_once (atText [13, 10, 98] 1 { buffer := [], buffsize := 32 }) 13
      rfl (Or.inr rfl) (by decide)).1 with
  | ⟨ls1, h1, h2, _, h4⟩ => ⟨ls1, h1, h2, (by simp [atText, peek] at h4; exact h4.1)⟩

/-! ## Theorems: unfinished long strings and comments -/

theorem CloserAbsent.drop_front {n : Nat} (pre : List Nat) {body : List Nat}
    (h : CloserAbsent n (pre ++ body)) : CloserAbsent n body := by
  intro i hi
  have := h (pre.length + i) (by simp only [List.length_append]; omega)
  rw [← List.drop_drop, List.drop_left] at this
  exact this

theorem BufferRoom.reset {b : Mbuffer} {m k : Nat} (h : BufferRoom b m)
    (hk : k ≤ b.buffer.length + m) : BufferRoom { b with buffer := [] } k := by
  unfold BufferRoom at *
  simp only [List.length_nil]
  omega

theorem lexerror_eos (ls : LexState) (msg : String) :
    lexerror ls msg TK_EOS = Raised.lexerror msg ls.linenumber (some (bytes "<eof>")) := by
  have h0 : TK_EOS ≠ 0 := by decide
  have h1 : ¬ (TK_EOS = TK_NAME ∨ TK_EOS = TK_STRING ∨ TK_EOS = TK_FLT ∨ TK_EOS = TK_INT) := by
    decide
  have h2 : luaX_token2str TK_EOS = bytes "<eof>" := by rfl
  simp only [lexerror, if_neg h0, txtToken, if_neg h1, h2]

theorem read_long_string_loop_unfinished (seminfo : Bool) (n : Nat) (line0 : Int) (m : Nat) :
    ∀ (body : List Nat) (line : Int) (b : Mbuffer) (fuel : Nat),
      body.length ≤ m → (∀ c ∈ body, c < 256) → CloserAbsent n body →
      body.length + 1 ≤ fuel → BufferRoom b body.length →
      line + (countNewlines body : Int) < INT_MAX →
      read_long_string_loop seminfo (n + 2) line0 fuel (atText body line b) =
        Except.error (Raised.lexerror (unfinishedLongMessage seminfo line0)
          (line + (countNewlines body : Int)) (some (bytes "<eof>"))) := by
  have base : ∀ (line : Int) (b : Mbuffer) (f : Nat),
      read_long_string_loop seminfo (n + 2) line0 (f + 1) (atText [] line b) =
        Except.error (Raised.lexerror (unfinishedLongMessage seminfo line0)
          (line + (countNewlines [] : Int)) (some (bytes "<eof>"))) := by
    intro line b f
    rw [read_long_string_loop]
    have hcur : (atText [] line b).current = EOZ := rfl
    simp only [hcur, if_true, lexerror_eos]
    simp [unfinishedLongMessage, countNewlines, atText]
  induction m with
  | zero =>
    intro body line b fuel hlen _ _ hfuel _ _
    have hb : body = [] := List.length_eq_zero.1 (by omega)
    subst hb
    obtain ⟨f, rfl⟩ : ∃ f, fuel = f + 1 := ⟨fuel - 1, by omega⟩
    exact base line b f
  | succ m ih =>
    intro body line b fuel hlen hbytes hfree hfuel hroom hline
    obtain ⟨f, rfl⟩ : ∃ f, fuel = f + 1 := ⟨fuel - 1, by omega⟩
    cases body with
    | nil => exact base line b f
    | cons c body1 =>
      have hc256 : c < 256 := hbytes c (List.mem_cons_self _ _)
      have hbytes1 : ∀ x ∈ body1, x < 256 := fun x hx => hbytes x (List.mem_cons_of_mem _ hx)
      simp only [List.length_cons] at hlen hfuel hroom
      have hcur : (atText (c :: body1) line b).current = (c : Int) := rfl
      have hEOZ : ¬ ((c : Int) = EOZ) := by
        simp only [EOZ]
        omega
      rw [read_long_string_loop]
      simp only [hcur, if_neg hEOZ]
      by_cases h93 : c = 93
      · subst h93
        obtain ⟨j, l1, hj, hl1⟩ := run_of_equals body1
        subst hj
        simp only [List.length_append, List.length_replicate] at hlen hfuel hroom
        rw [skip_sep_atText 93 j _ (by omega) hl1 line b (hroom.mono (by omega))]
        have hlvl : ¬ sepLevel 93 j l1 = n + 2 := by
          intro hl
          unfold sepLevel at hl
          split at hl
          · rename_i hp
            have hjn : j = n := by omega
            subst hjn
            apply hfree 0 (by simp)
            rw [List.drop_zero]
            cases l1 with
            | nil => simp [peek, EOZ] at hp
            | cons d t =>
              simp only [peek] at hp
              have hd : d = 93 := by omega
              subst hd
              exact ⟨t, by simp [longCloser]⟩
          · split at hl <;> omega
        simp only [Nat.cast_ofNat, if_true, if_neg hlvl]
        have hpre : 93 :: (List.replicate j 61 ++ l1) = (93 :: List.replicate j 61) ++ l1 := rfl
        have hplain : ∀ x ∈ (93 :: List.replicate j 61), ¬ (x = 10 ∨ x = 13) := by
          intro x hx
          simp only [List.mem_cons, List.mem_replicate] at hx
          omega
        rw [ih l1 line _ f (by omega)
          (fun x hx => hbytes1 x (by simp [hx]))
          (CloserAbsent.drop_front (93 :: List.replicate j 61) hfree) (by omega)
          (by
            apply BufferRoom.pushAll
            simp only [List.length_cons, List.length_replicate]
            exact hroom.mono (by omega))
          (by
            rw [hpre, countNewlines_plain _ _ hplain] at hline
            exact hline)]
        rw [hpre, countNewlines_plain _ _ hplain]
      · have h93' : ¬ ((c : Int) = 93) := by omega
        simp only [if_neg h93']
        by_cases hnl : c = 10 ∨ c = 13
        · have hnl' : (c : Int) = 10 ∨ (c : Int) = 13 := by omega
          simp only [if_pos hnl']
          have hcount := countNewlines_newline c body1 hnl
          have hsave := save_atText (c :: body1) line b 10 body1.length hroom
          have h10 : cast_char 10 = 10 := rfl
          rw [hsave, h10]
          simp only
          rw [inclinenumber_atText c _ line _ (by rw [hcount] at hline; omega)]
          simp only
          obtain ⟨pre, hpre, hne⟩ := afterNewline_suffix c body1
          have hlen2 : (afterNewline c body1).length ≤ body1.length := by
            have := congrArg List.length hpre
            simp only [List.length_cons, List.length_append] at this
            have : 0 < pre.length := List.length_pos.2 hne
            omega
          have hroom2 : BufferRoom (b.push 10) (afterNewline c body1).length :=
            (BufferRoom.push hroom 10).mono hlen2
          have hstate : (if seminfo = true then atText (afterNewline c body1) (line + 1) (b.push 10)
              else luaZ_resetbuffer (atText (afterNewline c body1) (line + 1) (b.push 10))) =
              atText (afterNewline c body1) (line + 1)
                (if seminfo = true then b.push 10 else { b.push 10 with buffer := [] }) := by
            cases seminfo <;> rfl
          rw [hstate, ih (afterNewline c body1) (line + 1) _ f (by omega)
            (fun x hx => hbytes x (by rw [hpre]; simp [hx]))
            (CloserAbsent.drop_front pre (by rw [← hpre]; exact hfree)) (by omega)
            (by
              cases seminfo
              · exact BufferRoom.reset hroom2 (by omega)
              · exact hroom2)
            (by rw [hcount] at hline; push_cast at hline; omega)]
          rw [hcount]
          congr 2
          push_cast
          omega
        · have hnl' : ¬ ((c : Int) = 10 ∨ (c : Int) = 13) := by omega
          simp only [if_neg hnl']
          have hstep : (if seminfo = true then
                match save_and_next (atText (c :: body1) line b) with
                | Except.error e => Except.error e
                | Except.ok ls1 => read_long_string_loop seminfo (n + 2) line0 f ls1
              else read_long_string_loop seminfo (n + 2) line0 f (next (atText (c :: body1) line b)))
              = read_long_string_loop seminfo (n + 2) line0 f
                  (atText body1 line (if seminfo = true then b.push c else b)) := by
            cases seminfo
            · simp only [Bool.false_eq_true, if_false, next_atText]
            · simp only [if_true, save_and_next_atText c body1 line b body1.length hc256 hroom]
          rw [hstep, ih body1 line _ f (by omega) hbytes1 (CloserAbsent.drop_front [c] hfree)
            (by omega)
            (by
              cases seminfo
              · exact hroom.mono (by omega)
              · exact BufferRoom.push hroom c)
            (by rw [countNewlines_other c body1 hnl] at hline; exact hline)]
          rw [countNewlines_other c body1 hnl]

theorem leading_newline_atText (t : List Nat) (line : Int) (b : Mbuffer)
    (hline : line + (if peek t = 10 ∨ peek t = 13 then 1 else 0) < INT_MAX) :
    (if currIsNewline (atText t line b) = true then inclinenumber (atText t line b)
      else Except.ok (atText t line b)) =
      Except.ok (atText (dropFirstNewline t)
        (line + (if peek t = 10 ∨ peek t = 13 then 1 else 0)) b) := by
  cases t with
  | nil =>
    have h1 : ¬ currIsNewline (atText [] line b) = true := by
      simp [currIsNewline, atText, peek, EOZ]
    rw [if_neg h1]
    simp [peek, EOZ, dropFirstNewline]
  | cons c s =>
    by_cases hc : c = 10 ∨ c = 13
    · have hc' : (c : Int) = 10 ∨ (c : Int) = 13 := by omega
      have h1 : currIsNewline (atText (c :: s) line b) = true := by
        simp only [currIsNewline, atText, peek, decide_eq_true_eq]
        exact hc'
      simp only [peek, if_pos hc'] at hline
      rw [if_pos h1, inclinenumber_atText c _ line _ hline, dropFirstNewline_newline c s hc]
      simp only [peek, if_pos hc']
    · have hc' : ¬ ((c : Int) = 10 ∨ (c : Int) = 13) := by omega
      have h1 : ¬ currIsNewline (atText (c :: s) line b) = true := by
        simp only [currIsNewline, atText, peek, decide_eq_true_eq]
        exact hc'
      rw [if_neg h1, dropFirstNewline_other c s hc]
      simp only [peek, if_neg hc', add_zero]

/-- C11, counterexample: the long string `[[` opened on line 1 and followed by
a line break runs into the end of the stream on line 2; the error that is
raised is positioned on line 2, the line at which the stream ended, and names
line 1 in its message only. -/
theorem llex_unfinished_long_string_position :
    llex integerPlatform (luaX_setinput [91, 91, 97, 10]) =
      Except.error (Raised.lexerror "unfinished long string (starting at line 1)" 2
        (some (bytes "<eof>"))) := by
  rfl

/-- C11, amended: when the stream ends before the closer of a long string or
long comment, `read_long_string` returns no token: it raises the error whose
message is "unfinished long string" or "unfinished long comment" followed by
"(starting at line N)", N being the line of the opener; the position that
`lexerror` attaches to the error is the current line, the one on which the
stream ended. -/
theorem read_long_string_unfinished (ls : LexState) (seminfo : Bool) (n : Nat)
    (hcur : ls.current = 91) (hbytes : ∀ c ∈ ls.z, c < 256) (habs : CloserAbsent n ls.z)
    (hroom : BufferRoom ls.buff (ls.z.length + 1))
    (hline : ls.linenumber + (countNewlines ls.z : Int) < INT_MAX) :
    read_long_string ls seminfo (n + 2) =
      Except.error (Raised.lexerror
        ("unfinished long " ++ (if seminfo then "string" else "comment") ++
          " (starting at line " ++ toString ls.linenumber ++ ")")
        (ls.linenumber + (countNewlines ls.z : Int)) (some (bytes "<eof>"))) := by
  have hls := eq_atText ls 91 hcur
  obtain ⟨pre, hpre, hcount⟩ := dropFirstNewline_spec ls.z
  have hlenpre : (dropFirstNewline ls.z).length ≤ ls.z.length := by
    have := congrArg List.length hpre
    simp only [List.length_append] at this
    omega
  have hnn : (0 : Int) ≤ (countNewlines (dropFirstNewline ls.z) : Int) := Int.natCast_nonneg _
  unfold read_long_string
  rw [hls, save_and_next_atText 91 _ _ _ ls.z.length (by omega) hroom]
  simp only
  rw [leading_newline_atText _ _ _ (by rw [hcount] at hline; omega)]
  simp only [show (atText (91 :: ls.z) ls.linenumber ls.buff).linenumber = ls.linenumber from rfl]
  rw [read_long_string_loop_unfinished seminfo n ls.linenumber (dropFirstNewline ls.z).length
    (dropFirstNewline ls.z) _ _ _ (Nat.le_refl _)
    (fun x hx => hbytes x (by rw [hpre]; simp [hx]))
    (CloserAbsent.drop_front pre (by rw [← hpre]; exact habs))
    (by
      simp only [atText, List.length_tail]
      omega)
    ((BufferRoom.push hroom 91).mono hlenpre)
    (by rw [hcount] at hline; omega)]
  have hz' : (atText (91 :: ls.z) ls.linenumber ls.buff).z = ls.z := rfl
  simp only [unfinishedLongMessage]
  congr 2
  rw [hz', hcount]
  omega

/-- Witness of C11 (amended): a long comment of level 3 opened on line 7 whose
text ends the stream on line 8. -/
theorem read_long_string_unfinished_witness :
    read_long_string (atText [91, 97, 93, 93, 10, 98] 7 { buffer := [91, 61], buffsize := 32 })
        false (1 + 2) =
      Except.error (Raised.lexerror
        ("unfinished long " ++ (if false then "string" else "comment") ++
          " (starting at line " ++ toString (7 : Int) ++ ")")
        (7 + (countNewlines [97, 93, 93, 10, 98] : Int)) (some (bytes "<eof>"))) :=
  read_long_string_unfinished (atText [91, 97, 93, 93, 10, 98] 7
    { buffer := [91, 61], buffsize := 32 }) false 1 rfl (by decide) (by decide) (by decide)
    (by decide)

/-! ## Theorems: comments -/

theorem llex_loop_fuel_succ (P : Platform) (f : Nat) :
    ∀ ls, llex_loop P f ls ≠ Except.error Raised.nofuel →
      llex_loop P (f + 1) ls = llex_loop P f ls := by
  induction f with
  | zero =>
    intro ls h
    exact absurd rfl h
  | succ f ih =>
    intro ls h
    rw [llex_loop]
    conv_rhs => rw [llex_loop]
    rw [llex_loop] at h
    simp only at h ⊢
    by_cases h1 : ls.current = 10 ∨ ls.current = 13
    · simp only [if_pos h1] at h ⊢
      cases hi : inclinenumber ls with
      | error e => rfl
      | ok ls1 =>
        simp only [hi] at h ⊢
        exact ih ls1 h
    simp only [if_neg h1] at h ⊢
    by_cases h2 : ls.current = 32 ∨ ls.current = 12 ∨ ls.current = 9 ∨ ls.current = 11
    · simp only [if_pos h2] at h ⊢
      exact ih _ h
    simp only [if_neg h2] at h ⊢
    by_cases h3 : ls.current = 45
    · simp only [if_pos h3] at h ⊢
      by_cases h4 : (next ls).current ≠ 45
      · simp only [if_pos h4]
      simp only [if_neg h4] at h ⊢
      cases hX : (if (next (next ls)).current = 91 then
                match skip_sep (next (next ls)) with
                | Except.error e => Except.error e
                | Except.ok (sep, ls3) => Except.ok (sep, luaZ_resetbuffer ls3)
              else (Except.ok (1, next (next ls)) : Except Raised (Nat × LexState))) with
      | error e => rfl
      | ok pr =>
        obtain ⟨sep, ls3⟩ := pr
        simp only [hX] at h ⊢
        by_cases h5 : (next (next ls)).current = 91 ∧ sep ≥ 2
        · simp only [if_pos h5] at h ⊢
          cases hR : read_long_string ls3 false sep with
          | error e => rfl
          | ok pr2 =>
            obtain ⟨ts, ls4⟩ := pr2
            simp only [hR] at h ⊢
            exact ih _ h
        · simp only [if_neg h5] at h ⊢
          cases hS : skip_comment_loop (ls3.z.length + 2) ls3 with
          | error e => rfl
          | ok ls4 =>
            simp only [hS] at h ⊢
            exact ih _ h
    simp only [if_neg h3]

theorem llex_loop_fuel_mono (P : Platform) (ls : LexState) (f g : Nat) (hfg : f ≤ g)
    (h : llex_loop P f ls ≠ Except.error Raised.nofuel) :
    llex_loop P g ls = llex_loop P f ls := by
  induction g with
  | zero =>
    have : f = 0 := by omega
    subst this
    rfl
  | succ g ih =>
    by_cases hf : f = g + 1
    · subst hf
      rfl
    · have hle : f ≤ g := by omega
      rw [llex_loop_fuel_succ P g ls (by rw [ih hle]; exact h), ih hle]

theorem read_long_comment_loop_body (n : Nat) (rest : List Nat) (line0 : Int) (m : Nat) :
    ∀ (body : List Nat) (line : Int) (b : Mbuffer) (fuel : Nat),
      body.length ≤ m → (∀ c ∈ body, c < 256) → CloserFree n body rest →
      body.length + 1 ≤ fuel → BufferRoom b (body.length + n + 2) →
      line + (countNewlines body : Int) < INT_MAX →
      ∃ b1, read_long_string_loop false (n + 2) line0 fuel
          (atText (body ++ (longCloser n ++ rest)) line b) =
        Except.ok (atText rest (line + (countNewlines body : Int)) b1) := by
  have base : ∀ (line : Int) (b : Mbuffer) (f : Nat), BufferRoom b (n + 2) →
      ∃ b1, read_long_string_loop false (n + 2) line0 (f + 1)
          (atText ([] ++ (longCloser n ++ rest)) line b) =
        Except.ok (atText rest (line + (countNewlines [] : Int)) b1) := by
    intro line b f hroom
    have hT : [] ++ (longCloser n ++ rest) = 93 :: (List.replicate n 61 ++ (93 :: rest)) := by
      simp [longCloser]
    rw [hT, read_long_string_loop]
    have hcur : (atText (93 :: (List.replicate n 61 ++ 93 :: rest)) line b).current = 93 := rfl
    have h1 : ¬ ((93 : Int) = EOZ) := by decide
    simp only [hcur, if_neg h1, if_true]
    rw [skip_sep_atText 93 n (93 :: rest) (by omega) (by simp) line b (hroom.mono (by omega))]
    have hl : sepLevel 93 n (93 :: rest) = n + 2 := by simp [sepLevel, peek]
    simp only [hl, if_true]
    have hroom2 : BufferRoom (b.pushAll (93 :: List.replicate n 61)) (0 + 1) := by
      apply BufferRoom.pushAll
      simp only [List.length_cons, List.length_replicate]
      exact hroom.mono (by omega)
    rw [save_and_next_atText 93 rest line _ 0 (by omega) hroom2]
    exact ⟨(b.pushAll (93 :: List.replicate n 61)).push 93, by simp [countNewlines]⟩
  induction m with
  | zero =>
    intro body line b fuel hlen _ _ hfuel hroom _
    have hb : body = [] := List.length_eq_zero.1 (by omega)
    subst hb
    obtain ⟨f, rfl⟩ : ∃ f, fuel = f + 1 := ⟨fuel - 1, by omega⟩
    exact base line b f (hroom.mono (by simp))
  | succ m ih =>
    intro body line b fuel hlen hbytes hfree hfuel hroom hline
    obtain ⟨f, rfl⟩ : ∃ f, fuel = f + 1 := ⟨fuel - 1, by omega⟩
    cases body with
    | nil => exact base line b f (hroom.mono (by simp))
    | cons c body1 =>
      have hbytes1 : ∀ x ∈ body1, x < 256 := fun x hx => hbytes x (List.mem_cons_of_mem _ hx)
      simp only [List.length_cons] at hlen hfuel hroom
      have hcur : (atText (c :: body1 ++ (longCloser n ++ rest)) line b).current = (c : Int) := rfl
      have hEOZ : ¬ ((c : Int) = EOZ) := by
        simp only [EOZ]
        omega
      rw [read_long_string_loop]
      simp only [hcur, if_neg hEOZ]
      by_cases h93 : c = 93
      · subst h93
        obtain ⟨j, l1, hj, hl1⟩ := run_of_equals body1
        subst hj
        have hhead : (l1 ++ (longCloser n ++ rest)).head? ≠ some 61 := by
          cases l1 with
          | nil => simp [longCloser]
          | cons d t => simpa using hl1
        have hT : 93 :: (List.replicate j 61 ++ l1) ++ (longCloser n ++ rest) =
            93 :: (List.replicate j 61 ++ (l1 ++ (longCloser n ++ rest))) := by simp
        simp only [List.length_append, List.length_replicate] at hlen hfuel hroom
        rw [hT, skip_sep_atText 93 j _ (by omega) hhead line b (hroom.mono (by omega))]
        have hlvl : ¬ sepLevel 93 j (l1 ++ (longCloser n ++ rest)) = n + 2 := by
          intro hl
          unfold sepLevel at hl
          split at hl
          · rename_i hp
            have hjn : j = n := by omega
            subst hjn
            apply hfree 0 (by simp)
            rw [List.drop_zero, hT]
            cases hr : l1 ++ (longCloser j ++ rest) with
            | nil => rw [hr] at hp; simp [peek, EOZ] at hp
            | cons d t =>
              rw [hr] at hp
              simp only [peek] at hp
              have hd : d = 93 := by omega
              subst hd
              exact ⟨t, by simp [longCloser]⟩
          · split at hl <;> omega
        simp only [Nat.cast_ofNat, if_true, if_neg hlvl]
        have hpre : 93 :: (List.replicate j 61 ++ l1) = (93 :: List.replicate j 61) ++ l1 := rfl
        have hplain : ∀ x ∈ (93 :: List.replicate j 61), ¬ (x = 10 ∨ x = 13) := by
          intro x hx
          simp only [List.mem_cons, List.mem_replicate] at hx
          omega
        obtain ⟨b1, hb1⟩ := ih l1 line (b.pushAll (93 :: List.replicate j 61)) f (by omega)
          (fun x hx => hbytes1 x (by simp [hx]))
          (CloserFree.suffix (93 :: List.replicate j 61) hfree) (by omega)
          (by
            apply BufferRoom.pushAll
            simp only [List.length_cons, List.length_replicate]
            exact hroom.mono (by omega))
          (by
            rw [hpre, countNewlines_plain _ _ hplain] at hline
            exact hline)
        exact ⟨b1, by rw [hb1, hpre, countNewlines_plain _ _ hplain]⟩
      · have h93' : ¬ ((c : Int) = 93) := by omega
        simp only [if_neg h93']
        by_cases hnl : c = 10 ∨ c = 13
        · have hnl' : (c : Int) = 10 ∨ (c : Int) = 13 := by omega
          simp only [if_pos hnl']
          have hcount := countNewlines_newline c body1 hnl
          have hsave := save_atText (c :: body1 ++ (longCloser n ++ rest)) line b 10
            (body1.length + 1 + n + 1) (hroom.mono (by omega))
          have h10 : cast_char 10 = 10 := rfl
          rw [hsave, h10]
          simp only
          rw [List.cons_append, inclinenumber_atText c _ line _ (by rw [hcount] at hline; omega)]
          simp only [Bool.false_eq_true, if_false]
          rw [afterNewline_append c body1 _ (by
            intro d hd
            simp only [longCloser, List.cons_append, List.head?_cons, Option.some.injEq] at hd
            omega)]
          obtain ⟨pre, hpre, hne⟩ := afterNewline_suffix c body1
          have hlen2 : (afterNewline c body1).length ≤ body1.length := by
            have := congrArg List.length hpre
            simp only [List.length_cons, List.length_append] at this
            have : 0 < pre.length := List.length_pos.2 hne
            omega
          have hreset : ∀ t l bb, luaZ_resetbuffer (atText t l bb) =
              atText t l { bb with buffer := [] } := fun _ _ _ => rfl
          rw [hreset]
          obtain ⟨b1, hb1⟩ := ih (afterNewline c body1) (line + 1)
            { b.push 10 with buffer := [] } f (by omega)
            (fun x hx => hbytes x (by rw [hpre]; simp [hx]))
            (CloserFree.suffix pre (by rw [← hpre]; exact hfree)) (by omega)
            (BufferRoom.reset (BufferRoom.push (hroom.mono (Nat.le_refl _)) 10) (by omega))
            (by rw [hcount] at hline; push_cast at hline; omega)
          refine ⟨b1, ?_⟩
          rw [hb1, hcount]
          congr 2
          push_cast
          omega
        · have hnl' : ¬ ((c : Int) = 10 ∨ (c : Int) = 13) := by omega
          simp only [if_neg hnl', Bool.false_eq_true, if_false]
          rw [List.cons_append, next_atText]
          obtain ⟨b1, hb1⟩ := ih body1 line b f (by omega) hbytes1
            (CloserFree.suffix [c] hfree) (by omega) (hroom.mono (by omega))
            (by rw [countNewlines_other c body1 hnl] at hline; exact hline)
          exact ⟨b1, by rw [hb1, countNewlines_other c body1 hnl]⟩

theorem read_long_comment_atText (n : Nat) (body rest : List Nat) (line : Int) (b : Mbuffer)
    (hbytes : ∀ c ∈ body, c < 256) (hfree : CloserFree n body rest)
    (hroom : BufferRoom b (body.length + n + 3))
    (hline : line + (countNewlines body : Int) < INT_MAX) :
    ∃ b1, read_long_string (atText (91 :: (body ++ (longCloser n ++ rest))) line b) false (n + 2) =
      Except.ok (none, atText rest (line + (countNewlines body : Int)) b1) := by
  unfold read_long_string
  rw [save_and_next_atText 91 _ line b (body.length + n + 2) (by omega) hroom]
  simp only
  obtain ⟨pre, hpre, hcount⟩ := dropFirstNewline_spec body
  have hnn : (0 : Int) ≤ (countNewlines (dropFirstNewline body) : Int) := Int.natCast_nonneg _
  have hlenpre : (dropFirstNewline body).length ≤ body.length := by
    have := congrArg List.length hpre
    simp only [List.length_append] at this
    omega
  have hhead : ∀ d, (longCloser n ++ rest).head? = some d → ¬ (d = 10 ∨ d = 13) := by
    intro d hd
    simp only [longCloser, List.cons_append, List.head?_cons, Option.some.injEq] at hd
    omega
  have hpeek : peek (body ++ (longCloser n ++ rest)) = 10 ∨ peek (body ++ (longCloser n ++ rest)) = 13
      ↔ peek body = 10 ∨ peek body = 13 := by
    cases body with
    | nil => simp [peek, longCloser, EOZ]
    | cons c s => simp [peek]
  have hif : (if peek (body ++ (longCloser n ++ rest)) = 10 ∨
      peek (body ++ (longCloser n ++ rest)) = 13 then (1 : Int) else 0) =
      (if peek body = 10 ∨ peek body = 13 then 1 else 0) := by
    simp only [hpeek]
  rw [leading_newline_atText _ _ _ (by rw [hif]; rw [hcount] at hline; omega), hif,
    dropFirstNewline_append body _ (by simp [longCloser]) hhead]
  simp only [show (atText (91 :: (body ++ (longCloser n ++ rest))) line b).linenumber = line
    from rfl]
  obtain ⟨b1, hb1⟩ := read_long_comment_loop_body n rest line (dropFirstNewline body).length
    (dropFirstNewline body) (line + (if peek body = 10 ∨ peek body = 13 then 1 else 0))
    (b.push 91)
    ((atText (dropFirstNewline body ++ (longCloser n ++ rest))
      (line + (if peek body = 10 ∨ peek body = 13 then 1 else 0)) (b.push 91)).z.length + 2)
    (Nat.le_refl _) (fun x hx => hbytes x (by rw [hpre]; simp [hx]))
    (CloserFree.suffix pre (by rw [← hpre]; exact hfree))
    (by
      simp only [atText, List.length_tail, List.length_append, longCloser, List.length_cons]
      omega)
    ((BufferRoom.push (hroom.mono (Nat.le_refl _)) 91).mono (by omega))
    (by rw [hcount] at hline; omega)
  refine ⟨b1, ?_⟩
  rw [hb1]
  simp only [Bool.false_eq_true, if_false]
  congr 3
  rw [hcount]
  omega

theorem skip_comment_loop_to (body r : List Nat) (hbody : ∀ c ∈ body, c ≠ 10 ∧ c ≠ 13)
    (hr : r = [] ∨ peek r = 10 ∨ peek r = 13)
    (line : Int) (b : Mbuffer) (fuel : Nat) (hfuel : body.length + 1 ≤ fuel) :
    skip_comment_loop fuel (atText (body ++ r) line b) = Except.ok (atText r line b) := by
  induction body generalizing fuel with
  | nil =>
    obtain ⟨f, rfl⟩ : ∃ f, fuel = f + 1 := ⟨fuel - 1, by simp at hfuel; omega⟩
    have hstop : ¬ (¬ currIsNewline (atText ([] ++ r) line b) = true ∧
        (atText ([] ++ r) line b).current ≠ EOZ) := by
      rcases hr with rfl | h | h
      · simp [atText, peek]
      · simp [currIsNewline, atText, h]
      · simp [currIsNewline, atText, h]
    rw [skip_comment_loop, if_neg hstop]
    rfl
  | cons c t ih =>
    obtain ⟨f, rfl⟩ : ∃ f, fuel = f + 1 := ⟨fuel - 1, by simp at hfuel; omega⟩
    have hc := hbody c (List.mem_cons_self _ _)
    have h1 : ¬ currIsNewline (atText (c :: t ++ r) line b) = true := by
      simp only [currIsNewline, atText, List.cons_append, peek, decide_eq_true_eq]
      omega
    have h2 : (atText (c :: t ++ r) line b).current ≠ EOZ := by
      simp only [atText, List.cons_append, peek, EOZ]
      omega
    rw [skip_comment_loop, if_pos ⟨h1, h2⟩, List.cons_append, next_atText]
    exact ih (fun x hx => hbody x (List.mem_cons_of_mem _ hx)) f (by
      simp only [List.length_cons] at hfuel
      omega)

theorem llex_loop_long_comment (P : Platform) (n : Nat) (body r : List Nat) (line : Int)
    (b : Mbuffer) (hbytes : ∀ c ∈ body, c < 256) (hfree : CloserFree n body r)
    (hroom : BufferRoom b (body.length + n + 3)) (hb : b.buffer = [])
    (hline : line + (countNewlines body : Int) < INT_MAX) :
    ∃ b1, b1.buffer = [] ∧ ∀ fuel,
      llex_loop P (fuel + 1)
          (atText (45 :: 45 :: (longOpener n ++ (body ++ (longCloser n ++ r)))) line b) =
        llex_loop P fuel (atText r (line + (countNewlines body : Int)) b1) := by
  have hT : longOpener n ++ (body ++ (longCloser n ++ r)) =
      91 :: (List.replicate n 61 ++ (91 :: (body ++ (longCloser n ++ r)))) := by
    simp [longOpener]
  have hreset : ∀ t l bb, luaZ_resetbuffer (atText t l bb) =
      atText t l { bb with buffer := [] } := fun _ _ _ => rfl
  have hroom0 : BufferRoom { b.pushAll (91 :: List.replicate n 61) with buffer := [] }
      (body.length + n + 3) := by
    have h1 : BufferRoom (b.pushAll (91 :: List.replicate n 61)) 0 := by
      apply BufferRoom.pushAll
      simp only [List.length_cons, List.length_replicate]
      exact hroom.mono (by omega)
    have h2 := hroom.2.2
    have h3 := h1.2.1
    unfold BufferRoom
    simp only [List.length_nil, hb] at h2 ⊢
    omega
  obtain ⟨b1, hb1⟩ := read_long_comment_atText n body r line _ hbytes hfree hroom0 hline
  refine ⟨{ b1 with buffer := [] }, rfl, fun fuel => ?_⟩
  rw [llex_loop_comment, hT]
  have hpk : peek (91 :: (List.replicate n 61 ++ 91 :: (body ++ (longCloser n ++ r)))) = 91 := rfl
  rw [hpk, skip_sep_atText 91 n _ (by omega) (by simp) line b (hroom.mono (by omega))]
  have hl : sepLevel 91 n (91 :: (body ++ (longCloser n ++ r))) = n + 2 := by
    simp [sepLevel, peek]
  simp only [hl, if_true, hreset]
  rw [if_pos ⟨trivial, by omega⟩, hb1]
  rfl

theorem llex_loop_short_comment (P : Platform) (body r : List Nat) (line : Int)
    (b : Mbuffer) (hbody : ∀ c ∈ body, c ≠ 10 ∧ c ≠ 13)
    (hr : r = [] ∨ peek r = 10 ∨ peek r = 13)
    (hopen : ∀ k t, body ≠ 91 :: (List.replicate k 61 ++ 91 :: t))
    (hroom : BufferRoom b body.length) :
    ∃ b1, (b.buffer = [] → b1.buffer = []) ∧ ∀ fuel,
      llex_loop P (fuel + 1) (atText (45 :: 45 :: (body ++ r)) line b) =
        llex_loop P fuel (atText r line b1) := by
  have hreset : ∀ t l bb, luaZ_resetbuffer (atText t l bb) =
      atText t l { bb with buffer := [] } := fun _ _ _ => rfl
  by_cases h91 : peek (body ++ r) = 91
  · -- the text starts with a bracket that opens no long comment
    obtain ⟨c, body1, rfl⟩ : ∃ c body1, body = c :: body1 := by
      cases body with
      | nil =>
        rcases hr with rfl | h | h
        · simp [peek, EOZ] at h91
        · simp only [List.nil_append] at h91; omega
        · simp only [List.nil_append] at h91; omega
      | cons c t => exact ⟨c, t, rfl⟩
    have hc : c = 91 := by
      simp only [List.cons_append, peek] at h91
      omega
    subst hc
    obtain ⟨j, l1, hj, hl1⟩ := run_of_equals body1
    subst hj
    have hhead : (l1 ++ r).head? ≠ some 61 := by
      cases l1 with
      | nil =>
        rcases hr with rfl | h | h
        · simp
        · cases r with
          | nil => simp
          | cons d t => simp only [peek] at h; simp; omega
        · cases r with
          | nil => simp
          | cons d t => simp only [peek] at h; simp; omega
      | cons d t => simpa using hl1
    have hnot91 : ¬ peek (l1 ++ r) = ((91 : Nat) : Int) := by
      cases l1 with
      | nil =>
        rcases hr with rfl | h | h
        · simp [peek, EOZ]
        · simp only [List.nil_append]; omega
        · simp only [List.nil_append]; omega
      | cons d t =>
        simp only [List.cons_append, peek]
        intro hd
        have hd' : d = 91 := by omega
        subst hd'
        exact hopen j t rfl
    have hT : 91 :: (List.replicate j 61 ++ l1) ++ r = 91 :: (List.replicate j 61 ++ (l1 ++ r)) := by
      simp
    simp only [List.length_cons, List.length_append, List.length_replicate] at hroom
    have hlvl : ¬ sepLevel 91 j (l1 ++ r) ≥ 2 := by
      unfold sepLevel
      rw [if_neg hnot91]
      split <;> omega
    have hcond : ¬ (peek (91 :: (List.replicate j 61 ++ (l1 ++ r))) = 91 ∧
        sepLevel 91 j (l1 ++ r) ≥ 2) := fun h => hlvl h.2
    refine ⟨{ b.pushAll (91 :: List.replicate j 61) with buffer := [] }, fun _ => rfl,
      fun fuel => ?_⟩
    rw [llex_loop_comment, if_pos h91, hT,
      skip_sep_atText 91 j _ (by omega) hhead line b (hroom.mono (by omega))]
    simp only [hreset]
    rw [if_neg hcond, skip_comment_loop_to l1 r
      (fun x hx => hbody x (by simp [hx])) hr line _ _ (by
        simp only [atText, List.length_tail, List.length_append]
        omega)]
  · refine ⟨b, fun h => h, fun fuel => ?_⟩
    rw [llex_loop_comment, if_neg h91]
    simp only
    rw [if_neg (fun h => h91 h.1), skip_comment_loop_to body r hbody hr line b _ (by
      simp only [atText, List.length_tail, List.length_append]
      omega)]

theorem llex_after_comment (P : Platform) (T r : List Nat) (line line1 : Int) (b b1 : Mbuffer)
    (hb1 : b1.buffer = []) (hlen : r.length + 2 ≤ T.length)
    (hstep : ∀ fuel, llex_loop P (fuel + 1) (atText T line { b with buffer := [] }) =
      llex_loop P fuel (atText r line1 b1))
    (hfuel : llex P (atText r line1 b1) ≠ Except.error Raised.nofuel) :
    llex P (atText T line b) = llex P (atText r line1 b1) := by
  have hr : luaZ_resetbuffer (atText r line1 b1) = atText r line1 b1 := by
    cases b1
    simp only at hb1
    subst hb1
    rfl
  have e2 : llex P (atText r line1 b1) =
      llex_loop P (r.tail.length + 2) (atText r line1 b1) := by
    unfold llex
    rw [hr]
    rfl
  have e1 : llex P (atText T line b) = llex_loop P (T.tail.length + 1) (atText r line1 b1) := by
    unfold llex
    have hT : luaZ_resetbuffer (atText T line b) = atText T line { b with buffer := [] } := rfl
    rw [hT]
    exact hstep _
  rw [e1, e2]
  rw [e2] at hfuel
  exact llex_loop_fuel_mono P _ _ _ (by
    simp only [List.length_tail]
    omega) hfuel

theorem llex_eos (P : Platform) (line : Int) (b : Mbuffer) :
    llex P (atText [] line b) =
      Except.ok (TK_EOS, SemInfo.none, atText [] line { b with buffer := [] }) := by
  unfold llex
  exact llex_loop_eos P _ line _

/-- C12, counterexample: the text `--[[` is `--` followed by something that is
no long bracket with its closer, taken up to the next newline; with the
continuation newline, `x` the scan does not give the name `x` that the
continuation gives alone: the opener starts a long comment, which swallows the
continuation and ends in an error. -/
theorem llex_unclosed_bracket_comment_swallows :
    llex integerPlatform (luaX_setinput ([45, 45, 91, 91] ++ [10, 120])) =
        Except.error (Raised.lexerror "unfinished long comment (starting at line 1)" 2
          (some (bytes "<eof>")))
    ∧ llex integerPlatform (luaX_setinput [10, 120]) =
        Except.ok (TK_NAME, SemInfo.ts [120], atText [] 2 { buffer := [120], buffsize := 32 }) :=
  ⟨rfl, rfl⟩

/-- C12, amended: a comment produces no token.  For a long comment (`--`, an
opener of level `n`, a body and its first closer of level `n`) and for a short
comment (`--` followed by a text without newline that does not begin with a
long-bracket opener, up to the next newline or the end of the stream), `llex`
on the comment followed by `r` gives what `llex` gives on `r` alone, started on
the line after the comment: the line counter is advanced by the number of
newline sequences of the comment (none for a short comment). -/
theorem llex_comment_no_token (P : Platform) (r : List Nat) (line : Int) (b : Mbuffer) :
    (∀ (n : Nat) (body : List Nat), (∀ c ∈ body, c < 256) → CloserFree n body r →
      BufferRoom { b with buffer := [] } (body.length + n + 3) →
      line + (countNewlines body : Int) < INT_MAX →
      ∃ b1, b1.buffer = [] ∧
        (llex P (atText r (line + (countNewlines body : Int)) b1) ≠ Except.error Raised.nofuel →
          llex P (atText (45 :: 45 :: (longOpener n ++ (body ++ (longCloser n ++ r)))) line b) =
            llex P (atText r (line + (countNewlines body : Int)) b1)))
    ∧ (∀ body : List Nat, (∀ c ∈ body, c ≠ 10 ∧ c ≠ 13) →
      (r = [] ∨ peek r = 10 ∨ peek r = 13) →
      (∀ k t, body ≠ 91 :: (List.replicate k 61 ++ 91 :: t)) →
      BufferRoom { b with buffer := [] } body.length →
      ∃ b1, b1.buffer = [] ∧
        (llex P (atText r line b1) ≠ Except.error Raised.nofuel →
          llex P (atText (45 :: 45 :: (body ++ r)) line b) = llex P (atText r line b1))) := by
  constructor
  · intro n body hbytes hfree hroom hline
    obtain ⟨b1, hb1, hstep⟩ := llex_loop_long_comment P n body r line
      { b with buffer := [] } hbytes hfree hroom rfl hline
    exact ⟨b1, hb1, fun hfuel => llex_after_comment P _ r line _ b b1 hb1 (by
      simp only [List.length_cons, List.length_append, longOpener, longCloser]
      omega) hstep hfuel⟩
  · intro body hbody hr hopen hroom
    obtain ⟨b1, hb1, hstep⟩ := llex_loop_short_comment P body r line
      { b with buffer := [] } hbody hr hopen hroom
    exact ⟨b1, hb1 rfl, fun hfuel => llex_after_comment P _ r line _ b b1 (hb1 rfl) (by
      simp only [List.length_cons, List.length_append]
      omega) hstep hfuel⟩

/-- Witness of C12 (amended): the long comment `--[[a`, newline, `b]]` and the
short comment `--[=a`, each at the end of the stream. -/
theorem llex_comment_no_token_witness :
    (∃ b1 : Mbuffer, b1.buffer = [] ∧
      llex integerPlatform (atText (45 :: 45 :: (longOpener 0 ++ ([97, 10, 98] ++
          (longCloser 0 ++ [])))) 1 { buffer := [], buffsize := 32 }) =
        llex integerPlatform (atText [] (1 + (countNewlines [97, 10, 98] : Int)) b1))
    ∧ ∃ b1 : Mbuffer, b1.buffer = [] ∧
      llex integerPlatform (atText (45 :: 45 :: ([91, 61, 97] ++ [])) 1
          { buffer := [], buffsize := 32 }) =
        llex integerPlatform (atText [] 1 b1) := by
  have h := llex_comment_no_token integerPlatform [] 1 { buffer := [], buffsize := 32 }
  constructor
  · obtain ⟨b1, hb1, h1⟩ := h.1 0 [97, 10, 98] (by decide) (by decide) (by decide) (by decide)
    exact ⟨b1, hb1, h1 (by rw [llex_eos]; simp)⟩
  · obtain ⟨b1, hb1, h1⟩ := h.2 [91, 61, 97] (by decide) (Or.inl rfl)
      (by
        intro k t hk
        cases k with
        | zero => simp at hk
        | succ k =>
          cases k with
          | zero => simp [List.replicate] at hk
          | succ k => simp [List.replicate] at hk)
      (by decide)
    exact ⟨b1, hb1, h1 (by rw [llex_eos]; simp)⟩

/-! ## Theorems: escapes of short strings -/

theorem luaZ_buffremove_atText (t : List Nat) (line : Int) (b : Mbuffer) (i : Nat)
    (hi : i ≤ b.buffer.length) :
    luaZ_buffremove (atText t line b) i = Except.ok (atText t line (b.remove i)) := by
  unfold luaZ_buffremove
  have : ¬ (atText t line b).buff.buffer.length < i := by
    simp only [atText]
    omega
  rw [if_neg this]
  rfl

theorem remove_pushAll (b : Mbuffer) (xs : List Nat) :
    ((b.pushAll xs).remove xs.length).buffer = b.buffer := by
  simp [Mbuffer.remove, pushAll_buffer]

theorem BufferRoom.remove {b : Mbuffer} {m : Nat} (h : BufferRoom b m) (i : Nat) :
    BufferRoom (b.remove i) m := by
  unfold BufferRoom at *
  simp only [Mbuffer.remove, List.length_take]
  omega

theorem cstr_snoc_nul (xs : List Nat) : cstr (xs ++ [0]) = cstr xs := by
  unfold cstr
  induction xs with
  | nil => simp
  | cons c t ih =>
    simp only [List.cons_append, List.takeWhile_cons]
    split
    · rw [ih]
    · rfl

theorem lexerror_string_text (t : List Nat) (line : Int) (b : Mbuffer) (msg : String)
    (hroom : BufferRoom b 1) :
    lexerror (atText t line b) msg TK_STRING =
      Raised.lexerror msg line (some ([39] ++ cstr b.buffer ++ [39])) := by
  have hs := save_atText t line b 0 0 hroom
  have h0 : TK_STRING ≠ 0 := by decide
  simp only [lexerror, if_neg h0, txtToken, or_true, true_or, if_true, hs]
  simp only [atText, push_buffer]
  have : cast_char 0 = 0 := rfl
  rw [this, cstr_snoc_nul]

theorem esccheck_pass (ls : LexState) (msg : String) : esccheck ls true msg = Except.ok ls := by
  simp [esccheck]

theorem esccheck_fail_atText (t : List Nat) (line : Int) (b : Mbuffer) (msg : String)
    (hroom : BufferRoom b 2) (ht : ∀ c ∈ t.take 1, c < 256) :
    esccheck (atText t line b) false msg =
      Except.error (Raised.lexerror msg line (some ([39] ++ cstr (b.buffer ++ t.take 1) ++ [39]))) := by
  unfold esccheck
  simp only [Bool.false_eq_true, if_false]
  cases t with
  | nil =>
    have h1 : ¬ (atText [] line b).current ≠ EOZ := by simp [atText, peek]
    rw [if_neg h1]
    simp only
    rw [lexerror_string_text _ _ _ _ (hroom.mono (by omega))]
    simp
  | cons c s =>
    have hc : c < 256 := ht c (by simp)
    have h1 : (atText (c :: s) line b).current ≠ EOZ := by
      simp only [atText, peek, EOZ]
      omega
    rw [if_pos h1, save_and_next_atText c s line b 1 hc hroom]
    simp only
    rw [lexerror_string_text _ _ _ _ (BufferRoom.push hroom c)]
    simp [push_buffer]

theorem only_save_atText (t : List Nat) (line : Int) (b : Mbuffer) (v : Int)
    (hlen : 1 ≤ b.buffer.length) (hroom : BufferRoom b 0) :
    only_save (atText t line b) v =
      Except.ok (atText t line ((b.remove 1).push (cast_char v))) := by
  unfold only_save
  rw [luaZ_buffremove_atText _ _ _ _ hlen]
  simp only
  have hr : BufferRoom (b.remove 1) (0 + 1) := by
    unfold BufferRoom at *
    simp only [Mbuffer.remove, List.length_take]
    omega
  rw [save_atText _ _ _ _ 0 hr]

theorem read_save_atText (c : Nat) (t : List Nat) (line : Int) (b : Mbuffer) (v : Int)
    (hlen : 1 ≤ b.buffer.length) (hroom : BufferRoom b 0) :
    read_save (atText (c :: t) line b) v =
      Except.ok (atText t line ((b.remove 1).push (cast_char v))) := by
  unfold read_save
  rw [next_atText, only_save_atText _ _ _ _ hlen hroom]

theorem remove_push_buffer (b : Mbuffer) (x : Nat) : ((b.push x).remove 1).buffer = b.buffer := by
  have := remove_pushAll b [x]
  simpa [Mbuffer.pushAll] using this

theorem read_string_loop_escape (del : Int) (hdel : del = 34 ∨ del = 39) (fuel : Nat)
    (t : List Nat) (line : Int) (b : Mbuffer) (hroom : BufferRoom b 1) :
    read_string_loop del (fuel + 1) (atText (92 :: t) line b) =
      match read_escape (atText t line (b.push 92)) with
      | Except.error e => Except.error e
      | Except.ok ls2 => read_string_loop del fuel ls2 := by
  rw [read_string_loop]
  have hcur : (atText (92 :: t) line b).current = 92 := rfl
  have h1 : ¬ ((92 : Int) = del) := by omega
  have h2 : ¬ ((92 : Int) = EOZ) := by decide
  have h3 : ¬ ((92 : Int) = 10 ∨ (92 : Int) = 13) := by decide
  simp only [hcur, if_neg h1, if_neg h2, if_neg h3, if_true]
  rw [save_and_next_atText 92 t line b 0 (by omega) hroom]

theorem read_escape_other (c : Nat) (rest : List Nat) (line : Int) (b : Mbuffer)
    (h : c ≠ 97 ∧ c ≠ 98 ∧ c ≠ 102 ∧ c ≠ 110 ∧ c ≠ 114 ∧ c ≠ 116 ∧ c ≠ 118 ∧ c ≠ 120 ∧
      c ≠ 111 ∧ c ≠ 117 ∧ c ≠ 10 ∧ c ≠ 13 ∧ c ≠ 92 ∧ c ≠ 34 ∧ c ≠ 39) :
    read_escape (atText (c :: rest) line b) =
      if (c : Int) = 122 then
        match luaZ_buffremove (atText (c :: rest) line b) 1 with
        | Except.error e => Except.error e
        | Except.ok ls1 => zap_loop ((next ls1).z.length + 2) (next ls1)
      else
        match esccheck (atText (c :: rest) line b) (lisdigit (c : Int))
            "invalid escape sequence" with
        | Except.error e => Except.error e
        | Except.ok ls1 =>
          match readdecesc ls1 with
          | Except.error e => Except.error e
          | Except.ok (r, ls2) => only_save ls2 r := by
  have hcur : (atText (c :: rest) line b).current = (c : Int) := rfl
  have e1 : ¬ ((c : Int) = 97) := by omega
  have e2 : ¬ ((c : Int) = 98) := by omega
  have e3 : ¬ ((c : Int) = 102) := by omega
  have e4 : ¬ ((c : Int) = 110) := by omega
  have e5 : ¬ ((c : Int) = 114) := by omega
  have e6 : ¬ ((c : Int) = 116) := by omega
  have e7 : ¬ ((c : Int) = 118) := by omega
  have e8 : ¬ ((c : Int) = 120) := by omega
  have e9 : ¬ ((c : Int) = 111) := by omega
  have e10 : ¬ ((c : Int) = 117) := by omega
  have e11 : ¬ ((c : Int) = 10 ∨ (c : Int) = 13) := by omega
  have e12 : ¬ ((c : Int) = 92 ∨ (c : Int) = 34 ∨ (c : Int) = 39) := by omega
  have e13 : ¬ ((c : Int) = EOZ) := by
    simp only [EOZ]
    omega
  unfold read_escape
  simp only [hcur]
  rw [if_neg e1, if_neg e2, if_neg e3, if_neg e4, if_neg e5, if_neg e6, if_neg e7, if_neg e8,
    if_neg e9, if_neg e10, if_neg e11, if_neg e12, if_neg e13]

theorem read_escape_simple_aux (k : Nat) (w : Int) (rest : List Nat) (line : Int) (b : Mbuffer)
    (hk : (k = 97 ∧ w = 7) ∨ (k = 98 ∧ w = 8) ∨ (k = 102 ∧ w = 12) ∨ (k = 110 ∧ w = 10) ∨
      (k = 114 ∧ w = 13) ∨ (k = 116 ∧ w = 9) ∨ (k = 118 ∧ w = 11) ∨ (k = 92 ∧ w = 92) ∨
      (k = 34 ∧ w = 34) ∨ (k = 39 ∧ w = 39)) :
    read_escape (atText (k :: rest) line b) = read_save (atText (k :: rest) line b) w := by
  have hcur : (atText (k :: rest) line b).current = (k : Int) := rfl
  unfold read_escape
  simp only [hcur]
  rcases hk with h | h | h | h | h | h | h | h | h | h <;>
    (obtain ⟨rfl, rfl⟩ := h
     simp [EOZ])

theorem simpleEscape_cases (c v : Nat) (h : simpleEscape c = some v) :
    (c = 97 ∧ (v : Int) = 7) ∨ (c = 98 ∧ (v : Int) = 8) ∨ (c = 102 ∧ (v : Int) = 12) ∨
      (c = 110 ∧ (v : Int) = 10) ∨ (c = 114 ∧ (v : Int) = 13) ∨ (c = 116 ∧ (v : Int) = 9) ∨
      (c = 118 ∧ (v : Int) = 11) ∨ (c = 92 ∧ (v : Int) = 92) ∨ (c = 34 ∧ (v : Int) = 34) ∨
      (c = 39 ∧ (v : Int) = 39) := by
  unfold simpleEscape at h
  by_cases h97 : c = 97
  · rw [if_pos h97] at h
    simp only [Option.some.injEq] at h
    subst h97
    subst h
    simp
  rw [if_neg h97] at h
  by_cases h98 : c = 98
  · rw [if_pos h98] at h
    simp only [Option.some.injEq] at h
    subst h98
    subst h
    simp
  rw [if_neg h98] at h
  by_cases h102 : c = 102
  · rw [if_pos h102] at h
    simp only [Option.some.injEq] at h
    subst h102
    subst h
    simp
  rw [if_neg h102] at h
  by_cases h110 : c = 110
  · rw [if_pos h110] at h
    simp only [Option.some.injEq] at h
    subst h110
    subst h
    simp
  rw [if_neg h110] at h
  by_cases h114 : c = 114
  · rw [if_pos h114] at h
    simp only [Option.some.injEq] at h
    subst h114
    subst h
    simp
  rw [if_neg h114] at h
  by_cases h116 : c = 116
  · rw [if_pos h116] at h
    simp only [Option.some.injEq] at h
    subst h116
    subst h
    simp
  rw [if_neg h116] at h
  by_cases h118 : c = 118
  · rw [if_pos h118] at h
    simp only [Option.some.injEq] at h
    subst h118
    subst h
    simp
  rw [if_neg h118] at h
  by_cases h92 : c = 92
  · rw [if_pos h92] at h
    simp only [Option.some.injEq] at h
    subst h92
    subst h
    simp
  rw [if_neg h92] at h
  by_cases h34 : c = 34
  · rw [if_pos h34] at h
    simp only [Option.some.injEq] at h
    subst h34
    subst h
    simp
  rw [if_neg h34] at h
  by_cases h39 : c = 39
  · rw [if_pos h39] at h
    simp only [Option.some.injEq] at h
    subst h39
    subst h
    simp
  rw [if_neg h39] at h
  exact absurd h (by simp)

theorem read_escape_invalid (c : Nat) (hc : c < 256) (hesc : escapeStart c = false)
    (rest : List Nat) (line : Int) (b : Mbuffer) (hroom : BufferRoom b 2) :
    read_escape (atText (c :: rest) line b) =
      Except.error (Raised.lexerror "invalid escape sequence" line
        (some ([39] ++ cstr (b.buffer ++ [c]) ++ [39]))) := by
  have hcur : (atText (c :: rest) line b).current = (c : Int) := rfl
  simp only [escapeStart, decide_eq_false_iff_not] at hesc
  have hdig : lisdigit (c : Int) = false := by
    simp only [lisdigit, decide_eq_false_iff_not]
    omega
  rw [read_escape_other c rest line b (by omega), if_neg (by omega), hdig,
    esccheck_fail_atText _ _ _ _ hroom (by simpa using hc)]
  simp

/-- C18: in a short string, each of the escapes `\a \b \f \n \r \t \v \\ \" \'`
adds exactly one byte, the byte it names, and reads the backslash and the
letter; a backslash followed by a character that starts no escape (no letter
of an escape, no backslash, quote, newline character or decimal digit) raises
the error "invalid escape sequence", whose text ends with that character. -/
theorem read_string_letter_escapes (del : Int) (hdel : del = 34 ∨ del = 39) (fuel c : Nat)
    (rest : List Nat) (line : Int) (b : Mbuffer) (hc : c < 256) (hroom : BufferRoom b 3) :
    (∀ v, simpleEscape c = some v →
      ∃ b1, b1.buffer = b.buffer ++ [v]
        ∧ read_string_loop del (fuel + 1) (atText (92 :: c :: rest) line b) =
          read_string_loop del fuel (atText rest line b1))
    ∧ (escapeStart c = false →
      read_string_loop del (fuel + 1) (atText (92 :: c :: rest) line b) =
        Except.error (Raised.lexerror "invalid escape sequence" line
          (some ([39] ++ cstr (b.buffer ++ [92, c]) ++ [39])))) := by
  have hstep := read_string_loop_escape del hdel fuel (c :: rest) line b (hroom.mono (by omega))
  have hroom1 : BufferRoom (b.push 92) 2 := BufferRoom.push hroom 92
  have hlen1 : 1 ≤ (b.push 92).buffer.length := by simp [push_buffer]
  constructor
  · intro v hv
    have hv256 : v < 256 := by
      have := simpleEscape_cases c v hv
      omega
    refine ⟨((b.push 92).remove 1).push v, by rw [push_buffer, remove_push_buffer], ?_⟩
    rw [hstep, read_escape_simple_aux c (v : Int) rest line _ (simpleEscape_cases c v hv),
      read_save_atText c rest line _ _ hlen1 (hroom1.mono (by omega)),
      cast_char_natCast v hv256]
  · intro hesc
    rw [hstep, read_escape_invalid c hc hesc rest line _ hroom1]
    simp [push_buffer]

/-- Witness of C18: `\n` in a string delimited by `"`, on an empty buffer. -/
theorem read_string_letter_escapes_witness :
    ∃ b1 : Mbuffer, b1.buffer = [34] ++ [10]
      ∧ read_string_loop 34 (5 + 1) (atText (92 :: 110 :: [34]) 1
          { buffer := [34], buffsize := 32 }) =
        read_string_loop 34 5 (atText [34] 1 b1) :=
  (read_string_letter_escapes 34 (Or.inl rfl) 5 110 [34] 1 { buffer := [34], buffsize := 32 }
    (by decide) (by decide)).1 10 rfl

theorem read_string_loop_plain (del : Int) (fuel c : Nat) (rest : List Nat) (line : Int)
    (b : Mbuffer) (hc : c < 256) (hdel : (c : Int) ≠ del) (hnl : c ≠ 10 ∧ c ≠ 13) (hbs : c ≠ 92)
    (hroom : BufferRoom b 1) :
    read_string_loop del (fuel + 1) (atText (c :: rest) line b) =
      read_string_loop del fuel (atText rest line (b.push c)) := by
  rw [read_string_loop]
  have hcur : (atText (c :: rest) line b).current = (c : Int) := rfl
  simp only [hcur]
  rw [if_neg hdel, if_neg (by simp only [EOZ]; omega), if_neg (by omega), if_neg (by omega),
    save_and_next_atText c rest line b 0 hc hroom]

theorem decimalValue_cast (ds : List Nat) (hds : ∀ c ∈ ds, 48 ≤ c ∧ c ≤ 57) (a : Nat) :
    ds.foldl (fun (r : Int) (c : Nat) => 10 * r + (c : Int) - 48) (a : Int) =
      ((ds.foldl (fun a c => a * 10 + (c - 48)) a : Nat) : Int) := by
  induction ds generalizing a with
  | nil => rfl
  | cons c t ih =>
    have hc := hds c (List.mem_cons_self _ _)
    simp only [List.foldl_cons]
    rw [← ih (fun x hx => hds x (List.mem_cons_of_mem _ hx))]
    congr 1
    push_cast
    omega

theorem readdecesc_loop_digits (ds rest : List Nat) (hds : ∀ c ∈ ds, 48 ≤ c ∧ c ≤ 57)
    (line : Int) :
    ∀ (k : Nat) (b : Mbuffer) (r : Int) (i : Nat), ds.length ≤ k →
      (ds.length = k ∨ lisdigit (peek rest) = false) → BufferRoom b ds.length →
      readdecesc_loop k (atText (ds ++ rest) line b) r i =
        Except.ok (ds.foldl (fun (r : Int) (c : Nat) => 10 * r + (c : Int) - 48) r,
          i + ds.length, atText rest line (b.pushAll ds)) := by
  induction ds with
  | nil =>
    intro k b r i _ hstop _
    cases k with
    | zero => rfl
    | succ k =>
      have hnd : lisdigit (atText ([] ++ rest) line b).current = false := by
        rcases hstop with h | h
        · simp at h
        · exact h
      simp only [List.nil_append] at hnd ⊢
      rw [readdecesc_loop]
      simp [hnd, pushAll_nil]
  | cons d t ih =>
    intro k b r i hk hstop hroom
    have hd := hds d (List.mem_cons_self _ _)
    simp only [List.length_cons] at hk hstop hroom
    obtain ⟨k1, rfl⟩ : ∃ k1, k = k1 + 1 := ⟨k - 1, by omega⟩
    have hdig : lisdigit (atText (d :: t ++ rest) line b).current = true := by
      simp only [atText, List.cons_append, peek, lisdigit, decide_eq_true_eq]
      omega
    rw [readdecesc_loop]
    simp only [hdig, if_true]
    rw [List.cons_append, save_and_next_atText d _ line b t.length (by omega) hroom]
    simp only
    rw [ih (fun x hx => hds x (List.mem_cons_of_mem _ hx)) k1 _ _ _ (by omega)
      (by rcases hstop with h | h
          · left; omega
          · right; exact h) (BufferRoom.push hroom d)]
    simp only [List.foldl_cons, atText, peek, List.length_cons, pushAll_cons]
    have : i + 1 + t.length = i + (t.length + 1) := by omega
    rw [this]

theorem read_escape_decimal_start (d : Nat) (hd : 48 ≤ d ∧ d ≤ 57) (t : List Nat) (line : Int)
    (b : Mbuffer) :
    read_escape (atText (d :: t) line b) =
      match readdecesc (atText (d :: t) line b) with
      | Except.error e => Except.error e
      | Except.ok (r, ls2) => only_save ls2 r := by
  have hcur : (atText (d :: t) line b).current = (d : Int) := rfl
  have hdig : lisdigit (d : Int) = true := by
    simp only [lisdigit, decide_eq_true_eq]
    omega
  rw [read_escape_other d t line b (by omega), if_neg (by omega), hdig, esccheck_pass]

theorem readdecesc_atText (ds rest : List Nat) (hds : ∀ c ∈ ds, 48 ≤ c ∧ c ≤ 57)
    (hlen : ds.length ≤ 3) (hmax : ds.length = 3 ∨ lisdigit (peek rest) = false)
    (hrest : ∀ c ∈ rest.take 1, c < 256) (line : Int) (b : Mbuffer)
    (hroom : BufferRoom b (ds.length + 2)) :
    readdecesc (atText (ds ++ rest) line b) =
      if decimalValue ds ≤ 255 then
        Except.ok ((decimalValue ds : Int), atText rest line ((b.pushAll ds).remove ds.length))
      else
        Except.error (Raised.lexerror "decimal escape too large" line
          (some ([39] ++ cstr (b.buffer ++ (ds ++ rest.take 1)) ++ [39]))) := by
  unfold readdecesc
  rw [readdecesc_loop_digits ds rest hds line 3 b 0 0 hlen hmax (hroom.mono (by omega))]
  have hval := decimalValue_cast ds hds 0
  simp only [Nat.cast_zero] at hval
  simp only [hval, Nat.zero_add]
  have hfold : List.foldl (fun a c => a * 10 + (c - 48)) 0 ds = decimalValue ds := rfl
  rw [hfold]
  by_cases hv : decimalValue ds ≤ 255
  · have hv' : decide (((decimalValue ds : Nat) : Int) ≤ 255) = true := by
      simp only [decide_eq_true_eq]
      omega
    rw [if_pos hv, hv', esccheck_pass]
    simp only
    rw [luaZ_buffremove_atText _ _ _ _ (by simp [pushAll_buffer])]
  · have hv' : decide (((decimalValue ds : Nat) : Int) ≤ 255) = false := by
      simp only [decide_eq_false_iff_not]
      omega
    rw [if_neg hv, hv', esccheck_fail_atText _ _ _ _ (by
      apply BufferRoom.pushAll
      rw [Nat.add_comm]
      exact hroom) hrest]
    simp [pushAll_buffer]

/-- C14: in a short string, a backslash followed by a maximal run of one to
three decimal digits of value `v` adds the single byte `v` when `v ≤ 255` and
raises "decimal escape too large" when `v > 255`; only three digits are read,
a fourth one is saved as ordinary content.  The literal `"\65\66\67"` gives
the bytes `A`, `B`, `C`. -/
theorem read_string_decimal_escape (del : Int) (hdel : del = 34 ∨ del = 39) (fuel : Nat)
    (ds rest : List Nat) (line : Int) (b : Mbuffer)
    (hds : ∀ c ∈ ds, 48 ≤ c ∧ c ≤ 57) (hne : ds ≠ []) (hlen : ds.length ≤ 3)
    (hmax : ds.length = 3 ∨ lisdigit (peek rest) = false)
    (hrest : ∀ c ∈ rest.take 1, c < 256) (hroom : BufferRoom b (ds.length + 3)) :
    (decimalValue ds ≤ 255 →
      ∃ b1, b1.buffer = b.buffer ++ [decimalValue ds]
        ∧ read_string_loop del (fuel + 1) (atText (92 :: (ds ++ rest)) line b) =
          read_string_loop del fuel (atText rest line b1))
    ∧ (255 < decimalValue ds →
      read_string_loop del (fuel + 1) (atText (92 :: (ds ++ rest)) line b) =
        Except.error (Raised.lexerror "decimal escape too large" line
          (some ([39] ++ cstr (b.buffer ++ 92 :: (ds ++ rest.take 1)) ++ [39]))))
    ∧ (∀ (d : Nat) (t : List Nat) (b2 : Mbuffer), 48 ≤ d ∧ d ≤ 57 → BufferRoom b2 1 →
      read_string_loop del (fuel + 1) (atText (d :: t) line b2) =
        read_string_loop del fuel (atText t line (b2.push d)))
    ∧ ∀ P : Platform, ∃ ls1,
        llex P (luaX_setinput [34, 92, 54, 53, 92, 54, 54, 92, 54, 55, 34]) =
          Except.ok (TK_STRING, SemInfo.ts [65, 66, 67], ls1) := by
  obtain ⟨d0, t0, rfl⟩ : ∃ d0 t0, ds = d0 :: t0 := by
    cases ds with
    | nil => exact absurd rfl hne
    | cons d0 t0 => exact ⟨d0, t0, rfl⟩
  have hd0 := hds d0 (List.mem_cons_self _ _)
  have hstep := read_string_loop_escape del hdel fuel (d0 :: t0 ++ rest) line b
    (hroom.mono (by omega))
  have hroom1 : BufferRoom (b.push 92) ((d0 :: t0).length + 2) := BufferRoom.push hroom 92
  have hesc := read_escape_decimal_start d0 hd0 (t0 ++ rest) line (b.push 92)
  have hdec := readdecesc_atText (d0 :: t0) rest hds hlen hmax hrest line (b.push 92) hroom1
  rw [List.cons_append] at hdec hstep
  refine ⟨?_, ?_, ?_, ?_⟩
  · intro hv
    rw [if_pos hv] at hdec
    have hlen1 : 1 ≤ (((b.push 92).pushAll (d0 :: t0)).remove (d0 :: t0).length).buffer.length := by
      rw [remove_pushAll, push_buffer]
      simp
    have hroom2 : BufferRoom (((b.push 92).pushAll (d0 :: t0)).remove (d0 :: t0).length) 0 := by
      apply BufferRoom.remove
      apply BufferRoom.pushAll
      exact hroom1.mono (by omega)
    refine ⟨((((b.push 92).pushAll (d0 :: t0)).remove (d0 :: t0).length).remove 1).push
      (decimalValue (d0 :: t0)), ?_, ?_⟩
    rotate_left
    · rw [List.cons_append, hstep, hesc, hdec]
      simp only
      rw [only_save_atText _ _ _ _ hlen1 hroom2, cast_char_natCast _ (by omega)]
    · rw [push_buffer]
      congr 1
      show ((((b.push 92).pushAll (d0 :: t0)).remove (d0 :: t0).length).buffer.take
        ((((b.push 92).pushAll (d0 :: t0)).remove (d0 :: t0).length).buffer.length - 1)) = b.buffer
      rw [remove_pushAll, push_buffer]
      simp
  · intro hv
    rw [if_neg (by omega)] at hdec
    rw [List.cons_append, hstep, hesc, hdec]
    simp [push_buffer]
  · intro d t b2 hd hroom2
    exact read_string_loop_plain del fuel d t line b2 (by omega) (by omega) (by omega)
      (by omega) hroom2
  · intro P
    exact ⟨_, rfl⟩

/-- Witness of C14: `\65` followed by `6` in a string delimited by `"`. -/
theorem read_string_decimal_escape_witness :
    ∃ b1 : Mbuffer, b1.buffer = [34] ++ [decimalValue [54, 53]]
      ∧ read_string_loop 34 (4 + 1) (atText (92 :: ([54, 53] ++ [34])) 1
          { buffer := [34], buffsize := 32 }) =
        read_string_loop 34 4 (atText [34] 1 b1) :=
  (read_string_decimal_escape 34 (Or.inl rfl) 4 [54, 53] [34] 1
    { buffer := [34], buffsize := 32 } (by decide) (by decide) (by decide)
    (Or.inr rfl) (by decide) (by decide)).1 (by decide)

theorem luaO_hexavalue_digit (h : Nat) (hh : lisxdigit (h : Int) = true) :
    luaO_hexavalue (h : Int) = hexDigitValue h ∧ hexDigitValue h ≤ 15 ∧ h < 256 := by
  simp only [lisxdigit, decide_eq_true_eq] at hh
  unfold luaO_hexavalue hexDigitValue lisdigit ltolower
  simp only [decide_eq_true_eq]
  split_ifs <;> omega

theorem luaO_octavalue_digit (d : Nat) (hd : lisodigit (d : Int) = true) :
    luaO_octavalue (d : Int) = d - 48 ∧ d - 48 ≤ 7 ∧ d < 256 := by
  simp only [lisodigit, decide_eq_true_eq] at hd
  unfold luaO_octavalue
  omega

theorem gethexa_ok (c h : Nat) (t : List Nat) (line : Int) (b : Mbuffer) (hc : c < 256)
    (hroom : BufferRoom b 1) (hh : lisxdigit (h : Int) = true) :
    gethexa (atText (c :: h :: t) line b) =
      Except.ok (hexDigitValue h, atText (h :: t) line (b.push c)) := by
  unfold gethexa
  rw [save_and_next_atText c (h :: t) line b 0 hc hroom]
  have hcur : (atText (h :: t) line (b.push c)).current = (h : Int) := rfl
  simp only [hcur, hh, esccheck_pass, (luaO_hexavalue_digit h hh).1]

theorem gethexa_fail (c : Nat) (t : List Nat) (line : Int) (b : Mbuffer) (hc : c < 256)
    (hroom : BufferRoom b 3) (hh : lisxdigit (peek t) = false)
    (ht : ∀ x ∈ t.take 1, x < 256) :
    gethexa (atText (c :: t) line b) =
      Except.error (Raised.lexerror "hexadecimal digit expected" line
        (some ([39] ++ cstr (b.buffer ++ c :: t.take 1) ++ [39]))) := by
  unfold gethexa
  rw [save_and_next_atText c t line b 2 hc hroom]
  have hcur : (atText t line (b.push c)).current = peek t := rfl
  simp only [hcur, hh]
  rw [esccheck_fail_atText _ _ _ _ (BufferRoom.push hroom c) ht]
  simp [push_buffer]

theorem getocta_ok (c d : Nat) (t : List Nat) (line : Int) (b : Mbuffer) (hc : c < 256)
    (hroom : BufferRoom b 1) (hd : lisodigit (d : Int) = true) :
    getocta (atText (c :: d :: t) line b) =
      Except.ok (d - 48, atText (d :: t) line (b.push c)) := by
  unfold getocta
  rw [save_and_next_atText c (d :: t) line b 0 hc hroom]
  have hcur : (atText (d :: t) line (b.push c)).current = (d : Int) := rfl
  simp only [hcur, hd, esccheck_pass, (luaO_octavalue_digit d hd).1]

theorem getocta_fail (c : Nat) (t : List Nat) (line : Int) (b : Mbuffer) (hc : c < 256)
    (hroom : BufferRoom b 3) (hd : lisodigit (peek t) = false)
    (ht : ∀ x ∈ t.take 1, x < 256) :
    getocta (atText (c :: t) line b) =
      Except.error (Raised.lexerror "octal digit expected" line
        (some ([39] ++ cstr (b.buffer ++ c :: t.take 1) ++ [39]))) := by
  unfold getocta
  rw [save_and_next_atText c t line b 2 hc hroom]
  have hcur : (atText t line (b.push c)).current = peek t := rfl
  simp only [hcur, hd]
  rw [esccheck_fail_atText _ _ _ _ (BufferRoom.push hroom c) ht]
  simp [push_buffer]

theorem read_escape_hex_start (t : List Nat) (line : Int) (b : Mbuffer) :
    read_escape (atText (120 :: t) line b) =
      match readhexaesc (atText (120 :: t) line b) with
      | Except.error e => Except.error e
      | Except.ok (r, ls1) => read_save ls1 (r : Int) := by
  have hcur : (atText (120 :: t) line b).current = 120 := rfl
  unfold read_escape
  simp only [hcur]
  rfl

theorem read_escape_oct_start (t : List Nat) (line : Int) (b : Mbuffer) :
    read_escape (atText (111 :: t) line b) =
      match readoctaesc (atText (111 :: t) line b) with
      | Except.error e => Except.error e
      | Except.ok (r, ls1) => read_save ls1 (r : Int) := by
  have hcur : (atText (111 :: t) line b).current = 111 := rfl
  unfold read_escape
  simp only [hcur]
  rfl

theorem two_saved_removed (b : Mbuffer) (x y : Nat) :
    ((((b.push 92).push x).push y).remove 2).buffer = b.buffer ++ [92] := by
  have := remove_pushAll (b.push 92) [x, y]
  simpa [Mbuffer.pushAll, push_buffer] using this

theorem escape_result_buffer (b0 : Mbuffer) (b : Mbuffer) (v : Nat)
    (h : b0.buffer = b.buffer ++ [92]) : ((b0.remove 1).push v).buffer = b.buffer ++ [v] := by
  rw [push_buffer]
  simp [Mbuffer.remove, h]

theorem readhexaesc_ok (h1 h2 : Nat) (t : List Nat) (line : Int) (b : Mbuffer)
    (hroom : BufferRoom b 2) (hh1 : lisxdigit (h1 : Int) = true)
    (hh2 : lisxdigit (h2 : Int) = true) :
    readhexaesc (atText (120 :: h1 :: h2 :: t) line b) =
      Except.ok (hexDigitValue h1 * 16 + hexDigitValue h2,
        atText (h2 :: t) line (((b.push 120).push h1).remove 2)) := by
  unfold readhexaesc
  rw [gethexa_ok 120 h1 (h2 :: t) line b (by omega) (hroom.mono (by omega)) hh1]
  simp only
  rw [gethexa_ok h1 h2 t line (b.push 120) (luaO_hexavalue_digit h1 hh1).2.2
    (BufferRoom.push hroom 120) hh2]
  simp only
  rw [luaZ_buffremove_atText _ _ _ _ (by simp [push_buffer])]

theorem readoctaesc_ok (d1 d2 : Nat) (t : List Nat) (line : Int) (b : Mbuffer)
    (hroom : BufferRoom b 2) (hd1 : lisodigit (d1 : Int) = true)
    (hd2 : lisodigit (d2 : Int) = true) :
    readoctaesc (atText (111 :: d1 :: d2 :: t) line b) =
      Except.ok ((d1 - 48) * 8 + (d2 - 48),
        atText (d2 :: t) line (((b.push 111).push d1).remove 2)) := by
  unfold readoctaesc
  rw [getocta_ok 111 d1 (d2 :: t) line b (by omega) (hroom.mono (by omega)) hd1]
  simp only
  rw [getocta_ok d1 d2 t line (b.push 111) (luaO_octavalue_digit d1 hd1).2.2
    (BufferRoom.push hroom 111) hd2]
  simp only
  rw [luaZ_buffremove_atText _ _ _ _ (by simp [push_buffer])]

theorem readhexaesc_fail1 (t : List Nat) (line : Int) (b : Mbuffer)
    (hroom : BufferRoom b 3) (hh : lisxdigit (peek t) = false)
    (ht : ∀ x ∈ t.take 1, x < 256) :
    readhexaesc (atText (120 :: t) line b) =
      Except.error (Raised.lexerror "hexadecimal digit expected" line
        (some ([39] ++ cstr (b.buffer ++ 120 :: t.take 1) ++ [39]))) := by
  unfold readhexaesc
  rw [gethexa_fail 120 t line b (by omega) hroom hh ht]

theorem readhexaesc_fail2 (h1 : Nat) (t : List Nat) (line : Int) (b : Mbuffer)
    (hroom : BufferRoom b 4) (hh1 : lisxdigit (h1 : Int) = true)
    (hh : lisxdigit (peek t) = false) (ht : ∀ x ∈ t.take 1, x < 256) :
    readhexaesc (atText (120 :: h1 :: t) line b) =
      Except.error (Raised.lexerror "hexadecimal digit expected" line
        (some ([39] ++ cstr (b.buffer ++ 120 :: h1 :: t.take 1) ++ [39]))) := by
  unfold readhexaesc
  rw [gethexa_ok 120 h1 t line b (by omega) (hroom.mono (by omega)) hh1]
  simp only
  rw [gethexa_fail h1 t line (b.push 120) (luaO_hexavalue_digit h1 hh1).2.2
    (BufferRoom.push hroom 120) hh ht]
  simp [push_buffer]

theorem readoctaesc_fail1 (t : List Nat) (line : Int) (b : Mbuffer)
    (hroom : BufferRoom b 3) (hd : lisodigit (peek t) = false)
    (ht : ∀ x ∈ t.take 1, x < 256) :
    readoctaesc (atText (111 :: t) line b) =
      Except.error (Raised.lexerror "octal digit expected" line
        (some ([39] ++ cstr (b.buffer ++ 111 :: t.take 1) ++ [39]))) := by
  unfold readoctaesc
  rw [getocta_fail 111 t line b (by omega) hroom hd ht]

theorem readoctaesc_fail2 (d1 : Nat) (t : List Nat) (line : Int) (b : Mbuffer)
    (hroom : BufferRoom b 4) (hd1 : lisodigit (d1 : Int) = true)
    (hd : lisodigit (peek t) = false) (ht : ∀ x ∈ t.take 1, x < 256) :
    readoctaesc (atText (111 :: d1 :: t) line b) =
      Except.error (Raised.lexerror "octal digit expected" line
        (some ([39] ++ cstr (b.buffer ++ 111 :: d1 :: t.take 1) ++ [39]))) := by
  unfold readoctaesc
  rw [getocta_ok 111 d1 t line b (by omega) (hroom.mono (by omega)) hd1]
  simp only
  rw [getocta_fail d1 t line (b.push 111) (luaO_octavalue_digit d1 hd1).2.2
    (BufferRoom.push hroom 111) hd ht]
  simp [push_buffer]

/-- C15: in a short string, `\x` followed by two hexadecimal digits `h1 h2`
adds the single byte `16 * h1 + h2`, and `\o` followed by two octal digits
`d1 d2` adds the single byte `8 * d1 + d2`; the scan goes on right after the
second digit; when the first or the second character after the letter is no
digit of the base (or the text ends there) the error is "hexadecimal digit
expected", respectively "octal digit expected".  The literal `"\x41"` gives the
byte `A`. -/
theorem read_string_hex_octal_escape (del : Int) (hdel : del = 34 ∨ del = 39) (fuel : Nat)
    (line : Int) (b : Mbuffer) (hroom : BufferRoom b 5) :
    (∀ (h1 h2 : Nat) (rest : List Nat), lisxdigit (h1 : Int) = true →
      lisxdigit (h2 : Int) = true →
      ∃ b1, b1.buffer = b.buffer ++ [16 * hexDigitValue h1 + hexDigitValue h2]
        ∧ 16 * hexDigitValue h1 + hexDigitValue h2 < 256
        ∧ read_string_loop del (fuel + 1) (atText (92 :: 120 :: h1 :: h2 :: rest) line b) =
          read_string_loop del fuel (atText rest line b1))
    ∧ (∀ (d1 d2 : Nat) (rest : List Nat), lisodigit (d1 : Int) = true →
      lisodigit (d2 : Int) = true →
      ∃ b1, b1.buffer = b.buffer ++ [8 * (d1 - 48) + (d2 - 48)]
        ∧ 8 * (d1 - 48) + (d2 - 48) < 256
        ∧ read_string_loop del (fuel + 1) (atText (92 :: 111 :: d1 :: d2 :: rest) line b) =
          read_string_loop del fuel (atText rest line b1))
    ∧ (∀ t : List Nat, lisxdigit (peek t) = false → (∀ x ∈ t.take 1, x < 256) →
      read_string_loop del (fuel + 1) (atText (92 :: 120 :: t) line b) =
        Except.error (Raised.lexerror "hexadecimal digit expected" line
          (some ([39] ++ cstr (b.buffer ++ 92 :: 120 :: t.take 1) ++ [39]))))
    ∧ (∀ (h1 : Nat) (t : List Nat), lisxdigit (h1 : Int) = true →
      lisxdigit (peek t) = false → (∀ x ∈ t.take 1, x < 256) →
      read_string_loop del (fuel + 1) (atText (92 :: 120 :: h1 :: t) line b) =
        Except.error (Raised.lexerror "hexadecimal digit expected" line
          (some ([39] ++ cstr (b.buffer ++ 92 :: 120 :: h1 :: t.take 1) ++ [39]))))
    ∧ (∀ t : List Nat, lisodigit (peek t) = false → (∀ x ∈ t.take 1, x < 256) →
      read_string_loop del (fuel + 1) (atText (92 :: 111 :: t) line b) =
        Except.error (Raised.lexerror "octal digit expected" line
          (some ([39] ++ cstr (b.buffer ++ 92 :: 111 :: t.take 1) ++ [39]))))
    ∧ (∀ (d1 : Nat) (t : List Nat), lisodigit (d1 : Int) = true →
      lisodigit (peek t) = false → (∀ x ∈ t.take 1, x < 256) →
      read_string_loop del (fuel + 1) (atText (92 :: 111 :: d1 :: t) line b) =
        Except.error (Raised.lexerror "octal digit expected" line
          (some ([39] ++ cstr (b.buffer ++ 92 :: 111 :: d1 :: t.take 1) ++ [39]))))
    ∧ ∀ P : Platform, ∃ ls1,
        llex P (luaX_setinput [34, 92, 120, 52, 49, 34]) =
          Except.ok (TK_STRING, SemInfo.ts [65], ls1) := by
  have hroom1 : BufferRoom (b.push 92) 4 := BufferRoom.push hroom 92
  refine ⟨?_, ?_, ?_, ?_, ?_, ?_, ?_⟩
  · intro h1 h2 rest hh1 hh2
    have v1 := (luaO_hexavalue_digit h1 hh1).2.1
    have v2 := (luaO_hexavalue_digit h2 hh2).2.1
    have hbuf := two_saved_removed b 120 h1
    have hlen1 : 1 ≤ ((((b.push 92).push 120).push h1).remove 2).buffer.length := by
      rw [hbuf]
      simp
    have hroom2 : BufferRoom ((((b.push 92).push 120).push h1).remove 2) 0 :=
      BufferRoom.remove (BufferRoom.push (BufferRoom.push (hroom1.mono (by omega)) 120) h1) 2
    refine ⟨(((((b.push 92).push 120).push h1).remove 2).remove 1).push
      (16 * hexDigitValue h1 + hexDigitValue h2), escape_result_buffer _ b _ hbuf,
      by omega, ?_⟩
    rw [read_string_loop_escape del hdel fuel _ line b (hroom.mono (by omega)),
      read_escape_hex_start,
      readhexaesc_ok h1 h2 rest line (b.push 92) (hroom1.mono (by omega)) hh1 hh2]
    simp only
    rw [read_save_atText _ _ _ _ _ hlen1 hroom2]
    simp only
    have hv : cast_char ((hexDigitValue h1 * 16 + hexDigitValue h2 : Nat) : Int) =
        16 * hexDigitValue h1 + hexDigitValue h2 := by
      rw [cast_char_natCast _ (by omega)]
      omega
    rw [hv]
  · intro d1 d2 rest hd1 hd2
    have v1 := (luaO_octavalue_digit d1 hd1).2.1
    have v2 := (luaO_octavalue_digit d2 hd2).2.1
    have hbuf := two_saved_removed b 111 d1
    have hlen1 : 1 ≤ ((((b.push 92).push 111).push d1).remove 2).buffer.length := by
      rw [hbuf]
      simp
    have hroom2 : BufferRoom ((((b.push 92).push 111).push d1).remove 2) 0 :=
      BufferRoom.remove (BufferRoom.push (BufferRoom.push (hroom1.mono (by omega)) 111) d1) 2
    refine ⟨(((((b.push 92).push 111).push d1).remove 2).remove 1).push
      (8 * (d1 - 48) + (d2 - 48)), escape_result_buffer _ b _ hbuf, by omega, ?_⟩
    rw [read_string_loop_escape del hdel fuel _ line b (hroom.mono (by omega)),
      read_escape_oct_start,
      readoctaesc_ok d1 d2 rest line (b.push 92) (hroom1.mono (by omega)) hd1 hd2]
    simp only
    rw [read_save_atText _ _ _ _ _ hlen1 hroom2]
    simp only
    have hv : cast_char (((d1 - 48) * 8 + (d2 - 48) : Nat) : Int) =
        8 * (d1 - 48) + (d2 - 48) := by
      rw [cast_char_natCast _ (by omega)]
      omega
    rw [hv]
  · intro t hh ht
    rw [read_string_loop_escape del hdel fuel _ line b (hroom.mono (by omega)),
      read_escape_hex_start, readhexaesc_fail1 t line (b.push 92) (hroom1.mono (by omega)) hh ht]
    simp [push_buffer]
  · intro h1 t hh1 hh ht
    rw [read_string_loop_escape del hdel fuel _ line b (hroom.mono (by omega)),
      read_escape_hex_start, readhexaesc_fail2 h1 t line (b.push 92) hroom1 hh1 hh ht]
    simp [push_buffer]
  · intro t hd ht
    rw [read_string_loop_escape del hdel fuel _ line b (hroom.mono (by omega)),
      read_escape_oct_start, readoctaesc_fail1 t line (b.push 92) (hroom1.mono (by omega)) hd ht]
    simp [push_buffer]
  · intro d1 t hd1 hd ht
    rw [read_string_loop_escape del hdel fuel _ line b (hroom.mono (by omega)),
      read_escape_oct_start, readoctaesc_fail2 d1 t line (b.push 92) hroom1 hd1 hd ht]
    simp [push_buffer]
  · intro P
    exact ⟨_, rfl⟩

/-- Witness of C15: `\x41` in a string delimited by `"`. -/
theorem read_string_hex_octal_escape_witness :
    ∃ b1 : Mbuffer, b1.buffer = [34] ++ [16 * hexDigitValue 52 + hexDigitValue 49]
      ∧ 16 * hexDigitValue 52 + hexDigitValue 49 < 256
      ∧ read_string_loop 34 (4 + 1) (atText (92 :: 120 :: 52 :: 49 :: [34]) 1
          { buffer := [34], buffsize := 32 }) =
        read_string_loop 34 4 (atText [34] 1 b1) :=
  (read_string_hex_octal_escape 34 (Or.inl rfl) 4 1 { buffer := [34], buffsize := 32 }
    (by decide)).1 52 49 [34] rfl rfl

theorem afterNewline_sub (c : Nat) (s : List Nat) :
    (afterNewline c s).length ≤ s.length ∧ ∀ x ∈ afterNewline c s, x ∈ s := by
  cases s with
  | nil => simp [afterNewline]
  | cons d s =>
    simp only [afterNewline]
    split
    · refine ⟨by simp, ?_⟩
      intro x hx
      exact List.mem_cons_of_mem _ hx
    · exact ⟨le_refl _, fun x hx => hx⟩

theorem zap_loop_run (rest : List Nat) (hrest : lisspace (peek rest) = false) (b : Mbuffer) :
    ∀ (m : Nat) (ws : List Nat) (line : Int) (fuel : Nat), ws.length ≤ m →
      (∀ c ∈ ws, lisspace ((c : Nat) : Int) = true) → ws.length + 1 ≤ fuel →
      line + countNewlines ws < INT_MAX →
      zap_loop fuel (atText (ws ++ rest) line b) =
        Except.ok (atText rest (line + countNewlines ws) b) := by
  have hhead : ∀ d, rest.head? = some d → ¬ (d = 10 ∨ d = 13) := by
    intro d hd
    cases rest with
    | nil => simp at hd
    | cons e r =>
      simp only [List.head?_cons, Option.some.injEq] at hd
      subst hd
      simp only [peek, lisspace, decide_eq_false_iff_not] at hrest
      omega
  intro m
  induction m with
  | zero =>
    intro ws line fuel hm hws hfuel hline
    have : ws = [] := List.length_eq_zero.mp (by omega)
    subst this
    obtain ⟨f, rfl⟩ : ∃ f, fuel = f + 1 := ⟨fuel - 1, by simp at hfuel; omega⟩
    rw [zap_loop]
    have hcur : (atText ([] ++ rest) line b).current = peek rest := rfl
    simp only [hcur, hrest]
    simp [countNewlines]
  | succ m ih =>
    intro ws line fuel hm hws hfuel hline
    cases ws with
    | nil =>
      obtain ⟨f, rfl⟩ : ∃ f, fuel = f + 1 := ⟨fuel - 1, by simp at hfuel; omega⟩
      rw [zap_loop]
      have hcur : (atText ([] ++ rest) line b).current = peek rest := rfl
      simp only [hcur, hrest]
      simp [countNewlines]
    | cons c s =>
      obtain ⟨f, rfl⟩ : ∃ f, fuel = f + 1 := ⟨fuel - 1, by simp at hfuel; omega⟩
      have hc := hws c (List.mem_cons_self _ _)
      have hs : ∀ x ∈ s, lisspace ((x : Nat) : Int) = true :=
        fun x hx => hws x (List.mem_cons_of_mem _ hx)
      rw [zap_loop]
      have hcur : (atText (c :: s ++ rest) line b).current = (c : Int) := rfl
      simp only [hcur, hc, if_true]
      by_cases hnl : c = 10 ∨ c = 13
      · have h1 : currIsNewline (atText (c :: s ++ rest) line b) = true := by
          simp only [currIsNewline, hcur, decide_eq_true_eq]
          omega
        have hcount := countNewlines_newline c s hnl
        have hsub := afterNewline_sub c s
        simp only [h1, if_true]
        rw [List.cons_append, inclinenumber_atText c (s ++ rest) line b (by omega),
          afterNewline_append c s rest hhead]
        simp only
        rw [ih (afterNewline c s) (line + 1) f (by simp at hm; omega)
          (fun x hx => hs x (hsub.2 x hx)) (by simp at hfuel; omega) (by omega), hcount]
        congr 2
        push_cast
        omega
      · have h1 : currIsNewline (atText (c :: s ++ rest) line b) = false := by
          simp only [currIsNewline, hcur, decide_eq_false_iff_not]
          omega
        have hcount := countNewlines_other c s hnl
        simp only [h1, Bool.false_eq_true, if_false]
        rw [List.cons_append, next_atText,
          ih s line f (by simp at hm; omega) hs (by simp at hfuel; omega) (by omega), hcount]

theorem read_escape_zap (t : List Nat) (line : Int) (b : Mbuffer) (hlen : 1 ≤ b.buffer.length) :
    read_escape (atText (122 :: t) line b) =
      zap_loop (t.tail.length + 2) (atText t line (b.remove 1)) := by
  rw [read_escape_other 122 t line b (by decide), if_pos (by decide),
    luaZ_buffremove_atText _ _ _ _ hlen]
  simp only [next_atText]
  rfl

/-- C19: in a short string, `\z` followed by a run `ws` of white-space
characters adds no byte: the scan goes on at the first character after the
run that is no white space, and the line counter went up by one for every
newline sequence of the run.  The literal `"a\z`, blank, newline, blank,
`b"` gives the bytes `a`, `b` and ends on line 2. -/
theorem read_string_zap (del : Int) (hdel : del = 34 ∨ del = 39) (fuel : Nat)
    (ws rest : List Nat) (line : Int) (b : Mbuffer)
    (hws : ∀ c ∈ ws, lisspace ((c : Nat) : Int) = true)
    (hrest : lisspace (peek rest) = false)
    (hline : line + countNewlines ws < INT_MAX) (hroom : BufferRoom b 1) :
    (∃ b1, b1.buffer = b.buffer
      ∧ read_string_loop del (fuel + 1) (atText (92 :: 122 :: (ws ++ rest)) line b) =
        read_string_loop del fuel (atText rest (line + countNewlines ws) b1))
    ∧ ∀ P : Platform, ∃ ls1,
        llex P (luaX_setinput [34, 97, 92, 122, 32, 10, 32, 98, 34]) =
          Except.ok (TK_STRING, SemInfo.ts [97, 98], ls1) ∧ ls1.linenumber = 2 := by
  refine ⟨⟨(b.push 92).remove 1, remove_push_buffer b 92, ?_⟩, ?_⟩
  · rw [read_string_loop_escape del hdel fuel _ line b hroom,
      read_escape_zap _ _ _ (by simp [push_buffer]),
      zap_loop_run rest hrest _ ws.length ws line _ (le_refl _) hws
        (by cases ws <;> simp) hline]
  · intro P
    exact ⟨_, rfl, rfl⟩

/-- Witness of C19: `\z` followed by a blank, a newline and a blank. -/
theorem read_string_zap_witness :
    ∃ b1 : Mbuffer, b1.buffer = [34, 97]
      ∧ read_string_loop 34 (3 + 1) (atText (92 :: 122 :: ([32, 10, 32] ++ [98, 34])) 1
          { buffer := [34, 97], buffsize := 32 }) =
        read_string_loop 34 3 (atText [98, 34] (1 + countNewlines [32, 10, 32]) b1) :=
  (read_string_zap 34 (Or.inl rfl) 3 [32, 10, 32] [98, 34] 1
    { buffer := [34, 97], buffsize := 32 } (by decide) (by decide) (by decide)
    (by decide)).1

theorem unread_atText (t : List Nat) (line : Int) (b : Mbuffer) :
    unread (atText t line b) = t := by
  cases t with
  | nil => simp [unread, atText, peek, EOZ]
  | cons c s =>
    have : ¬ ((c : Int) < 0) := by omega
    simp [unread, atText, peek, this]

theorem readsOn_intro {t t2 : List Nat} (h : t2 <:+ t) (l : Int) (b : Mbuffer) :
    ReadsOn t (atText t2 l b) := by
  unfold ReadsOn
  rw [unread_atText]
  exact ⟨rfl, h⟩

theorem readsOn_elim {t : List Nat} {ls : LexState} (h : ReadsOn t ls) :
    ∃ t1 l b, ls = atText t1 l b ∧ t1 <:+ t :=
  ⟨_, _, _, h.1, h.2⟩

theorem next_atText_tail (t : List Nat) (l : Int) (b : Mbuffer) :
    next (atText t l b) = atText t.tail l b := by
  cases t with
  | nil => rfl
  | cons c s => exact next_atText c s l b

theorem readsOn_next {t : List Nat} {ls : LexState} (h : ReadsOn t ls) :
    ReadsOn t (next ls) := by
  obtain ⟨t1, l, b, rfl, hs⟩ := (readsOn_elim h)
  rw [next_atText_tail]
  exact readsOn_intro ((List.tail_suffix t1).trans hs) l b

theorem readsOn_save {t : List Nat} {ls ls2 : LexState} (h : ReadsOn t ls) (c : Int)
    (hs : save ls c = Except.ok ls2) : ReadsOn t ls2 := by
  obtain ⟨t1, l, b, rfl, hsuf⟩ := (readsOn_elim h)
  unfold save at hs
  split at hs
  · split at hs
    · cases hs
    · cases hs
      exact readsOn_intro hsuf l _
  · cases hs
    exact readsOn_intro hsuf l _

theorem readsOn_save_and_next {t : List Nat} {ls ls2 : LexState} (h : ReadsOn t ls)
    (hs : save_and_next ls = Except.ok ls2) : ReadsOn t ls2 := by
  unfold save_and_next at hs
  cases h1 : save ls ls.current with
  | error e => simp [h1] at hs
  | ok ls1 =>
    simp only [h1, Except.ok.injEq] at hs
    subst hs
    exact readsOn_next (readsOn_save h _ h1)

theorem readsOn_buffremove {t : List Nat} {ls ls2 : LexState} (h : ReadsOn t ls) (i : Nat)
    (hs : luaZ_buffremove ls i = Except.ok ls2) : ReadsOn t ls2 := by
  obtain ⟨t1, l, b, rfl, hsuf⟩ := (readsOn_elim h)
  unfold luaZ_buffremove at hs
  split at hs
  · cases hs
  · cases hs
    exact readsOn_intro hsuf l _

theorem readsOn_inclinenumber {t : List Nat} {ls ls2 : LexState} (h : ReadsOn t ls)
    (hs : inclinenumber ls = Except.ok ls2) : ReadsOn t ls2 := by
  have key : ∀ lsx : LexState, ReadsOn t lsx →
      (if ({ lsx with linenumber := lsx.linenumber + 1 } : LexState).linenumber ≥ INT_MAX then
        Except.error (lexerror0 { lsx with linenumber := lsx.linenumber + 1 }
          "chunk has too many lines")
      else Except.ok { lsx with linenumber := lsx.linenumber + 1 }) = Except.ok ls2 →
      ReadsOn t ls2 := by
    intro lsx hx hs
    split at hs
    · cases hs
    · cases hs
      obtain ⟨t1, l, b, h3, hsuf⟩ := readsOn_elim hx
      rw [h3]
      exact readsOn_intro hsuf _ b
  unfold inclinenumber at hs
  simp only at hs
  by_cases hc : currIsNewline (next ls) = true ∧ (next ls).current ≠ ls.current
  · simp only [if_pos hc] at hs
    exact key _ (readsOn_next (readsOn_next h)) hs
  · simp only [if_neg hc] at hs
    exact key _ (readsOn_next h) hs

theorem esccheck_ok {ls ls2 : LexState} {c : Bool} {msg : String}
    (hs : esccheck ls c msg = Except.ok ls2) : ls2 = ls := by
  unfold esccheck at hs
  split at hs
  · cases hs
    rfl
  · split at hs <;> cases hs

theorem readsOn_gethexa {t : List Nat} {ls ls2 : LexState} {r : Nat} (h : ReadsOn t ls)
    (hs : gethexa ls = Except.ok (r, ls2)) : ReadsOn t ls2 := by
  unfold gethexa at hs
  cases h1 : save_and_next ls with
  | error e => simp [h1] at hs
  | ok ls1 =>
    simp only [h1] at hs
    cases h2 : esccheck ls1 (lisxdigit ls1.current) "hexadecimal digit expected" with
    | error e => simp [h2] at hs
    | ok ls3 =>
      simp only [h2, Except.ok.injEq, Prod.mk.injEq] at hs
      rw [← hs.2, esccheck_ok h2]
      exact readsOn_save_and_next h h1

theorem readsOn_getocta {t : List Nat} {ls ls2 : LexState} {r : Nat} (h : ReadsOn t ls)
    (hs : getocta ls = Except.ok (r, ls2)) : ReadsOn t ls2 := by
  unfold getocta at hs
  cases h1 : save_and_next ls with
  | error e => simp [h1] at hs
  | ok ls1 =>
    simp only [h1] at hs
    cases h2 : esccheck ls1 (lisodigit ls1.current) "octal digit expected" with
    | error e => simp [h2] at hs
    | ok ls3 =>
      simp only [h2, Except.ok.injEq, Prod.mk.injEq] at hs
      rw [← hs.2, esccheck_ok h2]
      exact readsOn_save_and_next h h1

theorem readsOn_readhexaesc {t : List Nat} {ls ls2 : LexState} {r : Nat} (h : ReadsOn t ls)
    (hs : readhexaesc ls = Except.ok (r, ls2)) : ReadsOn t ls2 := by
  unfold readhexaesc at hs
  cases h1 : gethexa ls with
  | error e => simp [h1] at hs
  | ok p1 =>
    obtain ⟨r1, ls1⟩ := p1
    simp only [h1] at hs
    cases h2 : gethexa ls1 with
    | error e => simp [h2] at hs
    | ok p2 =>
      obtain ⟨r2, ls3⟩ := p2
      simp only [h2] at hs
      cases h3 : luaZ_buffremove ls3 2 with
      | error e => simp [h3] at hs
      | ok ls4 =>
        simp only [h3, Except.ok.injEq, Prod.mk.injEq] at hs
        rw [← hs.2]
        exact readsOn_buffremove (readsOn_gethexa (readsOn_gethexa h h1) h2) 2 h3

theorem readsOn_readoctaesc {t : List Nat} {ls ls2 : LexState} {r : Nat} (h : ReadsOn t ls)
    (hs : readoctaesc ls = Except.ok (r, ls2)) : ReadsOn t ls2 := by
  unfold readoctaesc at hs
  cases h1 : getocta ls with
  | error e => simp [h1] at hs
  | ok p1 =>
    obtain ⟨r1, ls1⟩ := p1
    simp only [h1] at hs
    cases h2 : getocta ls1 with
    | error e => simp [h2] at hs
    | ok p2 =>
      obtain ⟨r2, ls3⟩ := p2
      simp only [h2] at hs
      cases h3 : luaZ_buffremove ls3 2 with
      | error e => simp [h3] at hs
      | ok ls4 =>
        simp only [h3, Except.ok.injEq, Prod.mk.injEq] at hs
        rw [← hs.2]
        exact readsOn_buffremove (readsOn_getocta (readsOn_getocta h h1) h2) 2 h3

theorem readsOn_readutf8esc_loop {t : List Nat} :
    ∀ (fuel : Nat) (ls ls2 : LexState) (r i r2 i2 : Nat), ReadsOn t ls →
      readutf8esc_loop fuel ls r i = Except.ok (r2, i2, ls2) → ReadsOn t ls2 := by
  intro fuel
  induction fuel with
  | zero =>
    intro ls ls2 r i r2 i2 h hs
    simp [readutf8esc_loop] at hs
  | succ f ih =>
    intro ls ls2 r i r2 i2 h hs
    rw [readutf8esc_loop] at hs
    cases h1 : save_and_next ls with
    | error e => simp [h1] at hs
    | ok ls1 =>
      simp only [h1] at hs
      split at hs
      · cases h2 : esccheck ls1 (decide (r ≤ 0x7FFFFFFF / 16)) "UTF-8 value too large" with
        | error e => simp [h2] at hs
        | ok ls3 =>
          simp only [h2] at hs
          have := esccheck_ok h2
          subst this
          exact ih _ _ _ _ _ _ (readsOn_save_and_next h h1) hs
      · simp only [Except.ok.injEq, Prod.mk.injEq] at hs
        rw [← hs.2.2]
        exact readsOn_save_and_next h h1

theorem readsOn_readutf8esc {t : List Nat} {ls ls2 : LexState} {r : Nat} (h : ReadsOn t ls)
    (hs : readutf8esc ls = Except.ok (r, ls2)) : ReadsOn t ls2 := by
  unfold readutf8esc at hs
  cases h1 : save_and_next ls with
  | error e => simp [h1] at hs
  | ok ls1 =>
    simp only [h1] at hs
    cases h2 : esccheck ls1 (decide (ls1.current = 123)) "missing '\x7b'" with
    | error e => simp [h2] at hs
    | ok ls3 =>
      simp only [h2] at hs
      have := esccheck_ok h2
      subst this
      cases h3 : gethexa ls3 with
      | error e => simp [h3] at hs
      | ok p3 =>
        obtain ⟨r3, ls4⟩ := p3
        simp only [h3] at hs
        cases h4 : readutf8esc_loop (ls4.z.length + 2) ls4 r3 4 with
        | error e => simp [h4] at hs
        | ok p4 =>
          obtain ⟨r4, i4, ls5⟩ := p4
          simp only [h4] at hs
          cases h5 : esccheck ls5 (decide (ls5.current = 125)) "missing '\x7d'" with
          | error e => simp [h5] at hs
          | ok ls6 =>
            simp only [h5] at hs
            have := esccheck_ok h5
            subst this
            cases h6 : luaZ_buffremove (next ls6) i4 with
            | error e => simp [h6] at hs
            | ok ls7 =>
              simp only [h6, Except.ok.injEq, Prod.mk.injEq] at hs
              rw [← hs.2]
              exact readsOn_buffremove (readsOn_next (readsOn_readutf8esc_loop _ _ _ _ _ _ _
                (readsOn_gethexa (readsOn_save_and_next h h1) h3) h4)) _ h6

theorem readsOn_save_bytes {t : List Nat} :
    ∀ (bs : List Nat) (ls ls2 : LexState), ReadsOn t ls →
      save_bytes bs ls = Except.ok ls2 → ReadsOn t ls2 := by
  intro bs
  induction bs with
  | nil =>
    intro ls ls2 h hs
    simp only [save_bytes, Except.ok.injEq] at hs
    rw [← hs]
    exact h
  | cons x xs ih =>
    intro ls ls2 h hs
    rw [save_bytes] at hs
    cases h1 : save ls (x : Int) with
    | error e => simp [h1] at hs
    | ok ls1 =>
      simp only [h1] at hs
      exact ih _ _ (readsOn_save h _ h1) hs

theorem readsOn_utf8esc {t : List Nat} {ls ls2 : LexState} (h : ReadsOn t ls)
    (hs : utf8esc ls = Except.ok ls2) : ReadsOn t ls2 := by
  unfold utf8esc at hs
  cases h1 : readutf8esc ls with
  | error e => simp [h1] at hs
  | ok p1 =>
    obtain ⟨r1, ls1⟩ := p1
    simp only [h1] at hs
    exact readsOn_save_bytes _ _ _ (readsOn_readutf8esc h h1) hs

theorem readsOn_readdecesc_loop {t : List Nat} :
    ∀ (k : Nat) (ls ls2 : LexState) (r : Int) (i : Nat) (r2 : Int) (i2 : Nat), ReadsOn t ls →
      readdecesc_loop k ls r i = Except.ok (r2, i2, ls2) → ReadsOn t ls2 := by
  intro k
  induction k with
  | zero =>
    intro ls ls2 r i r2 i2 h hs
    simp only [readdecesc_loop, Except.ok.injEq, Prod.mk.injEq] at hs
    rw [← hs.2.2]
    exact h
  | succ k ih =>
    intro ls ls2 r i r2 i2 h hs
    rw [readdecesc_loop] at hs
    split at hs
    · cases h1 : save_and_next ls with
      | error e => simp [h1] at hs
      | ok ls1 =>
        simp only [h1] at hs
        exact ih _ _ _ _ _ _ (readsOn_save_and_next h h1) hs
    · simp only [Except.ok.injEq, Prod.mk.injEq] at hs
      rw [← hs.2.2]
      exact h

theorem readsOn_readdecesc {t : List Nat} {ls ls2 : LexState} {r : Int} (h : ReadsOn t ls)
    (hs : readdecesc ls = Except.ok (r, ls2)) : ReadsOn t ls2 := by
  unfold readdecesc at hs
  cases h1 : readdecesc_loop 3 ls 0 0 with
  | error e => simp [h1] at hs
  | ok p1 =>
    obtain ⟨r1, i1, ls1⟩ := p1
    simp only [h1] at hs
    cases h2 : esccheck ls1 (decide (r1 ≤ 255)) "decimal escape too large" with
    | error e => simp [h2] at hs
    | ok ls3 =>
      simp only [h2] at hs
      have := esccheck_ok h2
      subst this
      cases h3 : luaZ_buffremove ls3 i1 with
      | error e => simp [h3] at hs
      | ok ls4 =>
        simp only [h3, Except.ok.injEq, Prod.mk.injEq] at hs
        rw [← hs.2]
        exact readsOn_buffremove (readsOn_readdecesc_loop _ _ _ _ _ _ _ h h1) _ h3

theorem readsOn_only_save {t : List Nat} {ls ls2 : LexState} (h : ReadsOn t ls) (c : Int)
    (hs : only_save ls c = Except.ok ls2) : ReadsOn t ls2 := by
  unfold only_save at hs
  cases h1 : luaZ_buffremove ls 1 with
  | error e => simp [h1] at hs
  | ok ls1 =>
    simp only [h1] at hs
    exact readsOn_save (readsOn_buffremove h 1 h1) c hs

theorem readsOn_read_save {t : List Nat} {ls ls2 : LexState} (h : ReadsOn t ls) (c : Int)
    (hs : read_save ls c = Except.ok ls2) : ReadsOn t ls2 :=
  readsOn_only_save (readsOn_next h) c hs

theorem readsOn_zap_loop {t : List Nat} :
    ∀ (fuel : Nat) (ls ls2 : LexState), ReadsOn t ls →
      zap_loop fuel ls = Except.ok ls2 → ReadsOn t ls2 := by
  intro fuel
  induction fuel with
  | zero =>
    intro ls ls2 h hs
    simp [zap_loop] at hs
  | succ f ih =>
    intro ls ls2 h hs
    rw [zap_loop] at hs
    split at hs
    · split at hs
      · cases h1 : inclinenumber ls with
        | error e => simp [h1] at hs
        | ok ls1 =>
          simp only [h1] at hs
          exact ih _ _ (readsOn_inclinenumber h h1) hs
      · exact ih _ _ (readsOn_next h) hs
    · simp only [Except.ok.injEq] at hs
      rw [← hs]
      exact h

theorem readsOn_read_escape {t : List Nat} {ls ls2 : LexState} (h : ReadsOn t ls)
    (hs : read_escape ls = Except.ok ls2) : ReadsOn t ls2 := by
  unfold read_escape at hs
  dsimp only at hs
  by_cases c0 : ls.current = 97
  · rw [if_pos c0] at hs
    exact readsOn_read_save h _ hs
  rw [if_neg c0] at hs
  by_cases c1 : ls.current = 98
  · rw [if_pos c1] at hs
    exact readsOn_read_save h _ hs
  rw [if_neg c1] at hs
  by_cases c2 : ls.current = 102
  · rw [if_pos c2] at hs
    exact readsOn_read_save h _ hs
  rw [if_neg c2] at hs
  by_cases c3 : ls.current = 110
  · rw [if_pos c3] at hs
    exact readsOn_read_save h _ hs
  rw [if_neg c3] at hs
  by_cases c4 : ls.current = 114
  · rw [if_pos c4] at hs
    exact readsOn_read_save h _ hs
  rw [if_neg c4] at hs
  by_cases c5 : ls.current = 116
  · rw [if_pos c5] at hs
    exact readsOn_read_save h _ hs
  rw [if_neg c5] at hs
  by_cases c6 : ls.current = 118
  · rw [if_pos c6] at hs
    exact readsOn_read_save h _ hs
  rw [if_neg c6] at hs
  by_cases c7 : ls.current = 120
  · rw [if_pos c7] at hs
    cases h1 : readhexaesc ls with
    | error e => simp [h1] at hs
    | ok p1 =>
      obtain ⟨r1, ls1⟩ := p1
      simp only [h1] at hs
      exact readsOn_read_save (readsOn_readhexaesc h h1) _ hs
  rw [if_neg c7] at hs
  by_cases c8 : ls.current = 111
  · rw [if_pos c8] at hs
    cases h1 : readoctaesc ls with
    | error e => simp [h1] at hs
    | ok p1 =>
      obtain ⟨r1, ls1⟩ := p1
      simp only [h1] at hs
      exact readsOn_read_save (readsOn_readoctaesc h h1) _ hs
  rw [if_neg c8] at hs
  by_cases c9 : ls.current = 117
  · rw [if_pos c9] at hs
    exact readsOn_utf8esc h hs
  rw [if_neg c9] at hs
  by_cases c10 : ls.current = 10 ∨ ls.current = 13
  · rw [if_pos c10] at hs
    cases h1 : inclinenumber ls with
    | error e => simp [h1] at hs
    | ok ls1 =>
      simp only [h1] at hs
      exact readsOn_only_save (readsOn_inclinenumber h h1) _ hs
  rw [if_neg c10] at hs
  by_cases c11 : ls.current = 92 ∨ ls.current = 34 ∨ ls.current = 39
  · rw [if_pos c11] at hs
    exact readsOn_read_save h _ hs
  rw [if_neg c11] at hs
  by_cases c12 : ls.current = EOZ
  · rw [if_pos c12] at hs
    simp only [Except.ok.injEq] at hs
    rw [← hs]
    exact h
  rw [if_neg c12] at hs
  by_cases c13 : ls.current = 122
  · rw [if_pos c13] at hs
    cases h1 : luaZ_buffremove ls 1 with
    | error e => simp [h1] at hs
    | ok ls1 =>
      simp only [h1] at hs
      exact readsOn_zap_loop _ _ _ (readsOn_next (readsOn_buffremove h 1 h1)) hs
  rw [if_neg c13] at hs
  cases h1 : esccheck ls (lisdigit ls.current) "invalid escape sequence" with
  | error e => simp [h1] at hs
  | ok ls1 =>
    simp only [h1] at hs
    have := esccheck_ok h1
    subst this
    cases h2 : readdecesc ls1 with
    | error e => simp [h2] at hs
    | ok p2 =>
      obtain ⟨r2, ls3⟩ := p2
      simp only [h2] at hs
      exact readsOn_only_save (readsOn_readdecesc h h2) _ hs

theorem readsOn_read_string_loop {t : List Nat} (del : Int) :
    ∀ (fuel : Nat) (ls ls2 : LexState), ReadsOn t ls →
      read_string_loop del fuel ls = Except.ok ls2 → ReadsOn t ls2 ∧ ls2.current = del := by
  intro fuel
  induction fuel with
  | zero =>
    intro ls ls2 h hs
    simp [read_string_loop] at hs
  | succ f ih =>
    intro ls ls2 h hs
    rw [read_string_loop] at hs
    split at hs
    · simp only [Except.ok.injEq] at hs
      subst hs
      exact ⟨h, by assumption⟩
    split at hs
    · cases hs
    split at hs
    · cases hs
    split at hs
    · cases h1 : save_and_next ls with
      | error e => simp [h1] at hs
      | ok ls1 =>
        simp only [h1] at hs
        cases h2 : read_escape ls1 with
        | error e => simp [h2] at hs
        | ok ls3 =>
          simp only [h2] at hs
          exact ih _ _ (readsOn_read_escape (readsOn_save_and_next h h1) h2) hs
    · cases h1 : save_and_next ls with
      | error e => simp [h1] at hs
      | ok ls1 =>
        simp only [h1] at hs
        exact ih _ _ (readsOn_save_and_next h h1) hs

theorem save_and_next_ok_atText (c : Nat) (t : List Nat) (line : Int) (b : Mbuffer)
    (ls1 : LexState) (hs : save_and_next (atText (c :: t) line b) = Except.ok ls1) :
    ∃ b1, ls1 = atText t line b1 := by
  unfold save_and_next at hs
  cases h1 : save (atText (c :: t) line b) (atText (c :: t) line b).current with
  | error e => simp [h1] at hs
  | ok ls0 =>
    simp only [h1, Except.ok.injEq] at hs
    subst hs
    unfold save at h1
    split at h1
    · split at h1
      · cases h1
      · cases h1
        exact ⟨_, next_atText c t line _⟩
    · cases h1
      exact ⟨_, next_atText c t line _⟩

theorem read_string_ok_delimiter (q : Nat) (hq : q = 34 ∨ q = 39) (t : List Nat) (line : Int)
    (b : Mbuffer) (s : List Nat) (ls3 : LexState)
    (hs : read_string (atText (q :: t) line b) (q : Int) = Except.ok (s, ls3)) :
    ∃ pre post line1 b1, t = pre ++ q :: post ∧ ls3 = atText post line1 b1 := by
  unfold read_string at hs
  cases h1 : save_and_next (atText (q :: t) line b) with
  | error e => simp [h1] at hs
  | ok ls1 =>
    simp only [h1] at hs
    obtain ⟨b1, rfl⟩ := save_and_next_ok_atText q t line b ls1 h1
    cases h2 : read_string_loop (q : Int) ((atText t line b1).z.length + 2) (atText t line b1) with
    | error e => simp [h2] at hs
    | ok ls2 =>
      simp only [h2] at hs
      obtain ⟨hr, hcur⟩ := readsOn_read_string_loop (q : Int) _ _ _
        (readsOn_intro (List.suffix_refl t) line b1) h2
      obtain ⟨t2, l2, b2, rfl, hsuf⟩ := readsOn_elim hr
      cases t2 with
      | nil =>
        simp only [atText, peek, EOZ] at hcur
        omega
      | cons d post =>
        have hd : d = q := by
          simp only [atText, peek] at hcur
          omega
        subst hd
        cases h3 : save_and_next (atText (d :: post) l2 b2) with
        | error e => simp [h3] at hs
        | ok ls4 =>
          simp only [h3, Except.ok.injEq, Prod.mk.injEq] at hs
          obtain ⟨b3, rfl⟩ := save_and_next_ok_atText d post l2 b2 ls4 h3
          obtain ⟨pre, hpre⟩ := hsuf
          exact ⟨pre, post, l2, b3, hpre.symm, hs.2.symm⟩

theorem read_string_loop_plain_run (del : Int) (rest : List Nat) (line : Int) (fuel : Nat) :
    ∀ (body : List Nat) (b : Mbuffer),
      (∀ c ∈ body, c < 256 ∧ (c : Int) ≠ del ∧ c ≠ 10 ∧ c ≠ 13 ∧ c ≠ 92) →
      BufferRoom b body.length →
      read_string_loop del (body.length + fuel) (atText (body ++ rest) line b) =
        read_string_loop del fuel (atText rest line (b.pushAll body)) := by
  intro body
  induction body with
  | nil =>
    intro b _ _
    simp [pushAll_nil]
  | cons c s ih =>
    intro b hb hroom
    have hc := hb c (List.mem_cons_self _ _)
    have h1 : (c :: s).length + fuel = (s.length + fuel) + 1 := by
      simp only [List.length_cons]
      omega
    rw [h1, List.cons_append, read_string_loop_plain del _ c (s ++ rest) line b hc.1 hc.2.1
      ⟨hc.2.2.1, hc.2.2.2.1⟩ hc.2.2.2.2 (hroom.mono (by simp)),
      ih (b.push c) (fun x hx => hb x (List.mem_cons_of_mem _ hx))
        (BufferRoom.push (by simpa using hroom) c), pushAll_cons]

theorem read_string_loop_eoz (del : Int) (hdel : del = 34 ∨ del = 39) (fuel : Nat) (line : Int)
    (b : Mbuffer) :
    read_string_loop del (fuel + 1) (atText [] line b) =
      Except.error (Raised.lexerror "unfinished string" line (some (bytes "<eof>"))) := by
  rw [read_string_loop]
  have hcur : (atText [] line b).current = EOZ := rfl
  simp only [hcur]
  rw [if_neg (by simp only [EOZ]; omega), if_pos trivial, lexerror_eos]
  rfl

theorem read_string_loop_newline (del : Int) (hdel : del = 34 ∨ del = 39) (fuel c : Nat)
    (hc : c = 10 ∨ c = 13) (rest : List Nat) (line : Int) (b : Mbuffer)
    (hroom : BufferRoom b 1) :
    read_string_loop del (fuel + 1) (atText (c :: rest) line b) =
      Except.error (Raised.lexerror "unfinished string" line
        (some ([39] ++ cstr b.buffer ++ [39]))) := by
  rw [read_string_loop]
  have hcur : (atText (c :: rest) line b).current = (c : Int) := rfl
  simp only [hcur]
  rw [if_neg (by omega), if_neg (by simp only [EOZ]; omega), if_pos (by omega),
    lexerror_string_text _ _ _ _ hroom]

theorem read_string_loop_close (q : Nat) (fuel : Nat) (rest : List Nat) (line : Int)
    (b : Mbuffer) :
    read_string_loop (q : Int) (fuel + 1) (atText (q :: rest) line b) =
      Except.ok (atText (q :: rest) line b) := by
  rw [read_string_loop]
  have hcur : (atText (q :: rest) line b).current = (q : Int) := rfl
  rw [if_pos hcur]

theorem utf8_and (y : Nat) : y &&& 0x3f = y % 64 := Nat.and_pow_two_sub_one_eq_mod y 6

theorem utf8_shr (y : Nat) : y >>> 6 = y / 64 := Nat.shiftRight_eq_div_pow y 6

theorem utf8_or (y : Nat) : (0x80 ||| (y % 64)) % 256 = 128 + y % 64 := by
  have h := Nat.mul_add_lt_is_or (show y % 64 < 2 ^ 7 by omega) 1
  simp only [Nat.reducePow, Nat.mul_one] at h
  rw [← h]
  omega

theorem utf8_lead_or (i a y : Nat) (hy : y < 2 ^ i) : (2 ^ i * a ||| y) = 2 ^ i * a + y :=
  (Nat.mul_add_lt_is_or hy a).symm

theorem luaO_utf8esc_loop_step (fuel x mfb : Nat) (acc : List Nat) :
    luaO_utf8esc_loop (fuel + 1) x mfb acc =
      if x / 64 > mfb / 2 then luaO_utf8esc_loop fuel (x / 64) (mfb / 2) ((128 + x % 64) :: acc)
      else (x / 64, mfb / 2, (128 + x % 64) :: acc) := by
  rw [luaO_utf8esc_loop]
  simp only [utf8_and, utf8_shr, utf8_or, Nat.shiftRight_eq_div_pow, Nat.pow_one]

theorem luaO_utf8esc_two (x : Nat) (h1 : 0x80 ≤ x) (h2 : x < 0x800) (fuel : Nat) :
    luaO_utf8esc_loop (fuel + 1) x 0x3f [] = (x / 64, 31, [128 + x % 64]) := by
  rw [luaO_utf8esc_loop_step, if_neg (by omega)]

theorem luaO_utf8esc_three (x : Nat) (h1 : 0x800 ≤ x) (h2 : x < 0x10000) (fuel : Nat) :
    luaO_utf8esc_loop (fuel + 2) x 0x3f [] =
      (x / 64 / 64, 15, [128 + x / 64 % 64, 128 + x % 64]) := by
  rw [luaO_utf8esc_loop_step, if_pos (by omega), luaO_utf8esc_loop_step, if_neg (by omega)]

theorem luaO_utf8esc_four (x : Nat) (h1 : 0x10000 ≤ x) (h2 : x < 0x200000) (fuel : Nat) :
    luaO_utf8esc_loop (fuel + 3) x 0x3f [] =
      (x / 64 / 64 / 64, 7, [128 + x / 64 / 64 % 64, 128 + x / 64 % 64, 128 + x % 64]) := by
  rw [luaO_utf8esc_loop_step, if_pos (by omega), luaO_utf8esc_loop_step, if_pos (by omega),
    luaO_utf8esc_loop_step, if_neg (by omega)]

theorem luaO_utf8esc_five (x : Nat) (h1 : 0x200000 ≤ x) (h2 : x < 0x4000000) (fuel : Nat) :
    luaO_utf8esc_loop (fuel + 4) x 0x3f [] =
      (x / 64 / 64 / 64 / 64, 3, [128 + x / 64 / 64 / 64 % 64, 128 + x / 64 / 64 % 64,
        128 + x / 64 % 64, 128 + x % 64]) := by
  rw [luaO_utf8esc_loop_step, if_pos (by omega), luaO_utf8esc_loop_step, if_pos (by omega),
    luaO_utf8esc_loop_step, if_pos (by omega), luaO_utf8esc_loop_step, if_neg (by omega)]

theorem luaO_utf8esc_six (x : Nat) (h1 : 0x4000000 ≤ x) (h2 : x ≤ 0x7FFFFFFF) (fuel : Nat) :
    luaO_utf8esc_loop (fuel + 5) x 0x3f [] =
      (x / 64 / 64 / 64 / 64 / 64, 1, [128 + x / 64 / 64 / 64 / 64 % 64,
        128 + x / 64 / 64 / 64 % 64, 128 + x / 64 / 64 % 64,
        128 + x / 64 % 64, 128 + x % 64]) := by
  rw [luaO_utf8esc_loop_step, if_pos (by omega), luaO_utf8esc_loop_step, if_pos (by omega),
    luaO_utf8esc_loop_step, if_pos (by omega), luaO_utf8esc_loop_step, if_pos (by omega),
    luaO_utf8esc_loop_step, if_neg (by omega)]

theorem utf8_first_byte (m i a y c : Nat) (hm : m = 2 ^ i * a) (hy : y < 2 ^ i) (hi : i ≤ 8)
    (hc : (2 ^ i * a) % 256 = c) : (m ||| y) % 256 = c + y := by
  rw [hm, utf8_lead_or i a y hy]
  have h2 : 2 ^ i ∣ 256 := by
    have : (256 : Nat) = 2 ^ 8 := by norm_num
    rw [this]
    exact Nat.pow_dvd_pow 2 hi
  have h3 : c + y < 256 := by
    obtain ⟨k, hk⟩ := h2
    have hpos : 0 < 2 ^ i := by positivity
    have hdvd : 2 ^ i ∣ c := by
      rw [← hc]
      exact (Nat.dvd_mod_iff ⟨k, hk⟩).mpr (Dvd.intro _ rfl)
    obtain ⟨j, hj⟩ := hdvd
    have hclt : c < 256 := by
      rw [← hc]
      exact Nat.mod_lt _ (by norm_num)
    have hjk : j < k := by
      by_contra hcon
      push_neg at hcon
      have : 2 ^ i * k ≤ 2 ^ i * j := Nat.mul_le_mul_left _ hcon
      omega
    have : 2 ^ i * (j + 1) ≤ 2 ^ i * k := Nat.mul_le_mul_left _ (by omega)
    rw [Nat.mul_add, Nat.mul_one] at this
    omega
  rw [Nat.add_mod, hc, Nat.mod_eq_of_lt (show y < 256 by omega)]
  exact Nat.mod_eq_of_lt h3

theorem luaO_utf8esc_cases (x : Nat) (hx : x ≤ 0x7FFFFFFF) :
    luaO_utf8esc x =
      if x < 0x80 then [x]
      else if x < 0x800 then [192 + x / 64, 128 + x % 64]
      else if x < 0x10000 then [224 + x / 64 / 64, 128 + x / 64 % 64, 128 + x % 64]
      else if x < 0x200000 then
        [240 + x / 64 / 64 / 64, 128 + x / 64 / 64 % 64, 128 + x / 64 % 64, 128 + x % 64]
      else if x < 0x4000000 then
        [248 + x / 64 / 64 / 64 / 64, 128 + x / 64 / 64 / 64 % 64, 128 + x / 64 / 64 % 64,
          128 + x / 64 % 64, 128 + x % 64]
      else
        [252 + x / 64 / 64 / 64 / 64 / 64, 128 + x / 64 / 64 / 64 / 64 % 64,
          128 + x / 64 / 64 / 64 % 64, 128 + x / 64 / 64 % 64, 128 + x / 64 % 64,
          128 + x % 64] := by
  unfold luaO_utf8esc
  by_cases c1 : x < 0x80
  · rw [if_pos c1, if_pos c1, Nat.mod_eq_of_lt (by omega)]
  rw [if_neg c1, if_neg c1]
  by_cases c2 : x < 0x800
  · rw [if_pos c2, luaO_utf8esc_two x (by omega) c2 5]
    simp only
    rw [utf8_first_byte _ 6 (2 ^ 26 - 1) (x / 64) 192 (by norm_num) (by omega) (by omega)
      (by norm_num)]
  rw [if_neg c2]
  by_cases c3 : x < 0x10000
  · rw [if_pos c3, luaO_utf8esc_three x (by omega) c3 4]
    simp only
    rw [utf8_first_byte _ 5 (2 ^ 27 - 1) (x / 64 / 64) 224 (by norm_num) (by omega) (by omega)
      (by norm_num)]
  rw [if_neg c3]
  by_cases c4 : x < 0x200000
  · rw [if_pos c4, luaO_utf8esc_four x (by omega) c4 3]
    simp only
    rw [utf8_first_byte _ 4 (2 ^ 28 - 1) (x / 64 / 64 / 64) 240 (by norm_num) (by omega) (by omega)
      (by norm_num)]
  rw [if_neg c4]
  by_cases c5 : x < 0x4000000
  · rw [if_pos c5, luaO_utf8esc_five x (by omega) c5 2]
    simp only
    rw [utf8_first_byte _ 3 (2 ^ 29 - 1) (x / 64 / 64 / 64 / 64) 248 (by norm_num) (by omega) (by omega)
      (by norm_num)]
  rw [if_neg c5, luaO_utf8esc_six x (by omega) hx 1]
  simp only
  rw [utf8_first_byte _ 2 (2 ^ 30 - 1) (x / 64 / 64 / 64 / 64 / 64) 252 (by norm_num) (by omega) (by omega)
      (by norm_num)]

theorem utf8Decode_two (l c1 : Nat) (hl : 0xC0 ≤ l ∧ l < 0xE0) (h1 : 0x80 ≤ c1 ∧ c1 < 0xC0) :
    utf8Decode [l, c1] = some ((l - 0xC0) * 64 + (c1 - 0x80)) := by
  unfold utf8Decode
  simp only
  rw [if_neg (by omega), if_neg (by omega), if_pos (by omega), if_pos (by simp)]
  simp only [utf8DecodeCont]
  rw [if_pos h1]

theorem utf8Decode_three (l c1 c2 : Nat) (hl : 0xE0 ≤ l ∧ l < 0xF0)
    (h1 : 0x80 ≤ c1 ∧ c1 < 0xC0) (h2 : 0x80 ≤ c2 ∧ c2 < 0xC0) :
    utf8Decode [l, c1, c2] = some (((l - 0xE0) * 64 + (c1 - 0x80)) * 64 + (c2 - 0x80)) := by
  unfold utf8Decode
  simp only
  rw [if_neg (by omega), if_neg (by omega), if_neg (by omega), if_pos (by omega), if_pos (by simp)]
  simp only [utf8DecodeCont]
  rw [if_pos h1, if_pos h2]

theorem utf8Decode_four (l c1 c2 c3 : Nat) (hl : 0xF0 ≤ l ∧ l < 0xF8)
    (h1 : 0x80 ≤ c1 ∧ c1 < 0xC0) (h2 : 0x80 ≤ c2 ∧ c2 < 0xC0) (h3 : 0x80 ≤ c3 ∧ c3 < 0xC0) :
    utf8Decode [l, c1, c2, c3] =
      some ((((l - 0xF0) * 64 + (c1 - 0x80)) * 64 + (c2 - 0x80)) * 64 + (c3 - 0x80)) := by
  unfold utf8Decode
  simp only
  rw [if_neg (by omega), if_neg (by omega)]
  rw [if_neg (by omega), if_neg (by omega), if_pos (by omega), if_pos (by simp)]
  simp only [utf8DecodeCont]
  rw [if_pos h1, if_pos h2, if_pos h3]

theorem utf8Decode_five (l c1 c2 c3 c4 : Nat) (hl : 0xF8 ≤ l ∧ l < 0xFC)
    (h1 : 0x80 ≤ c1 ∧ c1 < 0xC0) (h2 : 0x80 ≤ c2 ∧ c2 < 0xC0) (h3 : 0x80 ≤ c3 ∧ c3 < 0xC0)
    (h4 : 0x80 ≤ c4 ∧ c4 < 0xC0) :
    utf8Decode [l, c1, c2, c3, c4] =
      some (((((l - 0xF8) * 64 + (c1 - 0x80)) * 64 + (c2 - 0x80)) * 64 + (c3 - 0x80)) * 64
        + (c4 - 0x80)) := by
  unfold utf8Decode
  simp only
  rw [if_neg (by omega), if_neg (by omega), if_neg (by omega)]
  rw [if_neg (by omega), if_neg (by omega), if_pos (by omega), if_pos (by simp)]
  simp only [utf8DecodeCont]
  rw [if_pos h1, if_pos h2, if_pos h3, if_pos h4]

theorem utf8Decode_six (l c1 c2 c3 c4 c5 : Nat) (hl : 0xFC ≤ l ∧ l < 0xFE)
    (h1 : 0x80 ≤ c1 ∧ c1 < 0xC0) (h2 : 0x80 ≤ c2 ∧ c2 < 0xC0) (h3 : 0x80 ≤ c3 ∧ c3 < 0xC0)
    (h4 : 0x80 ≤ c4 ∧ c4 < 0xC0) (h5 : 0x80 ≤ c5 ∧ c5 < 0xC0) :
    utf8Decode [l, c1, c2, c3, c4, c5] =
      some ((((((l - 0xFC) * 64 + (c1 - 0x80)) * 64 + (c2 - 0x80)) * 64 + (c3 - 0x80)) * 64
        + (c4 - 0x80)) * 64 + (c5 - 0x80)) := by
  unfold utf8Decode
  simp only
  rw [if_neg (by omega), if_neg (by omega), if_neg (by omega)]
  rw [if_neg (by omega), if_neg (by omega), if_neg (by omega), if_pos (by omega),
    if_pos (by simp)]
  simp only [utf8DecodeCont]
  rw [if_pos h1, if_pos h2, if_pos h3, if_pos h4, if_pos h5]

/-- C17: for every `x ≤ 0x7FFFFFFF`, `luaO_utf8esc` gives `n` bytes with `n`
between 1 and 6 as the ranges of `x` tell (1 below `0x80`, 2 below `0x800`, 3
below `0x10000`, 4 below `0x200000`, 5 below `0x4000000`, else 6); they are
`x` itself when `n = 1`, otherwise the lead byte (`n` one-bits, a zero bit and
the top bits of `x`, which fit in the `7 - n` bits left) followed by the
`n - 1` continuation bytes `10xxxxxx`; decoding them as UTF-8 extended to 6
bytes gives `x` back; and the loop ends by its own test, whatever the number
of rounds allowed beyond six. -/
theorem luaO_utf8esc_encodes (x : Nat) (hx : x ≤ 0x7FFFFFFF) :
    (luaO_utf8esc x).length = utf8Length x
    ∧ 1 ≤ utf8Length x ∧ utf8Length x ≤ 6
    ∧ luaO_utf8esc x = utf8Encode x
    ∧ (0x80 ≤ x → x / 64 ^ (utf8Length x - 1) < 2 ^ (7 - utf8Length x))
    ∧ (∀ c ∈ luaO_utf8esc x, c < 256)
    ∧ utf8Decode (luaO_utf8esc x) = some x
    ∧ (0x80 ≤ x → ∀ fuel, 6 ≤ fuel →
        luaO_utf8esc_loop fuel x 0x3f [] = luaO_utf8esc_loop 6 x 0x3f []) := by
  have hc := luaO_utf8esc_cases x hx
  by_cases c1 : x < 0x80
  · have hl : utf8Length x = 1 := by
      unfold utf8Length
      rw [if_pos c1]
    rw [if_pos c1] at hc
    refine ⟨by rw [hc, hl]; rfl, by omega, by omega, ?_, by omega, ?_, ?_, by omega⟩
    · rw [hc, utf8Encode, if_pos c1]
    · rw [hc]
      intro c hmem
      simp only [List.mem_singleton] at hmem
      omega
    · rw [hc, utf8Decode, if_pos c1, if_pos (by simp)]
  rw [if_neg c1] at hc
  by_cases c2 : x < 0x800
  · have hl : utf8Length x = 2 := by
      unfold utf8Length
      rw [if_neg c1, if_pos c2]
    rw [if_pos c2] at hc
    refine ⟨by rw [hc, hl]; rfl, by omega, by omega, ?_, ?_, ?_, ?_, ?_⟩
    · rw [hc, utf8Encode, if_neg c1, hl]
      simp [utf8Lead, utf8Cont, List.range_succ]
    · intro _
      rw [hl]
      norm_num
      omega
    · rw [hc]
      intro c hmem
      simp only [List.mem_cons, List.mem_singleton, List.not_mem_nil, or_false] at hmem
      omega
    · rw [hc, utf8Decode_two _ _ (by omega) (by omega)]
      exact congrArg some (by omega)
    · intro _ fuel hfuel
      obtain ⟨k, rfl⟩ : ∃ k, fuel = k + 1 := ⟨fuel - 1, by omega⟩
      rw [luaO_utf8esc_two x (by omega) c2 k, luaO_utf8esc_two x (by omega) c2 5]
  rw [if_neg c2] at hc
  by_cases c3 : x < 0x10000
  · have hl : utf8Length x = 3 := by
      unfold utf8Length
      rw [if_neg c1, if_neg c2, if_pos c3]
    rw [if_pos c3] at hc
    refine ⟨by rw [hc, hl]; rfl, by omega, by omega, ?_, ?_, ?_, ?_, ?_⟩
    · rw [hc, utf8Encode, if_neg c1, hl]
      simp [utf8Lead, utf8Cont, List.range_succ]
      omega
    · intro _
      rw [hl]
      norm_num
      omega
    · rw [hc]
      intro c hmem
      simp only [List.mem_cons, List.mem_singleton, List.not_mem_nil, or_false] at hmem
      omega
    · rw [hc, utf8Decode_three _ _ _ (by omega) (by omega) (by omega)]
      exact congrArg some (by omega)
    · intro _ fuel hfuel
      obtain ⟨k, rfl⟩ : ∃ k, fuel = k + 2 := ⟨fuel - 2, by omega⟩
      rw [luaO_utf8esc_three x (by omega) c3 k, luaO_utf8esc_three x (by omega) c3 4]
  rw [if_neg c3] at hc
  by_cases c4 : x < 0x200000
  · have hl : utf8Length x = 4 := by
      unfold utf8Length
      rw [if_neg c1, if_neg c2, if_neg c3, if_pos c4]
    rw [if_pos c4] at hc
    refine ⟨by rw [hc, hl]; rfl, by omega, by omega, ?_, ?_, ?_, ?_, ?_⟩
    · rw [hc, utf8Encode, if_neg c1, hl]
      simp [utf8Lead, utf8Cont, List.range_succ]
      omega
    · intro _
      rw [hl]
      norm_num
      omega
    · rw [hc]
      intro c hmem
      simp only [List.mem_cons, List.mem_singleton, List.not_mem_nil, or_false] at hmem
      omega
    · rw [hc, utf8Decode_four _ _ _ _ (by omega) (by omega) (by omega) (by omega)]
      exact congrArg some (by omega)
    · intro _ fuel hfuel
      obtain ⟨k, rfl⟩ : ∃ k, fuel = k + 3 := ⟨fuel - 3, by omega⟩
      rw [luaO_utf8esc_four x (by omega) c4 k, luaO_utf8esc_four x (by omega) c4 3]
  rw [if_neg c4] at hc
  by_cases c5 : x < 0x4000000
  · have hl : utf8Length x = 5 := by
      unfold utf8Length
      rw [if_neg c1, if_neg c2, if_neg c3, if_neg c4, if_pos c5]
    rw [if_pos c5] at hc
    refine ⟨by rw [hc, hl]; rfl, by omega, by omega, ?_, ?_, ?_, ?_, ?_⟩
    · rw [hc, utf8Encode, if_neg c1, hl]
      simp [utf8Lead, utf8Cont, List.range_succ]
      omega
    · intro _
      rw [hl]
      norm_num
      omega
    · rw [hc]
      intro c hmem
      simp only [List.mem_cons, List.mem_singleton, List.not_mem_nil, or_false] at hmem
      omega
    · rw [hc, utf8Decode_five _ _ _ _ _ (by omega) (by omega) (by omega) (by omega) (by omega)]
      exact congrArg some (by omega)
    · intro _ fuel hfuel
      obtain ⟨k, rfl⟩ : ∃ k, fuel = k + 4 := ⟨fuel - 4, by omega⟩
      rw [luaO_utf8esc_five x (by omega) c5 k, luaO_utf8esc_five x (by omega) c5 2]
  rw [if_neg c5] at hc
  have hl : utf8Length x = 6 := by
    unfold utf8Length
    rw [if_neg c1, if_neg c2, if_neg c3, if_neg c4, if_neg c5]
  refine ⟨by rw [hc, hl]; rfl, by omega, by omega, ?_, ?_, ?_, ?_, ?_⟩
  · rw [hc, utf8Encode, if_neg c1, hl]
    simp [utf8Lead, utf8Cont, List.range_succ]
    omega
  · intro _
    rw [hl]
    norm_num
    omega
  · rw [hc]
    intro c hmem
    simp only [List.mem_cons, List.mem_singleton, List.not_mem_nil, or_false] at hmem
    omega
  · rw [hc, utf8Decode_six _ _ _ _ _ _ (by omega) (by omega) (by omega) (by omega) (by omega)
      (by omega)]
    exact congrArg some (by omega)
  · intro _ fuel hfuel
    obtain ⟨k, rfl⟩ : ∃ k, fuel = k + 5 := ⟨fuel - 5, by omega⟩
    rw [luaO_utf8esc_six x (by omega) hx k, luaO_utf8esc_six x (by omega) hx 1]

/-- Witness of C17: the code point `0x20AC` is written as `E2 82 AC`. -/
theorem luaO_utf8esc_encodes_witness :
    luaO_utf8esc 0x20AC = [0xE2, 0x82, 0xAC] ∧ (luaO_utf8esc 0x20AC).length = utf8Length 0x20AC
      ∧ utf8Decode (luaO_utf8esc 0x20AC) = some 0x20AC :=
  ⟨by decide, (luaO_utf8esc_encodes 0x20AC (by decide)).1,
    (luaO_utf8esc_encodes 0x20AC (by decide)).2.2.2.2.2.2.1⟩

theorem foldl_hex_ge (ds : List Nat) (a : Nat) :
    a ≤ ds.foldl (fun a c => a * 16 + hexDigitValue c) a := by
  induction ds generalizing a with
  | nil => exact le_refl _
  | cons d ds ih =>
    simp only [List.foldl_cons]
    exact le_trans (by omega) (ih _)

theorem hexValue_cons (d : Nat) (ds : List Nat) :
    hexValue (d :: ds) = ds.foldl (fun a c => a * 16 + hexDigitValue c) (hexDigitValue d) := by
  simp [hexValue]

theorem readutf8esc_loop_digits (rest : List Nat) (hrest : lisxdigit (peek rest) = false)
    (line : Int) :
    ∀ (ds : List Nat) (c r i fuel : Nat) (b : Mbuffer),
      (∀ d ∈ ds, lisxdigit ((d : Nat) : Int) = true) → c < 256 → r ≤ 0x7FFFFFFF →
      ds.length + 1 ≤ fuel → BufferRoom b (ds.length + 2) →
      (ds.foldl (fun a c => a * 16 + hexDigitValue c) r ≤ 0x7FFFFFFF →
        readutf8esc_loop fuel (atText (c :: (ds ++ rest)) line b) r i =
          Except.ok (ds.foldl (fun a c => a * 16 + hexDigitValue c) r, i + ds.length,
            atText rest line (b.pushAll (c :: ds))))
      ∧ (0x7FFFFFFF < ds.foldl (fun a c => a * 16 + hexDigitValue c) r →
        ∃ near, readutf8esc_loop fuel (atText (c :: (ds ++ rest)) line b) r i =
          Except.error (Raised.lexerror "UTF-8 value too large" line near)) := by
  intro ds
  induction ds with
  | nil =>
    intro c r i fuel b _ hc hr hfuel hroom
    obtain ⟨f, rfl⟩ : ∃ f, fuel = f + 1 := ⟨fuel - 1, by simp at hfuel; omega⟩
    refine ⟨?_, ?_⟩
    · intro _
      rw [readutf8esc_loop, List.nil_append,
        save_and_next_atText c rest line b 0 hc (hroom.mono (by simp))]
      have hcur : (atText rest line (b.push c)).current = peek rest := rfl
      simp only [hcur, hrest]
      rfl
    · intro h
      simp only [List.foldl_nil] at h
      omega
  | cons d ds ih =>
    intro c r i fuel b hds hc hr hfuel hroom
    obtain ⟨f, rfl⟩ : ∃ f, fuel = f + 1 := ⟨fuel - 1, by simp at hfuel; omega⟩
    have hd := hds d (List.mem_cons_self _ _)
    have hdv := luaO_hexavalue_digit d hd
    have hstep : readutf8esc_loop (f + 1) (atText (c :: (d :: ds ++ rest)) line b) r i =
        match esccheck (atText (d :: (ds ++ rest)) line (b.push c))
            (decide (r ≤ 0x7FFFFFFF / 16)) "UTF-8 value too large" with
        | Except.error e => Except.error e
        | Except.ok ls2 =>
          readutf8esc_loop f ls2 ((r * 16 + luaO_hexavalue ls2.current) % 2 ^ 32) (i + 1) := by
      rw [readutf8esc_loop, List.cons_append,
        save_and_next_atText c _ line b 0 hc (hroom.mono (by simp))]
      have hcur : (atText (d :: (ds ++ rest)) line (b.push c)).current = (d : Int) := rfl
      simp only [hcur, hd, if_true]
    by_cases hsmall : r ≤ 0x7FFFFFFF / 16
    · have hdec : decide (r ≤ 0x7FFFFFFF / 16) = true := by simpa using hsmall
      have hcur : (atText (d :: (ds ++ rest)) line (b.push c)).current = (d : Int) := rfl
      have hmod : (r * 16 + hexDigitValue d) % 2 ^ 32 = r * 16 + hexDigitValue d := by
        apply Nat.mod_eq_of_lt
        omega
      have hrec := ih d (r * 16 + hexDigitValue d) (i + 1) f (b.push c)
        (fun x hx => hds x (List.mem_cons_of_mem _ hx)) hdv.2.2 (by omega)
        (by simp at hfuel; omega)
        (BufferRoom.push (hroom.mono (by simp)) c)
      rw [hstep, hdec, esccheck_pass]
      simp only [hcur, hdv.1, hmod, List.foldl_cons]
      refine ⟨?_, ?_⟩
      · intro hv
        rw [hrec.1 hv]
        have : i + 1 + ds.length = i + (d :: ds).length := by
          simp only [List.length_cons]
          omega
        rw [this]
        rfl
      · intro hv
        exact hrec.2 hv
    · have hdec : decide (r ≤ 0x7FFFFFFF / 16) = false := by simpa using hsmall
      have hbig : 0x7FFFFFFF < (d :: ds).foldl (fun a c => a * 16 + hexDigitValue c) r := by
        simp only [List.foldl_cons]
        have := foldl_hex_ge ds (r * 16 + hexDigitValue d)
        omega
      refine ⟨fun hv => by omega, fun _ => ?_⟩
      rw [hstep, hdec, esccheck_fail_atText _ _ _ _
        (BufferRoom.push (hroom.mono (by simp)) c) (by
          intro x hx
          simp only [List.take_succ_cons, List.take_zero, List.mem_singleton] at hx
          rw [hx]
          exact hdv.2.2)]
      exact ⟨_, rfl⟩

theorem save_bytes_atText (t : List Nat) (line : Int) :
    ∀ (bs : List Nat) (b : Mbuffer), (∀ c ∈ bs, c < 256) → BufferRoom b bs.length →
      save_bytes bs (atText t line b) = Except.ok (atText t line (b.pushAll bs)) := by
  intro bs
  induction bs with
  | nil =>
    intro b _ _
    rfl
  | cons c s ih =>
    intro b hbs hroom
    rw [save_bytes, save_atText t line b _ s.length (by simpa using hroom)]
    simp only
    rw [cast_char_natCast c (hbs c (List.mem_cons_self _ _)),
      ih (b.push c) (fun x hx => hbs x (List.mem_cons_of_mem _ hx))
        (BufferRoom.push (by simpa using hroom) c), pushAll_cons]

theorem luaO_utf8esc_bytes (x : Nat) (hx : x ≤ 0x7FFFFFFF) :
    (∀ c ∈ luaO_utf8esc x, c < 256) ∧ (luaO_utf8esc x).length ≤ 6 := by
  rw [luaO_utf8esc_cases x hx]
  split_ifs <;> refine ⟨?_, by simp⟩ <;> intro c hmem <;>
    simp only [List.mem_cons, List.mem_singleton, List.not_mem_nil, or_false] at hmem <;> omega

theorem read_escape_utf8_start (t : List Nat) (line : Int) (b : Mbuffer) :
    read_escape (atText (117 :: t) line b) = utf8esc (atText (117 :: t) line b) := by
  have hcur : (atText (117 :: t) line b).current = 117 := rfl
  unfold read_escape
  simp only [hcur]
  rfl

theorem utf8_saved_removed (b : Mbuffer) (d0 : Nat) (ds : List Nat) :
    (((((b.push 92).push 117).push 123).pushAll (d0 :: ds)).remove (4 + ds.length)).buffer =
      b.buffer := by
  have h := remove_pushAll b (92 :: 117 :: 123 :: d0 :: ds)
  have hl : (92 :: 117 :: 123 :: d0 :: ds).length = 4 + ds.length := by
    simp only [List.length_cons]
    omega
  rw [hl] at h
  simpa [pushAll_cons] using h

theorem readutf8esc_ok (d0 : Nat) (ds rest : List Nat) (line : Int) (b : Mbuffer)
    (hd0 : lisxdigit ((d0 : Nat) : Int) = true)
    (hds : ∀ d ∈ ds, lisxdigit ((d : Nat) : Int) = true)
    (hv : hexValue (d0 :: ds) ≤ 0x7FFFFFFF) (hroom : BufferRoom b (ds.length + 5)) :
    readutf8esc (atText (117 :: 123 :: d0 :: (ds ++ 125 :: rest)) line (b.push 92)) =
      Except.ok (hexValue (d0 :: ds), atText rest line
        (((((b.push 92).push 117).push 123).pushAll (d0 :: ds)).remove (4 + ds.length))) := by
  have hdv := luaO_hexavalue_digit d0 hd0
  have hroom1 : BufferRoom (b.push 92) (ds.length + 4) := BufferRoom.push hroom 92
  have hroom2 : BufferRoom ((b.push 92).push 117) (ds.length + 3) := BufferRoom.push hroom1 117
  have hroom3 : BufferRoom (((b.push 92).push 117).push 123) (ds.length + 2) :=
    BufferRoom.push hroom2 123
  have hrest : lisxdigit (peek (125 :: rest)) = false := rfl
  rw [hexValue_cons] at hv ⊢
  have hloop := (readutf8esc_loop_digits (125 :: rest) hrest line ds d0 (hexDigitValue d0) 4
    ((atText (d0 :: (ds ++ 125 :: rest)) line (((b.push 92).push 117).push 123)).z.length + 2)
    (((b.push 92).push 117).push 123) hds hdv.2.2 (by omega)
    (by simp [atText]; omega) hroom3).1 hv
  unfold readutf8esc
  rw [save_and_next_atText 117 _ line (b.push 92) 0 (by omega) (hroom1.mono (by omega))]
  have hcur : (atText (123 :: d0 :: (ds ++ 125 :: rest)) line ((b.push 92).push 117)).current
      = 123 := rfl
  simp only [hcur, decide_True, esccheck_pass]
  rw [gethexa_ok 123 d0 _ line _ (by omega) (hroom2.mono (by omega)) hd0]
  simp only
  rw [hloop]
  have hcur2 : (atText (125 :: rest) line
      ((((b.push 92).push 117).push 123).pushAll (d0 :: ds))).current = 125 := rfl
  simp only [hcur2, decide_True, esccheck_pass, next_atText]
  rw [luaZ_buffremove_atText _ _ _ _ (by
    simp only [pushAll_buffer, push_buffer, List.length_append, List.length_cons,
      List.length_nil]
    omega)]

theorem readutf8esc_too_large (d0 : Nat) (ds rest : List Nat) (line : Int) (b : Mbuffer)
    (hd0 : lisxdigit ((d0 : Nat) : Int) = true)
    (hds : ∀ d ∈ ds, lisxdigit ((d : Nat) : Int) = true)
    (hrest : lisxdigit (peek rest) = false)
    (hv : 0x7FFFFFFF < hexValue (d0 :: ds)) (hroom : BufferRoom b (ds.length + 5)) :
    ∃ near, readutf8esc (atText (117 :: 123 :: d0 :: (ds ++ rest)) line (b.push 92)) =
      Except.error (Raised.lexerror "UTF-8 value too large" line near) := by
  have hdv := luaO_hexavalue_digit d0 hd0
  have hroom1 : BufferRoom (b.push 92) (ds.length + 4) := BufferRoom.push hroom 92
  have hroom2 : BufferRoom ((b.push 92).push 117) (ds.length + 3) := BufferRoom.push hroom1 117
  have hroom3 : BufferRoom (((b.push 92).push 117).push 123) (ds.length + 2) :=
    BufferRoom.push hroom2 123
  rw [hexValue_cons] at hv
  obtain ⟨near, hloop⟩ := (readutf8esc_loop_digits rest hrest line ds d0 (hexDigitValue d0) 4
    ((atText (d0 :: (ds ++ rest)) line (((b.push 92).push 117).push 123)).z.length + 2)
    (((b.push 92).push 117).push 123) hds hdv.2.2 (by omega)
    (by simp [atText]; omega) hroom3).2 hv
  refine ⟨near, ?_⟩
  unfold readutf8esc
  rw [save_and_next_atText 117 _ line (b.push 92) 0 (by omega) (hroom1.mono (by omega))]
  have hcur : (atText (123 :: d0 :: (ds ++ rest)) line ((b.push 92).push 117)).current
      = 123 := rfl
  simp only [hcur, decide_True, esccheck_pass]
  rw [gethexa_ok 123 d0 _ line _ (by omega) (hroom2.mono (by omega)) hd0]
  simp only
  rw [hloop]

theorem readutf8esc_no_open (t : List Nat) (line : Int) (b : Mbuffer)
    (ht : peek t ≠ 123) (ht1 : ∀ x ∈ t.take 1, x < 256) (hroom : BufferRoom b 4) :
    readutf8esc (atText (117 :: t) line (b.push 92)) =
      Except.error (Raised.lexerror "missing '\x7b'" line
        (some ([39] ++ cstr (b.buffer ++ 92 :: 117 :: t.take 1) ++ [39]))) := by
  have hroom1 : BufferRoom (b.push 92) 3 := BufferRoom.push hroom 92
  unfold readutf8esc
  rw [save_and_next_atText 117 _ line (b.push 92) 2 (by omega) hroom1]
  have hcur : (atText t line ((b.push 92).push 117)).current = peek t := rfl
  have hdec : decide (peek t = 123) = false := by simpa using ht
  simp only [hcur, hdec]
  rw [esccheck_fail_atText _ _ _ _ (BufferRoom.push hroom1 117) ht1]
  simp [push_buffer]

theorem readutf8esc_no_digit (t : List Nat) (line : Int) (b : Mbuffer)
    (ht : lisxdigit (peek t) = false) (ht1 : ∀ x ∈ t.take 1, x < 256)
    (hroom : BufferRoom b 5) :
    readutf8esc (atText (117 :: 123 :: t) line (b.push 92)) =
      Except.error (Raised.lexerror "hexadecimal digit expected" line
        (some ([39] ++ cstr (b.buffer ++ 92 :: 117 :: 123 :: t.take 1) ++ [39]))) := by
  have hroom1 : BufferRoom (b.push 92) 4 := BufferRoom.push hroom 92
  have hroom2 : BufferRoom ((b.push 92).push 117) 3 := BufferRoom.push hroom1 117
  unfold readutf8esc
  rw [save_and_next_atText 117 _ line (b.push 92) 0 (by omega) (hroom1.mono (by omega))]
  have hcur : (atText (123 :: t) line ((b.push 92).push 117)).current = 123 := rfl
  simp only [hcur, decide_True, esccheck_pass]
  rw [gethexa_fail 123 t line _ (by omega) hroom2 ht ht1]
  simp [push_buffer]

theorem readutf8esc_no_close (d0 : Nat) (ds rest : List Nat) (line : Int) (b : Mbuffer)
    (hd0 : lisxdigit ((d0 : Nat) : Int) = true)
    (hds : ∀ d ∈ ds, lisxdigit ((d : Nat) : Int) = true)
    (hrest : lisxdigit (peek rest) = false) (hclose : peek rest ≠ 125)
    (hrest1 : ∀ x ∈ rest.take 1, x < 256)
    (hv : hexValue (d0 :: ds) ≤ 0x7FFFFFFF) (hroom : BufferRoom b (ds.length + 6)) :
    readutf8esc (atText (117 :: 123 :: d0 :: (ds ++ rest)) line (b.push 92)) =
      Except.error (Raised.lexerror "missing '\x7d'" line
        (some ([39] ++ cstr (b.buffer ++ 92 :: 117 :: 123 :: d0 :: (ds ++ rest.take 1))
          ++ [39]))) := by
  have hdv := luaO_hexavalue_digit d0 hd0
  have hroom1 : BufferRoom (b.push 92) (ds.length + 5) := BufferRoom.push hroom 92
  have hroom2 : BufferRoom ((b.push 92).push 117) (ds.length + 4) := BufferRoom.push hroom1 117
  have hroom3 : BufferRoom (((b.push 92).push 117).push 123) (ds.length + 3) :=
    BufferRoom.push hroom2 123
  have hroom4 : BufferRoom ((((b.push 92).push 117).push 123).pushAll (d0 :: ds)) 2 := by
    apply BufferRoom.pushAll
    simp only [List.length_cons]
    exact hroom3.mono (by omega)
  rw [hexValue_cons] at hv
  have hloop := (readutf8esc_loop_digits rest hrest line ds d0 (hexDigitValue d0) 4
    ((atText (d0 :: (ds ++ rest)) line (((b.push 92).push 117).push 123)).z.length + 2)
    (((b.push 92).push 117).push 123) hds hdv.2.2 (by omega)
    (by simp [atText]; omega) (hroom3.mono (by omega))).1 hv
  unfold readutf8esc
  rw [save_and_next_atText 117 _ line (b.push 92) 0 (by omega) (hroom1.mono (by omega))]
  have hcur : (atText (123 :: d0 :: (ds ++ rest)) line ((b.push 92).push 117)).current
      = 123 := rfl
  simp only [hcur, decide_True, esccheck_pass]
  rw [gethexa_ok 123 d0 _ line _ (by omega) (hroom2.mono (by omega)) hd0]
  simp only
  rw [hloop]
  have hcur2 : (atText rest line
      ((((b.push 92).push 117).push 123).pushAll (d0 :: ds))).current = peek rest := rfl
  have hdec : decide (peek rest = 125) = false := by simpa using hclose
  simp only [hcur2, hdec]
  rw [esccheck_fail_atText _ _ _ _ hroom4 hrest1]
  simp [push_buffer, pushAll_buffer]

/-- C16: in a short string, `\u` followed by an opening brace, the hexadecimal
digits `d0 :: ds` (any number of them, leading zeros included) and a closing
brace is accepted exactly when the digits denote a value `v ≤ 0x7FFFFFFF`;
it then adds the bytes `luaO_utf8esc v` and nothing else, and the scan goes
on after the closing brace.  A larger value raises "UTF-8 value too large"; a
missing opening brace, an absent first digit and a missing closing brace
raise their own errors.  The number of digits is kept in the range of the
`int` that counts the saved characters.  The literal with the two escapes of
`48` and `49` gives the bytes `H`, `I`. -/
theorem read_string_utf8_escape (del : Int) (hdel : del = 34 ∨ del = 39) (fuel : Nat)
    (d0 : Nat) (ds : List Nat) (line : Int) (b : Mbuffer)
    (hd0 : lisxdigit ((d0 : Nat) : Int) = true)
    (hds : ∀ d ∈ ds, lisxdigit ((d : Nat) : Int) = true)
    (_hcount : (ds.length : Int) + 4 ≤ INT_MAX)
    (hroom : BufferRoom b (ds.length + 10)) :
    (hexValue (d0 :: ds) ≤ 0x7FFFFFFF → ∀ rest : List Nat,
      ∃ b1, b1.buffer = b.buffer ++ luaO_utf8esc (hexValue (d0 :: ds))
        ∧ read_string_loop del (fuel + 1)
            (atText (92 :: 117 :: 123 :: d0 :: (ds ++ 125 :: rest)) line b) =
          read_string_loop del fuel (atText rest line b1))
    ∧ (0x7FFFFFFF < hexValue (d0 :: ds) → ∀ rest : List Nat, lisxdigit (peek rest) = false →
      ∃ near, read_string_loop del (fuel + 1)
          (atText (92 :: 117 :: 123 :: d0 :: (ds ++ rest)) line b) =
        Except.error (Raised.lexerror "UTF-8 value too large" line near))
    ∧ (∀ t : List Nat, peek t ≠ 123 → (∀ x ∈ t.take 1, x < 256) →
      read_string_loop del (fuel + 1) (atText (92 :: 117 :: t) line b) =
        Except.error (Raised.lexerror "missing '\x7b'" line
          (some ([39] ++ cstr (b.buffer ++ 92 :: 117 :: t.take 1) ++ [39]))))
    ∧ (∀ t : List Nat, lisxdigit (peek t) = false → (∀ x ∈ t.take 1, x < 256) →
      read_string_loop del (fuel + 1) (atText (92 :: 117 :: 123 :: t) line b) =
        Except.error (Raised.lexerror "hexadecimal digit expected" line
          (some ([39] ++ cstr (b.buffer ++ 92 :: 117 :: 123 :: t.take 1) ++ [39]))))
    ∧ (hexValue (d0 :: ds) ≤ 0x7FFFFFFF → ∀ rest : List Nat, lisxdigit (peek rest) = false →
      peek rest ≠ 125 → (∀ x ∈ rest.take 1, x < 256) →
      read_string_loop del (fuel + 1)
          (atText (92 :: 117 :: 123 :: d0 :: (ds ++ rest)) line b) =
        Except.error (Raised.lexerror "missing '\x7d'" line
          (some ([39] ++ cstr (b.buffer ++ 92 :: 117 :: 123 :: d0 :: (ds ++ rest.take 1))
            ++ [39]))))
    ∧ ∀ P : Platform, ∃ ls1,
        llex P (luaX_setinput
          [34, 92, 117, 123, 52, 56, 125, 92, 117, 123, 52, 57, 125, 34]) =
          Except.ok (TK_STRING, SemInfo.ts [72, 73], ls1) := by
  have hroom0 : BufferRoom b 1 := hroom.mono (by omega)
  refine ⟨?_, ?_, ?_, ?_, ?_, ?_⟩
  · intro hv rest
    have hbytes := luaO_utf8esc_bytes (hexValue (d0 :: ds)) hv
    have hbuf := utf8_saved_removed b d0 ds
    have hroomX : BufferRoom ((((b.push 92).push 117).push 123).pushAll (d0 :: ds)) 6 := by
      apply BufferRoom.pushAll
      simp only [List.length_cons]
      exact BufferRoom.push (BufferRoom.push (BufferRoom.push
        (hroom.mono (by omega)) 92) 117) 123
    have hroomR := BufferRoom.remove hroomX (4 + ds.length)
    refine ⟨(((((b.push 92).push 117).push 123).pushAll (d0 :: ds)).remove
      (4 + ds.length)).pushAll (luaO_utf8esc (hexValue (d0 :: ds))), ?_, ?_⟩
    · rw [pushAll_buffer, hbuf]
    · rw [read_string_loop_escape del hdel fuel _ line b hroom0, read_escape_utf8_start]
      unfold utf8esc
      rw [readutf8esc_ok d0 ds rest line b hd0 hds hv (hroom.mono (by omega))]
      simp only
      rw [save_bytes_atText rest line _ _ hbytes.1 (hroomR.mono hbytes.2)]
  · intro hv rest hrest
    obtain ⟨near, h⟩ := readutf8esc_too_large d0 ds rest line b hd0 hds hrest hv
      (hroom.mono (by omega))
    refine ⟨near, ?_⟩
    rw [read_string_loop_escape del hdel fuel _ line b hroom0, read_escape_utf8_start]
    unfold utf8esc
    rw [h]
  · intro t ht ht1
    rw [read_string_loop_escape del hdel fuel _ line b hroom0, read_escape_utf8_start]
    unfold utf8esc
    rw [readutf8esc_no_open t line b ht ht1 (hroom.mono (by omega))]
  · intro t ht ht1
    rw [read_string_loop_escape del hdel fuel _ line b hroom0, read_escape_utf8_start]
    unfold utf8esc
    rw [readutf8esc_no_digit t line b ht ht1 (hroom.mono (by omega))]
  · intro hv rest hrest hclose hrest1
    rw [read_string_loop_escape del hdel fuel _ line b hroom0, read_escape_utf8_start]
    unfold utf8esc
    rw [readutf8esc_no_close d0 ds rest line b hd0 hds hrest hclose hrest1 hv
      (hroom.mono (by omega))]
  · intro P
    exact ⟨_, rfl⟩

/-- Witness of C16: the escape of `20AC` in a string delimited by `"`. -/
theorem read_string_utf8_escape_witness :
    ∃ b1 : Mbuffer, b1.buffer = [34] ++ luaO_utf8esc (hexValue (50 :: [48, 65, 67]))
      ∧ read_string_loop 34 (4 + 1)
          (atText (92 :: 117 :: 123 :: 50 :: ([48, 65, 67] ++ 125 :: [34])) 1
            { buffer := [34], buffsize := 32 }) =
        read_string_loop 34 4 (atText [34] 1 b1) :=
  (read_string_utf8_escape 34 (Or.inl rfl) 4 50 [48, 65, 67] 1
    { buffer := [34], buffsize := 32 } rfl (by decide) (by decide) (by decide)).1
    (by decide) [34]

theorem llex_reset_atText (P : Platform) (t : List Nat) (line : Int) (b : Mbuffer) :
    llex P (atText t line b) =
      llex_loop P (t.tail.length + 2) (atText t line { b with buffer := [] }) := rfl

theorem llex_loop_two (P : Platform) (fuel : Nat) (c d : Nat) (tk : Int) (rest : List Nat)
    (line : Int) (b : Mbuffer)
    (h : (c = 61 ∧ d = 61 ∧ tk = TK_EQ) ∨ (c = 126 ∧ d = 61 ∧ tk = TK_NE) ∨
      (c = 33 ∧ d = 61 ∧ tk = TK_NE) ∨ (c = 60 ∧ d = 61 ∧ tk = TK_LE) ∨
      (c = 62 ∧ d = 61 ∧ tk = TK_GE) ∨ (c = 60 ∧ d = 60 ∧ tk = TK_SHL) ∨
      (c = 62 ∧ d = 62 ∧ tk = TK_SHR) ∨ (c = 58 ∧ d = 58 ∧ tk = TK_DBCOLON) ∨
      (c = 47 ∧ d = 47 ∧ tk = TK_IDIV)) :
    llex_loop P (fuel + 1) (atText (c :: d :: rest) line b) =
      Except.ok (tk, SemInfo.none, atText rest line b) := by
  rw [llex_loop]
  rcases h with h | h | h | h | h | h | h | h | h <;>
    (obtain ⟨rfl, rfl, rfl⟩ := h
     simp [atText, peek, next, check_next1, EOZ]
     cases rest <;> rfl)

theorem llex_loop_one (P : Platform) (fuel : Nat) (c : Nat) (rest : List Nat)
    (line : Int) (b : Mbuffer)
    (h : (c = 61 ∧ peek rest ≠ 61) ∨ (c = 126 ∧ peek rest ≠ 61) ∨ (c = 33 ∧ peek rest ≠ 61) ∨
      (c = 60 ∧ peek rest ≠ 61 ∧ peek rest ≠ 60) ∨ (c = 62 ∧ peek rest ≠ 61 ∧ peek rest ≠ 62) ∨
      (c = 58 ∧ peek rest ≠ 58) ∨ (c = 47 ∧ peek rest ≠ 47)) :
    llex_loop P (fuel + 1) (atText (c :: rest) line b) =
      Except.ok ((c : Int), SemInfo.none, atText rest line b) := by
  have hcur : (atText rest line b).current = peek rest := rfl
  rw [llex_loop]
  rcases h with h | h | h | h | h | h | h
  · obtain ⟨rfl, h1⟩ := h
    simp [next_atText, check_next1, hcur, h1]
    simp [atText, peek, EOZ]
  · obtain ⟨rfl, h1⟩ := h
    simp [next_atText, check_next1, hcur, h1]
    simp [atText, peek, EOZ]
  · obtain ⟨rfl, h1⟩ := h
    simp [next_atText, check_next1, hcur, h1]
    simp [atText, peek, EOZ]
  · obtain ⟨rfl, h1, h2⟩ := h
    simp [next_atText, check_next1, hcur, h1, h2]
    simp [atText, peek, EOZ]
  · obtain ⟨rfl, h1, h2⟩ := h
    simp [next_atText, check_next1, hcur, h1, h2]
    simp [atText, peek, EOZ]
  · obtain ⟨rfl, h1⟩ := h
    simp [next_atText, check_next1, hcur, h1]
    simp [atText, peek, EOZ]
  · obtain ⟨rfl, h1⟩ := h
    simp [next_atText, check_next1, hcur, h1]
    simp [atText, peek, EOZ]

theorem llex_loop_dot (P : Platform) (fuel : Nat) (t : List Nat) (line : Int) (b : Mbuffer)
    (hroom : BufferRoom b 1) :
    llex_loop P (fuel + 1) (atText (46 :: t) line b) =
      match check_next1 (atText t line (b.push 46)) 46 with
      | (true, ls2) =>
        match check_next1 ls2 46 with
        | (true, ls3) => Except.ok (TK_DOTS, SemInfo.none, ls3)
        | (false, ls3) => Except.ok (TK_CONCAT, SemInfo.none, ls3)
      | (false, ls2) =>
        if ¬ lisdigit ls2.current then Except.ok (46, SemInfo.none, ls2)
        else read_numeral P ls2 := by
  have hcur : (atText (46 :: t) line b).current = 46 := rfl
  rw [llex_loop]
  simp only [hcur]
  rw [if_neg (by decide), if_neg (by decide), if_neg (by decide), if_neg (by decide),
    if_neg (by decide), if_neg (by decide), if_neg (by decide)]
  rw [if_neg (by decide), if_neg (by decide), if_neg (by decide), if_neg (by decide),
    if_neg (by decide), if_pos trivial, save_and_next_atText 46 t line b 0 (by omega) hroom]

theorem check_next1_hit (c : Nat) (t : List Nat) (line : Int) (b : Mbuffer) :
    check_next1 (atText (c :: t) line b) (c : Int) = (true, atText t line b) := by
  have hcur : (atText (c :: t) line b).current = (c : Int) := rfl
  unfold check_next1
  rw [if_pos hcur, next_atText]

theorem check_next1_miss (d : Int) (t : List Nat) (line : Int) (b : Mbuffer)
    (h : peek t ≠ d) : check_next1 (atText t line b) d = (false, atText t line b) := by
  have hcur : (atText t line b).current = peek t := rfl
  unfold check_next1
  rw [hcur, if_neg h]

theorem llex_loop_dots (P : Platform) (fuel : Nat) (rest : List Nat) (line : Int) (b : Mbuffer)
    (hroom : BufferRoom b 1) :
    llex_loop P (fuel + 1) (atText (46 :: 46 :: 46 :: rest) line b) =
        Except.ok (TK_DOTS, SemInfo.none, atText rest line (b.push 46))
    ∧ (peek rest ≠ 46 → llex_loop P (fuel + 1) (atText (46 :: 46 :: rest) line b) =
        Except.ok (TK_CONCAT, SemInfo.none, atText rest line (b.push 46)))
    ∧ (peek rest ≠ 46 → lisdigit (peek rest) = false →
      llex_loop P (fuel + 1) (atText (46 :: rest) line b) =
        Except.ok (46, SemInfo.none, atText rest line (b.push 46))) := by
  have h46 : ((46 : Nat) : Int) = 46 := rfl
  refine ⟨?_, ?_, ?_⟩
  · rw [llex_loop_dot P fuel _ line b hroom]
    have h1 := check_next1_hit 46 (46 :: rest) line (b.push 46)
    have h2 := check_next1_hit 46 rest line (b.push 46)
    rw [h46] at h1 h2
    rw [h1]
    simp only
    rw [h2]
  · intro h
    rw [llex_loop_dot P fuel _ line b hroom]
    have h1 := check_next1_hit 46 rest line (b.push 46)
    rw [h46] at h1
    rw [h1]
    simp only
    rw [check_next1_miss 46 rest line _ h]
  · intro h hd
    have hcur : (atText rest line (b.push 46)).current = peek rest := rfl
    rw [llex_loop_dot P fuel _ line b hroom, check_next1_miss 46 rest line _ h]
    simp only [hcur, hd]
    rfl

/-- C22: `llex` gives the operators of several characters by longest match:
`==` is `TK_EQ`, `~=` and `!=` are both `TK_NE`, `<=` is `TK_LE`, `>=` is
`TK_GE`, `<<` is `TK_SHL`, `>>` is `TK_SHR`, `::` is `TK_DBCOLON`, `//` is
`TK_IDIV`, three dots are `TK_DOTS` and two dots not followed by a dot are
`TK_CONCAT`, the scan standing right after the operator; when the character
after `=`, `~`, `!`, `<`, `>`, `:`, `/` or `.` completes no operator (and, after
a dot, is no digit), the token is the first character alone and the scan
stands on the character after it. -/
theorem llex_operators (P : Platform) (rest : List Nat) (line : Int) (b : Mbuffer)
    (hroom : BufferRoom b 1) :
    llex P (atText (61 :: 61 :: rest) line b) =
        Except.ok (TK_EQ, SemInfo.none, atText rest line { b with buffer := [] })
    ∧ llex P (atText (126 :: 61 :: rest) line b) =
        Except.ok (TK_NE, SemInfo.none, atText rest line { b with buffer := [] })
    ∧ llex P (atText (33 :: 61 :: rest) line b) =
        Except.ok (TK_NE, SemInfo.none, atText rest line { b with buffer := [] })
    ∧ llex P (atText (60 :: 61 :: rest) line b) =
        Except.ok (TK_LE, SemInfo.none, atText rest line { b with buffer := [] })
    ∧ llex P (atText (62 :: 61 :: rest) line b) =
        Except.ok (TK_GE, SemInfo.none, atText rest line { b with buffer := [] })
    ∧ llex P (atText (60 :: 60 :: rest) line b) =
        Except.ok (TK_SHL, SemInfo.none, atText rest line { b with buffer := [] })
    ∧ llex P (atText (62 :: 62 :: rest) line b) =
        Except.ok (TK_SHR, SemInfo.none, atText rest line { b with buffer := [] })
    ∧ llex P (atText (58 :: 58 :: rest) line b) =
        Except.ok (TK_DBCOLON, SemInfo.none, atText rest line { b with buffer := [] })
    ∧ llex P (atText (47 :: 47 :: rest) line b) =
        Except.ok (TK_IDIV, SemInfo.none, atText rest line { b with buffer := [] })
    ∧ llex P (atText (46 :: 46 :: 46 :: rest) line b) =
        Except.ok (TK_DOTS, SemInfo.none,
          atText rest line (Mbuffer.push { b with buffer := [] } 46))
    ∧ (peek rest ≠ 46 → llex P (atText (46 :: 46 :: rest) line b) =
        Except.ok (TK_CONCAT, SemInfo.none,
          atText rest line (Mbuffer.push { b with buffer := [] } 46)))
    ∧ (peek rest ≠ 61 → llex P (atText (61 :: rest) line b) =
        Except.ok (61, SemInfo.none, atText rest line { b with buffer := [] }))
    ∧ (peek rest ≠ 61 → llex P (atText (126 :: rest) line b) =
        Except.ok (126, SemInfo.none, atText rest line { b with buffer := [] }))
    ∧ (peek rest ≠ 61 → llex P (atText (33 :: rest) line b) =
        Except.ok (33, SemInfo.none, atText rest line { b with buffer := [] }))
    ∧ (peek rest ≠ 61 → peek rest ≠ 60 → llex P (atText (60 :: rest) line b) =
        Except.ok (60, SemInfo.none, atText rest line { b with buffer := [] }))
    ∧ (peek rest ≠ 61 → peek rest ≠ 62 → llex P (atText (62 :: rest) line b) =
        Except.ok (62, SemInfo.none, atText rest line { b with buffer := [] }))
    ∧ (peek rest ≠ 58 → llex P (atText (58 :: rest) line b) =
        Except.ok (58, SemInfo.none, atText rest line { b with buffer := [] }))
    ∧ (peek rest ≠ 47 → llex P (atText (47 :: rest) line b) =
        Except.ok (47, SemInfo.none, atText rest line { b with buffer := [] }))
    ∧ (peek rest ≠ 46 → lisdigit (peek rest) = false →
      llex P (atText (46 :: rest) line b) =
        Except.ok (46, SemInfo.none, atText rest line (Mbuffer.push { b with buffer := [] } 46))) := by
  have hr : BufferRoom { b with buffer := [] } 1 := BufferRoom.reset hroom (by omega)
  refine ⟨?_, ?_, ?_, ?_, ?_, ?_, ?_, ?_, ?_, ?_⟩
  · rw [llex_reset_atText]
    exact llex_loop_two P _ 61 61 TK_EQ rest line _ (by decide)
  · rw [llex_reset_atText]
    exact llex_loop_two P _ 126 61 TK_NE rest line _ (by decide)
  · rw [llex_reset_atText]
    exact llex_loop_two P _ 33 61 TK_NE rest line _ (by decide)
  · rw [llex_reset_atText]
    exact llex_loop_two P _ 60 61 TK_LE rest line _ (by decide)
  · rw [llex_reset_atText]
    exact llex_loop_two P _ 62 61 TK_GE rest line _ (by decide)
  · rw [llex_reset_atText]
    exact llex_loop_two P _ 60 60 TK_SHL rest line _ (by decide)
  · rw [llex_reset_atText]
    exact llex_loop_two P _ 62 62 TK_SHR rest line _ (by decide)
  · rw [llex_reset_atText]
    exact llex_loop_two P _ 58 58 TK_DBCOLON rest line _ (by decide)
  · rw [llex_reset_atText]
    exact llex_loop_two P _ 47 47 TK_IDIV rest line _ (by decide)
  · refine ⟨?_, ?_, ?_, ?_, ?_, ?_, ?_, ?_, ?_, ?_⟩
    · rw [llex_reset_atText]
      exact (llex_loop_dots P _ rest line _ hr).1
    · intro h
      rw [llex_reset_atText]
      exact (llex_loop_dots P _ rest line _ hr).2.1 h
    · intro h1
      rw [llex_reset_atText]
      exact llex_loop_one P _ 61 rest line _ (by simp [h1])
    · intro h1
      rw [llex_reset_atText]
      exact llex_loop_one P _ 126 rest line _ (by simp [h1])
    · intro h1
      rw [llex_reset_atText]
      exact llex_loop_one P _ 33 rest line _ (by simp [h1])
    · intro h1 h2
      rw [llex_reset_atText]
      exact llex_loop_one P _ 60 rest line _ (by simp [h1, h2])
    · intro h1 h2
      rw [llex_reset_atText]
      exact llex_loop_one P _ 62 rest line _ (by simp [h1, h2])
    · intro h1
      rw [llex_reset_atText]
      exact llex_loop_one P _ 58 rest line _ (by simp [h1])
    · intro h1
      rw [llex_reset_atText]
      exact llex_loop_one P _ 47 rest line _ (by simp [h1])
    · intro h hd
      rw [llex_reset_atText]
      exact (llex_loop_dots P _ rest line _ hr).2.2 h hd

/-- Witness of C22: the text `<<=`, in which `<<` is read and `=` is left. -/
theorem llex_operators_witness :
    llex integerPlatform (atText (60 :: 60 :: [61]) 1 { buffer := [], buffsize := 32 }) =
      Except.ok (TK_SHL, SemInfo.none, atText [61] 1 { buffer := [], buffsize := 32 }) :=
  (llex_operators integerPlatform [61] 1 { buffer := [], buffsize := 32 }
    (by decide)).2.2.2.2.2.1

theorem lislalnum_byte (c : Nat) (h : lislalnum (c : Int) = true) : c < 256 := by
  simp only [lislalnum, lislalpha, lisdigit, Bool.or_eq_true, decide_eq_true_eq] at h
  omega

theorem read_name_loop_run (rest : List Nat) (hrest : lislalnum (peek rest) = false)
    (line : Int) :
    ∀ (cs : List Nat) (c0 fuel : Nat) (b : Mbuffer), c0 < 256 →
      (∀ c ∈ cs, lislalnum ((c : Nat) : Int) = true) → cs.length + 1 ≤ fuel →
      BufferRoom b (cs.length + 1) →
      read_name_loop fuel (atText (c0 :: (cs ++ rest)) line b) =
        Except.ok (atText rest line (b.pushAll (c0 :: cs))) := by
  intro cs
  induction cs with
  | nil =>
    intro c0 fuel b hc0 _ hfuel hroom
    obtain ⟨f, rfl⟩ : ∃ f, fuel = f + 1 := ⟨fuel - 1, by simp at hfuel; omega⟩
    have hcur : (atText rest line (b.push c0)).current = peek rest := rfl
    rw [read_name_loop, List.nil_append, save_and_next_atText c0 rest line b 0 hc0
      (hroom.mono (by simp))]
    simp only [hcur, hrest]
    rfl
  | cons d ds ih =>
    intro c0 fuel b hc0 hcs hfuel hroom
    obtain ⟨f, rfl⟩ : ∃ f, fuel = f + 1 := ⟨fuel - 1, by simp at hfuel; omega⟩
    have hd := hcs d (List.mem_cons_self _ _)
    have hcur : (atText (d :: (ds ++ rest)) line (b.push c0)).current = (d : Int) := rfl
    rw [read_name_loop, List.cons_append, save_and_next_atText c0 _ line b 0 hc0
      (hroom.mono (by simp))]
    simp only [hcur, hd, if_true]
    rw [ih d f (b.push c0) (lislalnum_byte d hd)
      (fun x hx => hcs x (List.mem_cons_of_mem _ hx)) (by simp at hfuel; omega)
      (BufferRoom.push (by simpa using hroom) c0)]
    rfl

theorem llex_loop_name (P : Platform) (fuel : Nat) (c0 : Nat) (t : List Nat) (line : Int)
    (b : Mbuffer) (h0 : lislalpha ((c0 : Nat) : Int) = true) :
    llex_loop P (fuel + 1) (atText (c0 :: t) line b) =
      match read_name_loop (t.length + 2) (atText (c0 :: t) line b) with
      | Except.error e => Except.error e
      | Except.ok ls1 =>
        if reservedExtra P (luaX_newstring ls1 0 ls1.buff.buffer.length) > 0 then
          Except.ok ((reservedExtra P (luaX_newstring ls1 0 ls1.buff.buffer.length) : Int)
            - 1 + FIRST_RESERVED, SemInfo.none, ls1)
        else Except.ok (TK_NAME, SemInfo.ts (luaX_newstring ls1 0 ls1.buff.buffer.length), ls1) := by
  have hcur : (atText (c0 :: t) line b).current = (c0 : Int) := rfl
  have hr := h0
  simp only [lislalpha, decide_eq_true_eq] at hr
  have e1 : ¬ ((c0 : Int) = 10 ∨ (c0 : Int) = 13) := by omega
  have e2 : ¬ ((c0 : Int) = 32 ∨ (c0 : Int) = 12 ∨ (c0 : Int) = 9 ∨ (c0 : Int) = 11) := by omega
  have e3 : ¬ ((c0 : Int) = 45) := by omega
  have e4 : ¬ ((c0 : Int) = 91) := by omega
  have e5 : ¬ ((c0 : Int) = 61) := by omega
  have e6 : ¬ ((c0 : Int) = 60) := by omega
  have e7 : ¬ ((c0 : Int) = 62) := by omega
  have e8 : ¬ ((c0 : Int) = 47) := by omega
  have e9 : ¬ ((c0 : Int) = 126) := by omega
  have e10 : ¬ ((c0 : Int) = 58) := by omega
  have e11 : ¬ ((c0 : Int) = 33) := by omega
  have e12 : ¬ ((c0 : Int) = 34 ∨ (c0 : Int) = 39) := by omega
  have e13 : ¬ ((c0 : Int) = 46) := by omega
  have e14 : ¬ (lisdigit (c0 : Int) = true) := by
    simp only [lisdigit, decide_eq_true_eq]
    omega
  have e15 : ¬ ((c0 : Int) = EOZ) := by
    simp only [EOZ]
    omega
  rw [llex_loop]
  simp only [hcur]
  rw [if_neg e1, if_neg e2, if_neg e3, if_neg e4, if_neg e5, if_neg e6, if_neg e7, if_neg e8,
    if_neg e9, if_neg e10, if_neg e11, if_neg e12, if_neg e13, if_neg e14, if_neg e15,
    if_pos h0]
  rfl

theorem reserved_indexOf :
    ∀ i, i < NUM_RESERVED →
      ((luaX_tokens.take NUM_RESERVED).map bytes).indexOf (bytes (luaX_tokens.getD i "")) = i
      ∧ (bytes (luaX_tokens.getD i "") = bytes "global" ↔ i = 9) := by
  decide

theorem reservedExtra_reserved (P : Platform) (i : Nat) (hi : i < NUM_RESERVED)
    (hg : ¬ (P.compatGlobal = true ∧ i = 9)) :
    reservedExtra P (bytes (luaX_tokens.getD i "")) = i + 1 := by
  obtain ⟨h1, h2⟩ := reserved_indexOf i hi
  unfold reservedExtra
  simp only [h1]
  rw [if_pos ⟨hi, fun h => hg ⟨h.1, h2.mp h.2⟩⟩]

theorem reservedExtra_global (P : Platform) (h : P.compatGlobal = true) :
    reservedExtra P (bytes "global") = 0 := by
  unfold reservedExtra
  have hn : ¬ (((luaX_tokens.take NUM_RESERVED).map bytes).indexOf (bytes "global") <
      NUM_RESERVED ∧ ¬ (P.compatGlobal = true ∧ bytes "global" = bytes "global")) :=
    fun hh => hh.2 ⟨h, rfl⟩
  exact if_neg hn

theorem indexOf_absent (name : List Nat) (l : List (List Nat)) (h : name ∉ l) :
    l.indexOf name = l.length := by
  induction l with
  | nil => rfl
  | cons a l ih =>
    simp only [List.mem_cons, not_or] at h
    rw [List.indexOf_cons]
    have : (a == name) = false := by
      simpa using fun h' => h.1 h'.symm
    simp [this, ih h.2]

theorem reservedExtra_other (P : Platform) (name : List Nat)
    (h : ∀ i, i < NUM_RESERVED → name ≠ bytes (luaX_tokens.getD i "")) :
    reservedExtra P name = 0 := by
  have hnot : name ∉ (luaX_tokens.take NUM_RESERVED).map bytes := by
    intro hmem
    obtain ⟨i, hi, hget⟩ := List.getElem_of_mem hmem
    have hlen : ((luaX_tokens.take NUM_RESERVED).map bytes).length = NUM_RESERVED := by decide
    have hi2 : i < NUM_RESERVED := by omega
    apply h i hi2
    rw [← hget]
    simp only [List.getElem_map, List.getElem_take]
    congr 1
    have hi3 : i < luaX_tokens.length := by
      have : luaX_tokens.length = 38 := by decide
      have : NUM_RESERVED = 23 := rfl
      omega
    simp [List.getD_eq_getElem?_getD, List.getElem?_eq_getElem hi3]
  have hidx : ((luaX_tokens.take NUM_RESERVED).map bytes).indexOf name = 23 := by
    have hlen : ((luaX_tokens.take NUM_RESERVED).map bytes).length = 23 := by decide
    exact (indexOf_absent name _ hnot).trans hlen
  unfold reservedExtra
  have hn : ¬ (((luaX_tokens.take NUM_RESERVED).map bytes).indexOf name < NUM_RESERVED ∧
      ¬ (P.compatGlobal = true ∧ name = bytes "global")) := by
    intro hh
    have h1 : ((luaX_tokens.take NUM_RESERVED).map bytes).indexOf name < 23 := hh.1
    omega
  exact if_neg hn

theorem llex_name_run (P : Platform) (c0 : Nat) (cs rest : List Nat) (line : Int)
    (b : Mbuffer) (h0 : lislalpha ((c0 : Nat) : Int) = true)
    (hcs : ∀ c ∈ cs, lislalnum ((c : Nat) : Int) = true)
    (hrest : lislalnum (peek rest) = false) (hroom : BufferRoom b (cs.length + 1)) :
    llex P (atText (c0 :: (cs ++ rest)) line b) =
      if reservedExtra P (c0 :: cs) > 0 then
        Except.ok ((reservedExtra P (c0 :: cs) : Int) - 1 + FIRST_RESERVED, SemInfo.none,
          atText rest line (Mbuffer.pushAll { b with buffer := [] } (c0 :: cs)))
      else
        Except.ok (TK_NAME, SemInfo.ts (c0 :: cs),
          atText rest line (Mbuffer.pushAll { b with buffer := [] } (c0 :: cs))) := by
  have hc0 : c0 < 256 := by
    apply lislalnum_byte
    simp [lislalnum, h0]
  have hr : BufferRoom { b with buffer := [] } (cs.length + 1) :=
    BufferRoom.reset hroom (by omega)
  have hstr : luaX_newstring
      (atText rest line (Mbuffer.pushAll { b with buffer := [] } (c0 :: cs))) 0
      (atText rest line (Mbuffer.pushAll { b with buffer := [] } (c0 :: cs))).buff.buffer.length
      = c0 :: cs := by
    simp [luaX_newstring, atText, pushAll_buffer]
  rw [llex_reset_atText, llex_loop_name P _ c0 _ line _ h0,
    read_name_loop_run rest hrest line cs c0 _ _ hc0 hcs (by simp; omega) hr]
  simp only [hstr]

/-- C23, counterexample: in a build with `LUA_COMPAT_GLOBAL` the run `global`
equals the reserved word of index 9, below `NUM_RESERVED`, and the token is
`TK_NAME`, not `FIRST_RESERVED + 9`. -/
theorem llex_global_is_name_in_compat_build :
    bytes "global" = bytes (luaX_tokens.getD 9 "") ∧ 9 < NUM_RESERVED
      ∧ TK_NAME ≠ FIRST_RESERVED + 9
      ∧ ∃ ls1, llex compatPlatform (luaX_setinput (bytes "global")) =
          Except.ok (TK_NAME, SemInfo.ts (bytes "global"), ls1) :=
  ⟨by decide, by decide, by decide, _, rfl⟩

/-- C23: when the current character starts an identifier, `llex` reads the
longest run of identifier characters; when the run is the reserved word of
index `i` of `luaX_tokens` (`i < NUM_RESERVED`) the token is
`FIRST_RESERVED + i`, except for `global` in a build with `LUA_COMPAT_GLOBAL`,
where it is the name `global`; when the run is no reserved word the token is
`TK_NAME` and its string is the run. -/
theorem llex_identifier (P : Platform) (c0 : Nat) (cs rest : List Nat) (line : Int)
    (b : Mbuffer) (h0 : lislalpha ((c0 : Nat) : Int) = true)
    (hcs : ∀ c ∈ cs, lislalnum ((c : Nat) : Int) = true)
    (hrest : lislalnum (peek rest) = false) (hroom : BufferRoom b (cs.length + 1)) :
    (∀ i, i < NUM_RESERVED → c0 :: cs = bytes (luaX_tokens.getD i "") →
      ¬ (P.compatGlobal = true ∧ i = 9) →
      llex P (atText (c0 :: (cs ++ rest)) line b) =
        Except.ok (FIRST_RESERVED + (i : Int), SemInfo.none,
          atText rest line (Mbuffer.pushAll { b with buffer := [] } (c0 :: cs))))
    ∧ (P.compatGlobal = true → c0 :: cs = bytes "global" →
      llex P (atText (c0 :: (cs ++ rest)) line b) =
        Except.ok (TK_NAME, SemInfo.ts (c0 :: cs),
          atText rest line (Mbuffer.pushAll { b with buffer := [] } (c0 :: cs))))
    ∧ ((∀ i, i < NUM_RESERVED → c0 :: cs ≠ bytes (luaX_tokens.getD i "")) →
      llex P (atText (c0 :: (cs ++ rest)) line b) =
        Except.ok (TK_NAME, SemInfo.ts (c0 :: cs),
          atText rest line (Mbuffer.pushAll { b with buffer := [] } (c0 :: cs)))) := by
  have hrun := llex_name_run P c0 cs rest line b h0 hcs hrest hroom
  refine ⟨?_, ?_, ?_⟩
  · intro i hi hname hg
    have hx : reservedExtra P (c0 :: cs) = i + 1 := by
      rw [hname]
      exact reservedExtra_reserved P i hi hg
    rw [hrun, hx, if_pos (by omega)]
    have : (((i + 1 : Nat) : Int) - 1 + FIRST_RESERVED) = FIRST_RESERVED + (i : Int) := by
      push_cast
      omega
    rw [this]
  · intro hcompat hname
    have hx : reservedExtra P (c0 :: cs) = 0 := by
      rw [hname]
      exact reservedExtra_global P hcompat
    rw [hrun, hx, if_neg (by omega)]
  · intro hother
    rw [hrun, reservedExtra_other P _ hother, if_neg (by omega)]

/-- Witness of C23: the text `end+`, in which `end` is the reserved word of
index 5. -/
theorem llex_identifier_witness :
    llex integerPlatform (atText (101 :: ([110, 100] ++ [43])) 1
        { buffer := [], buffsize := 32 }) =
      Except.ok (FIRST_RESERVED + ((5 : Nat) : Int), SemInfo.none,
        atText [43] 1 (Mbuffer.pushAll { buffer := [], buffsize := 32 } (101 :: [110, 100]))) :=
  (llex_identifier integerPlatform 101 [110, 100] [43] 1 { buffer := [], buffsize := 32 }
    (by decide) (by decide) (by decide) (by decide)).1 5 (by decide) (by decide) (by decide)

theorem readsOn_resetbuffer {t : List Nat} {ls : LexState} (h : ReadsOn t ls) :
    ReadsOn t (luaZ_resetbuffer ls) := by
  obtain ⟨t1, l, b, rfl, hsuf⟩ := readsOn_elim h
  exact readsOn_intro hsuf l _

theorem readsOn_skip_sep_loop {t : List Nat} :
    ∀ (fuel : Nat) (ls ls2 : LexState) (count n : Nat), ReadsOn t ls →
      skip_sep_loop fuel ls count = Except.ok (n, ls2) → ReadsOn t ls2 := by
  intro fuel
  induction fuel with
  | zero =>
    intro ls ls2 count n h hs
    simp [skip_sep_loop] at hs
  | succ f ih =>
    intro ls ls2 count n h hs
    rw [skip_sep_loop] at hs
    by_cases hc : ls.current = 61
    · rw [if_pos hc] at hs
      cases h1 : save_and_next ls with
      | error e => simp [h1] at hs
      | ok ls1 =>
        simp only [h1] at hs
        exact ih _ _ _ _ (readsOn_save_and_next h h1) hs
    · rw [if_neg hc] at hs
      simp only [Except.ok.injEq, Prod.mk.injEq] at hs
      rw [← hs.2]
      exact h

theorem readsOn_skip_sep {t : List Nat} {ls ls2 : LexState} {n : Nat} (h : ReadsOn t ls)
    (hs : skip_sep ls = Except.ok (n, ls2)) : ReadsOn t ls2 := by
  unfold skip_sep at hs
  cases h1 : save_and_next ls with
  | error e => simp [h1] at hs
  | ok ls1 =>
    simp only [h1] at hs
    cases h2 : skip_sep_loop (ls1.z.length + 2) ls1 0 with
    | error e => simp [h2] at hs
    | ok p =>
      obtain ⟨count, ls3⟩ := p
      simp only [h2, Except.ok.injEq, Prod.mk.injEq] at hs
      rw [← hs.2]
      exact readsOn_skip_sep_loop _ _ _ _ _ (readsOn_save_and_next h h1) h2

theorem readsOn_read_long_string_loop {t : List Nat} (seminfo : Bool) (sep : Nat) (line : Int) :
    ∀ (fuel : Nat) (ls ls2 : LexState), ReadsOn t ls →
      read_long_string_loop seminfo sep line fuel ls = Except.ok ls2 → ReadsOn t ls2 := by
  intro fuel
  induction fuel with
  | zero =>
    intro ls ls2 h hs
    simp [read_long_string_loop] at hs
  | succ f ih =>
    intro ls ls2 h hs
    rw [read_long_string_loop] at hs
    by_cases c1 : ls.current = EOZ
    · rw [if_pos c1] at hs
      cases hs
    rw [if_neg c1] at hs
    by_cases c2 : ls.current = 93
    · rw [if_pos c2] at hs
      cases h1 : skip_sep ls with
      | error e => simp [h1] at hs
      | ok p =>
        obtain ⟨lvl, ls1⟩ := p
        simp only [h1] at hs
        by_cases c3 : lvl = sep
        · rw [if_pos c3] at hs
          exact readsOn_save_and_next (readsOn_skip_sep h h1) hs
        · rw [if_neg c3] at hs
          exact ih _ _ (readsOn_skip_sep h h1) hs
    rw [if_neg c2] at hs
    by_cases c4 : ls.current = 10 ∨ ls.current = 13
    · rw [if_pos c4] at hs
      cases h1 : save ls 10 with
      | error e => simp [h1] at hs
      | ok ls1 =>
        simp only [h1] at hs
        cases h2 : inclinenumber ls1 with
        | error e => simp [h2] at hs
        | ok ls3 =>
          simp only [h2] at hs
          have h3 := readsOn_inclinenumber (readsOn_save h _ h1) h2
          apply ih _ _ _ hs
          cases seminfo
          · exact readsOn_resetbuffer h3
          · exact h3
    rw [if_neg c4] at hs
    cases seminfo with
    | true =>
      simp only [if_true] at hs
      cases h1 : save_and_next ls with
      | error e => simp [h1] at hs
      | ok ls1 =>
        simp only [h1] at hs
        exact ih _ _ (readsOn_save_and_next h h1) hs
    | false =>
      simp only [Bool.false_eq_true, if_false] at hs
      exact ih _ _ (readsOn_next h) hs

theorem readsOn_read_long_string {t : List Nat} {ls ls2 : LexState} {seminfo : Bool}
    {sep : Nat} {r : Option (List Nat)} (h : ReadsOn t ls)
    (hs : read_long_string ls seminfo sep = Except.ok (r, ls2)) : ReadsOn t ls2 := by
  unfold read_long_string at hs
  cases h1 : save_and_next ls with
  | error e => simp [h1] at hs
  | ok ls1 =>
    simp only [h1] at hs
    have hr1 := readsOn_save_and_next h h1
    cases h2 : (if currIsNewline ls1 = true then inclinenumber ls1 else Except.ok ls1) with
    | error e => simp [h2] at hs
    | ok ls3 =>
      simp only [h2] at hs
      have hr3 : ReadsOn t ls3 := by
        by_cases c : currIsNewline ls1 = true
        · rw [if_pos c] at h2
          exact readsOn_inclinenumber hr1 h2
        · rw [if_neg c] at h2
          simp only [Except.ok.injEq] at h2
          rw [← h2]
          exact hr1
      cases h3 : read_long_string_loop seminfo sep ls.linenumber (ls3.z.length + 2) ls3 with
      | error e => simp [h3] at hs
      | ok ls4 =>
        simp only [h3, Except.ok.injEq, Prod.mk.injEq] at hs
        rw [← hs.2]
        exact readsOn_read_long_string_loop _ _ _ _ _ _ hr3 h3

theorem readsOn_skip_comment_loop {t : List Nat} :
    ∀ (fuel : Nat) (ls ls2 : LexState), ReadsOn t ls →
      skip_comment_loop fuel ls = Except.ok ls2 → ReadsOn t ls2 := by
  intro fuel
  induction fuel with
  | zero =>
    intro ls ls2 h hs
    simp [skip_comment_loop] at hs
  | succ f ih =>
    intro ls ls2 h hs
    rw [skip_comment_loop] at hs
    by_cases c : ¬ currIsNewline ls = true ∧ ls.current ≠ EOZ
    · rw [if_pos c] at hs
      exact ih _ _ (readsOn_next h) hs
    · rw [if_neg c] at hs
      simp only [Except.ok.injEq] at hs
      rw [← hs]
      exact h

theorem readsOn_current {t : List Nat} {ls : LexState} (h : ReadsOn t ls)
    (hbytes : ∀ c ∈ t, c < 256) :
    (ls.current = EOZ ∧ ls = atText [] ls.linenumber ls.buff) ∨
      (0 ≤ ls.current ∧ ls.current < 256) := by
  obtain ⟨t1, l, b, rfl, hsuf⟩ := readsOn_elim h
  cases t1 with
  | nil => exact Or.inl ⟨rfl, rfl⟩
  | cons c s =>
    have hc : c < 256 := hbytes c (hsuf.subset (List.mem_cons_self _ _))
    right
    simp only [atText, peek]
    omega

theorem shape_plain (P : Platform) (k : Int) (hk : k < TK_EOS) (ls1 : LexState) :
    (SemInfo.none : SemInfo P).isStored = isLiteralTag k
      ∧ (k = TK_EOS → ls1 = atText [] ls1.linenumber ls1.buff) := by
  have h1 : isLiteralTag k = false := by
    simp only [isLiteralTag, decide_eq_false_iff_not, TK_NAME, TK_STRING, TK_FLT, TK_INT,
      FIRST_RESERVED]
    simp only [TK_EOS, FIRST_RESERVED] at hk
    omega
  refine ⟨by rw [h1]; rfl, fun h => ?_⟩
  omega

theorem shape_literal (P : Platform) (k : Int) (sem : SemInfo P) (hs : sem.isStored = true)
    (hk : k = TK_NAME ∨ k = TK_STRING ∨ k = TK_FLT ∨ k = TK_INT) (ls1 : LexState) :
    sem.isStored = isLiteralTag k
      ∧ (k = TK_EOS → ls1 = atText [] ls1.linenumber ls1.buff) := by
  have h1 : isLiteralTag k = true := by
    simp only [isLiteralTag, decide_eq_true_eq]
    exact hk
  refine ⟨by rw [h1, hs], fun h => ?_⟩
  simp only [TK_EOS, TK_NAME, TK_STRING, TK_FLT, TK_INT, FIRST_RESERVED] at h hk
  omega

theorem read_numeral_shape (P : Platform) (ls : LexState) (tok : Int) (sem : SemInfo P)
    (ls1 : LexState) (hs : read_numeral P ls = Except.ok (tok, sem, ls1)) :
    sem.isStored = isLiteralTag tok
      ∧ (tok = TK_EOS → ls1 = atText [] ls1.linenumber ls1.buff) := by
  unfold read_numeral at hs
  dsimp only at hs
  cases h1 : save_and_next ls with
  | error e => simp [h1] at hs
  | ok l1 =>
    simp only [h1] at hs
    cases h2 : read_numeral_expo P ls.current l1 with
    | error e => simp [h2] at hs
    | ok p2 =>
      obtain ⟨expo, l2⟩ := p2
      simp only [h2] at hs
      cases h3 : read_numeral_loop expo (l2.z.length + 2 + MAX_SIZE) l2 with
      | error e => simp [h3] at hs
      | ok l3 =>
        simp only [h3] at hs
        cases h4 : (if lislalpha l3.current = true then save_and_next l3 else Except.ok l3) with
        | error e => simp [h4] at hs
        | ok l4 =>
          simp only [h4] at hs
          cases h5 : save l4 0 with
          | error e => simp [h5] at hs
          | ok l5 =>
            simp only [h5] at hs
            cases h6 : luaO_str2num P (cstr l5.buff.buffer) with
            | none => simp [h6] at hs
            | some v =>
              obtain ⟨tv, n⟩ := v
              cases tv with
              | int i =>
                simp only [h6, Except.ok.injEq, Prod.mk.injEq] at hs
                obtain ⟨rfl, rfl, rfl⟩ := hs
                exact shape_literal P TK_INT (SemInfo.i i) rfl (Or.inr (Or.inr (Or.inr rfl))) _
              | flt x =>
                simp only [h6, Except.ok.injEq, Prod.mk.injEq] at hs
                obtain ⟨rfl, rfl, rfl⟩ := hs
                exact shape_literal P TK_FLT (SemInfo.r x) rfl (Or.inr (Or.inr (Or.inl rfl))) _

theorem reservedExtra_le (P : Platform) (s : List Nat) : reservedExtra P s ≤ NUM_RESERVED := by
  unfold reservedExtra
  dsimp only
  split
  · rename_i h
    exact h.1
  · exact Nat.zero_le _

theorem check_next1_shape (P : Platform) (ls : LexState) (c : Int) (k1 k2 : Int)
    (hk1 : k1 < TK_EOS) (hk2 : k2 < TK_EOS) (tok : Int) (sem : SemInfo P) (ls1 : LexState)
    (hs : (match check_next1 ls c with
      | (true, l1) => (Except.ok (k1, SemInfo.none, l1) : Except Raised (Int × SemInfo P × LexState))
      | (false, l1) => Except.ok (k2, SemInfo.none, l1)) = Except.ok (tok, sem, ls1)) :
    sem.isStored = isLiteralTag tok
      ∧ (tok = TK_EOS → ls1 = atText [] ls1.linenumber ls1.buff) := by
  cases h : check_next1 ls c with
  | mk f l1 =>
    cases f with
    | true =>
      simp only [h, Except.ok.injEq, Prod.mk.injEq] at hs
      obtain ⟨rfl, rfl, rfl⟩ := hs
      exact shape_plain P _ hk1 _
    | false =>
      simp only [h, Except.ok.injEq, Prod.mk.injEq] at hs
      obtain ⟨rfl, rfl, rfl⟩ := hs
      exact shape_plain P _ hk2 _

theorem check_next1_shape2 (P : Platform) (ls : LexState) (c d : Int) (k1 k2 k3 : Int)
    (hk1 : k1 < TK_EOS) (hk2 : k2 < TK_EOS) (hk3 : k3 < TK_EOS) (tok : Int) (sem : SemInfo P)
    (ls1 : LexState)
    (hs : (match check_next1 ls c with
      | (true, l1) => (Except.ok (k1, SemInfo.none, l1) : Except Raised (Int × SemInfo P × LexState))
      | (false, l1) =>
        match check_next1 l1 d with
        | (true, l2) => Except.ok (k2, SemInfo.none, l2)
        | (false, l2) => Except.ok (k3, SemInfo.none, l2)) = Except.ok (tok, sem, ls1)) :
    sem.isStored = isLiteralTag tok
      ∧ (tok = TK_EOS → ls1 = atText [] ls1.linenumber ls1.buff) := by
  cases h : check_next1 ls c with
  | mk f l1 =>
    cases f with
    | true =>
      simp only [h, Except.ok.injEq, Prod.mk.injEq] at hs
      obtain ⟨rfl, rfl, rfl⟩ := hs
      exact shape_plain P _ hk1 _
    | false =>
      simp only [h] at hs
      exact check_next1_shape P l1 d k2 k3 hk2 hk3 tok sem ls1 hs

theorem llex_loop_shape (P : Platform) {t : List Nat} (hbytes : ∀ c ∈ t, c < 256) :
    ∀ (fuel : Nat) (ls : LexState) (tok : Int) (sem : SemInfo P) (ls1 : LexState),
      ReadsOn t ls → llex_loop P fuel ls = Except.ok (tok, sem, ls1) →
      sem.isStored = isLiteralTag tok
        ∧ (tok = TK_EOS → ls1 = atText [] ls1.linenumber ls1.buff) := by
  intro fuel
  induction fuel with
  | zero =>
    intro ls tok sem ls1 _ hs
    simp [llex_loop] at hs
  | succ f ih =>
    intro ls tok sem ls1 h hs
    rw [llex_loop] at hs
    dsimp only at hs
    by_cases c1 : ls.current = 10 ∨ ls.current = 13
    · rw [if_pos c1] at hs
      cases h1 : inclinenumber ls with
      | error e => simp [h1] at hs
      | ok l1 =>
        simp only [h1] at hs
        exact ih _ _ _ _ (readsOn_inclinenumber h h1) hs
    rw [if_neg c1] at hs
    by_cases c2 : ls.current = 32 ∨ ls.current = 12 ∨ ls.current = 9 ∨ ls.current = 11
    · rw [if_pos c2] at hs
      exact ih _ _ _ _ (readsOn_next h) hs
    rw [if_neg c2] at hs
    by_cases c3 : ls.current = 45
    · rw [if_pos c3] at hs
      by_cases d1 : (next ls).current ≠ 45
      · rw [if_pos d1] at hs
        simp only [Except.ok.injEq, Prod.mk.injEq] at hs
        obtain ⟨rfl, rfl, rfl⟩ := hs
        exact shape_plain P _ (by decide) _
      rw [if_neg d1] at hs
      have hn2 := readsOn_next (readsOn_next h)
      by_cases d2 : (next (next ls)).current = 91
      · simp only [if_pos d2] at hs
        cases h1 : skip_sep (next (next ls)) with
        | error e => simp [h1] at hs
        | ok p =>
          obtain ⟨sep, l3⟩ := p
          simp only [h1] at hs
          have hr3 := readsOn_resetbuffer (readsOn_skip_sep hn2 h1)
          by_cases d3 : sep ≥ 2
          · have d4 : (next (next ls)).current = 91 ∧ sep ≥ 2 := ⟨d2, d3⟩
            rw [if_pos d4] at hs
            cases h2 : read_long_string (luaZ_resetbuffer l3) false sep with
            | error e => simp [h2] at hs
            | ok q =>
              obtain ⟨r, l4⟩ := q
              simp only [h2] at hs
              exact ih _ _ _ _ (readsOn_resetbuffer (readsOn_read_long_string hr3 h2)) hs
          · have d4 : ¬ ((next (next ls)).current = 91 ∧ sep ≥ 2) := fun hh => d3 hh.2
            rw [if_neg d4] at hs
            cases h2 : skip_comment_loop ((luaZ_resetbuffer l3).z.length + 2)
                (luaZ_resetbuffer l3) with
            | error e => simp [h2] at hs
            | ok l4 =>
              simp only [h2] at hs
              exact ih _ _ _ _ (readsOn_skip_comment_loop _ _ _ hr3 h2) hs
      · have d4 : ¬ ((next (next ls)).current = 91 ∧ 1 ≥ 2) := fun hh => d2 hh.1
        simp only [if_neg d2] at hs
        rw [if_neg d4] at hs
        cases h2 : skip_comment_loop ((next (next ls)).z.length + 2) (next (next ls)) with
        | error e => simp [h2] at hs
        | ok l4 =>
          simp only [h2] at hs
          exact ih _ _ _ _ (readsOn_skip_comment_loop _ _ _ hn2 h2) hs
    rw [if_neg c3] at hs
    by_cases c4 : ls.current = 91
    · rw [if_pos c4] at hs
      cases h1 : skip_sep ls with
      | error e => simp [h1] at hs
      | ok p =>
        obtain ⟨sep, l1⟩ := p
        simp only [h1] at hs
        by_cases d3 : sep ≥ 2
        · rw [if_pos d3] at hs
          cases h2 : read_long_string l1 true sep with
          | error e => simp [h2] at hs
          | ok q =>
            obtain ⟨r, l2⟩ := q
            simp only [h2, Except.ok.injEq, Prod.mk.injEq] at hs
            obtain ⟨rfl, rfl, rfl⟩ := hs
            exact shape_literal P TK_STRING (SemInfo.ts _) rfl (Or.inr (Or.inl rfl)) _
        · rw [if_neg d3] at hs
          by_cases d4 : sep = 0
          · rw [if_pos d4] at hs
            cases hs
          · rw [if_neg d4] at hs
            simp only [Except.ok.injEq, Prod.mk.injEq] at hs
            obtain ⟨rfl, rfl, rfl⟩ := hs
            exact shape_plain P _ (by decide) _
    rw [if_neg c4] at hs
    by_cases c5 : ls.current = 61
    · rw [if_pos c5] at hs
      exact check_next1_shape P _ _ _ _ (by decide) (by decide) _ _ _ hs
    rw [if_neg c5] at hs
    by_cases c6 : ls.current = 60
    · rw [if_pos c6] at hs
      exact check_next1_shape2 P _ _ _ _ _ _ (by decide) (by decide) (by decide) _ _ _ hs
    rw [if_neg c6] at hs
    by_cases c7 : ls.current = 62
    · rw [if_pos c7] at hs
      exact check_next1_shape2 P _ _ _ _ _ _ (by decide) (by decide) (by decide) _ _ _ hs
    rw [if_neg c7] at hs
    by_cases c8 : ls.current = 47
    · rw [if_pos c8] at hs
      exact check_next1_shape P _ _ _ _ (by decide) (by decide) _ _ _ hs
    rw [if_neg c8] at hs
    by_cases c9 : ls.current = 126
    · rw [if_pos c9] at hs
      exact check_next1_shape P _ _ _ _ (by decide) (by decide) _ _ _ hs
    rw [if_neg c9] at hs
    by_cases c10 : ls.current = 58
    · rw [if_pos c10] at hs
      exact check_next1_shape P _ _ _ _ (by decide) (by decide) _ _ _ hs
    rw [if_neg c10] at hs
    by_cases c11 : ls.current = 33
    · rw [if_pos c11] at hs
      exact check_next1_shape P _ _ _ _ (by decide) (by decide) _ _ _ hs
    rw [if_neg c11] at hs
    by_cases c12 : ls.current = 34 ∨ ls.current = 39
    · rw [if_pos c12] at hs
      cases h1 : read_string ls ls.current with
      | error e => simp [h1] at hs
      | ok q =>
        obtain ⟨r, l2⟩ := q
        simp only [h1, Except.ok.injEq, Prod.mk.injEq] at hs
        obtain ⟨rfl, rfl, rfl⟩ := hs
        exact shape_literal P TK_STRING (SemInfo.ts _) rfl (Or.inr (Or.inl rfl)) _
    rw [if_neg c12] at hs
    by_cases c13 : ls.current = 46
    · rw [if_pos c13] at hs
      cases h1 : save_and_next ls with
      | error e => simp [h1] at hs
      | ok l1 =>
        simp only [h1] at hs
        cases h2 : check_next1 l1 46 with
        | mk f1 l2 =>
          cases f1 with
          | true =>
            simp only [h2] at hs
            exact check_next1_shape P _ _ _ _ (by decide) (by decide) _ _ _ hs
          | false =>
            simp only [h2] at hs
            by_cases d5 : ¬ lisdigit l2.current = true
            · rw [if_pos d5] at hs
              simp only [Except.ok.injEq, Prod.mk.injEq] at hs
              obtain ⟨rfl, rfl, rfl⟩ := hs
              exact shape_plain P _ (by decide) _
            · rw [if_neg d5] at hs
              exact read_numeral_shape P _ _ _ _ hs
    rw [if_neg c13] at hs
    by_cases c14 : lisdigit ls.current = true
    · rw [if_pos c14] at hs
      exact read_numeral_shape P _ _ _ _ hs
    rw [if_neg c14] at hs
    by_cases c15 : ls.current = EOZ
    · rw [if_pos c15] at hs
      simp only [Except.ok.injEq, Prod.mk.injEq] at hs
      obtain ⟨rfl, rfl, rfl⟩ := hs
      refine ⟨rfl, fun _ => ?_⟩
      rcases readsOn_current h hbytes with hc | hc
      · exact hc.2
      · rw [c15] at hc
        simp only [EOZ] at hc
        omega
    rw [if_neg c15] at hs
    by_cases c16 : lislalpha ls.current = true
    · rw [if_pos c16] at hs
      cases h1 : read_name_loop (ls.z.length + 2) ls with
      | error e => simp [h1] at hs
      | ok l1 =>
        simp only [h1] at hs
        by_cases d6 : reservedExtra P (luaX_newstring l1 0 l1.buff.buffer.length) > 0
        · rw [if_pos d6] at hs
          simp only [Except.ok.injEq, Prod.mk.injEq] at hs
          obtain ⟨rfl, rfl, rfl⟩ := hs
          apply shape_plain
          have := reservedExtra_le P (luaX_newstring l1 0 l1.buff.buffer.length)
          simp only [TK_EOS, FIRST_RESERVED, NUM_RESERVED] at this ⊢
          omega
        · rw [if_neg d6] at hs
          simp only [Except.ok.injEq, Prod.mk.injEq] at hs
          obtain ⟨rfl, rfl, rfl⟩ := hs
          exact shape_literal P TK_NAME (SemInfo.ts _) rfl (Or.inl rfl) _
    rw [if_neg c16] at hs
    simp only [Except.ok.injEq, Prod.mk.injEq] at hs
    obtain ⟨rfl, rfl, rfl⟩ := hs
    apply shape_plain
    rcases readsOn_current h hbytes with hc | hc
    · exact absurd hc.1 c15
    · simp only [TK_EOS, FIRST_RESERVED]
      omega

theorem storeSemInfo_stored {P : Platform} (old sem : SemInfo P) (h : sem.isStored = true) :
    storeSemInfo old sem = sem := by
  cases sem with
  | none => cases h
  | r n => rfl
  | i v => rfl
  | ts s => rfl

theorem llex_shape (P : Platform) (t : List Nat) (line : Int) (b : Mbuffer)
    (hbytes : ∀ c ∈ t, c < 256) (tok : Int) (sem : SemInfo P) (ls1 : LexState)
    (hs : llex P (atText t line b) = Except.ok (tok, sem, ls1)) :
    sem.isStored = isLiteralTag tok
      ∧ (tok = TK_EOS → ls1 = atText [] ls1.linenumber ls1.buff) := by
  unfold llex at hs
  exact llex_loop_shape P hbytes _ _ _ _ _
    (readsOn_resetbuffer (readsOn_intro (List.suffix_refl t) line b)) hs

theorem llex_resetbuffer (P : Platform) (ls : LexState) :
    llex P (luaZ_resetbuffer ls) = llex P ls := rfl

theorem llex_of_reset_eq (P : Platform) (ls ls2 : LexState)
    (h : luaZ_resetbuffer ls2 = luaZ_resetbuffer ls) : llex P ls2 = llex P ls := by
  rw [← llex_resetbuffer P ls2, h, llex_resetbuffer]

theorem payload_store {P : Platform} (tok : Int) (old old2 sem : SemInfo P)
    (h : sem.isStored = isLiteralTag tok) :
    Token.payload { token := tok, seminfo := storeSemInfo old sem } =
      Token.payload { token := tok, seminfo := storeSemInfo old2 sem } := by
  unfold Token.payload
  cases hl : isLiteralTag tok with
  | true =>
    rw [hl] at h
    simp only [if_true]
    rw [storeSemInfo_stored _ _ h, storeSemInfo_stored _ _ h]
  | false => simp

theorem luaX_next_empty (P : Platform) (s : TokenState P) (h : s.lookahead.token = TK_EOS) :
    luaX_next P s =
      match llex P s.ls with
      | Except.error e => Except.error e
      | Except.ok (tok, sem, ls1) =>
        Except.ok { s with lastline := s.ls.linenumber, ls := ls1,
                           t := { token := tok, seminfo := storeSemInfo s.t.seminfo sem } } := by
  unfold luaX_next
  dsimp only
  rw [if_neg (by simp [h])]

theorem luaX_next_full (P : Platform) (s : TokenState P) (h : s.lookahead.token ≠ TK_EOS) :
    luaX_next P s =
      Except.ok { s with lastline := s.ls.linenumber, t := s.lookahead,
                         lookahead := { s.lookahead with token := TK_EOS } } := by
  unfold luaX_next
  dsimp only
  rw [if_pos h]

/-- C24: from a state whose lookahead slot is empty, `luaX_lookahead` returns
the tag that `luaX_next` would deliver (and raises what it would raise); the
`luaX_next` that follows it makes the looked-ahead token the current one (the
same slot content when the token is not the end of the stream, the tag
`TK_EOS` without payload when it is), leaves the lookahead slot empty and
reads no input; the current token and the scanner position are then those
that `luaX_next` alone gives, up to the content of the scratch buffer, on
which no later token depends: two states with an empty slot that differ in
it only give the same token, payload and scanner state at the next
`luaX_next`. -/
theorem luaX_lookahead_then_next (P : Platform) (s : TokenState P) (t : List Nat)
    (line : Int) (b : Mbuffer) (hls : s.ls = atText t line b) (hbytes : ∀ c ∈ t, c < 256)
    (hempty : s.lookahead.token = TK_EOS) :
    Except.map Prod.fst (luaX_lookahead P s) =
        Except.map (fun a => a.t.token) (luaX_next P s)
    ∧ (∀ tok s1, luaX_lookahead P s = Except.ok (tok, s1) →
        ∃ s2 sA, luaX_next P s1 = Except.ok s2 ∧ luaX_next P s = Except.ok sA
          ∧ s1.lookahead.token = tok ∧ s2.t.token = tok
          ∧ s2.t.payload = s1.lookahead.payload
          ∧ (tok ≠ TK_EOS → s2.t = s1.lookahead)
          ∧ s2.lookahead.token = TK_EOS
          ∧ s2.ls.current = s1.ls.current ∧ s2.ls.z = s1.ls.z
          ∧ s2.ls.linenumber = s1.ls.linenumber
          ∧ sA.t.token = s2.t.token ∧ sA.t.payload = s2.t.payload
          ∧ sA.lookahead.token = TK_EOS
          ∧ luaZ_resetbuffer sA.ls = luaZ_resetbuffer s2.ls)
    ∧ (∀ s3 : TokenState P, luaZ_resetbuffer s3.ls = luaZ_resetbuffer s.ls →
        s3.lookahead.token = TK_EOS →
        Except.map (fun a => (a.t.token, a.t.payload, a.ls)) (luaX_next P s3) =
          Except.map (fun a => (a.t.token, a.t.payload, a.ls)) (luaX_next P s)
        ∧ ∀ a, luaX_next P s3 = Except.ok a → a.lookahead.token = TK_EOS) := by
  refine ⟨?_, ?_, ?_⟩
  · rw [luaX_next_empty P s hempty]
    unfold luaX_lookahead
    cases h : llex P s.ls with
    | error e => rfl
    | ok p =>
      obtain ⟨tok, sem, ls1⟩ := p
      rfl
  · intro tok s1 hla
    unfold luaX_lookahead at hla
    cases h : llex P s.ls with
    | error e => simp [h] at hla
    | ok p =>
      obtain ⟨tok0, sem, ls1⟩ := p
      simp only [h, Except.ok.injEq, Prod.mk.injEq] at hla
      obtain ⟨rfl, rfl⟩ := hla
      have hshape := h
      rw [hls] at hshape
      obtain ⟨hsem, heos⟩ := llex_shape P t line b hbytes _ _ _ hshape
      have hA : luaX_next P s =
          Except.ok { s with lastline := s.ls.linenumber, ls := ls1,
                             t := { token := tok0, seminfo := storeSemInfo s.t.seminfo sem } } := by
        rw [luaX_next_empty P s hempty, h]
      by_cases hk : tok0 = TK_EOS
      · have hls1 := heos hk
        have hcur : llex P ls1 = Except.ok (TK_EOS, SemInfo.none,
            atText [] ls1.linenumber { ls1.buff with buffer := [] }) := by
          rw [hls1]
          exact llex_eos P _ _
        refine ⟨{ ls := atText [] ls1.linenumber { ls1.buff with buffer := [] },
                  t := { token := TK_EOS, seminfo := storeSemInfo s.t.seminfo SemInfo.none },
                  lookahead := { token := tok0,
                                 seminfo := storeSemInfo s.lookahead.seminfo sem },
                  lastline := ls1.linenumber }, _, ?_, hA, rfl, ?_⟩
        · rw [luaX_next_empty P _ hk]
          simp only [hcur]
        · subst hk
          refine ⟨rfl, ?_, fun hne => absurd rfl hne, rfl, ?_, ?_, rfl, rfl, ?_, hempty, ?_⟩
          · simp [Token.payload, isLiteralTag, TK_EOS, TK_NAME, TK_STRING, TK_FLT, TK_INT,
              FIRST_RESERVED]
          · rw [hls1]
            rfl
          · rw [hls1]
            rfl
          · simp [Token.payload, isLiteralTag, TK_EOS, TK_NAME, TK_STRING, TK_FLT, TK_INT,
              FIRST_RESERVED]
          · rw [hls1]
            rfl
      · refine ⟨_, _, luaX_next_full P _ hk, hA, rfl, rfl, rfl, fun _ => rfl, rfl, rfl, rfl,
          rfl, rfl, ?_, hempty, rfl⟩
        exact payload_store tok0 _ _ sem hsem
  · intro s3 hreset h3
    have hllex := llex_of_reset_eq P s.ls s3.ls hreset
    rw [luaX_next_empty P s hempty, luaX_next_empty P s3 h3, hllex]
    cases h : llex P s.ls with
    | error e => exact ⟨rfl, fun a ha => by cases ha⟩
    | ok p =>
      obtain ⟨tok0, sem, ls1⟩ := p
      have hshape := h
      rw [hls] at hshape
      obtain ⟨hsem, _⟩ := llex_shape P t line b hbytes _ _ _ hshape
      refine ⟨?_, ?_⟩
      · simp only [Except.map]
        rw [payload_store tok0 s3.t.seminfo s.t.seminfo sem hsem]
      · intro a ha
        simp only [Except.ok.injEq] at ha
        rw [← ha]
        exact h3

/-- Witness of C24: the text `x =` with the name `y` as current token. -/
theorem luaX_lookahead_then_next_witness :
    Except.map Prod.fst (luaX_lookahead integerPlatform
        { ls := atText [120, 32, 61] 1 { buffer := [], buffsize := 32 },
          t := { token := TK_NAME, seminfo := SemInfo.ts [121] },
          lookahead := { token := TK_EOS, seminfo := SemInfo.none }, lastline := 1 }) =
      Except.map (fun a => a.t.token) (luaX_next integerPlatform
        { ls := atText [120, 32, 61] 1 { buffer := [], buffsize := 32 },
          t := { token := TK_NAME, seminfo := SemInfo.ts [121] },
          lookahead := { token := TK_EOS, seminfo := SemInfo.none }, lastline := 1 }) :=
  (luaX_lookahead_then_next integerPlatform
    { ls := atText [120, 32, 61] 1 { buffer := [], buffsize := 32 },
      t := { token := TK_NAME, seminfo := SemInfo.ts [121] },
      lookahead := { token := TK_EOS, seminfo := SemInfo.none }, lastline := 1 }
    [120, 32, 61] 1 { buffer := [], buffsize := 32 } rfl (by decide) rfl).1

/-! ## Theorems: the source name of a chunk -/

theorem chunkid_lengths : PRE.length = 9 ∧ RETS.length = 3 ∧ POS.length = 2 := by decide

theorem take_snoc_all (name : List Nat) (x : Nat) :
    (name ++ [x]).take (name.length + 1) = name ++ [x] := by
  apply List.take_of_length_le
  simp

theorem luaO_chunkid_eq (name : List Nat) (n : Nat) :
    luaO_chunkid (61 :: name) n =
      if n ≤ LUA_IDSIZE then (name ++ [0]).take n
      else (name ++ [0]).take (LUA_IDSIZE - 1) ++ [0] := by
  have h1 : (61 :: name ++ [0]).head? = some 61 := rfl
  unfold luaO_chunkid
  dsimp only
  rw [if_pos h1]
  rfl

theorem luaO_chunkid_at (name : List Nat) (n : Nat) :
    luaO_chunkid (64 :: name) n =
      if n ≤ LUA_IDSIZE then (name ++ [0]).take n
      else RETS ++ ((64 :: (name ++ [0])).drop (1 + n - (LUA_IDSIZE - LL RETS))).take
        (LUA_IDSIZE - LL RETS) := by
  have h1 : ¬ ((64 :: name ++ [0]).head? = some 61) := by simp
  have h2 : (64 :: name ++ [0]).head? = some 64 := rfl
  unfold luaO_chunkid
  dsimp only
  rw [if_neg h1, if_pos h2]
  rfl

theorem luaO_chunkid_inline (source : List Nat) (n : Nat)
    (h : source.head? ≠ some 61 ∧ source.head? ≠ some 64) :
    luaO_chunkid source n =
      if n < LUA_IDSIZE - (LL (PRE ++ RETS ++ POS) + 1) ∧ strchr (source ++ [0]) 10 = none then
        PRE ++ (source ++ [0]).take n ++ (POS ++ [0])
      else
        PRE ++ (source ++ [0]).take
          (if (match strchr (source ++ [0]) 10 with
                | some i => i
                | none => n) > LUA_IDSIZE - (LL (PRE ++ RETS ++ POS) + 1)
            then LUA_IDSIZE - (LL (PRE ++ RETS ++ POS) + 1)
            else match strchr (source ++ [0]) 10 with
              | some i => i
              | none => n) ++ RETS ++ (POS ++ [0]) := by
  have h1 : ¬ ((source ++ [0]).head? = some 61) := by
    cases source with
    | nil => decide
    | cons c s => exact h.1
  have h2 : ¬ ((source ++ [0]).head? = some 64) := by
    cases source with
    | nil => decide
    | cons c s => exact h.2
  unfold luaO_chunkid
  dsimp only
  rw [if_neg h1, if_neg h2]

theorem luaO_chunkid_at_long (name : List Nat) (hbig : LUA_IDSIZE < name.length + 1) :
    luaO_chunkid (64 :: name) (name.length + 1) =
        RETS ++ name.drop (name.length - (LUA_IDSIZE - 4)) ++ [0]
      ∧ (name.drop (name.length - (LUA_IDSIZE - 4))).length = LUA_IDSIZE - 4 := by
  have hid : LUA_IDSIZE = 60 := rfl
  have hll : LL RETS = 3 := rfl
  rw [hid] at hbig
  have hl : (name.drop (name.length - 56)).length = 56 := by
    rw [List.length_drop]
    omega
  have hoff : 1 + (name.length + 1) - (60 - 3) = (name.length - 56) + 1 := by omega
  rw [luaO_chunkid_at, if_neg (by omega), hid, hll, hoff, List.drop_succ_cons,
    List.drop_append_of_le_length (by omega)]
  refine ⟨?_, hl⟩
  rw [List.take_of_length_le (by simp [hl]), List.append_assoc]

theorem luaO_chunkid_eq_long (name : List Nat) (hbig : LUA_IDSIZE < name.length + 1) :
    luaO_chunkid (61 :: name) (name.length + 1) = name.take (LUA_IDSIZE - 1) ++ [0]
      ∧ (name.take (LUA_IDSIZE - 1)).length = LUA_IDSIZE - 1 := by
  have hid : LUA_IDSIZE = 60 := rfl
  rw [hid] at hbig
  rw [luaO_chunkid_eq, if_neg (by omega), hid, List.take_append_of_le_length (by omega)]
  refine ⟨rfl, ?_⟩
  rw [List.length_take]
  omega

/-- C28: for a source that starts with `@` or `=`, followed by `name`: when
the length of the source is at most `LUA_IDSIZE`, `luaO_chunkid` writes the
name unchanged (and its terminator); when it is longer, a `@` name is
written as `...` followed by the last `LUA_IDSIZE - 4` bytes of the name, and
a `=` name as its first `LUA_IDSIZE - 1` bytes. -/
theorem luaO_chunkid_names (c : Nat) (name : List Nat) (hc : c = 64 ∨ c = 61) :
    ((c :: name).length ≤ LUA_IDSIZE →
      luaO_chunkid (c :: name) (c :: name).length = name ++ [0])
    ∧ (LUA_IDSIZE < (c :: name).length → c = 64 →
      luaO_chunkid (c :: name) (c :: name).length =
        RETS ++ name.drop (name.length - (LUA_IDSIZE - 4)) ++ [0]
      ∧ (name.drop (name.length - (LUA_IDSIZE - 4))).length = LUA_IDSIZE - 4)
    ∧ (LUA_IDSIZE < (c :: name).length → c = 61 →
      luaO_chunkid (c :: name) (c :: name).length = name.take (LUA_IDSIZE - 1) ++ [0]
      ∧ (name.take (LUA_IDSIZE - 1)).length = LUA_IDSIZE - 1) := by
  have hlen : (c :: name).length = name.length + 1 := rfl
  rw [hlen]
  refine ⟨?_, ?_, ?_⟩
  · intro hsmall
    rcases hc with rfl | rfl
    · rw [luaO_chunkid_at, if_pos hsmall, take_snoc_all]
    · rw [luaO_chunkid_eq, if_pos hsmall, take_snoc_all]
  · intro hbig hat
    subst hat
    exact luaO_chunkid_at_long name hbig
  · intro hbig heq
    subst heq
    exact luaO_chunkid_eq_long name hbig

/-- Witness of C28: the file name `@a`. -/
theorem luaO_chunkid_names_witness :
    luaO_chunkid (64 :: [97]) (64 :: [97]).length = [97] ++ [0] :=
  (luaO_chunkid_names 64 [97] (Or.inl rfl)).1 (by decide)

theorem inlineRoom_eq : inlineRoom = 45 := rfl

theorem chunkid_room : LUA_IDSIZE - (LL (PRE ++ RETS ++ POS) + 1) = 45 := rfl

theorem indexOf_firstLine (l : List Nat) : l.indexOf 10 = (firstLine l).length := by
  induction l with
  | nil => rfl
  | cons x l ih =>
    by_cases hx : x = 10
    · subst hx
      simp [firstLine, List.indexOf_cons]
    · have hne : (x == 10) = false := by simpa using hx
      simp only [firstLine] at ih
      simp [firstLine, List.indexOf_cons, hne, hx, ih]

theorem firstLine_cstr (s : List Nat)
    (h : (firstLine (cstr s)).length < (cstr s).length) :
    firstLine (cstr s) = firstLine s := by
  induction s with
  | nil => rfl
  | cons x s ih =>
    by_cases h0 : x = 0
    · subst h0
      simp [cstr] at h
    · by_cases hx : x = 10
      · subst hx
        simp [cstr, firstLine]
      · have e1 : cstr (x :: s) = x :: cstr s := by simp [cstr, h0]
        have e2 : firstLine (x :: cstr s) = x :: firstLine (cstr s) := by
          simp [firstLine, hx]
        have e3 : firstLine (x :: s) = x :: firstLine s := by simp [firstLine, hx]
        rw [e1, e2] at h
        rw [e1, e2, e3, ih (by simpa using h)]

theorem strchr_newline (source : List Nat) :
    strchr (source ++ [0]) 10 = none ∨
      (strchr (source ++ [0]) 10 = some (firstLine source).length
        ∧ (firstLine source).length < source.length) := by
  unfold strchr
  rw [cstr_snoc_nul, indexOf_firstLine]
  by_cases h : (firstLine (cstr source)).length < (cstr source).length
  · rw [if_pos h, firstLine_cstr source h]
    right
    refine ⟨rfl, ?_⟩
    rw [← firstLine_cstr source h]
    exact Nat.lt_of_lt_of_le h (List.takeWhile_prefix _).length_le
  · rw [if_neg h]
    left
    rfl

theorem firstLine_length_le (source : List Nat) : (firstLine source).length ≤ source.length :=
  (List.takeWhile_prefix _).length_le

theorem take_snoc_le (l : List Nat) (x k : Nat) (h : k ≤ l.length) :
    (l ++ [x]).take k = l.take k :=
  List.take_append_of_le_length h

theorem take_firstLine (source : List Nat) (k : Nat) :
    (firstLine source).take k = source.take (min k (firstLine source).length) := by
  have h : firstLine source = source.take (firstLine source).length :=
    List.prefix_iff_eq_take.mp (List.takeWhile_prefix _)
  conv_lhs => rw [h]
  rw [List.take_take]

theorem luaO_chunkid_inline_cases (source : List Nat)
    (h : source.head? ≠ some 61 ∧ source.head? ≠ some 64) :
    (strchr (source ++ [0]) 10 = none ∧ source.length < inlineRoom
      ∧ luaO_chunkid source source.length = PRE ++ source ++ (POS ++ [0]))
    ∨ (strchr (source ++ [0]) 10 = none ∧ inlineRoom ≤ source.length
      ∧ luaO_chunkid source source.length
          = PRE ++ source.take inlineRoom ++ RETS ++ (POS ++ [0]))
    ∨ (strchr (source ++ [0]) 10 = some (firstLine source).length
      ∧ (firstLine source).length < source.length
      ∧ luaO_chunkid source source.length
          = PRE ++ source.take (min (firstLine source).length inlineRoom) ++ RETS
              ++ (POS ++ [0])) := by
  rw [luaO_chunkid_inline source _ h, chunkid_room, inlineRoom_eq]
  rcases strchr_newline source with hnl | ⟨hnl, hlt⟩
  · rw [hnl]
    by_cases hsmall : source.length < 45
    · left
      have c1 : source.length < 45 ∧ (none : Option Nat) = none := ⟨hsmall, rfl⟩
      rw [if_pos c1, take_snoc_le source 0 _ (Nat.le_refl _), List.take_length]
      exact ⟨rfl, hsmall, rfl⟩
    · right
      left
      have c1 : ¬ (source.length < 45 ∧ (none : Option Nat) = none) := fun c => hsmall c.1
      have hk : (if source.length > 45 then 45 else source.length) = 45 := by
        by_cases hgt : source.length > 45
        · rw [if_pos hgt]
        · rw [if_neg hgt]
          omega
      rw [if_neg c1]
      dsimp only
      rw [hk, take_snoc_le source 0 45 (by omega)]
      exact ⟨rfl, by omega, rfl⟩
  · right
    right
    rw [hnl]
    have c1 : ¬ (source.length < 45 ∧ some (firstLine source).length = none) :=
      fun c => Option.noConfusion c.2
    have hk : (if (firstLine source).length > 45 then 45 else (firstLine source).length)
        = min (firstLine source).length 45 := by
      by_cases hgt : (firstLine source).length > 45
      · rw [if_pos hgt]
        omega
      · rw [if_neg hgt]
        omega
    rw [if_neg c1]
    dsimp only
    rw [hk, take_snoc_le source 0 _ (by omega)]
    exact ⟨rfl, hlt, rfl⟩

/-- C25: for every source, the text written by `luaO_chunkid` ends with the
terminating NUL and, the NUL included, is at most `LUA_IDSIZE` bytes long
(literal name, file name and inline chunk alike). -/
theorem luaO_chunkid_fits (source : List Nat) :
    ∃ text : List Nat, luaO_chunkid source source.length = text ++ [0]
      ∧ (luaO_chunkid source source.length).length ≤ LUA_IDSIZE := by
  have hid : LUA_IDSIZE = 60 := rfl
  have hll : LL RETS = 3 := rfl
  obtain ⟨hpre, hrets, hpos⟩ := chunkid_lengths
  by_cases h61 : source.head? = some 61
  · cases source with
    | nil => exact absurd h61 (by decide)
    | cons c name =>
      have hc : c = 61 := by simpa using h61
      subst hc
      by_cases hsmall : (61 :: name).length ≤ LUA_IDSIZE
      · refine ⟨name, ?_, ?_⟩
        · rw [luaO_chunkid_eq, if_pos hsmall]
          exact take_snoc_all name 0
        · rw [luaO_chunkid_eq, if_pos hsmall, List.length_take]
          exact Nat.le_trans (Nat.min_le_left _ _) hsmall
      · refine ⟨(name ++ [0]).take (LUA_IDSIZE - 1), ?_, ?_⟩
        · rw [luaO_chunkid_eq, if_neg hsmall]
        · rw [luaO_chunkid_eq, if_neg hsmall, List.length_append, List.length_take, hid]
          simp only [List.length_singleton]
          omega
  · by_cases h64 : source.head? = some 64
    · cases source with
      | nil => exact absurd h64 (by decide)
      | cons c name =>
        have hc : c = 64 := by simpa using h64
        subst hc
        by_cases hsmall : (64 :: name).length ≤ LUA_IDSIZE
        · refine ⟨name, ?_, ?_⟩
          · rw [luaO_chunkid_at, if_pos hsmall]
            exact take_snoc_all name 0
          · rw [luaO_chunkid_at, if_pos hsmall, List.length_take]
            exact Nat.le_trans (Nat.min_le_left _ _) hsmall
        · have hbig : LUA_IDSIZE < name.length + 1 := Nat.lt_of_not_le hsmall
          obtain ⟨hout, _⟩ := luaO_chunkid_at_long name hbig
          rw [hid] at hbig
          refine ⟨RETS ++ name.drop (name.length - (LUA_IDSIZE - 4)), hout, ?_⟩
          show (luaO_chunkid (64 :: name) (name.length + 1)).length ≤ LUA_IDSIZE
          rw [hout]
          simp only [List.length_append, List.length_drop, List.length_singleton, hrets, hid]
          omega
    · rcases luaO_chunkid_inline_cases source ⟨h61, h64⟩ with
        ⟨_, hlt, hout⟩ | ⟨_, hle, hout⟩ | ⟨_, hlt, hout⟩
      · refine ⟨PRE ++ source ++ POS, ?_, ?_⟩
        · rw [hout]
          simp only [List.append_assoc]
        · rw [hout]
          rw [inlineRoom_eq] at hlt
          simp only [List.length_append, List.length_singleton, hpre, hpos, hid]
          omega
      · refine ⟨PRE ++ source.take inlineRoom ++ RETS ++ POS, ?_, ?_⟩
        · rw [hout]
          simp only [List.append_assoc]
        · rw [hout]
          rw [inlineRoom_eq] at hle ⊢
          simp only [List.length_append, List.length_singleton, List.length_take,
            hpre, hpos, hrets, hid]
          omega
      · refine ⟨PRE ++ source.take (min (firstLine source).length inlineRoom) ++ RETS ++ POS,
          ?_, ?_⟩
        · rw [hout]
          simp only [List.append_assoc]
        · rw [hout, inlineRoom_eq]
          simp only [List.length_append, List.length_singleton, List.length_take,
            hpre, hpos, hrets, hid]
          omega

theorem strchr_cstring (source : List Nat) (h0 : ∀ c ∈ source, c ≠ 0) :
    strchr (source ++ [0]) 10 = none ↔ 10 ∉ source := by
  have hc : cstr (source ++ [0]) = source := cstr_append_nul source [] h0
  unfold strchr
  rw [hc]
  by_cases h : List.indexOf 10 source < source.length
  · rw [if_pos h]
    have hm : 10 ∈ source := List.indexOf_lt_length.mp h
    simp [hm]
  · rw [if_neg h]
    have hm : 10 ∉ source := fun hm => h (List.indexOf_lt_length.mpr hm)
    simp [hm]

theorem firstLine_all (source : List Nat) (h : 10 ∉ source) : firstLine source = source := by
  unfold firstLine
  rw [List.takeWhile_eq_self_iff]
  intro c hc
  have hne : c ≠ 10 := fun e => h (e ▸ hc)
  simpa using hne

theorem luaO_chunkid_inline_cstring (source : List Nat)
    (h : source.head? ≠ some 61 ∧ source.head? ≠ some 64) (h0 : ∀ c ∈ source, c ≠ 0) :
    (source.length < inlineRoom ∧ 10 ∉ source →
      luaO_chunkid source source.length = PRE ++ source ++ POS ++ [0])
    ∧ (¬ (source.length < inlineRoom ∧ 10 ∉ source) →
      luaO_chunkid source source.length
        = PRE ++ (firstLine source).take inlineRoom ++ RETS ++ POS ++ [0]) := by
  have hiff := strchr_cstring source h0
  rcases luaO_chunkid_inline_cases source h with
    ⟨hnl, hlt, hout⟩ | ⟨hnl, hle, hout⟩ | ⟨hnl, hlt, hout⟩
  · refine ⟨fun _ => ?_, fun hn => absurd ⟨hlt, hiff.mp hnl⟩ hn⟩
    rw [hout]
    simp only [List.append_assoc]
  · refine ⟨fun hs => absurd hs.1 (Nat.not_lt.mpr hle), fun _ => ?_⟩
    rw [hout, firstLine_all source (hiff.mp hnl)]
    simp only [List.append_assoc]
  · have hin : ¬ (10 ∉ source) := fun hn => by
      rw [hiff.mpr hn] at hnl
      exact Option.noConfusion hnl
    refine ⟨fun hs => absurd hs.2 hin, fun _ => ?_⟩
    rw [hout, take_firstLine, Nat.min_comm]
    simp only [List.append_assoc]

/-- C26: for an inline chunk (a source that starts with neither `=` nor `@`)
whose first line is longer than the room left for it (`LUA_IDSIZE` minus the
lengths of the prefix, the ellipsis, the suffix and the terminator),
`luaO_chunkid` writes the prefix, exactly the first that-many bytes of the
source, the ellipsis and the suffix; these bytes are the start of the first
line.  And whatever the length of its first line, the text kept of an inline
source that is a C string is a prefix of its first line: no byte from after
the first newline is written. -/
theorem luaO_chunkid_long_first_line (source : List Nat)
    (hinline : source.head? ≠ some 61 ∧ source.head? ≠ some 64)
    (hlong : inlineRoom < (firstLine source).length) :
    luaO_chunkid source source.length
        = PRE ++ source.take inlineRoom ++ RETS ++ POS ++ [0]
    ∧ (source.take inlineRoom).length = inlineRoom
    ∧ source.take inlineRoom = (firstLine source).take inlineRoom
    ∧ ∀ s : List Nat, (s.head? ≠ some 61 ∧ s.head? ≠ some 64) → (∀ c ∈ s, c ≠ 0) →
        ∃ body : List Nat, body <+: firstLine s
          ∧ (luaO_chunkid s s.length = PRE ++ body ++ POS ++ [0]
            ∨ luaO_chunkid s s.length = PRE ++ body ++ RETS ++ POS ++ [0]) := by
  have hfl := firstLine_length_le source
  have htake : source.take inlineRoom = (firstLine source).take inlineRoom := by
    rw [take_firstLine, Nat.min_eq_left (Nat.le_of_lt hlong)]
  refine ⟨?_, ?_, htake, ?_⟩
  · rcases luaO_chunkid_inline_cases source hinline with
      ⟨_, hlt, _⟩ | ⟨_, _, hout⟩ | ⟨_, _, hout⟩
    · omega
    · rw [hout]
      simp only [List.append_assoc]
    · rw [hout, Nat.min_eq_right (Nat.le_of_lt hlong)]
      simp only [List.append_assoc]
  · rw [List.length_take]
    omega
  · intro s hs h0
    by_cases hc : s.length < inlineRoom ∧ 10 ∉ s
    · refine ⟨s, ?_, Or.inl ((luaO_chunkid_inline_cstring s hs h0).1 hc)⟩
      rw [firstLine_all s hc.2]
    · exact ⟨(firstLine s).take inlineRoom, List.take_prefix _ _,
        Or.inr ((luaO_chunkid_inline_cstring s hs h0).2 hc)⟩

/-- Witness of C26: an inline source of 46 letters `a`. -/
theorem luaO_chunkid_long_first_line_witness :
    luaO_chunkid (List.replicate 46 97) (List.replicate 46 97).length
      = PRE ++ (List.replicate 46 97).take inlineRoom ++ RETS ++ POS ++ [0] :=
  (luaO_chunkid_long_first_line (List.replicate 46 97) (by decide) (by decide)).1

/-- C27, the boundary at which the claim fails: an inline source of exactly
`inlineRoom` (45) bytes on one line is written in full and still gets the
ellipsis, while one byte less gets none.  For every inline source that is a C
string: it is written as `[string "<source>"]` when it is one line shorter
than `inlineRoom`; otherwise the first `inlineRoom` bytes of its first line
are written, followed by the ellipsis. -/
theorem luaO_chunkid_ellipsis_on_full_source :
    luaO_chunkid (List.replicate 45 97) (List.replicate 45 97).length
        = PRE ++ List.replicate 45 97 ++ RETS ++ POS ++ [0]
    ∧ luaO_chunkid (List.replicate 44 97) (List.replicate 44 97).length
        = PRE ++ List.replicate 44 97 ++ POS ++ [0]
    ∧ ∀ source : List Nat, (source.head? ≠ some 61 ∧ source.head? ≠ some 64) →
        (∀ c ∈ source, c ≠ 0) →
        (source.length < inlineRoom ∧ 10 ∉ source →
          luaO_chunkid source source.length = PRE ++ source ++ POS ++ [0])
        ∧ (¬ (source.length < inlineRoom ∧ 10 ∉ source) →
          luaO_chunkid source source.length
            = PRE ++ (firstLine source).take inlineRoom ++ RETS ++ POS ++ [0]) :=
  ⟨by decide, by decide, luaO_chunkid_inline_cstring⟩

/-! ## Theorems: the message formatter -/

theorem addstr2buff_ok (A : Allocator) (buff : BuffFS) (str : List Nat)
    (hA : ∀ n, A.realloc n = true) (herr : buff.err = 0)
    (hlen : buff.b.length + str.length ≤ MAX_SIZE / 2) :
    (addstr2buff A buff str).err = 0 ∧ (addstr2buff A buff str).b = buff.b ++ str := by
  have h1 : ¬ (buff.err ≠ 0) := fun h => h herr
  have hM : MAX_SIZE / 2 = 4611686018427387903 := by decide
  have h3 : ¬ (str.length > (MAX_SIZE / 2 + 2 ^ 64 - buff.b.length) % 2 ^ 64) := by
    rw [hM] at hlen ⊢
    omega
  have h4 : ¬ (A.realloc (buff.buffsize + str.length) = false) := by
    rw [hA]
    exact Bool.noConfusion
  unfold addstr2buff
  dsimp only
  rw [if_neg h1]
  by_cases h2 : str.length > buff.buffsize - buff.b.length
  · rw [if_pos h2, if_neg h3, if_neg h4]
    exact ⟨herr, rfl⟩
  · rw [if_neg h2]
    exact ⟨herr, rfl⟩

theorem conversion_refines (P : Platform) (A : Allocator) (buff : BuffFS) (x : Nat)
    (args rest : List (VaArg P)) (text : List Nat)
    (h : spec_conversion P x args = some (text, rest)) :
    conversion P A buff x [37, x] args = Except.ok (addstr2buff A buff text, rest) := by
  unfold spec_conversion at h
  unfold conversion
  split at h <;> simp_all [addnum2buff, luaO_tostringbuff]

theorem split_percent (fmt : List Nat) :
    37 ∉ fmt ∨ ∃ pre rest, fmt = pre ++ 37 :: rest ∧ 37 ∉ pre := by
  induction fmt with
  | nil => exact Or.inl (List.not_mem_nil _)
  | cons c t ih =>
    by_cases hc : c = 37
    · exact Or.inr ⟨[], t, by rw [hc]; rfl, List.not_mem_nil _⟩
    · rcases ih with hn | ⟨pre, rest, ht, hpre⟩
      · left
        intro hm
        rcases List.mem_cons.mp hm with e | e
        · exact hc e.symm
        · exact hn e
      · right
        refine ⟨c :: pre, rest, by rw [ht]; rfl, ?_⟩
        intro hm
        rcases List.mem_cons.mp hm with e | e
        · exact hc e.symm
        · exact hpre e

theorem strchr_percent_none (fmt : List Nat) (h0 : ∀ c ∈ fmt, c ≠ 0) (h : 37 ∉ fmt) :
    strchr (fmt ++ [0]) 37 = none ∧ cstr (fmt ++ [0]) = fmt := by
  have hc : cstr (fmt ++ [0]) = fmt := cstr_append_nul fmt [] h0
  refine ⟨?_, hc⟩
  unfold strchr
  rw [hc]
  have hlt : ¬ (List.indexOf 37 fmt < fmt.length) := fun hlt => h (List.indexOf_lt_length.mp hlt)
  rw [if_neg hlt]

theorem cstr_percent (pre ys : List Nat) (h0 : ∀ c ∈ pre, c ≠ 0) (hpre : 37 ∉ pre) :
    (cstr (pre ++ 37 :: ys)).indexOf 37 = pre.length
      ∧ pre.length < (cstr (pre ++ 37 :: ys)).length := by
  induction pre with
  | nil => simp [cstr, List.indexOf_cons]
  | cons c t ih =>
    have hc0 : c ≠ 0 := h0 c (List.mem_cons_self _ _)
    have hc : c ≠ 37 := fun e => hpre (e ▸ List.mem_cons_self _ _)
    have hne : (c == 37) = false := by simpa using hc
    obtain ⟨i1, i2⟩ := ih (fun d hd => h0 d (List.mem_cons_of_mem _ hd))
      (fun hm => hpre (List.mem_cons_of_mem _ hm))
    have e1 : cstr (c :: t ++ 37 :: ys) = c :: cstr (t ++ 37 :: ys) := by simp [cstr, hc0]
    rw [e1]
    refine ⟨?_, ?_⟩
    · rw [List.indexOf_cons, hne]
      simp only [cond_false, List.length_cons, i1]
    · simp only [List.length_cons]
      omega

theorem strchr_percent_some (pre rest : List Nat) (h0 : ∀ c ∈ pre, c ≠ 0) (hpre : 37 ∉ pre) :
    strchr ((pre ++ 37 :: rest) ++ [0]) 37 = some pre.length := by
  obtain ⟨i1, i2⟩ := cstr_percent pre (rest ++ [0]) h0 hpre
  have e : (pre ++ 37 :: rest) ++ [0] = pre ++ 37 :: (rest ++ [0]) := by simp
  unfold strchr
  rw [e, if_pos (by rw [i1]; exact i2), i1]

theorem spec_format_cons (P : Platform) (c : Nat) (t : List Nat) (args : List (VaArg P))
    (hc : c ≠ 37) :
    spec_format P (c :: t) args = (spec_format P t args).map (fun r => c :: r) := by
  cases t with
  | nil => simp [spec_format, hc]
  | cons x t =>
    rw [spec_format, if_neg hc]
    cases spec_format P (x :: t) args <;> rfl

theorem spec_format_literal (P : Platform) (fmt : List Nat) (args : List (VaArg P))
    (h : 37 ∉ fmt) : spec_format P fmt args = some fmt := by
  induction fmt with
  | nil => rfl
  | cons c t ih =>
    have hc : c ≠ 37 := fun e => h (e ▸ List.mem_cons_self _ _)
    rw [spec_format_cons P c t args hc, ih (fun hm => h (List.mem_cons_of_mem _ hm))]
    rfl

theorem spec_format_append (P : Platform) (pre rest : List Nat) (args : List (VaArg P))
    (h : 37 ∉ pre) :
    spec_format P (pre ++ rest) args = (spec_format P rest args).map (fun r => pre ++ r) := by
  induction pre with
  | nil => simp
  | cons c t ih =>
    have hc : c ≠ 37 := fun e => h (e ▸ List.mem_cons_self _ _)
    rw [List.cons_append, spec_format_cons P c _ args hc,
      ih (fun hm => h (List.mem_cons_of_mem _ hm))]
    cases spec_format P rest args <;> rfl

theorem spec_format_percent (P : Platform) (rest : List Nat) (args : List (VaArg P))
    (r : List Nat) (h : spec_format P (37 :: rest) args = some r) :
    ∃ x t text args1 r1, rest = x :: t ∧ spec_conversion P x args = some (text, args1)
      ∧ spec_format P t args1 = some r1 ∧ r = text ++ r1 := by
  cases rest with
  | nil => simp [spec_format] at h
  | cons x t =>
    rw [spec_format, if_pos rfl] at h
    cases hcv : spec_conversion P x args with
    | none => rw [hcv] at h; exact Option.noConfusion h
    | some p =>
      obtain ⟨text, args1⟩ := p
      rw [hcv] at h
      dsimp only at h
      cases hr : spec_format P t args1 with
      | none => rw [hr] at h; exact Option.noConfusion h
      | some r1 =>
        rw [hr] at h
        exact ⟨x, t, text, args1, r1, rfl, hcv, hr, (Option.some.inj h).symm⟩

theorem pushvfstring_loop_refines (P : Platform) (A : Allocator)
    (hA : ∀ n, A.realloc n = true) :
    ∀ (fuel : Nat) (fmt : List Nat) (buff : BuffFS) (args : List (VaArg P)) (r : List Nat),
      fmt.length < fuel → (∀ c ∈ fmt, c ≠ 0) → buff.err = 0 →
      spec_format P fmt args = some r → buff.b.length + r.length ≤ MAX_SIZE / 2 →
      ∃ buff1, pushvfstring_loop P A fuel buff fmt args = Except.ok buff1
        ∧ buff1.err = 0 ∧ buff1.b = buff.b ++ r := by
  intro fuel
  induction fuel with
  | zero => intro fmt _ _ _ hf; exact absurd hf (Nat.not_lt_zero _)
  | succ fuel ih =>
    intro fmt buff args r hfuel h0 herr hspec hlen
    rcases split_percent fmt with hn | ⟨pre, rest, hfmt, hpre⟩
    · obtain ⟨s1, s2⟩ := strchr_percent_none fmt h0 hn
      rw [spec_format_literal P fmt args hn] at hspec
      have hr : fmt = r := Option.some.inj hspec
      subst hr
      obtain ⟨k1, k2⟩ := addstr2buff_ok A buff fmt hA herr hlen
      refine ⟨addstr2buff A buff fmt, ?_, k1, k2⟩
      rw [pushvfstring_loop, s1, s2]
    · subst hfmt
      have h0pre : ∀ c ∈ pre, c ≠ 0 := fun c hc => h0 c (List.mem_append_left _ hc)
      rw [spec_format_append P pre _ args hpre] at hspec
      cases hq : spec_format P (37 :: rest) args with
      | none => rw [hq] at hspec; exact Option.noConfusion hspec
      | some q =>
        rw [hq] at hspec
        have hr : pre ++ q = r := Option.some.inj hspec
        obtain ⟨x, t, text, args1, r1, hrest, hcv, ht, hq1⟩ := spec_format_percent P rest args q hq
        subst hrest
        subst hq1
        subst hr
        simp only [List.length_append] at hlen
        obtain ⟨k1, k2⟩ := addstr2buff_ok A buff pre hA herr (by omega)
        obtain ⟨m1, m2⟩ := addstr2buff_ok A (addstr2buff A buff pre) text hA k1
          (by rw [k2, List.length_append]; omega)
        have hlenf : (pre ++ 37 :: x :: t).length = pre.length + (t.length + 2) := by simp
        obtain ⟨buff1, j1, j2, j3⟩ := ih t (addstr2buff A (addstr2buff A buff pre) text) args1 r1
          (by rw [hlenf] at hfuel; omega)
          (fun c hc => h0 c (List.mem_append_right _
            (List.mem_cons_of_mem _ (List.mem_cons_of_mem _ hc))))
          m1 ht (by rw [m2, k2]; simp only [List.length_append]; omega)
        refine ⟨buff1, ?_, j2, ?_⟩
        · have e1 : ((pre ++ 37 :: x :: t) ++ [0]).take pre.length = pre := by
            rw [List.append_assoc, List.take_left]
          have e2 : ((pre ++ 37 :: x :: t) ++ [0]).getD (pre.length + 1) 0 = x := by
            rw [List.append_assoc, List.getD_eq_getElem?_getD,
              List.getElem?_append_right (by omega), Nat.add_sub_cancel_left]
            simp
          have e3 : (((pre ++ 37 :: x :: t) ++ [0]).drop pre.length).take 2 = [37, x] := by
            rw [List.append_assoc, List.drop_left]
            rfl
          have e4 : pre.length + 2 ≤ (pre ++ 37 :: x :: t).length := by
            rw [hlenf]
            omega
          have e5 : (pre ++ 37 :: x :: t).drop (pre.length + 2) = t := by
            rw [List.drop_append_eq_append_drop]
            simp
          rw [pushvfstring_loop, strchr_percent_some pre _ h0pre hpre]
          dsimp only
          rw [e1, e2, e3, conversion_refines P A _ x args args1 text hcv]
          dsimp only
          rw [if_pos e4, e5, j1]
        · rw [j3, m2, k2]
          simp only [List.append_assoc]

theorem conversion_unknown (P : Platform) (A : Allocator) (buff : BuffFS) (x : Nat)
    (e2 : List Nat) (args : List (VaArg P)) (hx : x ∉ conversionSpecifiers) :
    conversion P A buff x e2 args = Except.ok (addstr2buff A buff e2, args) := by
  simp only [conversionSpecifiers, List.mem_cons, List.mem_singleton, not_or,
    List.not_mem_nil, not_false_eq_true, and_true] at hx
  obtain ⟨h1, h2, h3, h4, h5, h6, h7, h8⟩ := hx
  simp only [conversion, h1, h2, h3, h4, h5, h6, h7, h8, if_false]

theorem spec_conversion_unknown (P : Platform) (x : Nat) (args : List (VaArg P))
    (hx : x ∉ conversionSpecifiers) : spec_conversion P x args = some ([37, x], args) := by
  simp only [conversionSpecifiers, List.mem_cons, List.mem_singleton, not_or,
    List.not_mem_nil, not_false_eq_true, and_true] at hx
  obtain ⟨h1, h2, h3, h4, h5, h6, h7, h8⟩ := hx
  unfold spec_conversion
  split <;> first | rfl | contradiction

theorem pushbuff_ok (A : Allocator) (buff : BuffFS) (herr : buff.err = 0)
    (hA : A.newlstr buff.b.length = true) : pushbuff A buff = Except.ok buff.b := by
  have h1 : ¬ (buff.err = 1) := by omega
  have h2 : ¬ (buff.err = 2) := by omega
  have h3 : ¬ (buff.err = 2 ∧ buff.buffsize - buff.b.length < 3 ∧ buff.b.length < 3) :=
    fun h => h2 h.1
  unfold pushbuff
  rw [if_neg h1, if_neg h3]
  dsimp only
  rw [if_neg h2, if_pos hA]

theorem pushvfstring_refines (P : Platform) (A : Allocator) (fmt : List Nat)
    (args : List (VaArg P)) (r : List Nat) (hfmt : ∀ c ∈ fmt, c ≠ 0)
    (halloc : ∀ n, A.realloc n = true ∧ A.newlstr n = true)
    (hspec : spec_format P fmt args = some r) (hlen : r.length ≤ MAX_SIZE / 2) :
    luaO_pushvfstring P A fmt args = Except.ok r := by
  obtain ⟨buff1, j1, j2, j3⟩ := pushvfstring_loop_refines P A (fun n => (halloc n).1)
    (fmt.length + 1) fmt initbuff args r (Nat.lt_succ_self _) hfmt rfl hspec
    (by simpa [initbuff] using hlen)
  have hb : buff1.b = r := by
    rw [j3]
    rfl
  unfold luaO_pushvfstring
  rw [j1]
  dsimp only
  rw [clearbuff, pushbuff_ok A buff1 j2 (halloc _).2, hb]

theorem pushvfstring_loop_unknown (P : Platform) (A : Allocator) (x : Nat)
    (pre post : List Nat) (args : List (VaArg P)) (buff : BuffFS) (fuel : Nat)
    (hx : x ∉ conversionSpecifiers) (hpre : ∀ c ∈ pre, c ≠ 0 ∧ c ≠ 37) :
    pushvfstring_loop P A (fuel + 1) buff (pre ++ 37 :: x :: post) args
      = pushvfstring_loop P A fuel (addstr2buff A (addstr2buff A buff pre) [37, x]) post args := by
  have h0pre : ∀ c ∈ pre, c ≠ 0 := fun c hc => (hpre c hc).1
  have hp : 37 ∉ pre := fun hm => (hpre 37 hm).2 rfl
  have hlenf : (pre ++ 37 :: x :: post).length = pre.length + (post.length + 2) := by simp
  have e1 : ((pre ++ 37 :: x :: post) ++ [0]).take pre.length = pre := by
    rw [List.append_assoc, List.take_left]
  have e2 : ((pre ++ 37 :: x :: post) ++ [0]).getD (pre.length + 1) 0 = x := by
    rw [List.append_assoc, List.getD_eq_getElem?_getD,
      List.getElem?_append_right (by omega), Nat.add_sub_cancel_left]
    simp
  have e3 : (((pre ++ 37 :: x :: post) ++ [0]).drop pre.length).take 2 = [37, x] := by
    rw [List.append_assoc, List.drop_left]
    rfl
  have e4 : pre.length + 2 ≤ (pre ++ 37 :: x :: post).length := by
    rw [hlenf]
    omega
  have e5 : (pre ++ 37 :: x :: post).drop (pre.length + 2) = post := by
    rw [List.drop_append_eq_append_drop]
    simp
  rw [pushvfstring_loop, strchr_percent_some pre _ h0pre hp]
  dsimp only
  rw [e1, e2, e3, conversion_unknown P A _ x _ args hx]
  dsimp only
  rw [if_pos e4, e5]

theorem pushvfstring_lone_percent (P : Platform) (A : Allocator) (pre : List Nat)
    (args : List (VaArg P)) (hpre : ∀ c ∈ pre, c ≠ 0 ∧ c ≠ 37) :
    luaO_pushvfstring P A (pre ++ [37]) args = Except.error FmtErr.undefined := by
  have h0pre : ∀ c ∈ pre, c ≠ 0 := fun c hc => (hpre c hc).1
  have hp : 37 ∉ pre := fun hm => (hpre 37 hm).2 rfl
  have e2 : ((pre ++ [37]) ++ [0]).getD (pre.length + 1) 0 = 0 := by
    rw [List.append_assoc, List.getD_eq_getElem?_getD,
      List.getElem?_append_right (by omega), Nat.add_sub_cancel_left]
    simp
  have e4 : ¬ (pre.length + 2 ≤ (pre ++ [37]).length) := by
    rw [List.length_append, List.length_singleton]
    omega
  unfold luaO_pushvfstring
  rw [pushvfstring_loop, strchr_percent_some pre [] h0pre hp]
  dsimp only
  rw [e2, conversion_unknown P A _ 0 _ args (by decide)]
  dsimp only
  rw [if_neg e4]

/-- C29, the conversion that the claim leaves out: `%I` is converted too.  The
template `%I` with the `lua_Integer` argument 5 gives the text `5`, not `%I`,
and the argument is consumed: in `%I%d` the `%d` renders the next argument. -/
theorem luaO_pushvfstring_converts_percent_I :
    luaO_pushvfstring integerPlatform plainAllocator (bytes "%I") [VaArg.integer 5]
        = Except.ok (bytes "5")
    ∧ luaO_pushvfstring integerPlatform plainAllocator (bytes "%I%d")
        [VaArg.integer 5, VaArg.int 7] = Except.ok (bytes "57") :=
  ⟨rfl, rfl⟩

/-- C29 (amended): `luaO_pushvfstring` converts `%s`, `%c`, `%d`, `%I`, `%f`,
`%p`, `%U` and `%%`.  For every other byte `x` of the template, the sequence
`%x` met by the loop (after the literal segment `pre`) is added to the buffer
as it stands and the loop goes on after it with the same arguments; so, when
no allocation fails and no length overflows, the result is `pre`, then `%x`,
then what the rest of the template gives with the same arguments.  A template
that ends in a lone `%` is not such a sequence: the loop then moves past the
terminator of the template. -/
theorem luaO_pushvfstring_unknown_conversion (P : Platform) (A : Allocator) (x : Nat)
    (pre post : List Nat) (args : List (VaArg P))
    (hx : x ∉ conversionSpecifiers)
    (hfmt : ∀ c ∈ pre ++ 37 :: x :: post, c ≠ 0) (hpre : 37 ∉ pre) :
    (∀ (buff : BuffFS) (fuel : Nat),
      pushvfstring_loop P A (fuel + 1) buff (pre ++ 37 :: x :: post) args
        = pushvfstring_loop P A fuel (addstr2buff A (addstr2buff A buff pre) [37, x])
            post args)
    ∧ (∀ r : List Nat, (∀ n, A.realloc n = true ∧ A.newlstr n = true) →
        spec_format P post args = some r → (pre ++ [37, x] ++ r).length ≤ MAX_SIZE / 2 →
        luaO_pushvfstring P A post args = Except.ok r
        ∧ luaO_pushvfstring P A (pre ++ 37 :: x :: post) args
            = Except.ok (pre ++ [37, x] ++ r))
    ∧ luaO_pushvfstring P A (pre ++ [37]) args = Except.error FmtErr.undefined := by
  have hpre2 : ∀ c ∈ pre, c ≠ 0 ∧ c ≠ 37 := fun c hc =>
    ⟨hfmt c (List.mem_append_left _ hc), fun e => hpre (e ▸ hc)⟩
  refine ⟨fun buff fuel => pushvfstring_loop_unknown P A x pre post args buff fuel hx hpre2,
    ?_, pushvfstring_lone_percent P A pre args hpre2⟩
  intro r halloc hspec hlen
  have hpost : ∀ c ∈ post, c ≠ 0 := fun c hc =>
    hfmt c (List.mem_append_right _ (List.mem_cons_of_mem _ (List.mem_cons_of_mem _ hc)))
  have hfull : spec_format P (pre ++ 37 :: x :: post) args = some (pre ++ [37, x] ++ r) := by
    rw [spec_format_append P pre _ args hpre, spec_format, if_pos rfl,
      spec_conversion_unknown P x args hx]
    dsimp only
    rw [hspec]
    simp
  simp only [List.length_append] at hlen
  exact ⟨pushvfstring_refines P A post args r hpost halloc hspec (by omega),
    pushvfstring_refines P A _ args _ hfmt halloc hfull
      (by simp only [List.length_append]; omega)⟩

/-- Witness of C29: the template `a%xb`. -/
theorem luaO_pushvfstring_unknown_conversion_witness :
    luaO_pushvfstring integerPlatform plainAllocator (bytes "b") []
        = Except.ok (bytes "b")
    ∧ luaO_pushvfstring integerPlatform plainAllocator ([97] ++ 37 :: 120 :: bytes "b") []
        = Except.ok ([97] ++ [37, 120] ++ bytes "b") :=
  (luaO_pushvfstring_unknown_conversion integerPlatform plainAllocator 120 [97] (bytes "b") []
    (by decide) (by decide) (by decide)).2.1 (bytes "b") (fun _ => ⟨rfl, rfl⟩) rfl (by decide)

/-- C30: when no allocation fails and the message does not pass the cap
`MAX_SIZE/2`, `luaO_pushvfstring` returns the message of the specification:
the concatenation, in order, of the literal segments of the template and of
the renderings of its conversions (`%s` the bytes of the string argument or
`(null)`, `%c` the byte of the argument, `%d` the decimal text of the `int`,
`%U` the bytes of `luaO_utf8esc`, `%%` one `%`).  A template without `%` is
returned unchanged, whatever its length. -/
theorem luaO_pushvfstring_refines (P : Platform) (A : Allocator) (fmt : List Nat)
    (args : List (VaArg P)) (r : List Nat) (hfmt : ∀ c ∈ fmt, c ≠ 0)
    (halloc : ∀ n, A.realloc n = true ∧ A.newlstr n = true)
    (hspec : spec_format P fmt args = some r) (hlen : r.length ≤ MAX_SIZE / 2) :
    luaO_pushvfstring P A fmt args = Except.ok r
    ∧ (37 ∉ fmt → r = fmt)
    ∧ (∀ (mem : List Nat) (rest : List (VaArg P)),
        spec_conversion P 115 (VaArg.str (some mem) :: rest) = some (cstr mem, rest)
        ∧ spec_conversion P 115 (VaArg.str none :: rest) = some (bytes "(null)", rest))
    ∧ (∀ (i : Int) (u : Nat) (rest : List (VaArg P)),
        spec_conversion P 99 (VaArg.int i :: rest) = some ([cast_char i], rest)
        ∧ spec_conversion P 100 (VaArg.int i :: rest) = some (lua_integer2str i, rest)
        ∧ spec_conversion P 85 (VaArg.ulong u :: rest)
            = some (luaO_utf8esc (u % 2 ^ 32), rest)
        ∧ spec_conversion P 37 rest = some ([37], rest)) := by
  refine ⟨pushvfstring_refines P A fmt args r hfmt halloc hspec hlen, ?_,
    fun _ _ => ⟨rfl, rfl⟩, fun _ _ _ => ⟨rfl, rfl, rfl, rfl⟩⟩
  intro hn
  rw [spec_format_literal P fmt args hn] at hspec
  exact (Option.some.inj hspec).symm

/-- Witness of C30: the template `%s:%d %c%%` with a string and two `int`s. -/
theorem luaO_pushvfstring_refines_witness :
    luaO_pushvfstring integerPlatform plainAllocator (bytes "%s:%d %c%%")
      [VaArg.str (some (bytes "ab" ++ [0])), VaArg.int 12, VaArg.int 65]
      = Except.ok (bytes "ab:12 A%") :=
  (luaO_pushvfstring_refines integerPlatform plainAllocator (bytes "%s:%d %c%%")
    [VaArg.str (some (bytes "ab" ++ [0])), VaArg.int 12, VaArg.int 65] (bytes "ab:12 A%")
    (by decide) (fun _ => ⟨rfl, rfl⟩) (by decide) (by decide)).1

/-! ## Theorems: logarithm and parameter bytes -/

set_option maxRecDepth 100000 in
theorem log_2_table : ∀ j, j < 256 →
    j < 2 ^ (log_2.getD j 0) ∧ (j ≠ 0 → 2 ^ (log_2.getD j 0 - 1) ≤ j ∧ 1 ≤ log_2.getD j 0)
      ∧ log_2.getD j 0 ≤ 8 := by
  decide

theorem ceillog2_loop_run (y : Nat) (hy : y < 2 ^ 32) :
    ∃ k q, luaO_ceillog2_loop 4 0 y = (8 * k, q) ∧ q < 256 ∧ k ≤ 3
      ∧ q * 2 ^ (8 * k) ≤ y ∧ y < (q + 1) * 2 ^ (8 * k) ∧ (k ≠ 0 → q ≠ 0) := by
  by_cases h0 : y ≥ 256
  · have s1 : y >>> 8 = y / 256 := Nat.shiftRight_eq_div_pow y 8
    by_cases h1 : y / 256 ≥ 256
    · have s2 : (y / 256) >>> 8 = y / 256 / 256 := Nat.shiftRight_eq_div_pow _ 8
      by_cases h2 : y / 256 / 256 ≥ 256
      · have s3 : (y / 256 / 256) >>> 8 = y / 256 / 256 / 256 := Nat.shiftRight_eq_div_pow _ 8
        have h3 : ¬ (y / 256 / 256 / 256 ≥ 256) := by omega
        refine ⟨3, y / 256 / 256 / 256, ?_, by omega, by omega, by omega, by omega, by omega⟩
        rw [luaO_ceillog2_loop, if_pos h0, s1, luaO_ceillog2_loop, if_pos h1, s2,
          luaO_ceillog2_loop, if_pos h2, s3, luaO_ceillog2_loop, if_neg h3]
      · refine ⟨2, y / 256 / 256, ?_, by omega, by omega, by omega, by omega, by omega⟩
        rw [luaO_ceillog2_loop, if_pos h0, s1, luaO_ceillog2_loop, if_pos h1, s2,
          luaO_ceillog2_loop, if_neg h2]
    · refine ⟨1, y / 256, ?_, by omega, by omega, by omega, by omega, by omega⟩
      rw [luaO_ceillog2_loop, if_pos h0, s1, luaO_ceillog2_loop, if_neg h1]
  · refine ⟨0, y, ?_, by omega, by omega, by omega, by omega, by omega⟩
    rw [luaO_ceillog2_loop, if_neg h0]

theorem ceillog2_least_aux (x : Nat) (h1 : 1 ≤ x) (h2 : x < 2 ^ 32) :
    x ≤ 2 ^ luaO_ceillog2 x
    ∧ (∀ r, x ≤ 2 ^ r → luaO_ceillog2 x ≤ r)
    ∧ (x = 1 → luaO_ceillog2 x = 0)
    ∧ (2 ^ 31 < x → luaO_ceillog2 x = 32) := by
  have hy : (x + 2 ^ 32 - 1) % 2 ^ 32 = x - 1 := by omega
  obtain ⟨k, q, hrun, hq, hk, hlow, hhigh, hq0⟩ := ceillog2_loop_run (x - 1) (by omega)
  obtain ⟨t1, t2, t3⟩ := log_2_table q hq
  have hval : luaO_ceillog2 x = 8 * k + log_2.getD q 0 := by
    unfold luaO_ceillog2
    rw [hy, hrun]
    dsimp only
    omega
  have hup : x ≤ 2 ^ (8 * k + log_2.getD q 0) := by
    rw [Nat.pow_add, Nat.mul_comm]
    have : (q + 1) * 2 ^ (8 * k) ≤ 2 ^ (log_2.getD q 0) * 2 ^ (8 * k) :=
      Nat.mul_le_mul_right _ t1
    omega
  have hleast : ∀ r, x ≤ 2 ^ r → 8 * k + log_2.getD q 0 ≤ r := by
    intro r hr
    by_contra hlt
    by_cases hq1 : q = 0
    · have hk0 : k = 0 := by
        by_contra hk0
        exact hq0 hk0 hq1
      subst hq1
      subst hk0
      have : log_2.getD 0 0 = 0 := rfl
      omega
    · obtain ⟨t4, t5⟩ := t2 hq1
      have hr1 : r ≤ 8 * k + (log_2.getD q 0 - 1) := by omega
      have hp : 2 ^ r ≤ 2 ^ (8 * k + (log_2.getD q 0 - 1)) :=
        Nat.pow_le_pow_right (by decide) hr1
      rw [Nat.pow_add, Nat.mul_comm] at hp
      have : 2 ^ (log_2.getD q 0 - 1) * 2 ^ (8 * k) ≤ q * 2 ^ (8 * k) :=
        Nat.mul_le_mul_right _ t4
      omega
  rw [hval]
  refine ⟨hup, hleast, ?_, ?_⟩
  · intro hx
    have := hleast 0 (by omega)
    omega
  · intro hx
    have hle : 8 * k + log_2.getD q 0 ≤ 32 := hleast 32 (by omega)
    by_contra hne
    have hr1 : 8 * k + log_2.getD q 0 ≤ 31 := by omega
    have hp : 2 ^ (8 * k + log_2.getD q 0) ≤ 2 ^ 31 := Nat.pow_le_pow_right (by decide) hr1
    omega

/-- C39: for every `unsigned int` `x >= 1`, `luaO_ceillog2 x` is the least
`r` with `2^r >= x`; it is 0 for `x = 1` and 32 for `x > 2^31`. -/
theorem luaO_ceillog2_least (x : Nat) (h1 : 1 ≤ x) (h2 : x < 2 ^ 32) :
    x ≤ 2 ^ luaO_ceillog2 x
    ∧ (∀ r, x ≤ 2 ^ r → luaO_ceillog2 x ≤ r)
    ∧ (x = 1 → luaO_ceillog2 x = 0)
    ∧ (2 ^ 31 < x → luaO_ceillog2 x = 32) :=
  ceillog2_least_aux x h1 h2

/-- Witness of C39: `x = 1000`, whose logarithm rounds up to 10. -/
theorem luaO_ceillog2_least_witness : (1000 : Nat) ≤ 2 ^ luaO_ceillog2 1000 :=
  (luaO_ceillog2_least 1000 (by decide) (by decide)).1

theorem bitLengthAux_zero (fuel : Nat) : bitLengthAux fuel 0 = 0 := by
  cases fuel <;> rfl

theorem bitLengthAux_spec : ∀ (fuel n : Nat), n ≤ fuel →
    n < 2 ^ bitLengthAux fuel n
      ∧ (n ≠ 0 → 2 ^ (bitLengthAux fuel n - 1) ≤ n ∧ 1 ≤ bitLengthAux fuel n) := by
  intro fuel
  induction fuel with
  | zero =>
    intro n hn
    have h0 : n = 0 := by omega
    subst h0
    exact ⟨by decide, fun h => absurd rfl h⟩
  | succ fuel ih =>
    intro n hn
    by_cases h0 : n = 0
    · subst h0
      exact ⟨by positivity, fun h => absurd rfl h⟩
    · obtain ⟨i1, i2⟩ := ih (n / 2) (by omega)
      have e : bitLengthAux (fuel + 1) n = bitLengthAux fuel (n / 2) + 1 := by
        rw [bitLengthAux, if_neg h0]
      rw [e]
      refine ⟨?_, fun _ => ⟨?_, by omega⟩⟩
      · rw [Nat.pow_succ]
        omega
      · rw [Nat.add_sub_cancel]
        by_cases h1 : n / 2 = 0
        · rw [h1, bitLengthAux_zero]
          have : (2 : Nat) ^ 0 = 1 := rfl
          omega
        · obtain ⟨i3, i4⟩ := i2 h1
          have hp : 2 ^ bitLengthAux fuel (n / 2)
              = 2 ^ (bitLengthAux fuel (n / 2) - 1) * 2 := by
            rw [← Nat.pow_succ]
            congr 1
            omega
          omega

theorem bitLength_spec (n : Nat) :
    n < 2 ^ bitLength n ∧ (n ≠ 0 → 2 ^ (bitLength n - 1) ≤ n ∧ 1 ≤ bitLength n) :=
  bitLengthAux_spec n n (Nat.le_refl _)

theorem ceillog2_succ (n : Nat) (hn : n + 1 < 2 ^ 32) :
    luaO_ceillog2 (n + 1) = bitLength n := by
  obtain ⟨c1, c2, _, _⟩ := ceillog2_least_aux (n + 1) (by omega) hn
  obtain ⟨b1, b2⟩ := bitLength_spec n
  have hle : luaO_ceillog2 (n + 1) ≤ bitLength n := c2 _ (by omega)
  by_cases h0 : n = 0
  · subst h0
    have : bitLength 0 = 0 := rfl
    omega
  · obtain ⟨b3, b4⟩ := b2 h0
    by_contra hne
    have hlt : luaO_ceillog2 (n + 1) ≤ bitLength n - 1 := by omega
    have hp : 2 ^ luaO_ceillog2 (n + 1) ≤ 2 ^ (bitLength n - 1) :=
      Nat.pow_le_pow_right (by decide) hlt
    omega

theorem lmem_ok (v : Int) (h0 : 0 ≤ v) (h1 : v ≤ 9223372036854775807) : lmem v = some v := by
  have hM : MAX_LMEM = 9223372036854775807 := rfl
  have c : -(2 : Int) ^ 63 ≤ v ∧ v ≤ MAX_LMEM := ⟨by omega, by rw [hM]; exact h1⟩
  rw [lmem, if_pos c]

theorem byte_fields (e m : Nat) (hm : m < 16) :
    (e * 16 + m) &&& 0xF = m ∧ (e * 16 + m) >>> 4 = e := by
  refine ⟨?_, ?_⟩
  · have h := Nat.and_pow_two_sub_one_eq_mod (e * 16 + m) 4
    have h2 : (e * 16 + m) % 2 ^ 4 = m := by omega
    rw [h2] at h
    exact h
  · rw [Nat.shiftRight_eq_div_pow]
    omega

theorem applyparam_subnormal (m : Nat) (x : Int) (hm : m < 16) (hx0 : 0 ≤ x)
    (hx : x < MAX_LMEM / 0x1F / 2 ^ 7) :
    luaO_applyparam m x = some (x * (m : Int) / 128) := by
  have hM : MAX_LMEM / 0x1F = 297528130221121800 := by decide
  rw [hM] at hx
  obtain ⟨f1, f2⟩ := byte_fields 0 m hm
  rw [Nat.zero_mul, Nat.zero_add] at f1 f2
  have hX0 : 0 ≤ x * (m : Int) := Int.mul_nonneg hx0 (Int.ofNat_nonneg _)
  have hX1 : x * (m : Int) ≤ x * 15 := Int.mul_le_mul_of_nonneg_left (by omega) hx0
  have c2 : x < 297528130221121800 := by omega
  unfold luaO_applyparam
  simp only [f1, f2, hM]
  norm_num
  rw [if_pos c2, lmem_ok _ hX0 (by omega)]
  rfl

theorem lmemShl_ok (v : Int) (e : Nat) (h0 : 0 ≤ v) (h1 : v * 2 ^ e ≤ 9223372036854775807) :
    lmemShl v e = some (v * 2 ^ e) := by
  have hn : ¬ (v < 0) := by omega
  have hp : (0 : Int) ≤ v * 2 ^ e := Int.mul_nonneg h0 (by positivity)
  rw [lmemShl, if_neg hn, lmem_ok _ hp h1]

theorem applyparam_normal (L q : Nat) (x : Int) (hL : L ≤ 14) (hq : 16 ≤ q ∧ q ≤ 31)
    (hx0 : 0 ≤ x) (hx : x < MAX_LMEM / 0x1F / 2 ^ 7) :
    luaO_applyparam ((L + 1) * 16 + (q - 16)) x
      = some (x * ((q * 2 ^ L : Nat) : Int) / 128) := by
  have hM : MAX_LMEM / 0x1F = 297528130221121800 := by decide
  rw [hM] at hx
  obtain ⟨f1, f2⟩ := byte_fields (L + 1) (q - 16) (by omega)
  have hqq : q - 16 + 16 = q := by omega
  have hX0 : 0 ≤ x * (q : Int) := Int.mul_nonneg hx0 (Int.ofNat_nonneg _)
  have hX1 : x * (q : Int) ≤ x * 31 := Int.mul_le_mul_of_nonneg_left (by omega) hx0
  have c2 : x < 297528130221121800 := by omega
  have hl : lmem (x * (q : Int)) = some (x * (q : Int)) := lmem_ok _ hX0 (by omega)
  unfold luaO_applyparam
  simp only [f1, f2, hM, hqq]
  interval_cases L
  · have t : Int.toNat 7 = 7 := rfl
    have a : x * ((q : Int) * 1) = x * (q : Int) * 1 := by ring
    norm_num
    try simp only [t]
    rw [if_pos (by omega), hl]
    try simp only [t]
    refine congrArg some ?_
    try rw [a]
    omega
  · have t : Int.toNat 6 = 6 := rfl
    have a : x * ((q : Int) * 2) = x * (q : Int) * 2 := by ring
    norm_num
    try simp only [t]
    rw [if_pos (by omega), hl]
    try simp only [t]
    refine congrArg some ?_
    try rw [a]
    omega
  · have t : Int.toNat 5 = 5 := rfl
    have a : x * ((q : Int) * 4) = x * (q : Int) * 4 := by ring
    norm_num
    try simp only [t]
    rw [if_pos (by omega), hl]
    try simp only [t]
    refine congrArg some ?_
    try rw [a]
    omega
  · have t : Int.toNat 4 = 4 := rfl
    have a : x * ((q : Int) * 8) = x * (q : Int) * 8 := by ring
    norm_num
    try simp only [t]
    rw [if_pos (by omega), hl]
    try simp only [t]
    refine congrArg some ?_
    try rw [a]
    omega
  · have t : Int.toNat 3 = 3 := rfl
    have a : x * ((q : Int) * 16) = x * (q : Int) * 16 := by ring
    norm_num
    try simp only [t]
    rw [if_pos (by omega), hl]
    try simp only [t]
    refine congrArg some ?_
    try rw [a]
    omega
  · have t : Int.toNat 2 = 2 := rfl
    have a : x * ((q : Int) * 32) = x * (q : Int) * 32 := by ring
    norm_num
    try simp only [t]
    rw [if_pos (by omega), hl]
    try simp only [t]
    refine congrArg some ?_
    try rw [a]
    omega
  · have t : Int.toNat 1 = 1 := rfl
    have a : x * ((q : Int) * 64) = x * (q : Int) * 64 := by ring
    norm_num
    try simp only [t]
    rw [if_pos (by omega), hl]
    try simp only [t]
    refine congrArg some ?_
    try rw [a]
    omega
  · have t : Int.toNat 0 = 0 := rfl
    have a : x * ((q : Int) * 128) = x * (q : Int) * 128 := by ring
    norm_num
    try simp only [t]
    rw [if_pos (by omega), hl]
    try simp only [t]
    rw [lmemShl_ok _ _ hX0 (by omega)]
    refine congrArg some ?_
    try rw [a]
    omega
  · have t : Int.toNat 1 = 1 := rfl
    have a : x * ((q : Int) * 256) = x * (q : Int) * 256 := by ring
    norm_num
    try simp only [t]
    rw [if_pos (by omega), hl]
    try simp only [t]
    rw [lmemShl_ok _ _ hX0 (by omega)]
    refine congrArg some ?_
    try rw [a]
    omega
  · have t : Int.toNat 2 = 2 := rfl
    have a : x * ((q : Int) * 512) = x * (q : Int) * 512 := by ring
    norm_num
    try simp only [t]
    rw [if_pos (by omega), hl]
    try simp only [t]
    rw [lmemShl_ok _ _ hX0 (by omega)]
    refine congrArg some ?_
    try rw [a]
    omega
  · have t : Int.toNat 3 = 3 := rfl
    have a : x * ((q : Int) * 1024) = x * (q : Int) * 1024 := by ring
    norm_num
    try simp only [t]
    rw [if_pos (by omega), hl]
    try simp only [t]
    rw [lmemShl_ok _ _ hX0 (by omega)]
    refine congrArg some ?_
    try rw [a]
    omega
  · have t : Int.toNat 4 = 4 := rfl
    have a : x * ((q : Int) * 2048) = x * (q : Int) * 2048 := by ring
    norm_num
    try simp only [t]
    rw [if_pos (by omega), hl]
    try simp only [t]
    rw [lmemShl_ok _ _ hX0 (by omega)]
    refine congrArg some ?_
    try rw [a]
    omega
  · have t : Int.toNat 5 = 5 := rfl
    have a : x * ((q : Int) * 4096) = x * (q : Int) * 4096 := by ring
    norm_num
    try simp only [t]
    rw [if_pos (by omega), hl]
    try simp only [t]
    rw [lmemShl_ok _ _ hX0 (by omega)]
    refine congrArg some ?_
    try rw [a]
    omega
  · have t : Int.toNat 6 = 6 := rfl
    have a : x * ((q : Int) * 8192) = x * (q : Int) * 8192 := by ring
    norm_num
    try simp only [t]
    rw [if_pos (by omega), hl]
    try simp only [t]
    rw [lmemShl_ok _ _ hX0 (by omega)]
    refine congrArg some ?_
    try rw [a]
    omega
  · have t : Int.toNat 7 = 7 := rfl
    have a : x * ((q : Int) * 16384) = x * (q : Int) * 16384 := by ring
    norm_num
    try simp only [t]
    rw [if_pos (by omega), hl]
    try simp only [t]
    rw [lmemShl_ok _ _ hX0 (by omega)]
    refine congrArg some ?_
    try rw [a]
    omega

theorem bitLength_bounds (n : Nat) (h16 : 16 ≤ n) (hn : n < 2 ^ 19) :
    5 ≤ bitLength n ∧ bitLength n ≤ 19
      ∧ 16 ≤ n / 2 ^ (bitLength n - 5) ∧ n / 2 ^ (bitLength n - 5) ≤ 31 := by
  obtain ⟨b1, b2⟩ := bitLength_spec n
  obtain ⟨b3, b4⟩ := b2 (by omega)
  have h5 : 5 ≤ bitLength n := by
    by_contra hlt
    have hp : 2 ^ bitLength n ≤ 2 ^ 4 := Nat.pow_le_pow_right (by decide) (by omega)
    omega
  have h19 : bitLength n ≤ 19 := by
    by_contra hlt
    have hp : 2 ^ 19 ≤ 2 ^ (bitLength n - 1) := Nat.pow_le_pow_right (by decide) (by omega)
    omega
  have e1 : 2 ^ (bitLength n - 1) = 16 * 2 ^ (bitLength n - 5) := by
    have : bitLength n - 1 = 4 + (bitLength n - 5) := by omega
    rw [this, Nat.pow_add]
  have e2 : 2 ^ bitLength n = 32 * 2 ^ (bitLength n - 5) := by
    have : bitLength n = 5 + (bitLength n - 5) := by omega
    conv_lhs => rw [this, Nat.pow_add]
  have hpos : 0 < 2 ^ (bitLength n - 5) := by positivity
  refine ⟨h5, h19, ?_, ?_⟩
  · rw [Nat.le_div_iff_mul_le hpos]
    omega
  · have : n / 2 ^ (bitLength n - 5) < 32 := by
      rw [Nat.div_lt_iff_lt_mul hpos]
      omega
    omega

theorem codeparam_value (p : Nat) (hp : p < 396800) :
    ((128 * p + 99) / 100 < 16 → luaO_codeparam p = (128 * p + 99) / 100)
    ∧ (16 ≤ (128 * p + 99) / 100 →
        luaO_codeparam p = (bitLength ((128 * p + 99) / 100) - 5 + 1) * 16
          + ((128 * p + 99) / 100 / 2 ^ (bitLength ((128 * p + 99) / 100) - 5) - 16)) := by
  have hthr : (0x1F <<< (0xF - 7 - 1)) * 100 = 396800 := by decide
  have h1 : ¬ (p ≥ (0x1F <<< (0xF - 7 - 1)) * 100) := by
    rw [hthr]
    omega
  have hp1 : ((p * 128 + 99) % 2 ^ 32) / 100 = (128 * p + 99) / 100 := by omega
  have hP : (128 * p + 99) / 100 < 2 ^ 19 := by omega
  generalize (128 * p + 99) / 100 = P at hp1 hP
  refine ⟨?_, ?_⟩
  · intro hsub
    have c : P < 0x10 := hsub
    unfold luaO_codeparam
    rw [if_neg h1]
    dsimp only
    rw [hp1, if_pos c]
    omega
  · intro hnorm
    have c : ¬ (P < 0x10) := by omega
    obtain ⟨k1, k2, k3, k4⟩ := bitLength_bounds P hnorm hP
    have hlog : (luaO_ceillog2 (P + 1) + 2 ^ 32 - 5) % 2 ^ 32 = bitLength P - 5 := by
      rw [ceillog2_succ P (by omega)]
      omega
    have hq : ((P / 2 ^ (bitLength P - 5)) + 2 ^ 32 - 0x10) % 2 ^ 32
        = P / 2 ^ (bitLength P - 5) - 16 := by omega
    have hsh : ((bitLength P - 5 + 1) <<< 4) % 2 ^ 32 = 2 ^ 4 * (bitLength P - 5 + 1) := by
      rw [Nat.shiftLeft_eq]
      omega
    have hor : (P / 2 ^ (bitLength P - 5) - 16) ||| 2 ^ 4 * (bitLength P - 5 + 1)
        = 2 ^ 4 * (bitLength P - 5 + 1) + (P / 2 ^ (bitLength P - 5) - 16) := by
      rw [Nat.lor_comm]
      exact (Nat.mul_add_lt_is_or (by omega) _).symm
    unfold luaO_codeparam
    rw [if_neg h1]
    dsimp only
    rw [hp1, if_neg c, hlog, Nat.shiftRight_eq_div_pow, hq, hsh, hor]
    omega

theorem spec_paramT_subnormal (p : Nat) (h : (128 * p + 99) / 100 < 16) :
    spec_paramT p = (128 * p + 99) / 100 := by
  unfold spec_paramT
  generalize (128 * p + 99) / 100 = P at h
  obtain ⟨b1, b2⟩ := bitLength_spec P
  have hs : bitLength P - 5 = 0 := by
    by_cases h0 : P = 0
    · subst h0
      rfl
    · obtain ⟨b3, b4⟩ := b2 h0
      by_contra hne
      have hp : 2 ^ 4 ≤ 2 ^ (bitLength P - 1) := Nat.pow_le_pow_right (by decide) (by omega)
      omega
  rw [hs]
  simp

/-- C40: for every percentage `p` below 396800 and every `x` with
`0 <= x < (MAX_LMEM / 31) / 2^7`, `luaO_applyparam (luaO_codeparam p) x` is
`floor(x * T / 128)`, no step overflowing, where `T` is `ceil(128 * p / 100)`
with the bits below its five most significant bits cleared; `T` is the value
of the byte in the documented format, times 128; `p = 100` gives back `x`;
from 396800 on `luaO_codeparam` returns `0xFF`. -/
theorem luaO_applyparam_codeparam (p : Nat) (x : Int) (hp : p < 396800) (hx0 : 0 ≤ x)
    (hx : x < MAX_LMEM / 0x1F / 2 ^ 7) :
    luaO_applyparam (luaO_codeparam p) x = some (x * (spec_paramT p : Int) / 128)
    ∧ spec_byteValue (luaO_codeparam p) = spec_paramT p
    ∧ (p = 100 → luaO_applyparam (luaO_codeparam p) x = some x)
    ∧ ∀ p1, 396800 ≤ p1 → luaO_codeparam p1 = 0xFF := by
  have hmain : luaO_applyparam (luaO_codeparam p) x = some (x * (spec_paramT p : Int) / 128)
      ∧ spec_byteValue (luaO_codeparam p) = spec_paramT p := by
    obtain ⟨v1, v2⟩ := codeparam_value p hp
    by_cases hsub : (128 * p + 99) / 100 < 16
    · rw [v1 hsub, spec_paramT_subnormal p hsub]
      refine ⟨applyparam_subnormal _ x hsub hx0 hx, ?_⟩
      unfold spec_byteValue
      have c : (128 * p + 99) / 100 / 16 = 0 := by omega
      rw [if_pos c]
      omega
    · have hnorm : 16 ≤ (128 * p + 99) / 100 := by omega
      have hP : (128 * p + 99) / 100 < 2 ^ 19 := by omega
      obtain ⟨k1, k2, k3, k4⟩ := bitLength_bounds _ hnorm hP
      rw [v2 hnorm]
      have hT : spec_paramT p = (128 * p + 99) / 100 / 2 ^ (bitLength ((128 * p + 99) / 100) - 5)
          * 2 ^ (bitLength ((128 * p + 99) / 100) - 5) := rfl
      rw [hT]
      have hL : bitLength ((128 * p + 99) / 100) - 5 ≤ 14 := by omega
      generalize bitLength ((128 * p + 99) / 100) - 5 = L at k3 k4 hL ⊢
      generalize (128 * p + 99) / 100 / 2 ^ L = q at k3 k4 ⊢
      refine ⟨applyparam_normal L q x hL ⟨k3, k4⟩ hx0 hx, ?_⟩
      unfold spec_byteValue
      have c1 : ((L + 1) * 16 + (q - 16)) / 16 = L + 1 := by omega
      have c2 : ((L + 1) * 16 + (q - 16)) % 16 = q - 16 := by omega
      have c3 : ¬ (L + 1 = 0) := by omega
      rw [c1, c2, if_neg c3, Nat.add_sub_cancel]
      congr 1
      omega
  refine ⟨hmain.1, hmain.2, ?_, ?_⟩
  · intro h100
    subst h100
    have hT : spec_paramT 100 = 128 := by decide
    rw [hmain.1, hT]
    refine congrArg some ?_
    omega
  · intro p1 hp1
    have hthr : (0x1F <<< (0xF - 7 - 1)) * 100 = 396800 := by decide
    have c : p1 ≥ (0x1F <<< (0xF - 7 - 1)) * 100 := by
      rw [hthr]
      exact hp1
    unfold luaO_codeparam
    rw [if_pos c]

/-- Witness of C40: 150 percent of 1000. -/
theorem luaO_applyparam_codeparam_witness :
    luaO_applyparam (luaO_codeparam 150) 1000 = some (1000 * (spec_paramT 150 : Int) / 128) :=
  (luaO_applyparam_codeparam 150 1000 (by decide) (by decide) (by decide)).1

/-! ## Theorems: the length overflow of the formatter -/

theorem addstr2buff_err (A : Allocator) (buff : BuffFS) (str : List Nat)
    (h : buff.err ≠ 0) : addstr2buff A buff str = buff := by
  unfold addstr2buff
  dsimp only
  rw [if_pos h]

theorem addstr2buff_fit (A : Allocator) (buff : BuffFS) (str : List Nat)
    (h0 : buff.err = 0) (hfit : str.length ≤ buff.buffsize - buff.b.length) :
    addstr2buff A buff str = { buff with b := buff.b ++ str } := by
  have h1 : ¬ (buff.err ≠ 0) := fun h => h h0
  have h2 : ¬ (str.length > buff.buffsize - buff.b.length) := by omega
  unfold addstr2buff
  dsimp only
  rw [if_neg h1, if_neg h2]

theorem addstr2buff_grow (A : Allocator) (buff : BuffFS) (str : List Nat)
    (h0 : buff.err = 0) (hbig : str.length > buff.buffsize - buff.b.length)
    (hcap : buff.b.length + str.length ≤ MAX_SIZE / 2)
    (hA : A.realloc (buff.buffsize + str.length) = true) :
    addstr2buff A buff str
      = { buff with b := buff.b ++ str, dynamic := true,
                    buffsize := buff.buffsize + str.length } := by
  have hM : MAX_SIZE / 2 = 4611686018427387903 := by decide
  have h1 : ¬ (buff.err ≠ 0) := fun h => h h0
  have h3 : ¬ (str.length > (MAX_SIZE / 2 + 2 ^ 64 - buff.b.length) % 2 ^ 64) := by
    rw [hM] at hcap ⊢
    omega
  have h4 : ¬ (A.realloc (buff.buffsize + str.length) = false) := by
    rw [hA]
    exact Bool.noConfusion
  unfold addstr2buff
  dsimp only
  rw [if_neg h1, if_pos hbig, if_neg h3, if_neg h4]

theorem addstr2buff_overflow (A : Allocator) (buff : BuffFS) (str : List Nat)
    (h0 : buff.err = 0) (hbig : str.length > buff.buffsize - buff.b.length)
    (hb : buff.b.length ≤ MAX_SIZE / 2) (hcap : MAX_SIZE / 2 < buff.b.length + str.length) :
    addstr2buff A buff str
      = { buff with b := buff.b ++ str.take (buff.buffsize - buff.b.length), err := 2 } := by
  have hM : MAX_SIZE / 2 = 4611686018427387903 := by decide
  have h1 : ¬ (buff.err ≠ 0) := fun h => h h0
  have h3 : str.length > (MAX_SIZE / 2 + 2 ^ 64 - buff.b.length) % 2 ^ 64 := by
    rw [hM] at hcap hb ⊢
    omega
  unfold addstr2buff
  dsimp only
  rw [if_neg h1, if_pos hbig, if_pos h3]

theorem addstr2buff_inv (A : Allocator) (buff : BuffFS) (str : List Nat)
    (hinv : buff.b.length ≤ buff.buffsize ∧ (buff.err = 2 → buff.b.length = buff.buffsize)) :
    (addstr2buff A buff str).b.length ≤ (addstr2buff A buff str).buffsize
      ∧ ((addstr2buff A buff str).err = 2 →
          (addstr2buff A buff str).b.length = (addstr2buff A buff str).buffsize) := by
  obtain ⟨i1, i2⟩ := hinv
  unfold addstr2buff
  dsimp only
  by_cases h1 : buff.err ≠ 0
  · rw [if_pos h1]
    exact ⟨i1, i2⟩
  · have h0 : buff.err = 0 := by omega
    rw [if_neg h1]
    by_cases h2 : str.length > buff.buffsize - buff.b.length
    · rw [if_pos h2]
      by_cases h3 : str.length > (MAX_SIZE / 2 + 2 ^ 64 - buff.b.length) % 2 ^ 64
      · rw [if_pos h3]
        have hl : (buff.b ++ str.take (buff.buffsize - buff.b.length)).length
            = buff.buffsize := by
          rw [List.length_append, List.length_take]
          omega
        exact ⟨Nat.le_of_eq hl, fun _ => hl⟩
      · rw [if_neg h3]
        by_cases h4 : A.realloc (buff.buffsize + str.length) = false
        · rw [if_pos h4]
          exact ⟨i1, fun h => by simp at h⟩
        · rw [if_neg h4]
          refine ⟨?_, fun h => ?_⟩
          · show (buff.b ++ str).length ≤ buff.buffsize + str.length
            rw [List.length_append]
            omega
          · have : buff.err = 2 := h
            omega
    · rw [if_neg h2]
      refine ⟨?_, fun h => ?_⟩
      · show (buff.b ++ str).length ≤ buff.buffsize
        rw [List.length_append]
        omega
      · have : buff.err = 2 := h
        omega

theorem conversion_adds (P : Platform) (A : Allocator) (buff buff1 : BuffFS) (x : Nat)
    (e2 : List Nat) (args rest : List (VaArg P))
    (h : conversion P A buff x e2 args = Except.ok (buff1, rest)) :
    ∃ str, buff1 = addstr2buff A buff str := by
  unfold conversion at h
  split_ifs at h <;> first
    | (injection h with h; injection h with h1 h2; exact ⟨_, h1.symm⟩)
    | (split at h <;> first
        | (injection h with h; injection h with h1 h2; exact ⟨_, h1.symm⟩)
        | exact absurd h (by simp))

theorem pushvfstring_loop_step (P : Platform) (A : Allocator) (fuel : Nat) (buff buff1 : BuffFS)
    (fmt : List Nat) (args : List (VaArg P))
    (h : pushvfstring_loop P A (fuel + 1) buff fmt args = Except.ok buff1) :
    (∃ str, buff1 = addstr2buff A buff str)
    ∨ (∃ str1 str2 fmt2 args2, pushvfstring_loop P A fuel
          (addstr2buff A (addstr2buff A buff str1) str2) fmt2 args2 = Except.ok buff1) := by
  rw [pushvfstring_loop] at h
  cases hs : strchr (fmt ++ [0]) 37 with
  | none =>
    rw [hs] at h
    exact Or.inl ⟨_, (Except.ok.inj h).symm⟩
  | some e =>
    rw [hs] at h
    dsimp only at h
    cases hc : conversion P A (addstr2buff A buff ((fmt ++ [0]).take e))
        ((fmt ++ [0]).getD (e + 1) 0) (((fmt ++ [0]).drop e).take 2) args with
    | error err =>
      rw [hc] at h
      exact Except.noConfusion h
    | ok pr =>
      obtain ⟨buff2, args2⟩ := pr
      rw [hc] at h
      dsimp only at h
      obtain ⟨str2, hb2⟩ := conversion_adds P A _ _ _ _ _ _ hc
      by_cases he : e + 2 ≤ fmt.length
      · rw [if_pos he, hb2] at h
        exact Or.inr ⟨_, str2, _, _, h⟩
      · rw [if_neg he] at h
        exact Except.noConfusion h

theorem pushvfstring_loop_inv (P : Platform) (A : Allocator) :
    ∀ (fuel : Nat) (buff buff1 : BuffFS) (fmt : List Nat) (args : List (VaArg P)),
      pushvfstring_loop P A fuel buff fmt args = Except.ok buff1 →
      (buff.b.length ≤ buff.buffsize ∧ (buff.err = 2 → buff.b.length = buff.buffsize)) →
      buff1.b.length ≤ buff1.buffsize ∧ (buff1.err = 2 → buff1.b.length = buff1.buffsize) := by
  intro fuel
  induction fuel with
  | zero =>
    intro buff buff1 fmt args h
    exact Except.noConfusion h
  | succ fuel ih =>
    intro buff buff1 fmt args h hinv
    rcases pushvfstring_loop_step P A fuel buff buff1 fmt args h with
      ⟨str, hb⟩ | ⟨str1, str2, fmt2, args2, h2⟩
    · rw [hb]
      exact addstr2buff_inv A buff str hinv
    · exact ih _ _ _ _ h2 (addstr2buff_inv A _ str2 (addstr2buff_inv A buff str1 hinv))

theorem pushvfstring_loop_ignores (P : Platform) (A : Allocator) :
    ∀ (fuel : Nat) (buff buff1 : BuffFS) (fmt : List Nat) (args : List (VaArg P)),
      buff.err ≠ 0 → pushvfstring_loop P A fuel buff fmt args = Except.ok buff1 →
      buff1 = buff := by
  intro fuel
  induction fuel with
  | zero =>
    intro buff buff1 fmt args _ h
    exact Except.noConfusion h
  | succ fuel ih =>
    intro buff buff1 fmt args herr h
    rcases pushvfstring_loop_step P A fuel buff buff1 fmt args h with
      ⟨str, hb⟩ | ⟨str1, str2, fmt2, args2, h2⟩
    · rw [hb, addstr2buff_err A buff str herr]
    · rw [addstr2buff_err A buff str1 herr, addstr2buff_err A buff str2 herr] at h2
      exact ih _ _ _ _ herr h2

theorem pushvfstring_loop_total (P : Platform) (A : Allocator) :
    ∀ (fuel : Nat) (fmt : List Nat) (buff : BuffFS) (args : List (VaArg P)) (r : List Nat),
      fmt.length < fuel → (∀ c ∈ fmt, c ≠ 0) → spec_format P fmt args = some r →
      ∃ buff1, pushvfstring_loop P A fuel buff fmt args = Except.ok buff1 := by
  intro fuel
  induction fuel with
  | zero => intro fmt _ _ _ hf; exact absurd hf (Nat.not_lt_zero _)
  | succ fuel ih =>
    intro fmt buff args r hfuel h0 hspec
    rcases split_percent fmt with hn | ⟨pre, rest, hfmt, hpre⟩
    · obtain ⟨s1, s2⟩ := strchr_percent_none fmt h0 hn
      refine ⟨addstr2buff A buff fmt, ?_⟩
      rw [pushvfstring_loop, s1, s2]
    · subst hfmt
      have h0pre : ∀ c ∈ pre, c ≠ 0 := fun c hc => h0 c (List.mem_append_left _ hc)
      rw [spec_format_append P pre _ args hpre] at hspec
      cases hq : spec_format P (37 :: rest) args with
      | none => rw [hq] at hspec; exact Option.noConfusion hspec
      | some q =>
        obtain ⟨x, t, text, args1, r1, hrest, hcv, ht, hq1⟩ :=
          spec_format_percent P rest args q hq
        subst hrest
        have hlenf : (pre ++ 37 :: x :: t).length = pre.length + (t.length + 2) := by simp
        obtain ⟨buff1, j1⟩ := ih t (addstr2buff A (addstr2buff A buff pre) text) args1 r1
          (by rw [hlenf] at hfuel; omega)
          (fun c hc => h0 c (List.mem_append_right _
            (List.mem_cons_of_mem _ (List.mem_cons_of_mem _ hc)))) ht
        refine ⟨buff1, ?_⟩
        have e1 : ((pre ++ 37 :: x :: t) ++ [0]).take pre.length = pre := by
          rw [List.append_assoc, List.take_left]
        have e2 : ((pre ++ 37 :: x :: t) ++ [0]).getD (pre.length + 1) 0 = x := by
          rw [List.append_assoc, List.getD_eq_getElem?_getD,
            List.getElem?_append_right (by omega), Nat.add_sub_cancel_left]
          simp
        have e3 : (((pre ++ 37 :: x :: t) ++ [0]).drop pre.length).take 2 = [37, x] := by
          rw [List.append_assoc, List.drop_left]
          rfl
        have e4 : pre.length + 2 ≤ (pre ++ 37 :: x :: t).length := by
          rw [hlenf]
          omega
        have e5 : (pre ++ 37 :: x :: t).drop (pre.length + 2) = t := by
          rw [List.drop_append_eq_append_drop]
          simp
        rw [pushvfstring_loop, strchr_percent_some pre _ h0pre hpre]
        dsimp only
        rw [e1, e2, e3, conversion_refines P A _ x args args1 text hcv]
        dsimp only
        rw [if_pos e4, e5, j1]

theorem pushvfstring_loop_conv (P : Platform) (A : Allocator) (fuel : Nat) (buff : BuffFS)
    (pre t : List Nat) (x : Nat) (args args1 : List (VaArg P)) (text : List Nat)
    (hpre : ∀ c ∈ pre, c ≠ 0 ∧ c ≠ 37)
    (hcv : spec_conversion P x args = some (text, args1)) :
    pushvfstring_loop P A (fuel + 1) buff (pre ++ 37 :: x :: t) args
      = pushvfstring_loop P A fuel (addstr2buff A (addstr2buff A buff pre) text) t args1 := by
  have h0pre : ∀ c ∈ pre, c ≠ 0 := fun c hc => (hpre c hc).1
  have hp : 37 ∉ pre := fun hm => (hpre 37 hm).2 rfl
  have hlenf : (pre ++ 37 :: x :: t).length = pre.length + (t.length + 2) := by simp
  have e1 : ((pre ++ 37 :: x :: t) ++ [0]).take pre.length = pre := by
    rw [List.append_assoc, List.take_left]
  have e2 : ((pre ++ 37 :: x :: t) ++ [0]).getD (pre.length + 1) 0 = x := by
    rw [List.append_assoc, List.getD_eq_getElem?_getD,
      List.getElem?_append_right (by omega), Nat.add_sub_cancel_left]
    simp
  have e3 : (((pre ++ 37 :: x :: t) ++ [0]).drop pre.length).take 2 = [37, x] := by
    rw [List.append_assoc, List.drop_left]
    rfl
  have e4 : pre.length + 2 ≤ (pre ++ 37 :: x :: t).length := by
    rw [hlenf]
    omega
  have e5 : (pre ++ 37 :: x :: t).drop (pre.length + 2) = t := by
    rw [List.drop_append_eq_append_drop]
    simp
  rw [pushvfstring_loop, strchr_percent_some pre _ h0pre hp]
  dsimp only
  rw [e1, e2, e3, conversion_refines P A _ x args args1 text hcv]
  dsimp only
  rw [if_pos e4, e5]

theorem pushvfstring_loop_end (P : Platform) (A : Allocator) (fuel : Nat) (buff : BuffFS)
    (args : List (VaArg P)) :
    pushvfstring_loop P A (fuel + 1) buff [] args = Except.ok (addstr2buff A buff []) := by
  rw [pushvfstring_loop]
  rfl

theorem addstr2buff_nil (A : Allocator) (buff : BuffFS) : addstr2buff A buff [] = buff := by
  by_cases h : buff.err ≠ 0
  · exact addstr2buff_err A buff [] h
  · rw [addstr2buff_fit A buff [] (by omega) (Nat.zero_le _), List.append_nil]

theorem pushbuff_overflow (A : Allocator) (buff : BuffFS) (herr : buff.err = 2)
    (hfull : buff.b.length = buff.buffsize) (h3 : 3 ≤ buff.b.length)
    (hA : ∀ n, A.newlstr n = true) :
    clearbuff A buff = Except.ok (buff.b.take (buff.b.length - 3) ++ bytes "...") := by
  have h1 : ¬ (buff.err = 1) := by omega
  have h2 : ¬ (buff.err = 2 ∧ buff.buffsize - buff.b.length < 3 ∧ buff.b.length < 3) :=
    fun h => by omega
  have h4 : buff.buffsize - buff.b.length < 3 := by omega
  unfold clearbuff pushbuff
  rw [if_neg h1, if_neg h2]
  dsimp only
  rw [if_pos herr, if_pos h4, if_pos (hA _)]

theorem spec_conversion_str (P : Platform) (mem : List Nat) (args : List (VaArg P)) :
    spec_conversion P 115 (VaArg.str (some mem) :: args) = some (cstr mem, args) := rfl

theorem pushvfstring_overflow_run (P : Platform) (A : Allocator) (pre s post : List Nat)
    (args : List (VaArg P)) (r1 : List Nat)
    (hpre : ∀ c ∈ pre, c ≠ 0 ∧ c ≠ 37) (hs : ∀ c ∈ s, c ≠ 0) (hpost : ∀ c ∈ post, c ≠ 0)
    (hroom : pre.length ≤ BUFVFS) (hover : MAX_SIZE / 2 < pre.length + s.length)
    (hwf : spec_format P post args = some r1) :
    pushvfstring_loop P A ((pre ++ 37 :: 115 :: post).length + 1) initbuff
        (pre ++ 37 :: 115 :: post) (VaArg.str (some (s ++ [0])) :: args)
      = Except.ok { b := pre ++ s.take (BUFVFS - pre.length), dynamic := false,
                    buffsize := BUFVFS, err := 2 } := by
  have hM : MAX_SIZE / 2 = 4611686018427387903 := by decide
  have hB : BUFVFS = 219 := rfl
  have hc : cstr (s ++ [0]) = s := cstr_append_nul s [] hs
  have hlenf : (pre ++ 37 :: 115 :: post).length = (post.length + 1) + pre.length + 1 := by
    simp
    omega
  have k1 : addstr2buff A initbuff pre
      = { b := pre, dynamic := false, buffsize := BUFVFS, err := 0 } := by
    rw [addstr2buff_fit A initbuff pre rfl (by simpa [initbuff] using hroom)]
    rfl
  have hroom1 : pre.length ≤ 219 := hroom
  have hover1 : 4611686018427387903 < pre.length + s.length := by
    rw [← hM]
    exact hover
  have k2 : addstr2buff A { b := pre, dynamic := false, buffsize := BUFVFS, err := 0 } s
      = { b := pre ++ s.take (BUFVFS - pre.length), dynamic := false,
          buffsize := BUFVFS, err := 2 } := by
    have g1 : s.length > 219 - pre.length := by omega
    have g2 : pre.length ≤ MAX_SIZE / 2 := by
      rw [hM]
      omega
    rw [addstr2buff_overflow A _ s rfl g1 g2 hover]
  obtain ⟨buff1, j1⟩ := pushvfstring_loop_total P A ((post.length + 1) + pre.length + 1) post
    { b := pre ++ s.take (BUFVFS - pre.length), dynamic := false, buffsize := BUFVFS, err := 2 }
    args r1 (by omega) hpost hwf
  have j2 := pushvfstring_loop_ignores P A _ _ buff1 post args
    (show (2 : Nat) ≠ 0 by decide) j1
  rw [j2] at j1
  rw [hlenf, pushvfstring_loop_conv P A _ initbuff pre post 115 _ args s hpre
    (by rw [spec_conversion_str, hc]), k1, k2, j1]

theorem replicate_no_nul (n c : Nat) (hc : c ≠ 0) : ∀ d ∈ List.replicate n c, d ≠ 0 := by
  intro d hd
  rw [List.eq_of_mem_replicate hd]
  exact hc

theorem pushvfstring_two_strings (P : Platform) (A : Allocator) (s1 s2 : List Nat)
    (hs1 : ∀ c ∈ s1, c ≠ 0) (hs2 : ∀ c ∈ s2, c ≠ 0)
    (h1 : BUFVFS < s1.length) (h1c : s1.length ≤ MAX_SIZE / 2) (h2 : s2.length ≤ BUFVFS)
    (hA : ∀ n, A.realloc n = true ∧ A.newlstr n = true) :
    luaO_pushvfstring P A [37, 115, 37, 115]
        [VaArg.str (some (s1 ++ [0])), VaArg.str (some (s2 ++ [0]))]
      = Except.ok (s1 ++ s2) := by
  have hB : BUFVFS = 219 := rfl
  have c1 : cstr (s1 ++ [0]) = s1 := cstr_append_nul s1 [] hs1
  have c2 : cstr (s2 ++ [0]) = s2 := cstr_append_nul s2 [] hs2
  have hnil : ∀ c ∈ ([] : List Nat), c ≠ 0 ∧ c ≠ 37 := fun c hc => absurd hc (List.not_mem_nil c)
  have k1 : addstr2buff A initbuff s1
      = { b := s1, dynamic := true, buffsize := BUFVFS + s1.length, err := 0 } := by
    have g1 : s1.length > BUFVFS - 0 := by omega
    have g2 : 0 + s1.length ≤ MAX_SIZE / 2 := by omega
    rw [addstr2buff_grow A initbuff s1 rfl g1 g2 (hA _).1]
    rfl
  have k2 : addstr2buff A
        { b := s1, dynamic := true, buffsize := BUFVFS + s1.length, err := 0 } s2
      = { b := s1 ++ s2, dynamic := true, buffsize := BUFVFS + s1.length, err := 0 } := by
    have g1 : s2.length ≤ BUFVFS + s1.length - s1.length := by omega
    rw [addstr2buff_fit A _ s2 rfl g1]
  have e1 : pushvfstring_loop P A 5 initbuff ([] ++ 37 :: 115 :: [37, 115])
      [VaArg.str (some (s1 ++ [0])), VaArg.str (some (s2 ++ [0]))]
      = Except.ok { b := s1 ++ s2, dynamic := true, buffsize := BUFVFS + s1.length,
                    err := 0 } := by
    rw [pushvfstring_loop_conv P A 4 initbuff [] [37, 115] 115 _ _ s1 hnil
      (by rw [spec_conversion_str, c1]), addstr2buff_nil, k1]
    have e2 := pushvfstring_loop_conv P A 3
      { b := s1, dynamic := true, buffsize := BUFVFS + s1.length, err := 0 } [] [] 115
      [VaArg.str (some (s2 ++ [0]))] [] s2 hnil (by rw [spec_conversion_str, c2])
    rw [List.nil_append] at e2
    rw [e2, addstr2buff_nil, k2, pushvfstring_loop_end, addstr2buff_nil]
  unfold luaO_pushvfstring
  rw [show ([37, 115, 37, 115] : List Nat).length + 1 = 5 from rfl]
  rw [List.nil_append] at e1
  rw [e1]
  dsimp only
  rw [clearbuff, pushbuff_ok A _ rfl (hA _).2]

/-- C31, a message that passes the cap and is not truncated: after a string
of `MAX_SIZE/2 - 10` bytes the buffer still has its initial `BUFVFS` bytes
free, so a second string of 50 bytes, which takes the message 40 bytes past
`MAX_SIZE/2`, fits and is added in full; the result has no `...`. -/
theorem luaO_pushvfstring_past_cap_untruncated :
    luaO_pushvfstring integerPlatform plainAllocator [37, 115, 37, 115]
        [VaArg.str (some (List.replicate (MAX_SIZE / 2 - 10) 97 ++ [0])),
          VaArg.str (some (List.replicate 50 98 ++ [0]))]
      = Except.ok (List.replicate (MAX_SIZE / 2 - 10) 97 ++ List.replicate 50 98)
    ∧ (List.replicate (MAX_SIZE / 2 - 10) 97).length + (List.replicate 50 98).length
        = MAX_SIZE / 2 + 40 :=
  ⟨pushvfstring_two_strings integerPlatform plainAllocator _ _
      (replicate_no_nul _ 97 (by decide)) (replicate_no_nul _ 98 (by decide))
      (by rw [List.length_replicate]; decide) (by rw [List.length_replicate]; decide)
      (by rw [List.length_replicate]; decide) (fun _ => ⟨rfl, rfl⟩),
    by rw [List.length_replicate, List.length_replicate]; decide⟩

/-- C31 (amended): when the piece that would take the message past
`MAX_SIZE/2` does not fit in the free space of the buffer (here the string of
the first conversion, after a literal segment that fits in the initial
buffer), `luaO_pushvfstring` raises no error: `addstr2buff` copies what fits
in the buffer and sets `err = 2`, every later piece is ignored and the
message returned is the text cut at the size of the buffer, its last three
bytes replaced by `...`. -/
theorem luaO_pushvfstring_overflow (P : Platform) (A : Allocator) (pre s post : List Nat)
    (args : List (VaArg P)) (r1 : List Nat)
    (hpre : ∀ c ∈ pre, c ≠ 0 ∧ c ≠ 37) (hs : ∀ c ∈ s, c ≠ 0) (hpost : ∀ c ∈ post, c ≠ 0)
    (hroom : pre.length ≤ BUFVFS) (hover : MAX_SIZE / 2 < pre.length + s.length)
    (hwf : spec_format P post args = some r1) (hnew : ∀ n, A.newlstr n = true) :
    luaO_pushvfstring P A (pre ++ 37 :: 115 :: post) (VaArg.str (some (s ++ [0])) :: args)
        = Except.ok ((pre ++ s).take (BUFVFS - 3) ++ bytes "...")
    ∧ (∀ (buff : BuffFS) (str : List Nat), buff.err = 0 →
        str.length > buff.buffsize - buff.b.length → buff.b.length ≤ MAX_SIZE / 2 →
        MAX_SIZE / 2 < buff.b.length + str.length →
        addstr2buff A buff str
          = { buff with b := buff.b ++ str.take (buff.buffsize - buff.b.length), err := 2 })
    ∧ (∀ (buff : BuffFS) (str : List Nat), buff.err = 2 → addstr2buff A buff str = buff)
    ∧ (∀ (fuel : Nat) (buff buff1 : BuffFS) (fmt : List Nat) (argp : List (VaArg P)),
        buff.err = 2 → pushvfstring_loop P A fuel buff fmt argp = Except.ok buff1 →
        buff1 = buff)
    ∧ (∀ buff : BuffFS, buff.err = 2 → buff.b.length = buff.buffsize → 3 ≤ buff.b.length →
        clearbuff A buff = Except.ok (buff.b.take (buff.b.length - 3) ++ bytes "...")) := by
  have hB : BUFVFS = 219 := rfl
  have hM : MAX_SIZE / 2 = 4611686018427387903 := by decide
  refine ⟨?_, fun buff str h0 hbig hb hcap => addstr2buff_overflow A buff str h0 hbig hb hcap,
    fun buff str h2 => addstr2buff_err A buff str (by omega),
    fun fuel buff buff1 fmt argp h2 h =>
      pushvfstring_loop_ignores P A fuel buff buff1 fmt argp (by omega) h,
    fun buff h2 hfull h3 => pushbuff_overflow A buff h2 hfull h3 hnew⟩
  have hrun := pushvfstring_overflow_run P A pre s post args r1 hpre hs hpost hroom hover hwf
  have hlen : (pre ++ s.take (BUFVFS - pre.length)).length = BUFVFS := by
    rw [List.length_append, List.length_take]
    omega
  have htake : (pre ++ s.take (BUFVFS - pre.length)).take (BUFVFS - 3)
      = (pre ++ s).take (BUFVFS - 3) := by
    have e : pre ++ s.take (BUFVFS - pre.length) = (pre ++ s).take BUFVFS := by
      rw [List.take_append_eq_append_take, List.take_of_length_le hroom]
    rw [e, List.take_take]
    congr 1
  unfold luaO_pushvfstring
  rw [hrun]
  dsimp only
  rw [pushbuff_overflow A _ rfl hlen (by rw [hlen]; decide) hnew]
  dsimp only
  rw [hlen, htake]

/-- Witness of C31: the template `a%s` with a string of `MAX_SIZE/2` bytes. -/
theorem luaO_pushvfstring_overflow_witness :
    luaO_pushvfstring integerPlatform plainAllocator ([97] ++ 37 :: 115 :: [])
        (VaArg.str (some (List.replicate (MAX_SIZE / 2) 120 ++ [0])) :: [])
      = Except.ok (([97] ++ List.replicate (MAX_SIZE / 2) 120).take (BUFVFS - 3)
          ++ bytes "...") :=
  (luaO_pushvfstring_overflow integerPlatform plainAllocator [97]
    (List.replicate (MAX_SIZE / 2) 120) [] [] [] (by decide)
    (replicate_no_nul _ 120 (by decide)) (by decide) (by decide)
    (by rw [List.length_replicate]; decide) rfl (fun _ => rfl)).1

/-- C38, the byte written outside the buffer: whenever the run of
`luaO_pushvfstring` ends with `err = 2`, the buffer is full (`blen = buffsize`),
so `pushbuff` copies `...` over the last three bytes and the terminator that
follows them is written at index `buffsize`, one past the end of the buffer.
For the template `%s` and a string of `MAX_SIZE/2 + 1` bytes the buffer is
the static one of `BUFVFS` bytes, filled, and the terminator goes to index
`BUFVFS`. -/
theorem pushbuff_terminator_past_buffer :
    (∀ (P : Platform) (A : Allocator) (fuel : Nat) (fmt : List Nat) (args : List (VaArg P))
        (buff : BuffFS),
        pushvfstring_loop P A fuel initbuff fmt args = Except.ok buff → buff.err = 2 →
        buff.b.length = buff.buffsize
        ∧ pushbuffWrites buff = [(buff.buffsize - 3, 46), (buff.buffsize - 2, 46),
            (buff.buffsize - 1, 46), (buff.buffsize, 0)])
    ∧ pushvfstring_loop integerPlatform plainAllocator 3 initbuff [37, 115]
        [VaArg.str (some (List.replicate (MAX_SIZE / 2 + 1) 97 ++ [0]))]
      = Except.ok { b := [] ++ (List.replicate (MAX_SIZE / 2 + 1) 97).take (BUFVFS - 0),
                    dynamic := false, buffsize := BUFVFS, err := 2 }
    ∧ pushbuffWrites { b := [] ++ (List.replicate (MAX_SIZE / 2 + 1) 97).take (BUFVFS - 0),
                       dynamic := false, buffsize := BUFVFS, err := 2 }
      = [(216, 46), (217, 46), (218, 46), (219, 0)] := by
  have hlenr : ([] ++ (List.replicate (MAX_SIZE / 2 + 1) 97).take (BUFVFS - 0)).length = 219 := by
    rw [List.nil_append, List.length_take, List.length_replicate]
    decide
  refine ⟨?_, ?_, ?_⟩
  · intro P A fuel fmt args buff hrun herr
    obtain ⟨i1, i2⟩ := pushvfstring_loop_inv P A fuel initbuff buff fmt args hrun
      ⟨Nat.zero_le _, fun h => absurd h (by decide)⟩
    have hfull := i2 herr
    refine ⟨hfull, ?_⟩
    have c : buff.buffsize - buff.b.length < 3 := by omega
    unfold pushbuffWrites
    rw [if_pos herr, if_pos c, hfull]
  · exact pushvfstring_overflow_run integerPlatform plainAllocator []
      (List.replicate (MAX_SIZE / 2 + 1) 97) [] [] [] (by decide)
      (replicate_no_nul _ 97 (by decide)) (by decide) (by decide)
      (by rw [List.length_replicate]; decide) rfl
  · have c : BUFVFS - ([] ++ (List.replicate (MAX_SIZE / 2 + 1) 97).take (BUFVFS - 0)).length
        < 3 := by
      rw [hlenr]
      decide
    unfold pushbuffWrites
    dsimp only
    rw [if_pos rfl, if_pos c, hlenr]

/-! ## Theorems: hexadecimal and octal integers, the capacity of the buffer -/

theorem foldl_digits_mod (b : Nat) (g : Nat → Nat) :
    ∀ (s : List Nat) (x y : Nat), x % 2 ^ 64 = y % 2 ^ 64 →
      (s.foldl (fun a c => a * b + g c) x) % 2 ^ 64
        = (s.foldl (fun a c => a * b + g c) y) % 2 ^ 64 := by
  intro s
  induction s with
  | nil => intro x y h; exact h
  | cons c s ih =>
    intro x y h
    rw [List.foldl_cons, List.foldl_cons]
    apply ih
    rw [Nat.add_mod, Nat.mul_mod, h, ← Nat.mul_mod, ← Nat.add_mod]

theorem hexavalue_digit (c : Nat)
    (h : (48 ≤ c ∧ c ≤ 57) ∨ (97 ≤ c ∧ c ≤ 102) ∨ (65 ≤ c ∧ c ≤ 70)) :
    lisxdigit (c : Int) = true ∧ luaO_hexavalue (c : Int) = hexDigitValue c := by
  refine ⟨by simp [lisxdigit]; omega, ?_⟩
  unfold luaO_hexavalue hexDigitValue lisdigit ltolower
  rcases h with h | h | h
  · have c1 : (48 : Int) ≤ c ∧ (c : Int) ≤ 57 := by omega
    have c2 : 48 ≤ c ∧ c ≤ 57 := h
    rw [decide_eq_true c1, if_pos rfl, if_pos c2]
    omega
  · have c1 : ¬ ((48 : Int) ≤ c ∧ (c : Int) ≤ 57) := by omega
    have c2 : ¬ (48 ≤ c ∧ c ≤ 57) := by omega
    have c3 : ¬ ((65 : Int) ≤ c ∧ (c : Int) ≤ 90) := by omega
    rw [decide_eq_false c1, if_neg Bool.false_ne_true, if_neg c2, if_pos h, if_neg c3]
    omega
  · have c1 : ¬ ((48 : Int) ≤ c ∧ (c : Int) ≤ 57) := by omega
    have c2 : ¬ (48 ≤ c ∧ c ≤ 57) := by omega
    have c3 : (65 : Int) ≤ c ∧ (c : Int) ≤ 90 := by omega
    have c4 : ¬ (97 ≤ c ∧ c ≤ 102) := by omega
    rw [decide_eq_false c1, if_neg Bool.false_ne_true, if_neg c2, if_neg c4, if_pos c3]
    omega

theorem octavalue_digit (c : Nat) (h : 48 ≤ c ∧ c ≤ 55) :
    lisodigit (c : Int) = true ∧ luaO_octavalue (c : Int) = c - 48 := by
  refine ⟨by simp [lisodigit]; omega, ?_⟩
  unfold luaO_octavalue
  omega

theorem hexLoop_digits : ∀ (ds : List Nat) (a : Nat) (e : Bool),
    (∀ c ∈ ds, (48 ≤ c ∧ c ≤ 57) ∨ (97 ≤ c ∧ c ≤ 102) ∨ (65 ≤ c ∧ c ≤ 70)) →
    ∃ r, hexLoop ds a e = (r, (e && ds.isEmpty), [])
      ∧ r % 2 ^ 64 = (ds.foldl (fun a c => a * 16 + hexDigitValue c) a) % 2 ^ 64
      ∧ (a < 2 ^ 64 → r < 2 ^ 64) := by
  intro ds
  induction ds with
  | nil =>
    intro a e _
    exact ⟨a, by simp [hexLoop], rfl, fun h => h⟩
  | cons c s ih =>
    intro a e h
    obtain ⟨x1, x2⟩ := hexavalue_digit c (h c (List.mem_cons_self _ _))
    obtain ⟨r, k1, k2, k3⟩ := ih ((a * 16 + hexDigitValue c) % 2 ^ 64) false
      (fun d hd => h d (List.mem_cons_of_mem _ hd))
    refine ⟨r, ?_, ?_, fun _ => k3 (Nat.mod_lt _ (by decide))⟩
    · rw [hexLoop, x1, if_pos rfl, x2, k1]
      simp
    · rw [k2, List.foldl_cons]
      exact foldl_digits_mod 16 hexDigitValue s _ _ (Nat.mod_mod _ _)

theorem octLoop_digits : ∀ (ds : List Nat) (a : Nat) (e : Bool),
    (∀ c ∈ ds, 48 ≤ c ∧ c ≤ 55) →
    ∃ r, octLoop ds a e = (r, (e && ds.isEmpty), [])
      ∧ r % 2 ^ 64 = (ds.foldl (fun a c => a * 8 + (c - 48)) a) % 2 ^ 64
      ∧ (a < 2 ^ 64 → r < 2 ^ 64) := by
  intro ds
  induction ds with
  | nil =>
    intro a e _
    exact ⟨a, by simp [octLoop], rfl, fun h => h⟩
  | cons c s ih =>
    intro a e h
    obtain ⟨x1, x2⟩ := octavalue_digit c (h c (List.mem_cons_self _ _))
    obtain ⟨r, k1, k2, k3⟩ := ih ((a * 8 + (c - 48)) % 2 ^ 64) false
      (fun d hd => h d (List.mem_cons_of_mem _ hd))
    refine ⟨r, ?_, ?_, fun _ => k3 (Nat.mod_lt _ (by decide))⟩
    · rw [octLoop, x1, if_pos rfl, x2, k1]
      simp
    · rw [k2, List.foldl_cons]
      exact foldl_digits_mod 8 (fun c => c - 48) s _ _ (Nat.mod_mod _ _)

theorem str2int_finish_value (neg : Bool) (r v : Nat) (hr : r < 2 ^ 64)
    (hv : r % 2 ^ 64 = v % 2 ^ 64) :
    ∃ i : Int, l_str2int_finish neg (r, false, []) = some i
      ∧ -(2 : Int) ^ 63 ≤ i ∧ i < 2 ^ 63
      ∧ (i - (if neg then -(v : Int) else (v : Int))) % 2 ^ 64 = 0 := by
  have hc : ¬ ((false : Bool) = true ∨ skipSpaces [] ≠ []) := by simp [skipSpaces]
  refine ⟨l_castU2S (if neg then (2 ^ 64 - r) % 2 ^ 64 else r), ?_, ?_⟩
  · unfold l_str2int_finish
    dsimp only
    rw [if_neg hc]
  · unfold l_castU2S
    cases neg
    · simp only [Bool.false_eq_true, if_false]
      split <;> omega
    · simp only [if_true]
      split <;> omega

theorem l_str2int_signed (sign rest : List Nat) (c : Nat)
    (hsign : sign = [] ∨ sign = [43] ∨ sign = [45]) (hc : c = 48) :
    l_str2int (sign ++ c :: rest) = l_str2int_base (decide (sign = [45])) (c :: rest) := by
  subst hc
  rcases hsign with rfl | rfl | rfl <;> rfl

theorem str2int_prefixed (neg : Bool) (x : Nat) (ds : List Nat) :
    ((x = 120 ∨ x = 88) →
      l_str2int_base neg (48 :: x :: ds) = l_str2int_finish neg (hexLoop ds 0 true))
    ∧ ((x = 111 ∨ x = 79) →
      l_str2int_base neg (48 :: x :: ds) = l_str2int_finish neg (octLoop ds 0 true)) := by
  refine ⟨fun h => ?_, fun h => ?_⟩ <;> rcases h with rfl | rfl <;> rfl

/-- C32: for a text made of an optional sign, `0x` or `0X` and one or more
hexadecimal digits (respectively `0o` or `0O` and one or more octal digits),
`l_str2int` succeeds whatever the number of digits; its result is a signed
64-bit integer congruent modulo 2^64 to the value denoted by the digits,
negated when the sign is `-`.  With no digit after the prefix it fails. -/
theorem l_str2int_hex_octal (sign ds : List Nat) (x : Nat)
    (hsign : sign = [] ∨ sign = [43] ∨ sign = [45]) (hne : ds ≠ []) :
    ((x = 120 ∨ x = 88) →
      (∀ c ∈ ds, (48 ≤ c ∧ c ≤ 57) ∨ (97 ≤ c ∧ c ≤ 102) ∨ (65 ≤ c ∧ c ≤ 70)) →
      ∃ i : Int, l_str2int (sign ++ 48 :: x :: ds) = some i
        ∧ -(2 : Int) ^ 63 ≤ i ∧ i < 2 ^ 63
        ∧ (i - (if sign = [45] then -(hexValue ds : Int) else (hexValue ds : Int)))
            % 2 ^ 64 = 0)
    ∧ ((x = 111 ∨ x = 79) → (∀ c ∈ ds, 48 ≤ c ∧ c ≤ 55) →
      ∃ i : Int, l_str2int (sign ++ 48 :: x :: ds) = some i
        ∧ -(2 : Int) ^ 63 ≤ i ∧ i < 2 ^ 63
        ∧ (i - (if sign = [45] then -(octValue ds : Int) else (octValue ds : Int)))
            % 2 ^ 64 = 0)
    ∧ ((x = 120 ∨ x = 88 ∨ x = 111 ∨ x = 79) → l_str2int (sign ++ [48, x]) = none) := by
  have hempty : ds.isEmpty = false := by
    cases ds with
    | nil => exact absurd rfl hne
    | cons c s => rfl
  refine ⟨fun hx hds => ?_, fun hx hds => ?_, fun hx => ?_⟩
  · obtain ⟨r, k1, k2, k3⟩ := hexLoop_digits ds 0 true hds
    obtain ⟨i, j1, j2, j3, j4⟩ := str2int_finish_value (decide (sign = [45])) r (hexValue ds)
      (k3 (by decide)) k2
    refine ⟨i, ?_, j2, j3, ?_⟩
    · rw [l_str2int_signed sign _ 48 hsign rfl, (str2int_prefixed _ x ds).1 hx, k1, hempty]
      exact j1
    · simpa using j4
  · obtain ⟨r, k1, k2, k3⟩ := octLoop_digits ds 0 true hds
    obtain ⟨i, j1, j2, j3, j4⟩ := str2int_finish_value (decide (sign = [45])) r (octValue ds)
      (k3 (by decide)) k2
    refine ⟨i, ?_, j2, j3, ?_⟩
    · rw [l_str2int_signed sign _ 48 hsign rfl, (str2int_prefixed _ x ds).2 hx, k1, hempty]
      exact j1
    · simpa using j4
  · rcases hsign with rfl | rfl | rfl <;> rcases hx with rfl | rfl | rfl | rfl <;> rfl

/-- Witness of C32: the text `-0xff`. -/
theorem l_str2int_hex_octal_witness :
    ∃ i : Int, l_str2int ([45] ++ 48 :: 120 :: [102, 102]) = some i
      ∧ -(2 : Int) ^ 63 ≤ i ∧ i < 2 ^ 63
      ∧ (i - (if [45] = [45] then -(hexValue [102, 102] : Int) else (hexValue [102, 102] : Int)))
          % 2 ^ 64 = 0 :=
  (l_str2int_hex_octal [45] [102, 102] 120 (Or.inr (Or.inr rfl)) (by decide)).1
    (Or.inl rfl) (by decide)

/-- C33, the failing input: after the prefix `0o`/`0O` the exponent marks of
`read_numeral` are the two bytes read from the literal `""`, its NUL and the
byte that follows it in memory, so a NUL byte of the source is taken for an
exponent mark and the sign after it is read into the numeral.  On the bytes
`0O1`, NUL, `-2;` the scan of the numeral saves `0O1`, NUL, `-` (and goes on
with `2`) and gives the integer 1. -/
theorem read_numeral_octal_nul_exponent (P : Platform) :
    (∀ ls ls1 : LexState, ls.current = 111 ∨ ls.current = 79 →
      save_and_next ls = Except.ok ls1 →
      read_numeral_expo P 48 ls = Except.ok ((0, P.pad), ls1))
    ∧ (∀ (ls ls1 : LexState) (pad : Int), ls.current = 0 →
      save_and_next ls = Except.ok ls1 →
      check_next2 ls 0 pad = Except.ok (true, ls1))
    ∧ ∃ ls1, read_numeral P (atText [48, 79, 49, 0, 45, 50, 59] 1
          { buffer := [], buffsize := 32 }) = Except.ok (TK_INT, SemInfo.i 1, ls1)
        ∧ ls1.buff.buffer.take 5 = [48, 79, 49, 0, 45] := by
  refine ⟨?_, ?_, ?_⟩
  · intro ls ls1 hcur hs
    have c1 : ¬ (ls.current = 120 ∨ ls.current = 88) := by omega
    have c2 : ls.current = 111 ∨ ls.current = 79 := hcur
    unfold read_numeral_expo
    rw [if_pos rfl]
    unfold check_next2
    rw [if_neg c1]
    dsimp only
    rw [if_pos c2, hs]
  · intro ls ls1 pad hcur hs
    unfold check_next2
    rw [if_pos (Or.inl hcur), hs]
  · obtain ⟨N, f, g, pad, cg⟩ := P
    have h1 : l_str2int [48, 79, 49] = some 1 := by decide
    by_cases p1 : pad = 49
    · subst p1
      exact ⟨_, rfl, rfl⟩
    by_cases p2 : pad = 50
    · subst p2
      exact ⟨_, rfl, rfl⟩
    by_cases p3 : pad = 59
    · subst p3
      exact ⟨_, rfl, rfl⟩
    have p1' : ¬ (49 : Int) = pad := fun h => p1 h.symm
    have p2' : ¬ (50 : Int) = pad := fun h => p2 h.symm
    have p3' : ¬ (59 : Int) = pad := fun h => p3 h.symm
    refine ⟨atText [59] 1 { buffer := [48, 79, 49, 0, 45, 50, 0], buffsize := 32 }, ?_, rfl⟩
    simp [read_numeral, next, lisdigit, save_and_next, save, read_numeral_expo, check_next2,
      read_numeral_loop_step, cast_char, lisxdigit, lisodigit, lislalpha, p1', p2', p3',
      luaO_str2num, cstr, atText, peek, LUA_MINBUFFER, EOZ, h1]

theorem next_buff (ls : LexState) : (next ls).buff = ls.buff := by
  unfold next
  cases ls.z <;> rfl

theorem save_cases (ls ls1 : LexState) (c : Int) (h : save ls c = Except.ok ls1) :
    ls1.buff.buffer = ls.buff.buffer ++ [cast_char c]
    ∧ ls1.current = ls.current ∧ ls1.z = ls.z ∧ ls1.linenumber = ls.linenumber
    ∧ ((ls.buff.buffer.length < ls.buff.buffsize ∧ ls1.buff.buffsize = ls.buff.buffsize)
      ∨ (ls.buff.buffsize ≤ ls.buff.buffer.length ∧ ls.buff.buffsize < MAX_SIZE / 3 * 2
        ∧ ls1.buff.buffsize = ls.buff.buffsize + ls.buff.buffsize / 2)) := by
  unfold save at h
  by_cases h1 : ls.buff.buffer.length + 1 > ls.buff.buffsize
  · rw [if_pos h1] at h
    by_cases h2 : ls.buff.buffsize ≥ MAX_SIZE / 3 * 2
    · rw [if_pos h2] at h
      exact Except.noConfusion h
    · rw [if_neg h2] at h
      have e := Except.ok.inj h
      subst e
      exact ⟨rfl, rfl, rfl, rfl, Or.inr ⟨by omega, by omega, rfl⟩⟩
  · rw [if_neg h1] at h
    have e := Except.ok.inj h
    subst e
    exact ⟨rfl, rfl, rfl, rfl, Or.inl ⟨by omega, rfl⟩⟩

theorem scanReach_capacity (ls : LexState) (h : ScanReach ls) :
    ls.buff.buffer.length ≤ ls.buff.buffsize ∧ LUA_MINBUFFER ≤ ls.buff.buffsize := by
  have hmin : LUA_MINBUFFER = 32 := rfl
  induction h with
  | init src =>
    unfold luaX_setinput
    rw [next_buff]
    exact ⟨Nat.zero_le _, Nat.le_refl _⟩
  | byNext _ ih =>
    rw [next_buff]
    exact ih
  | bySave c _ hs ih =>
    obtain ⟨e1, _, _, _, e5⟩ := save_cases _ _ c hs
    rw [e1, List.length_append, List.length_singleton]
    rcases e5 with ⟨a1, a2⟩ | ⟨a1, a2, a3⟩
    · rw [a2]
      exact ⟨by omega, ih.2⟩
    · rw [a3]
      exact ⟨by omega, by omega⟩
  | byReset _ ih =>
    exact ⟨Nat.zero_le _, ih.2⟩
  | byRemove i _ hs ih =>
    unfold luaZ_buffremove at hs
    split at hs
    · exact Except.noConfusion hs
    · have e := Except.ok.inj hs
      subst e
      refine ⟨?_, ih.2⟩
      exact Nat.le_trans (List.length_take_le _ _) (Nat.le_trans (Nat.sub_le _ _) ih.1)
  | byLine line _ ih => exact ih

/-- C34: in every scanner state reached from `luaX_setinput` through `next`,
`save`, resets and removals of the buffer, the length of the scratch buffer is
at most its capacity (which stays at least `LUA_MINBUFFER`).  A successful
`save` appends exactly one byte and leaves the earlier bytes, the current
character, the stream and the line as they were; on a full buffer of capacity
`n` it first grows the capacity to `n + n/2`, and from `n >= 2 * (MAX_SIZE/3)`
on it raises "lexical element too long" instead. -/
theorem save_within_capacity :
    (∀ ls : LexState, ScanReach ls →
      ls.buff.buffer.length ≤ ls.buff.buffsize ∧ LUA_MINBUFFER ≤ ls.buff.buffsize)
    ∧ (∀ (ls ls1 : LexState) (c : Int), save ls c = Except.ok ls1 →
      ls1.buff.buffer = ls.buff.buffer ++ [cast_char c]
      ∧ ls1.current = ls.current ∧ ls1.z = ls.z ∧ ls1.linenumber = ls.linenumber)
    ∧ (∀ (ls : LexState) (c : Int), ls.buff.buffer.length < ls.buff.buffsize →
      ∃ ls1, save ls c = Except.ok ls1 ∧ ls1.buff.buffsize = ls.buff.buffsize)
    ∧ (∀ (ls : LexState) (c : Int), ls.buff.buffer.length = ls.buff.buffsize →
      ls.buff.buffsize < 2 * (MAX_SIZE / 3) →
      ∃ ls1, save ls c = Except.ok ls1
        ∧ ls1.buff.buffsize = ls.buff.buffsize + ls.buff.buffsize / 2)
    ∧ (∀ (ls : LexState) (c : Int), ls.buff.buffer.length = ls.buff.buffsize →
      2 * (MAX_SIZE / 3) ≤ ls.buff.buffsize →
      save ls c
        = Except.error (Raised.lexerror "lexical element too long" ls.linenumber none)) := by
  refine ⟨scanReach_capacity, ?_, ?_, ?_, ?_⟩
  · intro ls ls1 c h
    obtain ⟨e1, e2, e3, e4, _⟩ := save_cases ls ls1 c h
    exact ⟨e1, e2, e3, e4⟩
  · intro ls c h
    have h1 : ¬ (ls.buff.buffer.length + 1 > ls.buff.buffsize) := by omega
    refine ⟨{ ls with buff := { ls.buff with buffer := ls.buff.buffer ++ [cast_char c] } },
      ?_, rfl⟩
    unfold save
    rw [if_neg h1]
  · intro ls c h hn
    have h1 : ls.buff.buffer.length + 1 > ls.buff.buffsize := by omega
    have h2 : ¬ (ls.buff.buffsize ≥ MAX_SIZE / 3 * 2) := by omega
    refine ⟨{ ls with buff := { buffer := ls.buff.buffer ++ [cast_char c],
                                buffsize := ls.buff.buffsize + ls.buff.buffsize / 2 } },
      ?_, rfl⟩
    unfold save
    rw [if_pos h1, if_neg h2]
  · intro ls c h hn
    have h1 : ls.buff.buffer.length + 1 > ls.buff.buffsize := by omega
    have h2 : ls.buff.buffsize ≥ MAX_SIZE / 3 * 2 := by omega
    unfold save
    rw [if_pos h1, if_pos h2]
    rfl

/-! ## Theorems: the outcomes of the escape readers and of `read_string` -/

theorem settles_ok {α : Type} {r : Except Raised α} {Q : α → Prop} {a : α}
    (h : Settles r Q) (hr : r = Except.ok a) : Q a := by
  rw [hr] at h
  exact h

theorem settles_error {α : Type} {r : Except Raised α} {Q : α → Prop} {e : Raised}
    (h : Settles r Q) (hr : r = Except.error e) : e.isLexerror = true := by
  rw [hr] at h
  exact h

theorem settles_mono {α : Type} {r : Except Raised α} {Q Q2 : α → Prop}
    (h : Settles r Q) (hq : ∀ a, r = Except.ok a → Q a → Q2 a) : Settles r Q2 := by
  cases r with
  | error e => exact h
  | ok a => exact hq a rfl h

theorem lexerror0_isLexerror (ls : LexState) (msg : String) :
    (lexerror0 ls msg).isLexerror = true := rfl

theorem save_settles (ls : LexState) (c : Int) :
    Settles (save ls c) (fun ls1 => ls1.buff.buffer = ls.buff.buffer ++ [cast_char c]) := by
  unfold save
  split
  · split
    · exact lexerror0_isLexerror _ _
    · exact rfl
  · exact rfl

theorem txtToken_error (ls : LexState) (token : Int) (e : Raised)
    (h : txtToken ls token = Except.error e) : e.isLexerror = true := by
  unfold txtToken at h
  split at h
  · have h0 := save_settles ls 0
    cases hs : save ls 0 with
    | error e1 =>
      rw [hs] at h
      have h1 := settles_error h0 hs
      have e2 : e1 = e := Except.error.inj h
      rw [← e2]
      exact h1
    | ok ls1 =>
      rw [hs] at h
      exact Except.noConfusion h
  · exact Except.noConfusion h

theorem lexerror_isLexerror (ls : LexState) (msg : String) (token : Int) :
    (lexerror ls msg token).isLexerror = true := by
  unfold lexerror
  by_cases h0 : token = 0
  · rw [if_pos h0]
    rfl
  · rw [if_neg h0]
    cases ht : txtToken ls token with
    | error e => exact txtToken_error ls token e ht
    | ok txt => rfl

theorem save_and_next_settles (ls : LexState) :
    Settles (save_and_next ls)
      (fun ls1 => ls1.buff.buffer = ls.buff.buffer ++ [cast_char ls.current]) := by
  have h := save_settles ls ls.current
  unfold save_and_next
  cases hs : save ls ls.current with
  | error e => exact settles_error h hs
  | ok ls1 =>
    have h3 := settles_ok h hs
    show (next ls1).buff.buffer = _
    rw [next_buff]
    exact h3

theorem esccheck_settles (ls : LexState) (c : Bool) (msg : String) :
    Settles (esccheck ls c msg) (fun ls1 => ls1 = ls) := by
  unfold esccheck
  split
  · exact rfl
  · split
    · rename_i e he
      split at he
      · exact settles_error (save_and_next_settles ls) he
      · exact Except.noConfusion he
    · exact lexerror_isLexerror _ _ _

theorem gethexa_settles (ls : LexState) :
    Settles (gethexa ls)
      (fun p => p.2.buff.buffer = ls.buff.buffer ++ [cast_char ls.current]) := by
  have h := save_and_next_settles ls
  unfold gethexa
  cases hs : save_and_next ls with
  | error e => exact settles_error h hs
  | ok ls1 =>
    dsimp only
    have h2 := esccheck_settles ls1 (lisxdigit ls1.current) "hexadecimal digit expected"
    cases he : esccheck ls1 (lisxdigit ls1.current) "hexadecimal digit expected" with
    | error e => exact settles_error h2 he
    | ok ls2 =>
      have h3 := settles_ok h hs
      have h4 := settles_ok h2 he
      have h5 : ls2 = ls1 := h4
      show ls2.buff.buffer = _
      rw [h5]
      exact h3

theorem getocta_settles (ls : LexState) :
    Settles (getocta ls)
      (fun p => p.2.buff.buffer = ls.buff.buffer ++ [cast_char ls.current]) := by
  have h := save_and_next_settles ls
  unfold getocta
  cases hs : save_and_next ls with
  | error e => exact settles_error h hs
  | ok ls1 =>
    dsimp only
    have h2 := esccheck_settles ls1 (lisodigit ls1.current) "octal digit expected"
    cases he : esccheck ls1 (lisodigit ls1.current) "octal digit expected" with
    | error e => exact settles_error h2 he
    | ok ls2 =>
      have h3 := settles_ok h hs
      have h4 := settles_ok h2 he
      have h5 : ls2 = ls1 := h4
      show ls2.buff.buffer = _
      rw [h5]
      exact h3

theorem buffremove_top (ls : LexState) (B w : List Nat) (h : ls.buff.buffer = B ++ w) :
    ∃ ls1, luaZ_buffremove ls w.length = Except.ok ls1 ∧ ls1.buff.buffer = B
      ∧ ls1.current = ls.current ∧ ls1.z = ls.z ∧ ls1.linenumber = ls.linenumber
      ∧ ls1.buff.buffsize = ls.buff.buffsize := by
  have hl : ¬ (ls.buff.buffer.length < w.length) := by
    rw [h, List.length_append]
    omega
  refine ⟨{ ls with buff := { ls.buff with
      buffer := ls.buff.buffer.take (ls.buff.buffer.length - w.length) } },
    ?_, ?_, rfl, rfl, rfl, rfl⟩
  · unfold luaZ_buffremove
    rw [if_neg hl]
  · show List.take _ _ = B
    rw [h, List.length_append, Nat.add_sub_cancel, List.take_left]

theorem readhexaesc_settles (ls : LexState) :
    Settles (readhexaesc ls) (fun p => p.2.buff.buffer = ls.buff.buffer) := by
  have h1 := gethexa_settles ls
  unfold readhexaesc
  cases hs1 : gethexa ls with
  | error e => exact settles_error h1 hs1
  | ok p1 =>
    obtain ⟨r, ls1⟩ := p1
    have b1 := settles_ok h1 hs1
    dsimp only at b1 ⊢
    have h2 := gethexa_settles ls1
    cases hs2 : gethexa ls1 with
    | error e => exact settles_error h2 hs2
    | ok p2 =>
      obtain ⟨r2, ls2⟩ := p2
      have b2 := settles_ok h2 hs2
      dsimp only at b2 ⊢
      have hb : ls2.buff.buffer
          = ls.buff.buffer ++ [cast_char ls.current, cast_char ls1.current] := by
        rw [b2, b1, List.append_assoc]
        rfl
      obtain ⟨ls3, k1, k2, _⟩ := buffremove_top ls2 _ _ hb
      have k3 : luaZ_buffremove ls2 2 = Except.ok ls3 := k1
      rw [k3]
      exact k2

theorem readoctaesc_settles (ls : LexState) :
    Settles (readoctaesc ls) (fun p => p.2.buff.buffer = ls.buff.buffer) := by
  have h1 := getocta_settles ls
  unfold readoctaesc
  cases hs1 : getocta ls with
  | error e => exact settles_error h1 hs1
  | ok p1 =>
    obtain ⟨r, ls1⟩ := p1
    have b1 := settles_ok h1 hs1
    dsimp only at b1 ⊢
    have h2 := getocta_settles ls1
    cases hs2 : getocta ls1 with
    | error e => exact settles_error h2 hs2
    | ok p2 =>
      obtain ⟨r2, ls2⟩ := p2
      have b2 := settles_ok h2 hs2
      dsimp only at b2 ⊢
      have hb : ls2.buff.buffer
          = ls.buff.buffer ++ [cast_char ls.current, cast_char ls1.current] := by
        rw [b2, b1, List.append_assoc]
        rfl
      obtain ⟨ls3, k1, k2, _⟩ := buffremove_top ls2 _ _ hb
      have k3 : luaZ_buffremove ls2 2 = Except.ok ls3 := k1
      rw [k3]
      exact k2

theorem readdecesc_loop_settles : ∀ (k : Nat) (ls : LexState) (r : Int) (i : Nat),
    Settles (readdecesc_loop k ls r i)
      (fun p => ∃ w, p.2.2.buff.buffer = ls.buff.buffer ++ w ∧ p.2.1 = i + w.length) := by
  intro k
  induction k with
  | zero =>
    intro ls r i
    exact ⟨[], (List.append_nil _).symm, rfl⟩
  | succ k ih =>
    intro ls r i
    rw [readdecesc_loop]
    split
    · have h1 := save_and_next_settles ls
      cases hs1 : save_and_next ls with
      | error e => exact settles_error h1 hs1
      | ok ls1 =>
        have b1 := settles_ok h1 hs1
        dsimp only at b1 ⊢
        refine settles_mono (ih ls1 (10 * r + ls.current - 48) (i + 1)) ?_
        intro p _ hp
        obtain ⟨w, w1, w2⟩ := hp
        refine ⟨cast_char ls.current :: w, ?_, ?_⟩
        · rw [w1, b1, List.append_assoc]
          rfl
        · rw [w2, List.length_cons]
          omega
    · exact ⟨[], (List.append_nil _).symm, rfl⟩

theorem readdecesc_settles (ls : LexState) :
    Settles (readdecesc ls) (fun p => p.2.buff.buffer = ls.buff.buffer) := by
  have h1 := readdecesc_loop_settles 3 ls 0 0
  unfold readdecesc
  cases hs1 : readdecesc_loop 3 ls 0 0 with
  | error e => exact settles_error h1 hs1
  | ok p1 =>
    obtain ⟨r, i, ls1⟩ := p1
    obtain ⟨w, w1, w2⟩ := settles_ok h1 hs1
    dsimp only at w1 w2 ⊢
    have h2 := esccheck_settles ls1 (decide (r ≤ 255)) "decimal escape too large"
    cases hs2 : esccheck ls1 (decide (r ≤ 255)) "decimal escape too large" with
    | error e => exact settles_error h2 hs2
    | ok ls2 =>
      have b2 := settles_ok h2 hs2
      have b3 : ls2 = ls1 := b2
      dsimp only
      rw [b3]
      have hi : i = w.length := by omega
      obtain ⟨ls3, k1, k2, _⟩ := buffremove_top ls1 _ _ w1
      rw [hi, k1]
      exact k2

theorem only_save_settles (ls : LexState) (c : Int) (B : List Nat) (x : Nat)
    (hb : ls.buff.buffer = B ++ [x]) :
    Settles (only_save ls c) (fun ls2 => ls2.buff.buffer = B ++ [cast_char c]) := by
  obtain ⟨ls1, k1, k2, _⟩ := buffremove_top ls B [x] hb
  have k3 : luaZ_buffremove ls 1 = Except.ok ls1 := k1
  unfold only_save
  rw [k3]
  dsimp only
  refine settles_mono (save_settles ls1 c) ?_
  intro ls2 _ h2
  rw [h2, k2]

theorem read_save_settles (ls : LexState) (c : Int) (B : List Nat) (x : Nat)
    (hb : ls.buff.buffer = B ++ [x]) :
    Settles (read_save ls c) (fun ls2 => ls2.buff.buffer = B ++ [cast_char c]) := by
  unfold read_save
  exact only_save_settles (next ls) c B x (by rw [next_buff]; exact hb)

theorem inclinenumber_settles (ls : LexState) :
    Settles (inclinenumber ls) (fun ls2 => ls2.buff = ls.buff) := by
  unfold inclinenumber
  dsimp only
  split
  · split
    · exact lexerror0_isLexerror _ _
    · show (next (next ls)).buff = ls.buff
      rw [next_buff, next_buff]
  · split
    · exact lexerror0_isLexerror _ _
    · show (next ls).buff = ls.buff
      rw [next_buff]

theorem save_bytes_settles : ∀ (bs : List Nat) (ls : LexState),
    Settles (save_bytes bs ls) (fun ls2 => ∃ y, ls2.buff.buffer = ls.buff.buffer ++ y) := by
  intro bs
  induction bs with
  | nil =>
    intro ls
    exact ⟨[], (List.append_nil _).symm⟩
  | cons c bs ih =>
    intro ls
    have h1 := save_settles ls (c : Int)
    rw [save_bytes]
    cases hs1 : save ls (c : Int) with
    | error e => exact settles_error h1 hs1
    | ok ls1 =>
      have b1 := settles_ok h1 hs1
      dsimp only at b1 ⊢
      refine settles_mono (ih ls1) ?_
      intro ls2 _ h2
      obtain ⟨y, hy⟩ := h2
      exact ⟨cast_char (c : Int) :: y, by rw [hy, b1, List.append_assoc]; rfl⟩

theorem save_pos (t : List Nat) (l : Int) (b : Mbuffer) (c : Int) (ls1 : LexState)
    (h : save (atText t l b) c = Except.ok ls1) :
    ∃ b1, ls1 = atText t l b1 ∧ b1.buffer = b.buffer ++ [cast_char c] := by
  unfold save at h
  split at h
  · split at h
    · exact Except.noConfusion h
    · have e := Except.ok.inj h
      exact ⟨_, e.symm, rfl⟩
  · have e := Except.ok.inj h
    exact ⟨_, e.symm, rfl⟩

theorem save_and_next_pos (t : List Nat) (l : Int) (b : Mbuffer) (ls1 : LexState)
    (h : save_and_next (atText t l b) = Except.ok ls1) :
    ∃ b1, ls1 = atText t.tail l b1 ∧ b1.buffer = b.buffer ++ [cast_char (peek t)] := by
  unfold save_and_next at h
  cases hs : save (atText t l b) (atText t l b).current with
  | error e =>
    rw [hs] at h
    exact Except.noConfusion h
  | ok ls0 =>
    rw [hs] at h
    obtain ⟨b1, e1, e2⟩ := save_pos t l b _ ls0 hs
    have e := Except.ok.inj h
    refine ⟨b1, ?_, e2⟩
    rw [← e, e1, next_atText_tail]

theorem peek_tail_length (t : List Nat) (h : peek t ≠ EOZ) : t.tail.length + 1 = t.length := by
  cases t with
  | nil => exact absurd rfl h
  | cons c s => rfl

theorem atText_current (t : List Nat) (l : Int) (b : Mbuffer) :
    (atText t l b).current = peek t := rfl

theorem atText_buff (t : List Nat) (l : Int) (b : Mbuffer) : (atText t l b).buff = b := rfl

theorem lisxdigit_not_eoz (c : Int) (h : lisxdigit c = true) : c ≠ EOZ := by
  intro e
  rw [e] at h
  exact absurd h (by decide)

theorem readutf8esc_loop_settles : ∀ (fuel : Nat) (t : List Nat) (l : Int) (b : Mbuffer)
    (r i : Nat), t.length < fuel →
    Settles (readutf8esc_loop fuel (atText t l b) r i)
      (fun p => ∃ w, p.2.2.buff.buffer = b.buffer ++ w ∧ p.2.1 + 1 = i + w.length) := by
  intro fuel
  induction fuel with
  | zero => intro t l b r i h; exact absurd h (Nat.not_lt_zero _)
  | succ fuel ih =>
    intro t l b r i hf
    have h1 := save_and_next_settles (atText t l b)
    rw [readutf8esc_loop]
    cases hs1 : save_and_next (atText t l b) with
    | error e => exact settles_error h1 hs1
    | ok ls1 =>
      obtain ⟨b1, e1, e2⟩ := save_and_next_pos t l b ls1 hs1
      subst e1
      dsimp only
      by_cases hx : lisxdigit (atText t.tail l b1).current = true
      · rw [if_pos hx]
        have hne : peek t.tail ≠ EOZ := lisxdigit_not_eoz _ hx
        have h2 := esccheck_settles (atText t.tail l b1) (decide (r ≤ 0x7FFFFFFF / 16))
          "UTF-8 value too large"
        cases hs2 : esccheck (atText t.tail l b1) (decide (r ≤ 0x7FFFFFFF / 16))
            "UTF-8 value too large" with
        | error e => exact settles_error h2 hs2
        | ok ls2 =>
          have b2 := settles_ok h2 hs2
          have b3 : ls2 = atText t.tail l b1 := b2
          subst b3
          dsimp only
          have hlen : t.tail.length < fuel := by
            have := List.length_tail t
            have := peek_tail_length t.tail hne
            omega
          refine settles_mono (ih t.tail l b1 _ (i + 1) hlen) ?_
          intro p _ hp
          obtain ⟨w, w1, w2⟩ := hp
          refine ⟨cast_char (peek t) :: w, ?_, ?_⟩
          · rw [w1, e2, List.append_assoc]
            rfl
          · rw [List.length_cons]
            omega
      · rw [if_neg hx]
        exact ⟨[cast_char (peek t)], e2, rfl⟩

theorem readutf8esc_settles (t : List Nat) (l : Int) (b : Mbuffer) (B : List Nat) (x : Nat)
    (hb : b.buffer = B ++ [x]) :
    Settles (readutf8esc (atText t l b)) (fun p => p.2.buff.buffer = B) := by
  have h1 := save_and_next_settles (atText t l b)
  unfold readutf8esc
  cases hs1 : save_and_next (atText t l b) with
  | error e => exact settles_error h1 hs1
  | ok ls1 =>
    obtain ⟨b1, e1, e2⟩ := save_and_next_pos t l b ls1 hs1
    subst e1
    dsimp only
    have h2 := esccheck_settles (atText t.tail l b1)
      (decide ((atText t.tail l b1).current = 123)) "missing '\x7b'"
    cases hs2 : esccheck (atText t.tail l b1)
        (decide ((atText t.tail l b1).current = 123)) "missing '\x7b'" with
    | error e => exact settles_error h2 hs2
    | ok ls2 =>
      have b2 := settles_ok h2 hs2
      have b3 : ls2 = atText t.tail l b1 := b2
      subst b3
      dsimp only
      have h3 := gethexa_settles (atText t.tail l b1)
      cases hs3 : gethexa (atText t.tail l b1) with
      | error e => exact settles_error h3 hs3
      | ok p3 =>
        obtain ⟨r, ls3⟩ := p3
        have b4 := settles_ok h3 hs3
        dsimp only at b4 ⊢
        have hr3 : ReadsOn t.tail.tail ls3 := by
          unfold gethexa at hs3
          cases hs4 : save_and_next (atText t.tail l b1) with
          | error e =>
            rw [hs4] at hs3
            exact Except.noConfusion hs3
          | ok ls4 =>
            rw [hs4] at hs3
            dsimp only at hs3
            obtain ⟨b5, e5, _⟩ := save_and_next_pos t.tail l b1 ls4 hs4
            subst e5
            have h6 := esccheck_settles (atText t.tail.tail l b5)
              (lisxdigit (atText t.tail.tail l b5).current) "hexadecimal digit expected"
            cases hs6 : esccheck (atText t.tail.tail l b5)
                (lisxdigit (atText t.tail.tail l b5).current)
                "hexadecimal digit expected" with
            | error e =>
              rw [hs6] at hs3
              exact Except.noConfusion hs3
            | ok ls6 =>
              rw [hs6] at hs3
              have b6 := settles_ok h6 hs6
              have b7 : ls6 = atText t.tail.tail l b5 := b6
              have e8 := Except.ok.inj hs3
              have e9 : ls3 = ls6 := (congrArg Prod.snd e8).symm
              rw [e9, b7]
              exact readsOn_intro (List.suffix_refl _) l b5
        obtain ⟨t3, l3, bb3, e3, hsuf⟩ := readsOn_elim hr3
        subst e3
        have hfuel : t3.length < (atText t3 l3 bb3).z.length + 2 := by
          show t3.length < t3.tail.length + 2
          have := List.length_tail t3
          omega
        have h4 := readutf8esc_loop_settles _ t3 l3 bb3 r 4 hfuel
        cases hs4 : readutf8esc_loop ((atText t3 l3 bb3).z.length + 2) (atText t3 l3 bb3) r 4 with
        | error e => exact settles_error h4 hs4
        | ok p4 =>
          obtain ⟨r1, i, ls4⟩ := p4
          obtain ⟨w, w1, w2⟩ := settles_ok h4 hs4
          dsimp only at w1 w2 ⊢
          have h5 := esccheck_settles ls4 (decide (ls4.current = 125)) "missing '\x7d'"
          cases hs5 : esccheck ls4 (decide (ls4.current = 125)) "missing '\x7d'" with
          | error e => exact settles_error h5 hs5
          | ok ls5 =>
            have b8 := settles_ok h5 hs5
            have b9 : ls5 = ls4 := b8
            subst b9
            dsimp only
            have hbuf : (next ls5).buff.buffer
                = B ++ ([x] ++ [cast_char (peek t)] ++ [cast_char (peek t.tail)] ++ w) := by
              rw [next_buff, w1]
              have b10 : bb3.buffer = b1.buffer ++ [cast_char (peek t.tail)] := b4
              rw [b10, e2, hb]
              simp only [List.append_assoc]
            have hi : i = ([x] ++ [cast_char (peek t)] ++ [cast_char (peek t.tail)] ++ w).length := by
              simp only [List.length_append, List.length_singleton]
              omega
            obtain ⟨ls6, k1, k2, _⟩ := buffremove_top (next ls5) _ _ hbuf
            rw [hi, k1]
            exact k2

theorem utf8esc_settles (t : List Nat) (l : Int) (b : Mbuffer) (B : List Nat) (x : Nat)
    (hb : b.buffer = B ++ [x]) :
    Settles (utf8esc (atText t l b)) (fun ls2 => ∃ y, ls2.buff.buffer = B ++ y) := by
  have h1 := readutf8esc_settles t l b B x hb
  unfold utf8esc
  cases hs1 : readutf8esc (atText t l b) with
  | error e => exact settles_error h1 hs1
  | ok p1 =>
    obtain ⟨r, ls1⟩ := p1
    have b1 := settles_ok h1 hs1
    dsimp only at b1 ⊢
    refine settles_mono (save_bytes_settles (luaO_utf8esc r) ls1) ?_
    intro ls2 _ h2
    obtain ⟨y, hy⟩ := h2
    exact ⟨y, by rw [hy, b1]⟩

theorem buffremove_atText (t : List Nat) (l : Int) (b : Mbuffer) (B w : List Nat)
    (h : b.buffer = B ++ w) :
    luaZ_buffremove (atText t l b) w.length
      = Except.ok (atText t l { buffer := B, buffsize := b.buffsize }) := by
  have hl : ¬ ((atText t l b).buff.buffer.length < w.length) := by
    rw [atText_buff, h, List.length_append]
    omega
  unfold luaZ_buffremove
  rw [if_neg hl]
  have e : (atText t l b).buff.buffer.take ((atText t l b).buff.buffer.length - w.length) = B := by
    rw [atText_buff, h, List.length_append, Nat.add_sub_cancel, List.take_left]
  rw [e]
  rfl

theorem inclinenumber_pos (t : List Nat) (l : Int) (b : Mbuffer) (ls1 : LexState)
    (h : inclinenumber (atText t l b) = Except.ok ls1) :
    ∃ t2 l2, ls1 = atText t2 l2 b ∧ t2 <:+ t.tail := by
  unfold inclinenumber at h
  dsimp only at h
  rw [next_atText_tail] at h
  by_cases hc : currIsNewline (atText t.tail l b) = true
      ∧ (atText t.tail l b).current ≠ (atText t l b).current
  · rw [if_pos hc, next_atText_tail] at h
    split at h
    · exact Except.noConfusion h
    · have e := Except.ok.inj h
      exact ⟨t.tail.tail, l + 1, e.symm, List.tail_suffix _⟩
  · rw [if_neg hc] at h
    split at h
    · exact Except.noConfusion h
    · have e := Except.ok.inj h
      exact ⟨t.tail, l + 1, e.symm, List.suffix_refl _⟩

theorem lisspace_not_eoz (c : Int) (h : lisspace c = true) : c ≠ EOZ := by
  intro e
  rw [e] at h
  exact absurd h (by decide)

theorem zap_loop_settles : ∀ (fuel : Nat) (t : List Nat) (l : Int) (b : Mbuffer),
    t.length < fuel →
    Settles (zap_loop fuel (atText t l b)) (fun ls2 => ls2.buff = b) := by
  intro fuel
  induction fuel with
  | zero => intro t l b h; exact absurd h (Nat.not_lt_zero _)
  | succ fuel ih =>
    intro t l b hf
    rw [zap_loop]
    by_cases hsp : lisspace (atText t l b).current = true
    · rw [if_pos hsp]
      have hne : peek t ≠ EOZ := lisspace_not_eoz _ hsp
      have hlen : t.tail.length < fuel := by
        have := peek_tail_length t hne
        omega
      by_cases hnl : currIsNewline (atText t l b) = true
      · rw [if_pos hnl]
        have h1 := inclinenumber_settles (atText t l b)
        cases hs1 : inclinenumber (atText t l b) with
        | error e => exact settles_error h1 hs1
        | ok ls1 =>
          obtain ⟨t2, l2, e1, hsuf⟩ := inclinenumber_pos t l b ls1 hs1
          subst e1
          dsimp only
          exact ih t2 l2 b (Nat.lt_of_le_of_lt hsuf.length_le hlen)
      · rw [if_neg hnl, next_atText_tail]
        exact ih t.tail l b hlen
    · rw [if_neg hsp]
      exact rfl

theorem esccheck_pos (ls ls1 : LexState) (c : Bool) (msg : String)
    (h : esccheck ls c msg = Except.ok ls1) : ls1 = ls := by
  have h1 := settles_ok (esccheck_settles ls c msg) h
  exact h1

theorem read_escape_settles (t : List Nat) (l : Int) (b : Mbuffer) (B : List Nat) (x : Nat)
    (hb : b.buffer = B ++ [x]) :
    Settles (read_escape (atText t l b)) (fun ls2 => ∃ y, ls2.buff.buffer = B ++ y) := by
  have hsimple : ∀ c : Int, Settles (read_save (atText t l b) c)
      (fun ls2 => ∃ y, ls2.buff.buffer = B ++ y) := by
    intro c
    exact settles_mono (read_save_settles (atText t l b) c B x hb) (fun ls2 _ h2 => ⟨_, h2⟩)
  unfold read_escape
  dsimp only
  by_cases c0 : (atText t l b).current = 97
  · rw [if_pos c0]
    exact hsimple _
  rw [if_neg c0]
  by_cases c1 : (atText t l b).current = 98
  · rw [if_pos c1]
    exact hsimple _
  rw [if_neg c1]
  by_cases c2 : (atText t l b).current = 102
  · rw [if_pos c2]
    exact hsimple _
  rw [if_neg c2]
  by_cases c3 : (atText t l b).current = 110
  · rw [if_pos c3]
    exact hsimple _
  rw [if_neg c3]
  by_cases c4 : (atText t l b).current = 114
  · rw [if_pos c4]
    exact hsimple _
  rw [if_neg c4]
  by_cases c5 : (atText t l b).current = 116
  · rw [if_pos c5]
    exact hsimple _
  rw [if_neg c5]
  by_cases c6 : (atText t l b).current = 118
  · rw [if_pos c6]
    exact hsimple _
  rw [if_neg c6]
  by_cases c7 : (atText t l b).current = 120
  · rw [if_pos c7]
    have h1 := readhexaesc_settles (atText t l b)
    cases hs1 : readhexaesc (atText t l b) with
    | error e => exact settles_error h1 hs1
    | ok p1 =>
      obtain ⟨r, ls1⟩ := p1
      have b1 := settles_ok h1 hs1
      dsimp only at b1 ⊢
      exact settles_mono (read_save_settles ls1 (r : Int) B x (by rw [b1]; exact hb))
        (fun ls2 _ h2 => ⟨_, h2⟩)
  rw [if_neg c7]
  by_cases c8 : (atText t l b).current = 111
  · rw [if_pos c8]
    have h1 := readoctaesc_settles (atText t l b)
    cases hs1 : readoctaesc (atText t l b) with
    | error e => exact settles_error h1 hs1
    | ok p1 =>
      obtain ⟨r, ls1⟩ := p1
      have b1 := settles_ok h1 hs1
      dsimp only at b1 ⊢
      exact settles_mono (read_save_settles ls1 (r : Int) B x (by rw [b1]; exact hb))
        (fun ls2 _ h2 => ⟨_, h2⟩)
  rw [if_neg c8]
  by_cases c9 : (atText t l b).current = 117
  · rw [if_pos c9]
    exact utf8esc_settles t l b B x hb
  rw [if_neg c9]
  by_cases c10 : (atText t l b).current = 10 ∨ (atText t l b).current = 13
  · rw [if_pos c10]
    have h1 := inclinenumber_settles (atText t l b)
    cases hs1 : inclinenumber (atText t l b) with
    | error e => exact settles_error h1 hs1
    | ok ls1 =>
      have b1 := settles_ok h1 hs1
      dsimp only at b1 ⊢
      exact settles_mono (only_save_settles ls1 10 B x (by rw [b1]; exact hb))
        (fun ls2 _ h2 => ⟨_, h2⟩)
  rw [if_neg c10]
  by_cases c11 : (atText t l b).current = 92 ∨ (atText t l b).current = 34
      ∨ (atText t l b).current = 39
  · rw [if_pos c11]
    exact hsimple _
  rw [if_neg c11]
  by_cases c12 : (atText t l b).current = EOZ
  · rw [if_pos c12]
    exact ⟨[x], hb⟩
  rw [if_neg c12]
  by_cases c13 : (atText t l b).current = 122
  · rw [if_pos c13]
    have k1 := buffremove_atText t l b B [x] hb
    have k2 : luaZ_buffremove (atText t l b) 1
        = Except.ok (atText t l { buffer := B, buffsize := b.buffsize }) := k1
    rw [k2]
    dsimp only
    rw [next_atText_tail]
    have hfuel : t.tail.length < (atText t.tail l
        { buffer := B, buffsize := b.buffsize }).z.length + 2 := by
      show t.tail.length < t.tail.tail.length + 2
      have := List.length_tail t.tail
      omega
    refine settles_mono (zap_loop_settles _ t.tail l _ hfuel) ?_
    intro ls2 _ h2
    exact ⟨[], by rw [h2, List.append_nil]⟩
  rw [if_neg c13]
  have h1 := esccheck_settles (atText t l b) (lisdigit (atText t l b).current)
    "invalid escape sequence"
  cases hs1 : esccheck (atText t l b) (lisdigit (atText t l b).current)
      "invalid escape sequence" with
  | error e => exact settles_error h1 hs1
  | ok ls1 =>
    have e1 := esccheck_pos _ _ _ _ hs1
    subst e1
    dsimp only
    have h2 := readdecesc_settles (atText t l b)
    cases hs2 : readdecesc (atText t l b) with
    | error e => exact settles_error h2 hs2
    | ok p2 =>
      obtain ⟨r, ls2⟩ := p2
      have b2 := settles_ok h2 hs2
      dsimp only at b2 ⊢
      exact settles_mono (only_save_settles ls2 r B x (by rw [b2]; exact hb))
        (fun ls3 _ h3 => ⟨_, h3⟩)

theorem read_string_loop_settles (del : Int) : ∀ (fuel : Nat) (t : List Nat) (l : Int)
    (b : Mbuffer), t.length < fuel →
    Settles (read_string_loop del fuel (atText t l b))
      (fun ls2 => ∃ y, ls2.buff.buffer = b.buffer ++ y) := by
  intro fuel
  induction fuel with
  | zero => intro t l b h; exact absurd h (Nat.not_lt_zero _)
  | succ fuel ih =>
    intro t l b hf
    rw [read_string_loop]
    by_cases c0 : (atText t l b).current = del
    · rw [if_pos c0]
      exact ⟨[], by rw [List.append_nil]; rfl⟩
    rw [if_neg c0]
    by_cases c1 : (atText t l b).current = EOZ
    · rw [if_pos c1]
      exact lexerror_isLexerror _ _ _
    rw [if_neg c1]
    have hlen : t.tail.length < fuel := by
      have := peek_tail_length t c1
      omega
    by_cases c2 : (atText t l b).current = 10 ∨ (atText t l b).current = 13
    · rw [if_pos c2]
      exact lexerror_isLexerror _ _ _
    rw [if_neg c2]
    have h1 := save_and_next_settles (atText t l b)
    by_cases c3 : (atText t l b).current = 92
    · rw [if_pos c3]
      cases hs1 : save_and_next (atText t l b) with
      | error e => exact settles_error h1 hs1
      | ok ls1 =>
        obtain ⟨b1, e1, e2⟩ := save_and_next_pos t l b ls1 hs1
        subst e1
        dsimp only
        have h2 := read_escape_settles t.tail l b1 b.buffer _ e2
        cases hs2 : read_escape (atText t.tail l b1) with
        | error e => exact settles_error h2 hs2
        | ok ls2 =>
          have h3 := settles_ok h2 hs2
          obtain ⟨y, hy⟩ := h3
          have hr : ReadsOn t.tail ls2 :=
            readsOn_read_escape (readsOn_intro (List.suffix_refl _) l b1) hs2
          obtain ⟨t2, l2, b2, e3, hsuf⟩ := readsOn_elim hr
          subst e3
          dsimp only
          refine settles_mono (ih t2 l2 b2 (Nat.lt_of_le_of_lt hsuf.length_le hlen)) ?_
          intro ls3 _ h4
          obtain ⟨y2, hy2⟩ := h4
          have hy1 : b2.buffer = b.buffer ++ y := hy
          exact ⟨y ++ y2, by rw [hy2, hy1, List.append_assoc]⟩
    · rw [if_neg c3]
      cases hs1 : save_and_next (atText t l b) with
      | error e => exact settles_error h1 hs1
      | ok ls1 =>
        obtain ⟨b1, e1, e2⟩ := save_and_next_pos t l b ls1 hs1
        subst e1
        dsimp only
        refine settles_mono (ih t.tail l b1 hlen) ?_
        intro ls3 _ h4
        obtain ⟨y2, hy2⟩ := h4
        exact ⟨[cast_char (peek t)] ++ y2, by rw [hy2, e2, List.append_assoc]⟩

theorem read_string_settles (del : Int) (t : List Nat) (l : Int) (b : Mbuffer) :
    Settles (read_string (atText t l b) del)
      (fun p => ∃ y, p.2.buff.buffer
          = b.buffer ++ [cast_char (peek t)] ++ y ++ [cast_char del]
        ∧ p.1 = ((b.buffer ++ [cast_char (peek t)] ++ y ++ [cast_char del]).drop 1).take
            ((b.buffer ++ [cast_char (peek t)] ++ y ++ [cast_char del]).length - 2)) := by
  unfold read_string
  have h1 := save_and_next_settles (atText t l b)
  cases hs1 : save_and_next (atText t l b) with
  | error e => exact settles_error h1 hs1
  | ok ls1 =>
    obtain ⟨b1, e1, e2⟩ := save_and_next_pos t l b ls1 hs1
    subst e1
    dsimp only
    have hfuel : t.tail.length < (atText t.tail l b1).z.length + 2 := by
      show t.tail.length < t.tail.tail.length + 2
      have := List.length_tail t.tail
      omega
    have h2 := read_string_loop_settles del _ t.tail l b1 hfuel
    cases hs2 : read_string_loop del ((atText t.tail l b1).z.length + 2) (atText t.tail l b1) with
    | error e => exact settles_error h2 hs2
    | ok ls2 =>
      have h3 := settles_ok h2 hs2
      obtain ⟨y, hy⟩ := h3
      have hr := readsOn_read_string_loop del _ _ _
        (readsOn_intro (List.suffix_refl t.tail) l b1) hs2
      obtain ⟨t2, l2, b2, e3, _⟩ := readsOn_elim hr.1
      have hcur := hr.2
      subst e3
      dsimp only
      have h4 := save_and_next_settles (atText t2 l2 b2)
      cases hs4 : save_and_next (atText t2 l2 b2) with
      | error e => exact settles_error h4 hs4
      | ok ls3 =>
        obtain ⟨b3, e5, e6⟩ := save_and_next_pos t2 l2 b2 ls3 hs4
        subst e5
        have hy1 : b2.buffer = b1.buffer ++ y := hy
        have hc : peek t2 = del := hcur
        have hb3 : (atText t2.tail l2 b3).buff.buffer
            = b.buffer ++ [cast_char (peek t)] ++ y ++ [cast_char del] := by
          rw [atText_buff, e6, hy1, e2, hc]
        refine ⟨y, hb3, ?_⟩
        show luaX_newstring (atText t2.tail l2 b3) 1 ((atText t2.tail l2 b3).buff.buffer.length - 2)
          = _
        unfold luaX_newstring
        rw [hb3]

/-- C37: in `read_string`, entered anywhere in a text with any buffer, no
`luaZ_buffremove` underflows and none reaches below what the escape itself
saved: the run ends with a token or a lexical error (never with an underflow),
`read_escape`, entered with the backslash on top of any bytes `B`, leaves `B`
in place whatever `B` is (also when it is empty), and on success the buffer is
what it was on entry, the opening delimiter, the decoded bytes `y` and the
closing delimiter, so that, the buffer being empty on entry, the string taken at
offset 1 with the length less 2 is `y`. -/
theorem read_string_buffremove_safe (del : Int) (t : List Nat) (l : Int) (b : Mbuffer) :
    Settles (read_string (atText t l b) del) (fun p => ∃ y,
        p.2.buff.buffer = b.buffer ++ [cast_char (peek t)] ++ y ++ [cast_char del]
        ∧ (b.buffer = [] → p.1 = y))
    ∧ (∀ e, read_string (atText t l b) del = Except.error e →
        e ≠ Raised.underflow ∧ e ≠ Raised.nofuel)
    ∧ (∀ B x, b.buffer = B ++ [x] →
        Settles (read_escape (atText t l b)) (fun ls2 => ∃ y, ls2.buff.buffer = B ++ y))
    ∧ (∀ B x, b.buffer = B ++ [x] →
        Settles (readutf8esc (atText t l b)) (fun p => p.2.buff.buffer = B))
    ∧ read_string (atText (bytes "'a\\u\x7b41\x7d\\z  b\\066\\x43' x") 1
          { buffer := [], buffsize := LUA_MINBUFFER }) 39
        = Except.ok (bytes "aAbBC", atText (bytes " x") 1
            { buffer := bytes "'aAbBC'", buffsize := LUA_MINBUFFER }) := by
  refine ⟨?_, ?_, ?_, ?_, ?_⟩
  · refine settles_mono (read_string_settles del t l b) ?_
    intro p _ h
    obtain ⟨y, h1, h2⟩ := h
    refine ⟨y, h1, ?_⟩
    intro hb
    rw [h2, hb]
    simp
  · intro e he
    have h := settles_error (read_string_settles del t l b) he
    constructor
    · intro e1
      rw [e1] at h
      exact absurd h (by decide)
    · intro e1
      rw [e1] at h
      exact absurd h (by decide)
  · intro B x hb
    exact read_escape_settles t l b B x hb
  · intro B x hb
    exact readutf8esc_settles t l b B x hb
  · rfl

/-! ## Theorems: a string without its closing delimiter -/

theorem cut_short_peek (t : List Nat) (h : peek t = EOZ ∨ peek t = 10 ∨ peek t = 13) :
    lisxdigit (peek t) = false ∧ lisodigit (peek t) = false ∧ peek t ≠ 123 ∧ peek t ≠ 125
      ∧ ∀ x ∈ t.take 1, x < 256 := by
  cases t with
  | nil =>
    refine ⟨by decide, by decide, by decide, by decide, ?_⟩
    intro x hx
    simp at hx
  | cons c s =>
    have hc : (c : Int) = EOZ ∨ (c : Int) = 10 ∨ (c : Int) = 13 := h
    have hc2 : c = 10 ∨ c = 13 := by
      simp only [EOZ] at hc
      omega
    have hx : ∀ x ∈ (c :: s).take 1, x < 256 := by
      intro x hx
      simp only [List.take_succ_cons, List.take_zero, List.mem_singleton] at hx
      omega
    rcases hc2 with e | e
    · subst e
      exact ⟨(show lisxdigit (10 : Int) = false by decide),
        (show lisodigit (10 : Int) = false by decide),
        (show (10 : Int) ≠ 123 by decide), (show (10 : Int) ≠ 125 by decide), hx⟩
    · subst e
      exact ⟨(show lisxdigit (13 : Int) = false by decide),
        (show lisodigit (13 : Int) = false by decide),
        (show (13 : Int) ≠ 123 by decide), (show (13 : Int) ≠ 125 by decide), hx⟩

theorem read_string_closed_or_fails (q : Nat) (hq : q = 34 ∨ q = 39) (line : Int) (b : Mbuffer)
    (t : List Nat) :
    (∃ s pre post line1 b1, t = pre ++ q :: post
        ∧ read_string (atText (q :: t) line b) (q : Int) = Except.ok (s, atText post line1 b1))
    ∨ (∃ e, read_string (atText (q :: t) line b) (q : Int) = Except.error e
        ∧ e.isLexerror = true) := by
  have h := read_string_settles (q : Int) (q :: t) line b
  cases hs : read_string (atText (q :: t) line b) (q : Int) with
  | error e => exact Or.inr ⟨e, rfl, settles_error h hs⟩
  | ok p =>
    obtain ⟨s, ls3⟩ := p
    obtain ⟨pre, post, line1, b1, e, e2⟩ := read_string_ok_delimiter q hq t line b s ls3 hs
    subst e2
    exact Or.inl ⟨s, pre, post, line1, b1, e, rfl⟩

theorem read_string_unclosed_fails (q : Nat) (hq : q = 34 ∨ q = 39) (line : Int) (b : Mbuffer)
    (t : List Nat) (ht : q ∉ t) :
    ∃ e, read_string (atText (q :: t) line b) (q : Int) = Except.error e
      ∧ e.isLexerror = true := by
  rcases read_string_closed_or_fails q hq line b t with ⟨_, pre, post, _, _, e, _⟩ | h
  · exact absurd (by rw [e]; simp) ht
  · exact h

theorem read_string_loop_backslash_eoz (del : Int) (hdel : del = 34 ∨ del = 39) (fuel : Nat)
    (line : Int) (b : Mbuffer) (hroom : BufferRoom b 1) :
    read_string_loop del (fuel + 2) (atText [92] line b) =
      Except.error (Raised.lexerror "unfinished string" line (some (bytes "<eof>"))) := by
  rw [read_string_loop_escape del hdel (fuel + 1) [] line b hroom]
  have e : read_escape (atText [] line (b.push 92)) = Except.ok (atText [] line (b.push 92)) := rfl
  rw [e]
  exact read_string_loop_eoz del hdel fuel line _

/-- C20, counterexample: in the literal `"a\x` the end of the stream comes before
the closing delimiter, and the error of `read_string` (and of `llex`) is
"hexadecimal digit expected", raised by the reader of the escape, not
"unfinished string". -/
theorem read_string_eos_in_hex_escape :
    read_string (atText [34, 97, 92, 120] 1 { buffer := [], buffsize := 32 }) 34 =
        Except.error (Raised.lexerror "hexadecimal digit expected" 1
          (some [39, 34, 97, 92, 120, 39]))
    ∧ llex integerPlatform (luaX_setinput [34, 97, 92, 120]) =
        Except.error (Raised.lexerror "hexadecimal digit expected" 1
          (some [39, 34, 97, 92, 120, 39])) :=
  ⟨rfl, rfl⟩

/-- C20, amended: `read_string` returns a string only when the closing
delimiter, the quote character `q` that opened the literal, stands in the text
after the opening quote, and then the scan stands right after a `q`; a literal
without it always ends in a lexical error.  Where the scan expects the next
character of the content, the end of the stream (also right after a backslash)
or a newline character `\n` or `\r` that no escape has read raises "unfinished
string"; where one of them cuts short a `\x`, `\o` or `\u` escape, the error is
the one of that escape: "hexadecimal digit expected", "octal digit expected",
or the one that names the missing brace.  The other quote character is saved as
content.  For a content of plain characters (no `q`, no backslash, no newline):
closed by `q` it is the value of the string, and followed by the end of the
stream or by a newline it raises "unfinished string". -/
theorem read_string_closing_delimiter (q : Nat) (hq : q = 34 ∨ q = 39) (line : Int)
    (b : Mbuffer) :
    (∀ (t s : List Nat) (ls3 : LexState),
      read_string (atText (q :: t) line b) (q : Int) = Except.ok (s, ls3) →
      ∃ pre post line1 b1, t = pre ++ q :: post ∧ ls3 = atText post line1 b1)
    ∧ (∀ fuel : Nat, read_string_loop (q : Int) (fuel + 1) (atText [] line b) =
      Except.error (Raised.lexerror "unfinished string" line (some (bytes "<eof>"))))
    ∧ (∀ (fuel c : Nat) (rest : List Nat), c = 10 ∨ c = 13 → BufferRoom b 1 →
      read_string_loop (q : Int) (fuel + 1) (atText (c :: rest) line b) =
        Except.error (Raised.lexerror "unfinished string" line
          (some ([39] ++ cstr b.buffer ++ [39]))))
    ∧ (∀ (fuel o : Nat) (rest : List Nat), o = 34 ∨ o = 39 → o ≠ q → BufferRoom b 1 →
      read_string_loop (q : Int) (fuel + 1) (atText (o :: rest) line b) =
        read_string_loop (q : Int) fuel (atText rest line (b.push o)))
    ∧ (∀ body rest : List Nat,
      (∀ c ∈ body, c < 256 ∧ c ≠ q ∧ c ≠ 10 ∧ c ≠ 13 ∧ c ≠ 92) →
      BufferRoom b (body.length + 3) →
      (b.buffer = [] → ∃ b1, b1.buffer = q :: (body ++ [q]) ∧
        read_string (atText (q :: (body ++ q :: rest)) line b) (q : Int) =
          Except.ok (body, atText rest line b1))
      ∧ read_string (atText (q :: body) line b) (q : Int) =
          Except.error (Raised.lexerror "unfinished string" line (some (bytes "<eof>")))
      ∧ ∀ c : Nat, c = 10 ∨ c = 13 →
        read_string (atText (q :: (body ++ c :: rest)) line b) (q : Int) =
          Except.error (Raised.lexerror "unfinished string" line
            (some ([39] ++ cstr (b.buffer ++ q :: body) ++ [39]))))
    ∧ (∀ P : Platform,
        (∃ ls1, llex P (luaX_setinput [39, 97, 34, 98, 34, 39, 32]) =
          Except.ok (TK_STRING, SemInfo.ts [97, 34, 98, 34], ls1))
        ∧ llex P (luaX_setinput [34, 97, 98]) =
          Except.error (Raised.lexerror "unfinished string" 1 (some (bytes "<eof>")))
        ∧ llex P (luaX_setinput [34, 97, 98, 39, 10, 99, 34]) =
          Except.error (Raised.lexerror "unfinished string" 1 (some [39, 34, 97, 98, 39, 39])))
    ∧ (∀ t : List Nat,
      ((∃ s pre post line1 b1, t = pre ++ q :: post
          ∧ read_string (atText (q :: t) line b) (q : Int)
            = Except.ok (s, atText post line1 b1))
        ∨ (∃ e, read_string (atText (q :: t) line b) (q : Int) = Except.error e
          ∧ e.isLexerror = true))
      ∧ (q ∉ t →
        ∃ e, read_string (atText (q :: t) line b) (q : Int) = Except.error e
          ∧ e.isLexerror = true))
    ∧ (∀ fuel : Nat, BufferRoom b 1 →
      read_string_loop (q : Int) (fuel + 2) (atText [92] line b) =
        Except.error (Raised.lexerror "unfinished string" line (some (bytes "<eof>"))))
    ∧ (∀ (fuel : Nat) (t : List Nat), peek t = EOZ ∨ peek t = 10 ∨ peek t = 13 →
      BufferRoom b 5 →
      read_string_loop (q : Int) (fuel + 1) (atText (92 :: 120 :: t) line b) =
          Except.error (Raised.lexerror "hexadecimal digit expected" line
            (some ([39] ++ cstr (b.buffer ++ 92 :: 120 :: t.take 1) ++ [39])))
      ∧ (∀ h1 : Nat, lisxdigit (h1 : Int) = true →
        read_string_loop (q : Int) (fuel + 1) (atText (92 :: 120 :: h1 :: t) line b) =
          Except.error (Raised.lexerror "hexadecimal digit expected" line
            (some ([39] ++ cstr (b.buffer ++ 92 :: 120 :: h1 :: t.take 1) ++ [39]))))
      ∧ read_string_loop (q : Int) (fuel + 1) (atText (92 :: 111 :: t) line b) =
          Except.error (Raised.lexerror "octal digit expected" line
            (some ([39] ++ cstr (b.buffer ++ 92 :: 111 :: t.take 1) ++ [39])))
      ∧ (∀ d1 : Nat, lisodigit (d1 : Int) = true →
        read_string_loop (q : Int) (fuel + 1) (atText (92 :: 111 :: d1 :: t) line b) =
          Except.error (Raised.lexerror "octal digit expected" line
            (some ([39] ++ cstr (b.buffer ++ 92 :: 111 :: d1 :: t.take 1) ++ [39]))))
      ∧ read_string_loop (q : Int) (fuel + 1) (atText (92 :: 117 :: t) line b) =
          Except.error (Raised.lexerror "missing '\x7b'" line
            (some ([39] ++ cstr (b.buffer ++ 92 :: 117 :: t.take 1) ++ [39])))
      ∧ read_string_loop (q : Int) (fuel + 1) (atText (92 :: 117 :: 123 :: t) line b) =
          Except.error (Raised.lexerror "hexadecimal digit expected" line
            (some ([39] ++ cstr (b.buffer ++ 92 :: 117 :: 123 :: t.take 1) ++ [39]))))
    ∧ (∀ (fuel d0 : Nat) (ds t : List Nat), peek t = EOZ ∨ peek t = 10 ∨ peek t = 13 →
      lisxdigit (d0 : Int) = true → (∀ d ∈ ds, lisxdigit ((d : Nat) : Int) = true) →
      hexValue (d0 :: ds) ≤ 0x7FFFFFFF → BufferRoom b (ds.length + 7) →
      read_string_loop (q : Int) (fuel + 1)
          (atText (92 :: 117 :: 123 :: d0 :: (ds ++ t)) line b) =
        Except.error (Raised.lexerror "missing '\x7d'" line
          (some ([39] ++ cstr (b.buffer ++ 92 :: 117 :: 123 :: d0 :: (ds ++ t.take 1))
            ++ [39]))))
    ∧ ∀ P : Platform,
        llex P (luaX_setinput [34, 97, 92, 120]) =
          Except.error (Raised.lexerror "hexadecimal digit expected" 1
            (some [39, 34, 97, 92, 120, 39]))
        ∧ llex P (luaX_setinput [34, 92, 111, 55, 10, 34]) =
          Except.error (Raised.lexerror "octal digit expected" 1
            (some [39, 34, 92, 111, 55, 10, 39]))
        ∧ llex P (luaX_setinput [34, 92, 117]) =
          Except.error (Raised.lexerror "missing '\x7b'" 1 (some [39, 34, 92, 117, 39]))
        ∧ llex P (luaX_setinput [34, 97, 92]) =
          Except.error (Raised.lexerror "unfinished string" 1 (some (bytes "<eof>"))) := by
  have hdel : (q : Int) = 34 ∨ (q : Int) = 39 := by omega
  have hq256 : q < 256 := by omega
  refine ⟨?_, ?_, ?_, ?_, ?_, ?_, ?_, ?_, ?_, ?_, ?_⟩
  · intro t s ls3 hs
    exact read_string_ok_delimiter q hq t line b s ls3 hs
  · intro fuel
    exact read_string_loop_eoz _ hdel fuel line b
  · intro fuel c rest hc hroom
    exact read_string_loop_newline _ hdel fuel c hc rest line b hroom
  · intro fuel o rest ho hne hroom
    exact read_string_loop_plain _ fuel o rest line b (by omega) (by omega) (by omega)
      (by omega) hroom
  · intro body rest hbody hroom
    have hbody2 : ∀ c ∈ body, c < 256 ∧ (c : Int) ≠ (q : Int) ∧ c ≠ 10 ∧ c ≠ 13 ∧ c ≠ 92 := by
      intro c hc
      have := hbody c hc
      omega
    have hroom1 : BufferRoom (b.push q) (body.length + 2) := BufferRoom.push hroom q
    have hroom2 : BufferRoom ((b.push q).pushAll body) 2 :=
      BufferRoom.pushAll body (by rw [Nat.add_comm]; exact hroom1)
    refine ⟨?_, ?_, ?_⟩
    · intro hb
      refine ⟨(((b.push q).pushAll body).push q), by simp [push_buffer, pushAll_buffer, hb], ?_⟩
      unfold read_string
      rw [save_and_next_atText q _ line b 0 hq256 (hroom.mono (by omega))]
      simp only
      have hfuel : (atText (body ++ q :: rest) line (b.push q)).z.length + 2 =
          body.length + (rest.length + 1 + 1) := by
        cases body <;> simp [atText]
        omega
      rw [hfuel, read_string_loop_plain_run _ _ line _ body _ hbody2 (hroom1.mono (by omega)),
        read_string_loop_close]
      simp only
      rw [save_and_next_atText q rest line _ 0 hq256 (hroom2.mono (by omega))]
      simp only [luaX_newstring, atText, push_buffer, pushAll_buffer, hb]
      simp
    · unfold read_string
      rw [save_and_next_atText q _ line b 0 hq256 (hroom.mono (by omega))]
      simp only
      have hfuel : (atText body line (b.push q)).z.length + 2 =
          body.length + ((if body = [] then 1 else 0) + 1) := by
        cases body <;> simp [atText]
      have h0 : read_string_loop (q : Int) ((atText body line (b.push q)).z.length + 2)
          (atText (body ++ []) line (b.push q)) =
          Except.error (Raised.lexerror "unfinished string" line (some (bytes "<eof>"))) := by
        rw [hfuel, read_string_loop_plain_run _ _ line _ body _ hbody2 (hroom1.mono (by omega)),
          read_string_loop_eoz _ hdel]
      rw [List.append_nil] at h0
      rw [h0]
    · intro c hc
      unfold read_string
      rw [save_and_next_atText q _ line b 0 hq256 (hroom.mono (by omega))]
      simp only
      have hfuel : (atText (body ++ c :: rest) line (b.push q)).z.length + 2 =
          body.length + (rest.length + 1 + 1) := by
        cases body <;> simp [atText]
        omega
      rw [hfuel, read_string_loop_plain_run _ _ line _ body _ hbody2 (hroom1.mono (by omega)),
        read_string_loop_newline _ hdel _ c hc rest line _ (hroom2.mono (by omega))]
      simp [push_buffer, pushAll_buffer]
  · intro P
    exact ⟨⟨_, rfl⟩, rfl, rfl⟩
  · intro t
    exact ⟨read_string_closed_or_fails q hq line b t, read_string_unclosed_fails q hq line b t⟩
  · intro fuel hroom
    exact read_string_loop_backslash_eoz _ hdel fuel line b hroom
  · intro fuel t hcut hroom
    obtain ⟨hx, ho, hopen, _, ht⟩ := cut_short_peek t hcut
    have hroom1 : BufferRoom (b.push 92) 4 := BufferRoom.push hroom 92
    refine ⟨?_, ?_, ?_, ?_, ?_, ?_⟩
    · rw [read_string_loop_escape _ hdel fuel _ line b (hroom.mono (by omega)),
        read_escape_hex_start,
        readhexaesc_fail1 t line (b.push 92) (hroom1.mono (by omega)) hx ht]
      simp [push_buffer]
    · intro h1 hh1
      rw [read_string_loop_escape _ hdel fuel _ line b (hroom.mono (by omega)),
        read_escape_hex_start, readhexaesc_fail2 h1 t line (b.push 92) hroom1 hh1 hx ht]
      simp [push_buffer]
    · rw [read_string_loop_escape _ hdel fuel _ line b (hroom.mono (by omega)),
        read_escape_oct_start,
        readoctaesc_fail1 t line (b.push 92) (hroom1.mono (by omega)) ho ht]
      simp [push_buffer]
    · intro d1 hd1
      rw [read_string_loop_escape _ hdel fuel _ line b (hroom.mono (by omega)),
        read_escape_oct_start, readoctaesc_fail2 d1 t line (b.push 92) hroom1 hd1 ho ht]
      simp [push_buffer]
    · rw [read_string_loop_escape _ hdel fuel _ line b (hroom.mono (by omega)),
        read_escape_utf8_start]
      unfold utf8esc
      rw [readutf8esc_no_open t line b hopen ht (hroom.mono (by omega))]
    · rw [read_string_loop_escape _ hdel fuel _ line b (hroom.mono (by omega)),
        read_escape_utf8_start]
      unfold utf8esc
      rw [readutf8esc_no_digit t line b hx ht hroom]
  · intro fuel d0 ds t hcut hd0 hds hv hroom
    obtain ⟨hx, _, _, hclose, ht⟩ := cut_short_peek t hcut
    rw [read_string_loop_escape _ hdel fuel _ line b (hroom.mono (by omega)),
      read_escape_utf8_start]
    unfold utf8esc
    rw [readutf8esc_no_close d0 ds t line b hd0 hds hx hclose ht hv (hroom.mono (by omega))]
  · intro P
    exact ⟨rfl, rfl, rfl, rfl⟩

/-- Witness of C20: the literal `'a"b'` scanned from its opening quote. -/
theorem read_string_closing_delimiter_witness :
    ∃ b1 : Mbuffer, b1.buffer = 39 :: ([97, 34, 98] ++ [39]) ∧
      read_string (atText (39 :: ([97, 34, 98] ++ 39 :: [32])) 1
        { buffer := [], buffsize := 32 }) ((39 : Nat) : Int) =
        Except.ok ([97, 34, 98], atText [32] 1 b1) :=
  ((read_string_closing_delimiter 39 (Or.inr rfl) 1 { buffer := [], buffsize := 32 }).2.2.2.2.1
    [97, 34, 98] [32] (by decide) (by decide)).1 rfl

/-! ## Theorems: every loop of the scanner reads on or ends -/

theorem readsOn_mono {t1 t : List Nat} {ls : LexState} (hsuf : t1 <:+ t) (h : ReadsOn t1 ls) :
    ReadsOn t ls := ⟨h.1, h.2.trans hsuf⟩

theorem tail_length_lt (t : List Nat) : t.length < t.tail.length + 2 := by
  have := List.length_tail t
  omega

theorem skip_sep_loop_settles : ∀ (fuel : Nat) (t : List Nat) (l : Int) (b : Mbuffer)
    (count : Nat), t.length < fuel →
    Settles (skip_sep_loop fuel (atText t l b) count) (fun p => ReadsOn t p.2) := by
  intro fuel
  induction fuel with
  | zero => intro t l b c h; exact absurd h (Nat.not_lt_zero _)
  | succ fuel ih =>
    intro t l b count hf
    rw [skip_sep_loop]
    by_cases c0 : (atText t l b).current = 61
    · rw [if_pos c0]
      have hne : peek t ≠ EOZ := by
        rw [show peek t = 61 from c0]
        decide
      have hlen := peek_tail_length t hne
      have h1 := save_and_next_settles (atText t l b)
      cases hs1 : save_and_next (atText t l b) with
      | error e => exact settles_error h1 hs1
      | ok ls1 =>
        obtain ⟨b1, e1, _⟩ := save_and_next_pos t l b ls1 hs1
        subst e1
        dsimp only
        refine settles_mono (ih t.tail l b1 _ (by omega)) ?_
        intro p _ hp
        exact readsOn_mono (List.tail_suffix t) hp
    · rw [if_neg c0]
      exact readsOn_intro (List.suffix_refl t) l b

theorem skip_sep_settles (t : List Nat) (l : Int) (b : Mbuffer) :
    Settles (skip_sep (atText t l b)) (fun p => ReadsOn t.tail p.2) := by
  unfold skip_sep
  dsimp only
  have h1 := save_and_next_settles (atText t l b)
  cases hs1 : save_and_next (atText t l b) with
  | error e => exact settles_error h1 hs1
  | ok ls1 =>
    obtain ⟨b1, e1, _⟩ := save_and_next_pos t l b ls1 hs1
    subst e1
    dsimp only
    have h2 := skip_sep_loop_settles ((atText t.tail l b1).z.length + 2) t.tail l b1 0
      (tail_length_lt t.tail)
    cases hs2 : skip_sep_loop ((atText t.tail l b1).z.length + 2) (atText t.tail l b1) 0 with
    | error e => exact settles_error h2 hs2
    | ok p =>
      obtain ⟨count, ls2⟩ := p
      have h3 := settles_ok h2 hs2
      exact h3

theorem read_long_string_loop_settles (seminfo : Bool) (sep : Nat) (line : Int) :
    ∀ (fuel : Nat) (t : List Nat) (l : Int) (b : Mbuffer), t.length < fuel →
    Settles (read_long_string_loop seminfo sep line fuel (atText t l b))
      (fun ls2 => ReadsOn t ls2) := by
  intro fuel
  induction fuel with
  | zero => intro t l b h; exact absurd h (Nat.not_lt_zero _)
  | succ fuel ih =>
    intro t l b hf
    rw [read_long_string_loop]
    by_cases c0 : (atText t l b).current = EOZ
    · rw [if_pos c0]
      exact lexerror_isLexerror _ _ _
    rw [if_neg c0]
    have hlen := peek_tail_length t c0
    by_cases c1 : (atText t l b).current = 93
    · rw [if_pos c1]
      have h1 := skip_sep_settles t l b
      cases hs1 : skip_sep (atText t l b) with
      | error e => exact settles_error h1 hs1
      | ok p =>
        obtain ⟨lvl, ls1⟩ := p
        have hr := settles_ok h1 hs1
        obtain ⟨t2, l2, b2, e2, hsuf⟩ := readsOn_elim hr
        have e3 : ls1 = atText t2 l2 b2 := e2
        subst e3
        dsimp only
        by_cases c2 : lvl = sep
        · rw [if_pos c2]
          refine settles_mono (save_and_next_settles _) ?_
          intro ls3 hs3 _
          obtain ⟨b3, e3, _⟩ := save_and_next_pos _ _ _ _ hs3
          subst e3
          exact readsOn_intro (((List.tail_suffix t2).trans hsuf).trans (List.tail_suffix t)) _ _
        · rw [if_neg c2]
          have hl2 := hsuf.length_le
          refine settles_mono (ih t2 l2 b2 (by omega)) ?_
          intro ls3 _ h3
          exact readsOn_mono (hsuf.trans (List.tail_suffix t)) h3
    rw [if_neg c1]
    by_cases c2 : (atText t l b).current = 10 ∨ (atText t l b).current = 13
    · rw [if_pos c2]
      have h1 := save_settles (atText t l b) 10
      cases hs1 : save (atText t l b) 10 with
      | error e => exact settles_error h1 hs1
      | ok ls1 =>
        obtain ⟨b1, e1, _⟩ := save_pos t l b 10 ls1 hs1
        subst e1
        dsimp only
        have h2 := inclinenumber_settles (atText t l b1)
        cases hs2 : inclinenumber (atText t l b1) with
        | error e => exact settles_error h2 hs2
        | ok ls2 =>
          obtain ⟨t2, l2, e2, hsuf⟩ := inclinenumber_pos t l b1 ls2 hs2
          subst e2
          dsimp only
          have hl2 := hsuf.length_le
          have e4 : (if seminfo = true then atText t2 l2 b1
              else luaZ_resetbuffer (atText t2 l2 b1))
              = atText t2 l2 (if seminfo = true then b1 else { b1 with buffer := [] }) := by
            cases seminfo <;> rfl
          rw [e4]
          refine settles_mono (ih t2 l2 _ (by omega)) ?_
          intro ls3 _ h3
          exact readsOn_mono (hsuf.trans (List.tail_suffix t)) h3
    rw [if_neg c2]
    by_cases c3 : seminfo = true
    · rw [if_pos c3]
      have h1 := save_and_next_settles (atText t l b)
      cases hs1 : save_and_next (atText t l b) with
      | error e => exact settles_error h1 hs1
      | ok ls1 =>
        obtain ⟨b1, e1, _⟩ := save_and_next_pos t l b ls1 hs1
        subst e1
        dsimp only
        refine settles_mono (ih t.tail l b1 (by omega)) ?_
        intro ls3 _ h3
        exact readsOn_mono (List.tail_suffix t) h3
    · rw [if_neg c3, next_atText_tail]
      refine settles_mono (ih t.tail l b (by omega)) ?_
      intro ls3 _ h3
      exact readsOn_mono (List.tail_suffix t) h3

theorem read_long_string_settles (t : List Nat) (l : Int) (b : Mbuffer) (seminfo : Bool)
    (sep : Nat) :
    Settles (read_long_string (atText t l b) seminfo sep) (fun p => ReadsOn t.tail p.2) := by
  unfold read_long_string
  dsimp only
  have h1 := save_and_next_settles (atText t l b)
  cases hs1 : save_and_next (atText t l b) with
  | error e => exact settles_error h1 hs1
  | ok ls1 =>
    obtain ⟨b1, e1, _⟩ := save_and_next_pos t l b ls1 hs1
    subst e1
    dsimp only
    have key : ∀ (t2 : List Nat) (l2 : Int), t2 <:+ t.tail →
        Settles (match read_long_string_loop seminfo sep (atText t l b).linenumber
              ((atText t2 l2 b1).z.length + 2) (atText t2 l2 b1) with
          | Except.error e => Except.error e
          | Except.ok ls3 =>
            Except.ok (if seminfo = true then
                some (luaX_newstring ls3 sep (ls3.buff.buffer.length - 2 * sep))
              else none, ls3))
          (fun p => ReadsOn t.tail p.2) := by
      intro t2 l2 hsuf
      have h2 := read_long_string_loop_settles seminfo sep (atText t l b).linenumber
        ((atText t2 l2 b1).z.length + 2) t2 l2 b1 (tail_length_lt t2)
      cases hs2 : read_long_string_loop seminfo sep (atText t l b).linenumber
          ((atText t2 l2 b1).z.length + 2) (atText t2 l2 b1) with
      | error e => exact settles_error h2 hs2
      | ok ls3 =>
        have h3 := settles_ok h2 hs2
        exact readsOn_mono hsuf h3
    by_cases hn : currIsNewline (atText t.tail l b1) = true
    · rw [if_pos hn]
      have h2 := inclinenumber_settles (atText t.tail l b1)
      cases hs2 : inclinenumber (atText t.tail l b1) with
      | error e => exact settles_error h2 hs2
      | ok ls2 =>
        obtain ⟨t2, l2, e2, hsuf⟩ := inclinenumber_pos t.tail l b1 ls2 hs2
        subst e2
        exact key t2 l2 (hsuf.trans (List.tail_suffix _))
    · rw [if_neg hn]
      exact key t.tail l (List.suffix_refl _)

theorem skip_comment_loop_settles : ∀ (fuel : Nat) (t : List Nat) (l : Int) (b : Mbuffer),
    t.length < fuel →
    Settles (skip_comment_loop fuel (atText t l b)) (fun ls2 => ReadsOn t ls2) := by
  intro fuel
  induction fuel with
  | zero => intro t l b h; exact absurd h (Nat.not_lt_zero _)
  | succ fuel ih =>
    intro t l b hf
    rw [skip_comment_loop]
    by_cases c0 : ¬ currIsNewline (atText t l b) = true ∧ (atText t l b).current ≠ EOZ
    · rw [if_pos c0, next_atText_tail]
      have hlen := peek_tail_length t c0.2
      refine settles_mono (ih t.tail l b (by omega)) ?_
      intro ls3 _ h3
      exact readsOn_mono (List.tail_suffix t) h3
    · rw [if_neg c0]
      exact readsOn_intro (List.suffix_refl t) l b

theorem lislalnum_not_eoz (c : Int) (h : lislalnum c = true) : c ≠ EOZ := by
  intro e
  rw [e] at h
  exact absurd h (by decide)

theorem read_name_loop_settles : ∀ (fuel : Nat) (t : List Nat) (l : Int) (b : Mbuffer),
    t.length < fuel →
    Settles (read_name_loop fuel (atText t l b)) (fun ls2 => ReadsOn t.tail ls2) := by
  intro fuel
  induction fuel with
  | zero => intro t l b h; exact absurd h (Nat.not_lt_zero _)
  | succ fuel ih =>
    intro t l b hf
    rw [read_name_loop]
    have h1 := save_and_next_settles (atText t l b)
    cases hs1 : save_and_next (atText t l b) with
    | error e => exact settles_error h1 hs1
    | ok ls1 =>
      obtain ⟨b1, e1, _⟩ := save_and_next_pos t l b ls1 hs1
      subst e1
      dsimp only
      by_cases c0 : lislalnum (atText t.tail l b1).current = true
      · rw [if_pos c0]
        have hne : peek t.tail ≠ EOZ := lislalnum_not_eoz _ c0
        have hlen := peek_tail_length t.tail hne
        have hl2 := List.length_tail t
        refine settles_mono (ih t.tail l b1 (by omega)) ?_
        intro ls3 _ h3
        exact readsOn_mono (List.tail_suffix _) h3
      · rw [if_neg c0]
        exact readsOn_intro (List.suffix_refl _) l b1

theorem check_next2_settles (t : List Nat) (l : Int) (b : Mbuffer) (s0 s1 : Int) :
    Settles (check_next2 (atText t l b) s0 s1)
      (fun p => (p.1 = true ∧ (peek t = s0 ∨ peek t = s1) ∧ ∃ b1, p.2 = atText t.tail l b1)
        ∨ (p.1 = false ∧ p.2 = atText t l b)) := by
  unfold check_next2
  by_cases c0 : (atText t l b).current = s0 ∨ (atText t l b).current = s1
  · rw [if_pos c0]
    have h1 := save_and_next_settles (atText t l b)
    cases hs1 : save_and_next (atText t l b) with
    | error e => exact settles_error h1 hs1
    | ok ls1 =>
      obtain ⟨b1, e1, _⟩ := save_and_next_pos t l b ls1 hs1
      exact Or.inl ⟨rfl, c0, b1, e1⟩
  · rw [if_neg c0]
    exact Or.inr ⟨rfl, rfl⟩

theorem read_numeral_loop_settles (e0 e1 : Int) (h0 : e0 ≠ EOZ) (h1 : e1 ≠ EOZ) :
    ∀ (fuel : Nat) (t : List Nat) (l : Int) (b : Mbuffer), t.length < fuel →
    Settles (read_numeral_loop (e0, e1) fuel (atText t l b)) (fun ls2 => ReadsOn t ls2) := by
  intro fuel
  induction fuel with
  | zero => intro t l b h; exact absurd h (Nat.not_lt_zero _)
  | succ fuel ih =>
    intro t l b hf
    rw [read_numeral_loop]
    dsimp only
    have k1 := check_next2_settles t l b e0 e1
    cases hs1 : check_next2 (atText t l b) e0 e1 with
    | error e => exact settles_error k1 hs1
    | ok p =>
      obtain ⟨f, ls1⟩ := p
      have k2 := settles_ok k1 hs1
      rcases k2 with ⟨hf1, hc, b1, e2⟩ | ⟨hf1, e2⟩
      · have hf2 : f = true := hf1
        have e3 : ls1 = atText t.tail l b1 := e2
        subst hf2
        subst e3
        dsimp only
        have hne : peek t ≠ EOZ := by
          rcases hc with hc | hc
          · rw [hc]
            exact h0
          · rw [hc]
            exact h1
        have hlen := peek_tail_length t hne
        have k3 := check_next2_settles t.tail l b1 45 43
        cases hs2 : check_next2 (atText t.tail l b1) 45 43 with
        | error e => exact settles_error k3 hs2
        | ok q =>
          obtain ⟨g, ls2⟩ := q
          have k4 := settles_ok k3 hs2
          dsimp only
          rcases k4 with ⟨_, _, b2, e4⟩ | ⟨_, e4⟩
          · have e5 : ls2 = atText t.tail.tail l b2 := e4
            subst e5
            have hl2 := List.length_tail t.tail
            refine settles_mono (ih t.tail.tail l b2 (by omega)) ?_
            intro ls3 _ h3
            exact readsOn_mono ((List.tail_suffix _).trans (List.tail_suffix _)) h3
          · have e5 : ls2 = atText t.tail l b1 := e4
            subst e5
            refine settles_mono (ih t.tail l b1 (by omega)) ?_
            intro ls3 _ h3
            exact readsOn_mono (List.tail_suffix _) h3
      · have hf2 : f = false := hf1
        have e3 : ls1 = atText t l b := e2
        subst hf2
        subst e3
        dsimp only
        by_cases c0 : lisxdigit (atText t l b).current = true ∨ (atText t l b).current = 46
            ∨ lisodigit (atText t l b).current = true
        · rw [if_pos c0]
          have hne : peek t ≠ EOZ := by
            intro e
            have e6 : (atText t l b).current = EOZ := e
            rw [e6] at c0
            exact absurd c0 (by decide)
          have hlen := peek_tail_length t hne
          have k5 := save_and_next_settles (atText t l b)
          cases hs3 : save_and_next (atText t l b) with
          | error e => exact settles_error k5 hs3
          | ok ls2 =>
            obtain ⟨b2, e7, _⟩ := save_and_next_pos t l b ls2 hs3
            subst e7
            dsimp only
            refine settles_mono (ih t.tail l b2 (by omega)) ?_
            intro ls3 _ h3
            exact readsOn_mono (List.tail_suffix _) h3
        · rw [if_neg c0]
          exact readsOn_intro (List.suffix_refl t) l b

theorem read_numeral_expo_settles (P : Platform) (hpad : P.pad ≠ EOZ) (first : Int)
    (t : List Nat) (l : Int) (b : Mbuffer) :
    Settles (read_numeral_expo P first (atText t l b))
      (fun p => p.1.1 ≠ EOZ ∧ p.1.2 ≠ EOZ ∧ ReadsOn t p.2) := by
  unfold read_numeral_expo
  by_cases c0 : first = 48
  · rw [if_pos c0]
    have k1 := check_next2_settles t l b 120 88
    cases hs1 : check_next2 (atText t l b) 120 88 with
    | error e => exact settles_error k1 hs1
    | ok p =>
      obtain ⟨f, ls1⟩ := p
      have k2 := settles_ok k1 hs1
      rcases k2 with ⟨hf1, _, b1, e2⟩ | ⟨hf1, e2⟩
      · have hf2 : f = true := hf1
        have e3 : ls1 = atText t.tail l b1 := e2
        subst hf2
        subst e3
        exact ⟨show (80 : Int) ≠ EOZ by decide, show (112 : Int) ≠ EOZ by decide,
          readsOn_intro (List.tail_suffix _) l b1⟩
      · have hf2 : f = false := hf1
        have e3 : ls1 = atText t l b := e2
        subst hf2
        subst e3
        dsimp only
        have k3 := check_next2_settles t l b 111 79
        cases hs2 : check_next2 (atText t l b) 111 79 with
        | error e => exact settles_error k3 hs2
        | ok q =>
          obtain ⟨g, ls2⟩ := q
          have k4 := settles_ok k3 hs2
          rcases k4 with ⟨hg1, _, b2, e4⟩ | ⟨hg1, e4⟩
          · have hg2 : g = true := hg1
            have e5 : ls2 = atText t.tail l b2 := e4
            subst hg2
            subst e5
            exact ⟨show (0 : Int) ≠ EOZ by decide, hpad,
              readsOn_intro (List.tail_suffix _) l b2⟩
          · have hg2 : g = false := hg1
            have e5 : ls2 = atText t l b := e4
            subst hg2
            subst e5
            exact ⟨show (69 : Int) ≠ EOZ by decide, show (101 : Int) ≠ EOZ by decide,
      readsOn_intro (List.suffix_refl _) l b⟩
  · rw [if_neg c0]
    exact ⟨show (69 : Int) ≠ EOZ by decide, show (101 : Int) ≠ EOZ by decide,
      readsOn_intro (List.suffix_refl _) l b⟩

theorem read_numeral_settles (P : Platform) (hpad : P.pad ≠ EOZ) (t : List Nat) (l : Int)
    (b : Mbuffer) :
    Settles (read_numeral P (atText t l b)) (fun r => ReadsOn t.tail r.2.2) := by
  unfold read_numeral
  dsimp only
  have k1 := save_and_next_settles (atText t l b)
  cases hs1 : save_and_next (atText t l b) with
  | error e => exact settles_error k1 hs1
  | ok ls1 =>
    obtain ⟨b1, e1, _⟩ := save_and_next_pos t l b ls1 hs1
    subst e1
    dsimp only
    have k2 := read_numeral_expo_settles P hpad (atText t l b).current t.tail l b1
    cases hs2 : read_numeral_expo P (atText t l b).current (atText t.tail l b1) with
    | error e => exact settles_error k2 hs2
    | ok p =>
      obtain ⟨expo, ls2⟩ := p
      obtain ⟨e0, e1⟩ := expo
      have k3 := settles_ok k2 hs2
      obtain ⟨h0, h1, hr2⟩ := k3
      obtain ⟨t2, l2, b2, e2, hsuf2⟩ := readsOn_elim hr2
      have e3 : ls2 = atText t2 l2 b2 := e2
      subst e3
      dsimp only
      have k4 := read_numeral_loop_settles e0 e1 h0 h1
        ((atText t2 l2 b2).z.length + 2 + MAX_SIZE) t2 l2 b2
        (Nat.lt_of_lt_of_le (tail_length_lt t2) (Nat.le_add_right _ _))
      cases hs3 : read_numeral_loop (e0, e1) ((atText t2 l2 b2).z.length + 2 + MAX_SIZE)
          (atText t2 l2 b2) with
      | error e => exact settles_error k4 hs3
      | ok ls3 =>
        have hr3 : ReadsOn t2 ls3 := settles_ok k4 hs3
        obtain ⟨t3, l3, b3, e4, hsuf3⟩ := readsOn_elim hr3
        subst e4
        dsimp only
        have key : ∀ (t4 : List Nat) (b4 : Mbuffer), t4 <:+ t.tail →
            Settles (match save (atText t4 l3 b4) 0 with
              | Except.error e => Except.error e
              | Except.ok ls5 =>
                match luaO_str2num P (cstr ls5.buff.buffer) with
                | none => Except.error (lexerror ls5 "malformed number" TK_FLT)
                | some (TValue.int i, _) => Except.ok (TK_INT, SemInfo.i i, ls5)
                | some (TValue.flt n, _) => Except.ok (TK_FLT, SemInfo.r n, ls5))
              (fun r => ReadsOn t.tail r.2.2) := by
          intro t4 b4 hsuf4
          have k5 := save_settles (atText t4 l3 b4) 0
          cases hs5 : save (atText t4 l3 b4) 0 with
          | error e => exact settles_error k5 hs5
          | ok ls5 =>
            obtain ⟨b5, e5, _⟩ := save_pos t4 l3 b4 0 ls5 hs5
            subst e5
            dsimp only
            split
            · exact lexerror_isLexerror _ _ _
            · exact readsOn_intro hsuf4 _ _
            · exact readsOn_intro hsuf4 _ _
        by_cases c0 : lislalpha (atText t3 l3 b3).current = true
        · rw [if_pos c0]
          have k6 := save_and_next_settles (atText t3 l3 b3)
          cases hs6 : save_and_next (atText t3 l3 b3) with
          | error e => exact settles_error k6 hs6
          | ok ls4 =>
            obtain ⟨b4, e6, _⟩ := save_and_next_pos t3 l3 b3 ls4 hs6
            subst e6
            exact key t3.tail b4 (((List.tail_suffix _).trans hsuf3).trans hsuf2)
        · rw [if_neg c0]
          exact key t3 b3 (hsuf3.trans hsuf2)

theorem check_next1_pos (ls : LexState) (c : Int) (h : ls.current = c) :
    check_next1 ls c = (true, next ls) := by
  unfold check_next1
  rw [if_pos h]

theorem check_next1_neg (ls : LexState) (c : Int) (h : ¬ ls.current = c) :
    check_next1 ls c = (false, ls) := by
  unfold check_next1
  rw [if_neg h]

theorem check_next1_settles (P : Platform) {t : List Nat} (ls : LexState) (c : Int)
    (k1 k2 : Int) (h : ReadsOn t ls) :
    Settles (match check_next1 ls c with
      | (true, l1) => (Except.ok (k1, SemInfo.none, l1) : Except Raised (Int × SemInfo P × LexState))
      | (false, l1) => Except.ok (k2, SemInfo.none, l1)) (fun r => ReadsOn t r.2.2) := by
  by_cases hc : ls.current = c
  · rw [check_next1_pos ls c hc]
    exact readsOn_next h
  · rw [check_next1_neg ls c hc]
    exact h

theorem check_next1_settles2 (P : Platform) {t : List Nat} (ls : LexState) (c d : Int)
    (k1 k2 k3 : Int) (h : ReadsOn t ls) :
    Settles (match check_next1 ls c with
      | (true, l1) => (Except.ok (k1, SemInfo.none, l1) : Except Raised (Int × SemInfo P × LexState))
      | (false, l1) =>
        match check_next1 l1 d with
        | (true, l2) => Except.ok (k2, SemInfo.none, l2)
        | (false, l2) => Except.ok (k3, SemInfo.none, l2)) (fun r => ReadsOn t r.2.2) := by
  by_cases hc : ls.current = c
  · rw [check_next1_pos ls c hc]
    exact readsOn_next h
  · rw [check_next1_neg ls c hc]
    exact check_next1_settles P ls d k2 k3 h

theorem read_string_lands (del : Int) (t : List Nat) (l : Int) (b : Mbuffer) :
    Settles (read_string (atText t l b) del) (fun p => ReadsOn t.tail p.2) := by
  refine settles_mono (read_string_settles del t l b) ?_
  intro p hp _
  obtain ⟨s, ls3⟩ := p
  unfold read_string at hp
  cases hs1 : save_and_next (atText t l b) with
  | error e =>
    rw [hs1] at hp
    exact Except.noConfusion hp
  | ok ls1 =>
    rw [hs1] at hp
    dsimp only at hp
    obtain ⟨b1, e1, _⟩ := save_and_next_pos t l b ls1 hs1
    subst e1
    cases hs2 : read_string_loop del ((atText t.tail l b1).z.length + 2) (atText t.tail l b1) with
    | error e =>
      rw [hs2] at hp
      exact Except.noConfusion hp
    | ok ls2 =>
      rw [hs2] at hp
      dsimp only at hp
      have hr := (readsOn_read_string_loop del _ _ _
        (readsOn_intro (List.suffix_refl t.tail) l b1) hs2).1
      cases hs3 : save_and_next ls2 with
      | error e =>
        rw [hs3] at hp
        exact Except.noConfusion hp
      | ok ls4 =>
        rw [hs3] at hp
        dsimp only at hp
        have e := Except.ok.inj hp
        have e2 : ls4 = ls3 := (Prod.mk.inj e).2
        subst e2
        exact readsOn_save_and_next hr hs3

theorem keeps_save_and_next (Inv : Mbuffer → Prop)
    (hsave : ∀ (ls ls1 : LexState) (c : Int), Inv ls.buff → save ls c = Except.ok ls1 →
      Inv ls1.buff)
    {ls ls1 : LexState} (h : Inv ls.buff) (hs : save_and_next ls = Except.ok ls1) :
    Inv ls1.buff := by
  unfold save_and_next at hs
  cases h1 : save ls ls.current with
  | error e =>
    rw [h1] at hs
    exact Except.noConfusion hs
  | ok ls0 =>
    rw [h1] at hs
    have e := Except.ok.inj hs
    rw [← e, next_buff]
    exact hsave _ _ _ h h1

theorem inclinenumber_buff {ls ls1 : LexState} (hs : inclinenumber ls = Except.ok ls1) :
    ls1.buff = ls.buff := by
  have h := settles_ok (inclinenumber_settles ls) hs
  exact h

theorem keeps_skip_sep_loop (Inv : Mbuffer → Prop)
    (hsave : ∀ (ls ls1 : LexState) (c : Int), Inv ls.buff → save ls c = Except.ok ls1 →
      Inv ls1.buff) :
    ∀ (fuel : Nat) (ls ls2 : LexState) (count n : Nat), Inv ls.buff →
      skip_sep_loop fuel ls count = Except.ok (n, ls2) → Inv ls2.buff := by
  intro fuel
  induction fuel with
  | zero =>
    intro ls ls2 count n h hs
    simp [skip_sep_loop] at hs
  | succ f ih =>
    intro ls ls2 count n h hs
    rw [skip_sep_loop] at hs
    by_cases hc : ls.current = 61
    · rw [if_pos hc] at hs
      cases h1 : save_and_next ls with
      | error e => simp [h1] at hs
      | ok ls1 =>
        simp only [h1] at hs
        exact ih _ _ _ _ (keeps_save_and_next Inv hsave h h1) hs
    · rw [if_neg hc] at hs
      simp only [Except.ok.injEq, Prod.mk.injEq] at hs
      rw [← hs.2]
      exact h

theorem keeps_skip_sep (Inv : Mbuffer → Prop)
    (hsave : ∀ (ls ls1 : LexState) (c : Int), Inv ls.buff → save ls c = Except.ok ls1 →
      Inv ls1.buff)
    {ls ls2 : LexState} {n : Nat} (h : Inv ls.buff)
    (hs : skip_sep ls = Except.ok (n, ls2)) : Inv ls2.buff := by
  unfold skip_sep at hs
  cases h1 : save_and_next ls with
  | error e => simp [h1] at hs
  | ok ls1 =>
    simp only [h1] at hs
    cases h2 : skip_sep_loop (ls1.z.length + 2) ls1 0 with
    | error e => simp [h2] at hs
    | ok p =>
      obtain ⟨count, ls3⟩ := p
      simp only [h2, Except.ok.injEq, Prod.mk.injEq] at hs
      rw [← hs.2]
      exact keeps_skip_sep_loop Inv hsave _ _ _ _ _ (keeps_save_and_next Inv hsave h h1) h2

theorem keeps_read_long_string_loop (Inv : Mbuffer → Prop)
    (hsave : ∀ (ls ls1 : LexState) (c : Int), Inv ls.buff → save ls c = Except.ok ls1 →
      Inv ls1.buff)
    (hreset : ∀ ls : LexState, Inv ls.buff → Inv (luaZ_resetbuffer ls).buff)
    (seminfo : Bool) (sep : Nat) (line : Int) :
    ∀ (fuel : Nat) (ls ls2 : LexState), Inv ls.buff →
      read_long_string_loop seminfo sep line fuel ls = Except.ok ls2 → Inv ls2.buff := by
  intro fuel
  induction fuel with
  | zero =>
    intro ls ls2 h hs
    simp [read_long_string_loop] at hs
  | succ f ih =>
    intro ls ls2 h hs
    rw [read_long_string_loop] at hs
    by_cases c1 : ls.current = EOZ
    · rw [if_pos c1] at hs
      cases hs
    rw [if_neg c1] at hs
    by_cases c2 : ls.current = 93
    · rw [if_pos c2] at hs
      cases h1 : skip_sep ls with
      | error e => simp [h1] at hs
      | ok p =>
        obtain ⟨lvl, ls1⟩ := p
        simp only [h1] at hs
        by_cases c3 : lvl = sep
        · rw [if_pos c3] at hs
          exact keeps_save_and_next Inv hsave (keeps_skip_sep Inv hsave h h1) hs
        · rw [if_neg c3] at hs
          exact ih _ _ (keeps_skip_sep Inv hsave h h1) hs
    rw [if_neg c2] at hs
    by_cases c4 : ls.current = 10 ∨ ls.current = 13
    · rw [if_pos c4] at hs
      cases h1 : save ls 10 with
      | error e => simp [h1] at hs
      | ok ls1 =>
        simp only [h1] at hs
        cases h2 : inclinenumber ls1 with
        | error e => simp [h2] at hs
        | ok ls3 =>
          simp only [h2] at hs
          have h3 : Inv ls3.buff := by
            rw [inclinenumber_buff h2]
            exact hsave _ _ _ h h1
          apply ih _ _ _ hs
          cases seminfo
          · exact hreset _ h3
          · exact h3
    rw [if_neg c4] at hs
    cases seminfo with
    | true =>
      simp only [if_true] at hs
      cases h1 : save_and_next ls with
      | error e => simp [h1] at hs
      | ok ls1 =>
        simp only [h1] at hs
        exact ih _ _ (keeps_save_and_next Inv hsave h h1) hs
    | false =>
      simp only [Bool.false_eq_true, if_false] at hs
      refine ih _ _ ?_ hs
      rw [next_buff]
      exact h

theorem keeps_read_long_string (Inv : Mbuffer → Prop)
    (hsave : ∀ (ls ls1 : LexState) (c : Int), Inv ls.buff → save ls c = Except.ok ls1 →
      Inv ls1.buff)
    (hreset : ∀ ls : LexState, Inv ls.buff → Inv (luaZ_resetbuffer ls).buff)
    {ls ls2 : LexState} {seminfo : Bool} {sep : Nat} {r : Option (List Nat)}
    (h : Inv ls.buff) (hs : read_long_string ls seminfo sep = Except.ok (r, ls2)) :
    Inv ls2.buff := by
  unfold read_long_string at hs
  cases h1 : save_and_next ls with
  | error e => simp [h1] at hs
  | ok ls1 =>
    simp only [h1] at hs
    have hr1 := keeps_save_and_next Inv hsave h h1
    cases h2 : (if currIsNewline ls1 = true then inclinenumber ls1 else Except.ok ls1) with
    | error e => simp [h2] at hs
    | ok ls3 =>
      simp only [h2] at hs
      have hr3 : Inv ls3.buff := by
        by_cases c : currIsNewline ls1 = true
        · rw [if_pos c] at h2
          rw [inclinenumber_buff h2]
          exact hr1
        · rw [if_neg c] at h2
          simp only [Except.ok.injEq] at h2
          rw [← h2]
          exact hr1
      cases h3 : read_long_string_loop seminfo sep ls.linenumber (ls3.z.length + 2) ls3 with
      | error e => simp [h3] at hs
      | ok ls4 =>
        simp only [h3, Except.ok.injEq, Prod.mk.injEq] at hs
        rw [← hs.2]
        exact keeps_read_long_string_loop Inv hsave hreset seminfo sep _ _ _ _ hr3 h3

theorem skip_comment_loop_buff : ∀ (fuel : Nat) (ls ls2 : LexState),
    skip_comment_loop fuel ls = Except.ok ls2 → ls2.buff = ls.buff := by
  intro fuel
  induction fuel with
  | zero =>
    intro ls ls2 hs
    simp [skip_comment_loop] at hs
  | succ f ih =>
    intro ls ls2 hs
    rw [skip_comment_loop] at hs
    by_cases c : ¬ currIsNewline ls = true ∧ ls.current ≠ EOZ
    · rw [if_pos c] at hs
      rw [ih _ _ hs, next_buff]
    · rw [if_neg c] at hs
      have e := Except.ok.inj hs
      rw [← e]

theorem bufferSound_save (ls ls1 : LexState) (c : Int) (h : BufferSound ls.buff)
    (hs : save ls c = Except.ok ls1) :
    BufferSound ls1.buff ∧ ls1.buff.buffer.length = ls.buff.buffer.length + 1 := by
  obtain ⟨h1, h2, h3⟩ := h
  obtain ⟨e1, _, _, _, e5⟩ := save_cases ls ls1 c hs
  have hM : MAX_SIZE / 3 * 2 + MAX_SIZE / 3 * 2 / 2 ≤ MAX_SIZE := by decide
  have hlen : ls1.buff.buffer.length = ls.buff.buffer.length + 1 := by
    rw [e1, List.length_append]
    rfl
  refine ⟨?_, hlen⟩
  unfold BufferSound
  rcases e5 with ⟨k1, k2⟩ | ⟨k1, k2, k3⟩
  · rw [hlen, k2]
    omega
  · rw [hlen, k3]
    omega

theorem bufferSound_reset (ls : LexState) (h : BufferSound ls.buff) :
    BufferSound (luaZ_resetbuffer ls).buff := by
  obtain ⟨_, h2, h3⟩ := h
  exact ⟨Nat.zero_le _, h2, h3⟩

theorem save_and_next_sound {ls ls1 : LexState} (h : BufferSound ls.buff)
    (hs : save_and_next ls = Except.ok ls1) :
    BufferSound ls1.buff ∧ ls1.buff.buffer.length = ls.buff.buffer.length + 1 := by
  unfold save_and_next at hs
  cases h1 : save ls ls.current with
  | error e =>
    rw [h1] at hs
    exact Except.noConfusion hs
  | ok ls0 =>
    rw [h1] at hs
    have e := Except.ok.inj hs
    rw [← e, next_buff]
    exact bufferSound_save _ _ _ h h1

theorem check_next2_sound {ls ls1 : LexState} {f : Bool} {s0 s1 : Int}
    (h : BufferSound ls.buff) (hs : check_next2 ls s0 s1 = Except.ok (f, ls1)) :
    BufferSound ls1.buff ∧ ls.buff.buffer.length ≤ ls1.buff.buffer.length
      ∧ (f = true → ls1.buff.buffer.length = ls.buff.buffer.length + 1) := by
  unfold check_next2 at hs
  by_cases c0 : ls.current = s0 ∨ ls.current = s1
  · rw [if_pos c0] at hs
    cases h1 : save_and_next ls with
    | error e =>
      rw [h1] at hs
      exact Except.noConfusion hs
    | ok ls0 =>
      rw [h1] at hs
      have e := Except.ok.inj hs
      have e2 : ls0 = ls1 := (Prod.mk.inj e).2
      subst e2
      have k := save_and_next_sound h h1
      exact ⟨k.1, by omega, fun _ => k.2⟩
  · rw [if_neg c0] at hs
    have e := Except.ok.inj hs
    have e1 : false = f := (Prod.mk.inj e).1
    have e2 : ls = ls1 := (Prod.mk.inj e).2
    subst e1
    subst e2
    exact ⟨h, Nat.le_refl _, fun hh => Bool.noConfusion hh⟩

/-- The loop of `read_numeral` ends for every pair of exponent marks, also when
one of them is `EOZ`: every round that does not end the loop saves a byte, and a
sound buffer takes fewer than `MAX_SIZE` bytes before `save` raises its error. -/
theorem read_numeral_loop_total (expo : Int × Int) :
    ∀ (fuel : Nat) (t : List Nat) (l : Int) (b : Mbuffer), BufferSound b →
    MAX_SIZE < fuel + b.buffer.length →
    Settles (read_numeral_loop expo fuel (atText t l b)) (fun ls2 => ReadsOn t ls2) := by
  intro fuel
  induction fuel with
  | zero =>
    intro t l b hb h
    have h1 := hb.1
    have h2 := hb.2.2
    omega
  | succ fuel ih =>
    intro t l b hb hf
    rw [read_numeral_loop]
    have k1 := check_next2_settles t l b expo.1 expo.2
    cases hs1 : check_next2 (atText t l b) expo.1 expo.2 with
    | error e => exact settles_error k1 hs1
    | ok p =>
      obtain ⟨f, ls1⟩ := p
      have k2 := settles_ok k1 hs1
      have g1 := check_next2_sound (show BufferSound (atText t l b).buff from hb) hs1
      rcases k2 with ⟨hf1, hc, b1, e2⟩ | ⟨hf1, e2⟩
      · have hf2 : f = true := hf1
        have e3 : ls1 = atText t.tail l b1 := e2
        subst hf2
        subst e3
        dsimp only
        have hb1 : BufferSound b1 := g1.1
        have hl1 : b1.buffer.length = b.buffer.length + 1 := g1.2.2 rfl
        have k3 := check_next2_settles t.tail l b1 45 43
        cases hs2 : check_next2 (atText t.tail l b1) 45 43 with
        | error e => exact settles_error k3 hs2
        | ok q =>
          obtain ⟨g, ls2⟩ := q
          have k4 := settles_ok k3 hs2
          have g2 := check_next2_sound (show BufferSound (atText t.tail l b1).buff from hb1) hs2
          dsimp only
          rcases k4 with ⟨_, _, b2, e4⟩ | ⟨_, e4⟩
          · have e5 : ls2 = atText t.tail.tail l b2 := e4
            subst e5
            have hb2 : BufferSound b2 := g2.1
            have hl2 : b1.buffer.length ≤ b2.buffer.length := g2.2.1
            refine settles_mono (ih t.tail.tail l b2 hb2 (by omega)) ?_
            intro ls3 _ h3
            exact readsOn_mono ((List.tail_suffix _).trans (List.tail_suffix _)) h3
          · have e5 : ls2 = atText t.tail l b1 := e4
            subst e5
            refine settles_mono (ih t.tail l b1 hb1 (by omega)) ?_
            intro ls3 _ h3
            exact readsOn_mono (List.tail_suffix _) h3
      · have hf2 : f = false := hf1
        have e3 : ls1 = atText t l b := e2
        subst hf2
        subst e3
        dsimp only
        by_cases c0 : lisxdigit (atText t l b).current = true ∨ (atText t l b).current = 46
            ∨ lisodigit (atText t l b).current = true
        · rw [if_pos c0]
          have k5 := save_and_next_settles (atText t l b)
          cases hs3 : save_and_next (atText t l b) with
          | error e => exact settles_error k5 hs3
          | ok ls2 =>
            have g3 := save_and_next_sound (show BufferSound (atText t l b).buff from hb) hs3
            obtain ⟨b2, e7, _⟩ := save_and_next_pos t l b ls2 hs3
            subst e7
            dsimp only
            have hb2 : BufferSound b2 := g3.1
            have hl2 : b2.buffer.length = b.buffer.length + 1 := g3.2
            refine settles_mono (ih t.tail l b2 hb2 (by omega)) ?_
            intro ls3 _ h3
            exact readsOn_mono (List.tail_suffix _) h3
        · rw [if_neg c0]
          exact readsOn_intro (List.suffix_refl t) l b

theorem read_numeral_expo_reads (P : Platform) (first : Int)
    (t : List Nat) (l : Int) (b : Mbuffer) :
    Settles (read_numeral_expo P first (atText t l b)) (fun p => ReadsOn t p.2) := by
  unfold read_numeral_expo
  by_cases c0 : first = 48
  · rw [if_pos c0]
    have k1 := check_next2_settles t l b 120 88
    cases hs1 : check_next2 (atText t l b) 120 88 with
    | error e => exact settles_error k1 hs1
    | ok p =>
      obtain ⟨f, ls1⟩ := p
      have k2 := settles_ok k1 hs1
      rcases k2 with ⟨hf1, _, b1, e2⟩ | ⟨hf1, e2⟩
      · have hf2 : f = true := hf1
        have e3 : ls1 = atText t.tail l b1 := e2
        subst hf2
        subst e3
        exact readsOn_intro (List.tail_suffix _) l b1
      · have hf2 : f = false := hf1
        have e3 : ls1 = atText t l b := e2
        subst hf2
        subst e3
        dsimp only
        have k3 := check_next2_settles t l b 111 79
        cases hs2 : check_next2 (atText t l b) 111 79 with
        | error e => exact settles_error k3 hs2
        | ok q =>
          obtain ⟨g, ls2⟩ := q
          have k4 := settles_ok k3 hs2
          rcases k4 with ⟨hg1, _, b2, e4⟩ | ⟨hg1, e4⟩
          · have hg2 : g = true := hg1
            have e5 : ls2 = atText t.tail l b2 := e4
            subst hg2
            subst e5
            exact readsOn_intro (List.tail_suffix _) l b2
          · have hg2 : g = false := hg1
            have e5 : ls2 = atText t l b := e4
            subst hg2
            subst e5
            exact readsOn_intro (List.suffix_refl _) l b
  · rw [if_neg c0]
    exact readsOn_intro (List.suffix_refl _) l b

theorem read_numeral_expo_sound {P : Platform} {first : Int} {ls ls1 : LexState}
    {expo : Int × Int} (h : BufferSound ls.buff)
    (hs : read_numeral_expo P first ls = Except.ok (expo, ls1)) :
    BufferSound ls1.buff := by
  unfold read_numeral_expo at hs
  by_cases c0 : first = 48
  · rw [if_pos c0] at hs
    cases hs1 : check_next2 ls 120 88 with
    | error e => simp [hs1] at hs
    | ok p =>
      obtain ⟨f, ls2⟩ := p
      have g1 := check_next2_sound h hs1
      rw [hs1] at hs
      cases f with
      | true =>
        dsimp only at hs
        have e := (Prod.mk.inj (Except.ok.inj hs)).2
        rw [← e]
        exact g1.1
      | false =>
        dsimp only at hs
        cases hs2 : check_next2 ls2 111 79 with
        | error e => simp [hs2] at hs
        | ok q =>
          obtain ⟨g, ls3⟩ := q
          have g2 := check_next2_sound g1.1 hs2
          rw [hs2] at hs
          cases g with
          | true =>
            dsimp only at hs
            have e := (Prod.mk.inj (Except.ok.inj hs)).2
            rw [← e]
            exact g2.1
          | false =>
            dsimp only at hs
            have e := (Prod.mk.inj (Except.ok.inj hs)).2
            rw [← e]
            exact g2.1
  · rw [if_neg c0] at hs
    have e := (Prod.mk.inj (Except.ok.inj hs)).2
    rw [← e]
    exact h

/-- The scan of a numeral ends on every platform when the buffer is sound:
with a token or with a lexical error. -/
theorem read_numeral_total (P : Platform) (t : List Nat) (l : Int) (b : Mbuffer)
    (hb : BufferSound b) :
    Settles (read_numeral P (atText t l b)) (fun r => ReadsOn t.tail r.2.2) := by
  unfold read_numeral
  dsimp only
  have k1 := save_and_next_settles (atText t l b)
  cases hs1 : save_and_next (atText t l b) with
  | error e => exact settles_error k1 hs1
  | ok ls1 =>
    have g1 := save_and_next_sound (show BufferSound (atText t l b).buff from hb) hs1
    obtain ⟨b1, e1, _⟩ := save_and_next_pos t l b ls1 hs1
    subst e1
    dsimp only
    have hb1 : BufferSound b1 := g1.1
    have k2 := read_numeral_expo_reads P (atText t l b).current t.tail l b1
    cases hs2 : read_numeral_expo P (atText t l b).current (atText t.tail l b1) with
    | error e => exact settles_error k2 hs2
    | ok p =>
      obtain ⟨expo, ls2⟩ := p
      have hr2a := settles_ok k2 hs2
      have hr2 : ReadsOn t.tail ls2 := hr2a
      have g2 := read_numeral_expo_sound (show BufferSound (atText t.tail l b1).buff from hb1) hs2
      obtain ⟨t2, l2, b2, e2, hsuf2⟩ := readsOn_elim hr2
      have e3 : ls2 = atText t2 l2 b2 := e2
      subst e3
      dsimp only
      have hb2 : BufferSound b2 := g2
      have k4 := read_numeral_loop_total expo
        ((atText t2 l2 b2).z.length + 2 + MAX_SIZE) t2 l2 b2 hb2 (by omega)
      cases hs3 : read_numeral_loop expo ((atText t2 l2 b2).z.length + 2 + MAX_SIZE)
          (atText t2 l2 b2) with
      | error e => exact settles_error k4 hs3
      | ok ls3 =>
        have hr3 : ReadsOn t2 ls3 := settles_ok k4 hs3
        obtain ⟨t3, l3, b3, e4, hsuf3⟩ := readsOn_elim hr3
        subst e4
        dsimp only
        have key : ∀ (t4 : List Nat) (b4 : Mbuffer), t4 <:+ t.tail →
            Settles (match save (atText t4 l3 b4) 0 with
              | Except.error e => Except.error e
              | Except.ok ls5 =>
                match luaO_str2num P (cstr ls5.buff.buffer) with
                | none => Except.error (lexerror ls5 "malformed number" TK_FLT)
                | some (TValue.int i, _) => Except.ok (TK_INT, SemInfo.i i, ls5)
                | some (TValue.flt n, _) => Except.ok (TK_FLT, SemInfo.r n, ls5))
              (fun r => ReadsOn t.tail r.2.2) := by
          intro t4 b4 hsuf4
          have k5 := save_settles (atText t4 l3 b4) 0
          cases hs5 : save (atText t4 l3 b4) 0 with
          | error e => exact settles_error k5 hs5
          | ok ls5 =>
            obtain ⟨b5, e5, _⟩ := save_pos t4 l3 b4 0 ls5 hs5
            subst e5
            dsimp only
            split
            · exact lexerror_isLexerror _ _ _
            · exact readsOn_intro hsuf4 _ _
            · exact readsOn_intro hsuf4 _ _
        by_cases c0 : lislalpha (atText t3 l3 b3).current = true
        · rw [if_pos c0]
          have k6 := save_and_next_settles (atText t3 l3 b3)
          cases hs6 : save_and_next (atText t3 l3 b3) with
          | error e => exact settles_error k6 hs6
          | ok ls4 =>
            obtain ⟨b4, e6, _⟩ := save_and_next_pos t3 l3 b3 ls4 hs6
            subst e6
            exact key t3.tail b4 (((List.tail_suffix _).trans hsuf3).trans hsuf2)
        · rw [if_neg c0]
          exact key t3 b3 (hsuf3.trans hsuf2)

/-- The loop of `llex` ends when the scan of a numeral does: for a property
`Inv` of the buffer that `save` and `luaZ_resetbuffer` keep and under which
`read_numeral` ends, the loop, started with more rounds than the text has
characters, ends with a token or with a lexical error. -/
theorem llex_loop_settles_of (P : Platform) (Inv : Mbuffer → Prop)
    (hsave : ∀ (ls ls1 : LexState) (c : Int), Inv ls.buff → save ls c = Except.ok ls1 →
      Inv ls1.buff)
    (hreset : ∀ ls : LexState, Inv ls.buff → Inv (luaZ_resetbuffer ls).buff)
    (hnum : ∀ (t : List Nat) (l : Int) (b : Mbuffer), Inv b →
      Settles (read_numeral P (atText t l b)) (fun r => ReadsOn t.tail r.2.2)) :
    ∀ (fuel : Nat) (t : List Nat) (l : Int) (b : Mbuffer), Inv b → t.length < fuel →
    Settles (llex_loop P fuel (atText t l b)) (fun r => ReadsOn t r.2.2) := by
  intro fuel
  induction fuel with
  | zero => intro t l b _ h; exact absurd h (Nat.not_lt_zero _)
  | succ fuel ih =>
    intro t l b hb hf
    have hb0 : Inv (atText t l b).buff := hb
    have hself : ReadsOn t (atText t l b) := readsOn_intro (List.suffix_refl t) l b
    have hnext : ReadsOn t (next (atText t l b)) := readsOn_next hself
    have step : ∀ ls2 : LexState, peek t ≠ EOZ → ReadsOn t.tail ls2 → Inv ls2.buff →
        Settles (llex_loop P fuel ls2) (fun r => ReadsOn t r.2.2) := by
      intro ls2 hne hr hi
      have hlen := peek_tail_length t hne
      obtain ⟨t2, l2, b2, e2, hsuf⟩ := readsOn_elim hr
      have hl2 := hsuf.length_le
      rw [e2] at hi
      rw [e2]
      refine settles_mono (ih t2 l2 b2 hi (by omega)) ?_
      intro r _ h3
      exact readsOn_mono (hsuf.trans (List.tail_suffix t)) h3
    rw [llex_loop]
    dsimp only
    by_cases c1 : (atText t l b).current = 10 ∨ (atText t l b).current = 13
    · rw [if_pos c1]
      have hne : peek t ≠ EOZ := by
        intro e
        have e6 : (atText t l b).current = EOZ := e
        rw [e6] at c1
        exact absurd c1 (by decide)
      have h1 := inclinenumber_settles (atText t l b)
      cases hs1 : inclinenumber (atText t l b) with
      | error e => exact settles_error h1 hs1
      | ok ls1 =>
        have hi1 : Inv ls1.buff := by
          rw [inclinenumber_buff hs1]
          exact hb
        obtain ⟨t2, l2, e2, hsuf⟩ := inclinenumber_pos t l b ls1 hs1
        subst e2
        exact step _ hne (readsOn_intro hsuf _ _) hi1
    rw [if_neg c1]
    by_cases c2 : (atText t l b).current = 32 ∨ (atText t l b).current = 12
        ∨ (atText t l b).current = 9 ∨ (atText t l b).current = 11
    · rw [if_pos c2]
      have hne : peek t ≠ EOZ := by
        intro e
        have e6 : (atText t l b).current = EOZ := e
        rw [e6] at c2
        exact absurd c2 (by decide)
      rw [next_atText_tail]
      exact step _ hne (readsOn_intro (List.suffix_refl _) _ _) hb
    rw [if_neg c2]
    by_cases c3 : (atText t l b).current = 45
    · rw [if_pos c3]
      have hne : peek t ≠ EOZ := by
        rw [show peek t = 45 from c3]
        decide
      by_cases d1 : (next (atText t l b)).current ≠ 45
      · rw [if_pos d1]
        exact hnext
      rw [if_neg d1]
      rw [next_atText_tail, next_atText_tail]
      have comment : ∀ ls3 : LexState, ReadsOn t.tail.tail ls3 → Inv ls3.buff →
          Settles (match skip_comment_loop (ls3.z.length + 2) ls3 with
            | Except.error e => Except.error e
            | Except.ok ls4 => llex_loop P fuel ls4) (fun r => ReadsOn t r.2.2) := by
        intro ls3 hr3 hi3
        obtain ⟨t3, l3, b3, e3, hsuf3⟩ := readsOn_elim hr3
        subst e3
        have h2 := skip_comment_loop_settles ((atText t3 l3 b3).z.length + 2) t3 l3 b3
          (tail_length_lt t3)
        cases hs2 : skip_comment_loop ((atText t3 l3 b3).z.length + 2) (atText t3 l3 b3) with
        | error e => exact settles_error h2 hs2
        | ok ls4 =>
          have hr4 : ReadsOn t3 ls4 := settles_ok h2 hs2
          have hi4 : Inv ls4.buff := by
            rw [skip_comment_loop_buff _ _ _ hs2]
            exact hi3
          exact step ls4 hne (readsOn_mono (hsuf3.trans (List.tail_suffix _)) hr4) hi4
      by_cases d2 : (atText t.tail.tail l b).current = 91
      · simp only [if_pos d2]
        have h1 := skip_sep_settles t.tail.tail l b
        cases hs1 : skip_sep (atText t.tail.tail l b) with
        | error e => exact settles_error h1 hs1
        | ok p =>
          obtain ⟨sep, ls3⟩ := p
          have hr3a := settles_ok h1 hs1
          have hr3 : ReadsOn t.tail.tail.tail ls3 := hr3a
          have hr3b : ReadsOn t.tail.tail (luaZ_resetbuffer ls3) :=
            readsOn_resetbuffer (readsOn_mono (List.tail_suffix _) hr3)
          have hi3 : Inv (luaZ_resetbuffer ls3).buff :=
            hreset _ (keeps_skip_sep Inv hsave (show Inv (atText t.tail.tail l b).buff from hb) hs1)
          dsimp only
          by_cases d3 : sep ≥ 2
          · rw [if_pos (And.intro d2 d3)]
            obtain ⟨t3, l3, b3, e3, hsuf3⟩ := readsOn_elim hr3b
            rw [e3] at hi3
            rw [e3]
            have h2 := read_long_string_settles t3 l3 b3 false sep
            cases hs2 : read_long_string (atText t3 l3 b3) false sep with
            | error e => exact settles_error h2 hs2
            | ok q =>
              obtain ⟨r, ls4⟩ := q
              have hr4a := settles_ok h2 hs2
              have hr4 : ReadsOn t3.tail ls4 := hr4a
              exact step _ hne (readsOn_resetbuffer (readsOn_mono
                (((List.tail_suffix _).trans hsuf3).trans (List.tail_suffix _)) hr4))
                (hreset _ (keeps_read_long_string Inv hsave hreset hi3 hs2))
          · rw [if_neg (fun hh => d3 hh.2)]
            exact comment _ hr3b hi3
      · simp only [if_neg d2]
        rw [if_neg (fun hh => d2 hh.1)]
        exact comment _ (readsOn_intro (List.suffix_refl _) _ _) hb
    rw [if_neg c3]
    by_cases c4 : (atText t l b).current = 91
    · rw [if_pos c4]
      have h1 := skip_sep_settles t l b
      cases hs1 : skip_sep (atText t l b) with
      | error e => exact settles_error h1 hs1
      | ok p =>
        obtain ⟨sep, ls1⟩ := p
        have hr1a := settles_ok h1 hs1
        have hr1 : ReadsOn t.tail ls1 := hr1a
        dsimp only
        by_cases d3 : sep ≥ 2
        · rw [if_pos d3]
          obtain ⟨t3, l3, b3, e3, hsuf3⟩ := readsOn_elim hr1
          rw [e3]
          have h2 := read_long_string_settles t3 l3 b3 true sep
          cases hs2 : read_long_string (atText t3 l3 b3) true sep with
          | error e => exact settles_error h2 hs2
          | ok q =>
            obtain ⟨r, ls4⟩ := q
            have hr4a := settles_ok h2 hs2
            have hr4 : ReadsOn t3.tail ls4 := hr4a
            exact readsOn_mono (((List.tail_suffix _).trans hsuf3).trans (List.tail_suffix _)) hr4
        · rw [if_neg d3]
          by_cases d4 : sep = 0
          · rw [if_pos d4]
            exact lexerror_isLexerror _ _ _
          · rw [if_neg d4]
            exact readsOn_mono (List.tail_suffix _) hr1
    rw [if_neg c4]
    by_cases c5 : (atText t l b).current = 61
    · rw [if_pos c5]
      exact check_next1_settles P _ _ _ _ hnext
    rw [if_neg c5]
    by_cases c6 : (atText t l b).current = 60
    · rw [if_pos c6]
      exact check_next1_settles2 P _ _ _ _ _ _ hnext
    rw [if_neg c6]
    by_cases c7 : (atText t l b).current = 62
    · rw [if_pos c7]
      exact check_next1_settles2 P _ _ _ _ _ _ hnext
    rw [if_neg c7]
    by_cases c8 : (atText t l b).current = 47
    · rw [if_pos c8]
      exact check_next1_settles P _ _ _ _ hnext
    rw [if_neg c8]
    by_cases c9 : (atText t l b).current = 126
    · rw [if_pos c9]
      exact check_next1_settles P _ _ _ _ hnext
    rw [if_neg c9]
    by_cases c10 : (atText t l b).current = 58
    · rw [if_pos c10]
      exact check_next1_settles P _ _ _ _ hnext
    rw [if_neg c10]
    by_cases c11 : (atText t l b).current = 33
    · rw [if_pos c11]
      exact check_next1_settles P _ _ _ _ hnext
    rw [if_neg c11]
    by_cases c12 : (atText t l b).current = 34 ∨ (atText t l b).current = 39
    · rw [if_pos c12]
      have h1 := read_string_lands (atText t l b).current t l b
      cases hs1 : read_string (atText t l b) (atText t l b).current with
      | error e => exact settles_error h1 hs1
      | ok q =>
        obtain ⟨r, ls2⟩ := q
        have hr2a := settles_ok h1 hs1
        have hr2 : ReadsOn t.tail ls2 := hr2a
        exact readsOn_mono (List.tail_suffix _) hr2
    rw [if_neg c12]
    by_cases c13 : (atText t l b).current = 46
    · rw [if_pos c13]
      have h1 := save_and_next_settles (atText t l b)
      cases hs1 : save_and_next (atText t l b) with
      | error e => exact settles_error h1 hs1
      | ok ls1 =>
        have hi1 : Inv ls1.buff := keeps_save_and_next Inv hsave hb0 hs1
        obtain ⟨b1, e1, _⟩ := save_and_next_pos t l b ls1 hs1
        subst e1
        dsimp only
        have hr1 : ReadsOn t (atText t.tail l b1) := readsOn_intro (List.tail_suffix _) _ _
        by_cases d5 : (atText t.tail l b1).current = 46
        · rw [check_next1_pos _ _ d5]
          exact check_next1_settles P _ _ _ _ (readsOn_next hr1)
        · rw [check_next1_neg _ _ d5]
          dsimp only
          by_cases d6 : ¬ lisdigit (atText t.tail l b1).current = true
          · rw [if_pos d6]
            exact hr1
          · rw [if_neg d6]
            refine settles_mono (hnum t.tail l b1 hi1) ?_
            intro r _ h3
            exact readsOn_mono ((List.tail_suffix _).trans (List.tail_suffix _)) h3
    rw [if_neg c13]
    by_cases c14 : lisdigit (atText t l b).current = true
    · rw [if_pos c14]
      refine settles_mono (hnum t l b hb) ?_
      intro r _ h3
      exact readsOn_mono (List.tail_suffix _) h3
    rw [if_neg c14]
    by_cases c15 : (atText t l b).current = EOZ
    · rw [if_pos c15]
      exact hself
    rw [if_neg c15]
    by_cases c16 : lislalpha (atText t l b).current = true
    · rw [if_pos c16]
      have h1 := read_name_loop_settles ((atText t l b).z.length + 2) t l b (tail_length_lt t)
      cases hs1 : read_name_loop ((atText t l b).z.length + 2) (atText t l b) with
      | error e => exact settles_error h1 hs1
      | ok ls1 =>
        have hr1 : ReadsOn t.tail ls1 := settles_ok h1 hs1
        dsimp only
        by_cases d6 : reservedExtra P (luaX_newstring ls1 0 ls1.buff.buffer.length) > 0
        · rw [if_pos d6]
          exact readsOn_mono (List.tail_suffix _) hr1
        · rw [if_neg d6]
          exact readsOn_mono (List.tail_suffix _) hr1
    rw [if_neg c16]
    exact hnext

theorem llex_loop_settles (P : Platform) (hpad : P.pad ≠ EOZ) :
    ∀ (fuel : Nat) (t : List Nat) (l : Int) (b : Mbuffer), t.length < fuel →
    Settles (llex_loop P fuel (atText t l b)) (fun r => ReadsOn t r.2.2) := by
  intro fuel t l b hf
  exact llex_loop_settles_of P (fun _ => True) (fun _ _ _ _ _ => trivial) (fun _ _ => trivial)
    (fun t l b _ => read_numeral_settles P hpad t l b) fuel t l b trivial hf

/-- On every platform `llex` ends when the buffer is sound. -/
theorem llex_loop_total (P : Platform) :
    ∀ (fuel : Nat) (t : List Nat) (l : Int) (b : Mbuffer), BufferSound b → t.length < fuel →
    Settles (llex_loop P fuel (atText t l b)) (fun r => ReadsOn t r.2.2) :=
  llex_loop_settles_of P BufferSound (fun ls ls1 c h hs => (bufferSound_save ls ls1 c h hs).1)
    bufferSound_reset (fun t l b hb => read_numeral_total P t l b hb)

theorem llex_settles (P : Platform) (hpad : P.pad ≠ EOZ) (t : List Nat) (l : Int)
    (b : Mbuffer) :
    Settles (llex P (atText t l b)) (fun r => ReadsOn t r.2.2) := by
  rw [llex_reset_atText]
  exact llex_loop_settles P hpad _ t l _ (tail_length_lt t)

theorem scanReach_sound (ls : LexState) (h : ScanReach ls) : BufferSound ls.buff := by
  induction h with
  | init src =>
    unfold luaX_setinput
    rw [next_buff]
    exact ⟨Nat.zero_le _, (show 2 ≤ LUA_MINBUFFER by decide),
      (show LUA_MINBUFFER ≤ MAX_SIZE by decide)⟩
  | byNext _ ih =>
    rw [next_buff]
    exact ih
  | bySave c _ hs ih => exact (bufferSound_save _ _ c ih hs).1
  | byReset _ ih => exact bufferSound_reset _ ih
  | byRemove i _ hs ih =>
    unfold luaZ_buffremove at hs
    split at hs
    · exact Except.noConfusion hs
    · have e := Except.ok.inj hs
      subst e
      refine ⟨?_, ih.2⟩
      exact Nat.le_trans (List.length_take_le _ _) (Nat.le_trans (Nat.sub_le _ _) ih.1)
  | byLine line _ ih => exact ih

theorem llex_total (P : Platform) (t : List Nat) (l : Int) (b : Mbuffer)
    (h1 : 2 ≤ b.buffsize) (h2 : b.buffsize ≤ MAX_SIZE) :
    Settles (llex P (atText t l b)) (fun r => ReadsOn t r.2.2) := by
  rw [llex_reset_atText]
  exact llex_loop_total P _ t l _ ⟨Nat.zero_le _, h1, h2⟩ (tail_length_lt t)

/-- C36: `llex` terminates on every finite input.  Entered anywhere in a text
`t` with a buffer whose capacity is one that the scanner can hold (at least 2,
at most `MAX_SIZE`; every state reached from `luaX_setinput` through the
operations of the scanner has such a buffer), on every platform `llex` ends with
a token or with a lexical error, and what is left to read is an end of `t`.
Every loop of the scanner, started with more rounds than `t` has characters
left, ends in the same way: each round that goes on has read a character.  For
the loop of `read_numeral` this holds when neither exponent mark is `EOZ`, which
is so for the marks `Ee`, `Pp` and, after `0o`, for the NUL of the literal `""`
and the byte `P.pad` behind it unless that byte reads as `EOZ`; then a round at
the end of the stream saves a byte without reading one, and the loop ends at the
latest when `save` raises "lexical element too long": with a sound buffer `b`,
`MAX_SIZE` rounds less the length of `b` are enough for any marks. -/
theorem llex_terminates (P : Platform) (t : List Nat) (l : Int) (b : Mbuffer) :
    (2 ≤ b.buffsize → b.buffsize ≤ MAX_SIZE →
        Settles (llex P (atText t l b)) (fun r => ReadsOn t r.2.2))
    ∧ (∀ ls : LexState, ScanReach ls → 2 ≤ ls.buff.buffsize ∧ ls.buff.buffsize ≤ MAX_SIZE)
    ∧ (P.pad ≠ EOZ → Settles (llex P (atText t l b)) (fun r => ReadsOn t r.2.2))
    ∧ (∀ fuel : Nat, t.length < fuel →
        (P.pad ≠ EOZ →
          Settles (llex_loop P fuel (atText t l b)) (fun r => ReadsOn t r.2.2))
        ∧ (∀ e0 e1 : Int, e0 ≠ EOZ → e1 ≠ EOZ →
          Settles (read_numeral_loop (e0, e1) fuel (atText t l b)) (fun ls2 => ReadsOn t ls2))
        ∧ (∀ del : Int,
          Settles (read_string_loop del fuel (atText t l b)) (fun ls2 => ReadsOn t ls2))
        ∧ (∀ (seminfo : Bool) (sep : Nat) (line : Int),
          Settles (read_long_string_loop seminfo sep line fuel (atText t l b))
            (fun ls2 => ReadsOn t ls2))
        ∧ (∀ count : Nat,
          Settles (skip_sep_loop fuel (atText t l b) count) (fun p => ReadsOn t p.2))
        ∧ Settles (skip_comment_loop fuel (atText t l b)) (fun ls2 => ReadsOn t ls2)
        ∧ Settles (read_name_loop fuel (atText t l b)) (fun ls2 => ReadsOn t.tail ls2)
        ∧ Settles (zap_loop fuel (atText t l b)) (fun ls2 => ls2.buff = b)
        ∧ (∀ r i : Nat, Settles (readutf8esc_loop fuel (atText t l b) r i)
            (fun p => ∃ w, p.2.2.buff.buffer = b.buffer ++ w ∧ p.2.1 + 1 = i + w.length)))
    ∧ (∀ (expo : Int × Int) (fuel : Nat), BufferSound b → MAX_SIZE < fuel + b.buffer.length →
        Settles (read_numeral_loop expo fuel (atText t l b)) (fun ls2 => ReadsOn t ls2)) := by
  refine ⟨llex_total P t l b, ?_, ?_, ?_, ?_⟩
  · intro ls h
    exact (scanReach_sound ls h).2
  · intro hpad
    exact llex_settles P hpad t l b
  · intro fuel hf
    refine ⟨?_, ?_, ?_, ?_, ?_, ?_, ?_, ?_, ?_⟩
    · intro hpad
      exact llex_loop_settles P hpad fuel t l b hf
    · intro e0 e1 h0 h1
      exact read_numeral_loop_settles e0 e1 h0 h1 fuel t l b hf
    · intro del
      refine settles_mono (read_string_loop_settles del fuel t l b hf) ?_
      intro ls2 hs _
      exact (readsOn_read_string_loop del fuel _ ls2
        (readsOn_intro (List.suffix_refl t) l b) hs).1
    · intro seminfo sep line
      exact read_long_string_loop_settles seminfo sep line fuel t l b hf
    · intro count
      exact skip_sep_loop_settles fuel t l b count hf
    · exact skip_comment_loop_settles fuel t l b hf
    · exact read_name_loop_settles fuel t l b hf
    · exact zap_loop_settles fuel t l b hf
    · intro r i
      exact readutf8esc_loop_settles fuel t l b r i hf
  · intro expo fuel hb hf
    exact read_numeral_loop_total expo fuel t l b hb hf

/-- Witness of C36: the text `0o7` with the empty buffer of `luaX_setinput`. -/
theorem llex_terminates_witness :
    (2 ≤ 32 ∧ 32 ≤ MAX_SIZE)
    ∧ Settles (llex integerPlatform (atText (bytes "0o7") 1 { buffer := [], buffsize := 32 }))
        (fun r => ReadsOn (bytes "0o7") r.2.2) :=
  ⟨⟨by decide, by decide⟩,
   (llex_terminates integerPlatform (bytes "0o7") 1 { buffer := [], buffsize := 32 }).1
    (by decide) (by decide)⟩

/-! ## Theorems: the hexadecimal float conversion -/

theorem cint_ok (v : Int) (h1 : -2147483648 ≤ v) (h2 : v ≤ 2147483647) :
    cint v = Except.ok v := by
  have c : INT_MIN ≤ v ∧ v ≤ INT_MAX := ⟨h1, h2⟩
  unfold cint
  rw [if_pos c]

theorem decimal_foldl_ge : ∀ (D : List Nat) (a : Nat),
    a ≤ D.foldl (fun a c => a * 10 + (c - 48)) a := by
  intro D
  induction D with
  | nil => intro a; exact Nat.le_refl _
  | cons c D ih =>
    intro a
    have h := ih (a * 10 + (c - 48))
    simp only [List.foldl_cons]
    omega

theorem strx_exp_digits : ∀ (D : List Nat) (a : Nat), (∀ c ∈ D, 48 ≤ c ∧ c ≤ 57) →
    D.foldl (fun a c => a * 10 + (c - 48)) a + 48 ≤ 2147483647 →
    strx_exp D (a : Int)
      = Except.ok (((D.foldl (fun a c => a * 10 + (c - 48)) a : Nat) : Int), []) := by
  intro D
  induction D with
  | nil => intro a _ _; rfl
  | cons c D ih =>
    intro a hD hb
    have hc := hD c (List.mem_cons_self _ _)
    have hge := decimal_foldl_ge D (a * 10 + (c - 48))
    simp only [List.foldl_cons] at hb ⊢
    have hdig : lisdigit (c : Int) = true := by
      simp [lisdigit]
      omega
    rw [strx_exp, if_pos hdig, cint_ok _ (by omega) (by omega)]
    dsimp only
    rw [cint_ok _ (by omega) (by omega)]
    dsimp only
    rw [cint_ok _ (by omega) (by omega)]
    dsimp only
    have e : ((a : Int) * 10 + (c : Int) - 48) = ((a * 10 + (c - 48) : Nat) : Int) := by
      omega
    rw [e]
    exact ih _ (fun x hx => hD x (List.mem_cons_of_mem _ hx)) hb

theorem bitLength_le (m k : Nat) (h : m < 2 ^ k) : bitLength m ≤ k := by
  obtain ⟨_, b2⟩ := bitLength_spec m
  by_cases h0 : m = 0
  · subst h0
    have : bitLength 0 = 0 := rfl
    omega
  · obtain ⟨b3, _⟩ := b2 h0
    by_contra hlt
    have hp : 2 ^ k ≤ 2 ^ (bitLength m - 1) := Nat.pow_le_pow_right (by decide) (by omega)
    omega

theorem round_exact (neg : Bool) (m : Nat) (h : m < 2 ^ 53) :
    Binary64.round neg m 0 = Binary64.finite neg m 0 := by
  have hb := bitLength_le m 53 h
  have c1 : max ((bitLength m : Int) - 53) (-1074 - 0) ≤ 0 := by omega
  have c2 : m = 0 ∨ (bitLength m : Int) + 0 ≤ 1024 := Or.inr (by omega)
  unfold Binary64.round
  rw [if_pos c1, if_pos c2]

theorem hexDigitValue_lt (c : Nat)
    (h : (48 ≤ c ∧ c ≤ 57) ∨ (97 ≤ c ∧ c ≤ 102) ∨ (65 ≤ c ∧ c ≤ 70)) :
    hexDigitValue c < 16 := by
  unfold hexDigitValue
  split
  · omega
  · split <;> omega

theorem hex_foldl_ge : ∀ (ds : List Nat) (a : Nat),
    a ≤ ds.foldl (fun a c => a * 16 + hexDigitValue c) a := by
  intro ds
  induction ds with
  | nil => intro a; exact Nat.le_refl _
  | cons c ds ih =>
    intro a
    have h := ih (a * 16 + hexDigitValue c)
    simp only [List.foldl_cons]
    omega

theorem binary64_step (n d : Nat) (h : n * 16 + d < 2 ^ 53) :
    binary64.add (binary64.mul (Binary64.finite false n 0) (binary64.ofNat 16))
        (binary64.ofNat d)
      = Binary64.finite false (n * 16 + d) 0 := by
  have h16 : binary64.ofNat 16 = Binary64.finite false 16 0 := rfl
  have hd : binary64.ofNat d = Binary64.finite false d 0 := round_exact false d (by omega)
  have hm : binary64.mul (Binary64.finite false n 0) (Binary64.finite false 16 0)
      = Binary64.finite false (n * 16) 0 := round_exact false (n * 16) (by omega)
  rw [h16, hd, hm]
  show Binary64.add (Binary64.finite false (n * 16) 0) (Binary64.finite false d 0) = _
  unfold Binary64.add
  simp only [min_self, Int.sub_self, Int.toNat_zero, pow_zero, mul_one, Bool.false_eq_true,
    if_false, one_mul, Bool.and_self]
  by_cases hz : ((n * 16 : Nat) : Int) + (d : Int) = 0
  · rw [if_pos hz]
    have : n * 16 + d = 0 := by omega
    rw [this]
  · rw [if_neg hz]
    have e1 : decide (((n * 16 : Nat) : Int) + (d : Int) < 0) = false := by
      simp
      omega
    have e2 : (((n * 16 : Nat) : Int) + (d : Int)).natAbs = n * 16 + d := by omega
    rw [e1, e2]
    exact round_exact false _ h

theorem binary64_acc_from : ∀ (ds : List Nat) (n : Nat),
    (∀ c ∈ ds, (48 ≤ c ∧ c ≤ 57) ∨ (97 ≤ c ∧ c ≤ 102) ∨ (65 ≤ c ∧ c ≤ 70)) →
    ds.foldl (fun a c => a * 16 + hexDigitValue c) n < 2 ^ 53 →
    ds.foldl (fun (r : Binary64) (c : Nat) => binary64.add (binary64.mul r (binary64.ofNat 16))
        (binary64.ofNat (luaO_hexavalue (c : Int)))) (Binary64.finite false n 0)
      = Binary64.finite false (ds.foldl (fun a c => a * 16 + hexDigitValue c) n) 0 := by
  intro ds
  induction ds with
  | nil => intro n _ _; rfl
  | cons c ds ih =>
    intro n hds hb
    have hc := hds c (List.mem_cons_self _ _)
    have hge := hex_foldl_ge ds (n * 16 + hexDigitValue c)
    simp only [List.foldl_cons] at hb ⊢
    rw [(hexavalue_digit c hc).2, binary64_step n _ (by omega)]
    exact ih _ (fun x hx => hds x (List.mem_cons_of_mem _ hx)) hb

theorem binary64_acc_exact (ds : List Nat)
    (hds : ∀ c ∈ ds, (48 ≤ c ∧ c ≤ 57) ∨ (97 ≤ c ∧ c ≤ 102) ∨ (65 ≤ c ∧ c ≤ 70))
    (hb : hexValue ds < 2 ^ 53) :
    strx_acc binary64 ds = Binary64.finite false (hexValue ds) 0 :=
  binary64_acc_from ds 0 hds hb

theorem strx_digit_leading_zero (F : FloatArith) (c : Nat) (st : StrxState F.Number)
    (nz : Nat) (hc : c = 48) (hsd : st.sigdig = 0) (hnz : st.nosigdig = (nz : Int))
    (h1 : nz + 1 ≤ 2147483647) (h2 : -2147483648 ≤ st.e - 1) (h3 : st.e ≤ 2147483647) :
    strx_digit F c st
      = Except.ok { st with
          nosigdig := ((nz + 1 : Nat) : Int),
          e := st.e - (if st.hasdot = true then 1 else 0) } := by
  have c0 : st.sigdig = 0 ∧ c = 48 := ⟨hsd, hc⟩
  rw [strx_digit, if_pos c0, cint_ok _ (by omega) (by omega)]
  dsimp only
  by_cases hd : st.hasdot = true
  · rw [if_pos hd, if_pos hd, cint_ok _ (by omega) (by omega)]
    dsimp only
    rw [hnz]
    rfl
  · rw [if_neg hd, if_neg hd]
    rw [hnz]
    simp

theorem strx_digit_significant (F : FloatArith) (c : Nat) (st : StrxState F.Number) (sd : Nat)
    (hsdv : st.sigdig = (sd : Int)) (hc : ¬ (sd = 0 ∧ c = 48)) (hsd : sd + 1 ≤ 30)
    (h2 : -2147483648 ≤ st.e - 1) (h3 : st.e ≤ 2147483647) :
    strx_digit F c st
      = Except.ok { st with
          r := F.add (F.mul st.r (F.ofNat 16)) (F.ofNat (luaO_hexavalue (c : Int))),
          sigdig := ((sd + 1 : Nat) : Int),
          e := st.e - (if st.hasdot = true then 1 else 0) } := by
  have c1 : ¬ (st.sigdig = 0 ∧ c = 48) := by
    intro h
    exact hc ⟨by omega, h.2⟩
  have c2 : st.sigdig + 1 ≤ MAXSIGDIG := by
    have hM : MAXSIGDIG = 30 := rfl
    rw [hM]
    omega
  rw [strx_digit, if_neg c1, cint_ok _ (by omega) (by omega)]
  dsimp only
  rw [if_pos c2]
  dsimp only
  by_cases hd : st.hasdot = true
  · rw [if_pos hd, if_pos hd, cint_ok _ (by omega) (by omega)]
    dsimp only
    rw [hsdv]
    rfl
  · rw [if_neg hd, if_neg hd]
    rw [hsdv]
    simp

theorem strx_digit_dropped (F : FloatArith) (c : Nat) (st : StrxState F.Number) (sd : Nat)
    (hsdv : st.sigdig = (sd : Int)) (hsd : 30 < sd + 1) (hsd2 : sd + 1 ≤ 2147483647)
    (h2 : -2147483648 ≤ st.e - 1) (h3 : st.e + 1 ≤ 2147483647) :
    strx_digit F c st
      = Except.ok { st with
          sigdig := ((sd + 1 : Nat) : Int),
          e := st.e + 1 - (if st.hasdot = true then 1 else 0) } := by
  have c1 : ¬ (st.sigdig = 0 ∧ c = 48) := by
    intro h
    omega
  have c2 : ¬ (st.sigdig + 1 ≤ MAXSIGDIG) := by
    have hM : MAXSIGDIG = 30 := rfl
    rw [hM]
    omega
  rw [strx_digit, if_neg c1, cint_ok _ (by omega) (by omega)]
  dsimp only
  rw [if_neg c2, cint_ok _ (by omega) (by omega)]
  dsimp only
  by_cases hd : st.hasdot = true
  · rw [if_pos hd, if_pos hd, cint_ok _ (by omega) (by omega)]
    dsimp only
    rw [hsdv]
    rfl
  · rw [if_neg hd, if_neg hd]
    rw [hsdv]
    simp

theorem strx_loop_cons_digit (F : FloatArith) (hdot : F.dot = 46) (c : Nat) (s : List Nat)
    (st st1 : StrxState F.Number)
    (hc : (48 ≤ c ∧ c ≤ 57) ∨ (97 ≤ c ∧ c ≤ 102) ∨ (65 ≤ c ∧ c ≤ 70))
    (hs : strx_digit F c st = Except.ok st1) :
    strx_loop F (c :: s) st = strx_loop F s st1 := by
  have c1 : ¬ c = F.dot := by
    rw [hdot]
    omega
  rw [strx_loop, if_neg c1, if_pos (hexavalue_digit c hc).1, hs]

theorem significantDigits_length_le (ds : List Nat) :
    (significantDigits ds).length ≤ ds.length :=
  (List.dropWhile_suffix _).length_le

theorem significantDigits_cons_zero (ds : List Nat) :
    significantDigits (48 :: ds) = significantDigits ds := by
  unfold significantDigits
  rw [List.dropWhile_cons]
  simp

theorem significantDigits_cons_other (c : Nat) (ds : List Nat) (h : c ≠ 48) :
    significantDigits (c :: ds) = c :: ds := by
  unfold significantDigits
  rw [List.dropWhile_cons]
  simp [h]

theorem strx_loop_digits (F : FloatArith) (hdot : F.dot = 46) (rest : List Nat) :
    ∀ (ds : List Nat) (st : StrxState F.Number) (sd nz : Nat),
    (∀ c ∈ ds, (48 ≤ c ∧ c ≤ 57) ∨ (97 ≤ c ∧ c ≤ 102) ∨ (65 ≤ c ∧ c ≤ 70)) →
    st.sigdig = (sd : Int) → st.nosigdig = (nz : Int) →
    sd + ds.length ≤ 2147483647 → nz + ds.length ≤ 2147483647 →
    -2147483648 ≤ st.e - ds.length → st.e + ds.length ≤ 2147483647 →
    strx_loop F (ds ++ rest) st
      = strx_loop F rest
          { r := ((if sd = 0 then significantDigits ds else ds).take (30 - sd)).foldl
              (fun (r : F.Number) (c : Nat) =>
                F.add (F.mul r (F.ofNat 16)) (F.ofNat (luaO_hexavalue (c : Int)))) st.r,
            sigdig := ((sd + (if sd = 0 then significantDigits ds else ds).length : Nat) : Int),
            nosigdig :=
              ((nz + (ds.length - (if sd = 0 then significantDigits ds else ds).length) : Nat)
                : Int),
            e := st.e
              + ((sd + (if sd = 0 then significantDigits ds else ds).length - 30 : Nat) : Int)
              - ((sd - 30 : Nat) : Int) - (if st.hasdot = true then (ds.length : Int) else 0),
            hasdot := st.hasdot } := by
  intro ds
  induction ds with
  | nil =>
    intro st sd nz _ h1 h2 _ _ _ _
    have e1 : (if sd = 0 then significantDigits ([] : List Nat) else []) = [] := by
      split <;> rfl
    rw [e1, List.nil_append]
    refine congrArg (strx_loop F rest) ?_
    cases st with
    | mk r sg ns e hd =>
      simp only [StrxState.mk.injEq, List.take_nil, List.foldl_nil, List.length_nil, true_and,
        and_true]
      have h1' : sg = (sd : Int) := h1
      have h2' : ns = (nz : Int) := h2
      refine ⟨?_, ?_, ?_⟩
      · omega
      · omega
      · split <;> omega
  | cons c ds ih =>
    intro st sd nz hds hsd hnz b1 b2 b3 b4
    have hc := hds c (List.mem_cons_self _ _)
    have hds2 : ∀ x ∈ ds, (48 ≤ x ∧ x ≤ 57) ∨ (97 ≤ x ∧ x ≤ 102) ∨ (65 ≤ x ∧ x ≤ 70) :=
      fun x hx => hds x (List.mem_cons_of_mem _ hx)
    have hlen : (c :: ds).length = ds.length + 1 := rfl
    rw [hlen] at b1 b2 b3 b4
    have hsl := significantDigits_length_le ds
    have hif : ∀ z : Int, -1 ≤ (if st.hasdot = true then z - 1 else z) - z
        ∧ (if st.hasdot = true then z - 1 else z) - z ≤ 0 := by
      intro z
      split <;> omega
    rw [List.cons_append]
    by_cases hz : sd = 0 ∧ c = 48
    · obtain ⟨hz1, hz2⟩ := hz
      subst hz1
      have hsd0 : st.sigdig = 0 := hsd
      rw [strx_loop_cons_digit F hdot c _ st _ hc
        (strx_digit_leading_zero F c st nz hz2 hsd0 hnz (by omega) (by omega) (by omega))]
      rw [ih { st with
            nosigdig := ((nz + 1 : Nat) : Int),
            e := st.e - (if st.hasdot = true then 1 else 0) } 0 (nz + 1) hds2 hsd0 rfl
        (by omega) (by omega)
        (by
          show (-2147483648 : Int) ≤ (st.e - (if st.hasdot = true then 1 else 0)) - ds.length
          split <;> omega)
        (by
          show (st.e - (if st.hasdot = true then 1 else 0)) + ds.length ≤ (2147483647 : Int)
          split <;> omega)]
      refine congrArg (strx_loop F rest) ?_
      rw [hz2]
      simp only [if_pos, significantDigits_cons_zero, StrxState.mk.injEq, true_and, and_true,
        List.length_cons]
      refine ⟨?_, ?_⟩
      · omega
      · split
        · simp
          omega
        · simp
    · have hsig : (if sd = 0 then significantDigits (c :: ds) else c :: ds) = c :: ds := by
        by_cases h0 : sd = 0
        · rw [if_pos h0]
          exact significantDigits_cons_other c ds (fun h48 => hz ⟨h0, h48⟩)
        · rw [if_neg h0]
      rw [hsig]
      by_cases h30 : sd + 1 ≤ 30
      · rw [strx_loop_cons_digit F hdot c _ st _ hc
          (strx_digit_significant F c st sd hsd hz h30 (by omega) (by omega))]
        rw [ih { st with
              r := F.add (F.mul st.r (F.ofNat 16)) (F.ofNat (luaO_hexavalue (c : Int))),
              sigdig := ((sd + 1 : Nat) : Int),
              e := st.e - (if st.hasdot = true then 1 else 0) } (sd + 1) nz hds2 rfl hnz
          (by omega) (by omega)
          (by
            show (-2147483648 : Int) ≤ (st.e - (if st.hasdot = true then 1 else 0)) - ds.length
            split <;> omega)
          (by
            show (st.e - (if st.hasdot = true then 1 else 0)) + ds.length ≤ (2147483647 : Int)
            split <;> omega)]
        refine congrArg (strx_loop F rest) ?_
        have ht : 30 - sd = (30 - (sd + 1)) + 1 := by omega
        rw [ht, List.take_succ_cons, List.foldl_cons]
        simp only [if_neg (Nat.succ_ne_zero sd), StrxState.mk.injEq, true_and, and_true,
          List.length_cons]
        refine ⟨?_, ?_, ?_⟩
        · omega
        · omega
        · split <;> simp <;> omega
      · rw [strx_loop_cons_digit F hdot c _ st _ hc
          (strx_digit_dropped F c st sd hsd (by omega) (by omega) (by omega) (by omega))]
        rw [ih { st with
              sigdig := ((sd + 1 : Nat) : Int),
              e := st.e + 1 - (if st.hasdot = true then 1 else 0) } (sd + 1) nz hds2 rfl hnz
          (by omega) (by omega)
          (by
            show (-2147483648 : Int)
              ≤ (st.e + 1 - (if st.hasdot = true then 1 else 0)) - ds.length
            split <;> omega)
          (by
            show (st.e + 1 - (if st.hasdot = true then 1 else 0)) + ds.length
              ≤ (2147483647 : Int)
            split <;> omega)]
        refine congrArg (strx_loop F rest) ?_
        have ht : 30 - sd = 0 := by omega
        have ht2 : 30 - (sd + 1) = 0 := by omega
        rw [ht, ht2]
        simp only [if_neg (Nat.succ_ne_zero sd), StrxState.mk.injEq, true_and, and_true,
          List.length_cons, List.take_zero, List.foldl_nil]
        refine ⟨?_, ?_, ?_⟩
        · omega
        · omega
        · split <;> simp <;> omega

theorem strx_loop_stop (F : FloatArith) (hdot : F.dot = 46) (st : StrxState F.Number)
    (EP : List Nat) (h : EP = [] ∨ ∃ t, EP = 112 :: t) :
    strx_loop F EP st = Except.ok (st, EP) := by
  rcases h with rfl | ⟨t, rfl⟩
  · rfl
  · have c1 : ¬ (112 : Nat) = F.dot := by
      rw [hdot]
      decide
    have c2 : ¬ lisxdigit ((112 : Nat) : Int) = true := by decide
    rw [strx_loop, if_neg c1, if_neg c2]

theorem strx_loop_dot (F : FloatArith) (st : StrxState F.Number) (s : List Nat)
    (h : st.hasdot = false) :
    strx_loop F (F.dot :: s) st = strx_loop F s { st with hasdot := true } := by
  have c : ¬ st.hasdot = true := by
    rw [h]
    decide
  rw [strx_loop, if_pos rfl, if_neg c]

theorem significantDigits_append (H f : List Nat) :
    significantDigits (H ++ f)
      = if significantDigits H = [] then significantDigits f else significantDigits H ++ f := by
  induction H with
  | nil => rfl
  | cons c H ih =>
    by_cases hc : c = 48
    · subst hc
      rw [List.cons_append, significantDigits_cons_zero, significantDigits_cons_zero, ih]
    · rw [List.cons_append, significantDigits_cons_other c _ hc,
        significantDigits_cons_other c _ hc, if_neg (List.cons_ne_nil _ _), List.cons_append]

theorem strx_loop_integer (F : FloatArith) (hdot : F.dot = 46) (H rest : List Nat)
    (hH : ∀ c ∈ H, (48 ≤ c ∧ c ≤ 57) ∨ (97 ≤ c ∧ c ≤ 102) ∨ (65 ≤ c ∧ c ≤ 70))
    (hb : H.length ≤ 2147483647) :
    strx_loop F (H ++ rest)
        { r := F.ofNat 0, sigdig := 0, nosigdig := 0, e := 0, hasdot := false }
      = strx_loop F rest
          { r := strx_acc F ((significantDigits H).take 30),
            sigdig := ((significantDigits H).length : Int),
            nosigdig := ((H.length - (significantDigits H).length : Nat) : Int),
            e := (((significantDigits H).length - 30 : Nat) : Int),
            hasdot := false } := by
  have k := strx_loop_digits F hdot rest H
    { r := F.ofNat 0, sigdig := 0, nosigdig := 0, e := 0, hasdot := false } 0 0 hH rfl rfl
    (by omega) (by omega) (by show (-2147483648 : Int) ≤ 0 - H.length; omega)
    (by show (0 : Int) + H.length ≤ 2147483647; omega)
  rw [k]
  refine congrArg (strx_loop F rest) ?_
  simp only [if_pos, StrxState.mk.injEq, true_and, and_true, Nat.sub_zero, Nat.zero_add,
    Nat.zero_sub, Bool.false_eq_true, if_false]
  refine ⟨rfl, ?_⟩
  simp

theorem strx_loop_numeral (F : FloatArith) (hdot : F.dot = 46) (H EP : List Nat)
    (Fr : Option (List Nat))
    (hH : ∀ c ∈ H, (48 ≤ c ∧ c ≤ 57) ∨ (97 ≤ c ∧ c ≤ 102) ∨ (65 ≤ c ∧ c ≤ 70))
    (hFr : ∀ c ∈ Fr.getD [], (48 ≤ c ∧ c ≤ 57) ∨ (97 ≤ c ∧ c ≤ 102) ∨ (65 ≤ c ∧ c ≤ 70))
    (hb : H.length + (Fr.getD []).length ≤ 1073741823)
    (hEP : EP = [] ∨ ∃ t, EP = 112 :: t) :
    strx_loop F (H ++ (fractionText F.dot Fr ++ EP))
        { r := F.ofNat 0, sigdig := 0, nosigdig := 0, e := 0, hasdot := false }
      = Except.ok
          ({ r := strx_acc F ((significantDigits (H ++ Fr.getD [])).take 30),
             sigdig := ((significantDigits (H ++ Fr.getD [])).length : Int),
             nosigdig := ((H.length + (Fr.getD []).length
               - (significantDigits (H ++ Fr.getD [])).length : Nat) : Int),
             e := (((significantDigits (H ++ Fr.getD [])).length - 30 : Nat) : Int)
               - ((Fr.getD []).length : Int),
             hasdot := Fr.isSome }, EP) := by
  have hsl := significantDigits_length_le H
  cases Fr with
  | none =>
    simp only [Option.getD_none, List.append_nil, List.length_nil, Nat.add_zero, List.nil_append,
      Option.isSome_none, fractionText] at hb ⊢
    rw [strx_loop_integer F hdot H EP hH (by omega), strx_loop_stop F hdot _ EP hEP]
    simp
  | some f =>
    simp only [Option.getD_some, Option.isSome_some, fractionText] at hb hFr ⊢
    have hsf := significantDigits_length_le f
    rw [List.cons_append, strx_loop_integer F hdot H _ hH (by omega),
      strx_loop_dot F _ _ rfl]
    have k := strx_loop_digits F hdot EP f
      { r := strx_acc F ((significantDigits H).take 30),
        sigdig := ((significantDigits H).length : Int),
        nosigdig := ((H.length - (significantDigits H).length : Nat) : Int),
        e := (((significantDigits H).length - 30 : Nat) : Int),
        hasdot := true } (significantDigits H).length (H.length - (significantDigits H).length)
      hFr rfl rfl (by omega) (by omega)
      (by
        show (-2147483648 : Int) ≤ (((significantDigits H).length - 30 : Nat) : Int) - f.length
        omega)
      (by
        show (((significantDigits H).length - 30 : Nat) : Int) + f.length ≤ (2147483647 : Int)
        omega)
    rw [k, strx_loop_stop F hdot _ EP hEP]
    refine congrArg Except.ok ?_
    refine congrArg (fun st => (st, EP)) ?_
    rw [significantDigits_append]
    by_cases h0 : significantDigits H = []
    · have h1 : (significantDigits H).length = 0 := by rw [h0]; rfl
      rw [if_pos h0, h1, h0]
      simp only [if_pos, StrxState.mk.injEq, true_and, and_true, Nat.sub_zero, Nat.zero_add,
        List.take_nil, if_true]
      refine ⟨rfl, ?_, ?_⟩
      · omega
      · omega
    · have h1 : (significantDigits H).length ≠ 0 := by
        intro h
        exact h0 (List.length_eq_zero.mp h)
      rw [if_neg h0, if_neg h1, List.length_append]
      simp only [StrxState.mk.injEq, true_and, and_true, if_true]
      refine ⟨?_, ?_, ?_⟩
      · unfold strx_acc
        rw [List.take_append_eq_append_take, List.foldl_append]
      · omega
      · omega

theorem isneg_digit (d : Nat) (D : List Nat) (hd : 48 ≤ d) : isneg (d :: D) = (false, d :: D) := by
  unfold isneg
  split
  · rename_i h
    simp only [List.cons.injEq] at h
    omega
  · rename_i h
    simp only [List.cons.injEq] at h
    omega
  · rfl

theorem isneg_sign_digits (es D : List Nat) (hes : es = [] ∨ es = [43] ∨ es = [45])
    (hne : D ≠ []) (hD : ∀ c ∈ D, 48 ≤ c ∧ c ≤ 57) :
    isneg (es ++ D) = (decide (es = [45]), D) := by
  rcases hes with rfl | rfl | rfl
  · cases D with
    | nil => exact absurd rfl hne
    | cons d D1 => exact isneg_digit d D1 (hD d (List.mem_cons_self _ _)).1
  · rfl
  · rfl

theorem strx_sign_and_0x (sign R : List Nat) (hsign : sign = [] ∨ sign = [43] ∨ sign = [45]) :
    isneg (skipSpaces (sign ++ 48 :: 120 :: R)) = (decide (sign = [45]), 48 :: 120 :: R) := by
  rcases hsign with rfl | rfl | rfl <;> rfl

theorem lua_strx2number_after_loop (F : FloatArith) (sign R : List Nat)
    (hsign : sign = [] ∨ sign = [43] ∨ sign = [45]) (st : StrxState F.Number) (s4 : List Nat)
    (n e4 : Int)
    (hloop : strx_loop F R
        { r := F.ofNat 0, sigdig := 0, nosigdig := 0, e := 0, hasdot := false }
      = Except.ok (st, s4))
    (hn : cint (st.nosigdig + st.sigdig) = Except.ok n)
    (he : cint (st.e * 4) = Except.ok e4) :
    lua_strx2number F (sign ++ 48 :: 120 :: R)
      = if n = 0 then Except.ok (F.ofNat 0, sign ++ 48 :: 120 :: R)
        else if s4.head? = some 112 ∨ s4.head? = some 80 then
          if ¬ lisdigit ((isneg s4.tail).2.headD 0) then Except.ok (F.ofNat 0, s4)
          else
            match strx_exp (isneg s4.tail).2 0 with
            | Except.error u => Except.error u
            | Except.ok (exp1, s7) =>
              match cint (if (isneg s4.tail).1 then -exp1 else exp1) with
              | Except.error u => Except.error u
              | Except.ok exp2 =>
                match cint (e4 + exp2) with
                | Except.error u => Except.error u
                | Except.ok e5 =>
                  Except.ok (F.ldexp (if sign = [45] then F.neg st.r else st.r) e5, s7)
        else Except.ok (F.ldexp (if sign = [45] then F.neg st.r else st.r) e4, s4) := by
  have hp := strx_sign_and_0x sign R hsign
  have c0 : ¬ ¬ ((48 :: 120 :: R).head? = some 48
      ∧ ((48 :: 120 :: R).tail.head? = some 120 ∨ (48 :: 120 :: R).tail.head? = some 88)) := by
    simp
  rw [lua_strx2number, hp]
  dsimp only
  rw [if_neg c0]
  rw [show (48 :: 120 :: R).tail.tail = R from rfl, hloop]
  dsimp only
  rw [hn]
  dsimp only
  rw [he]
  dsimp only
  simp only [decide_eq_true_eq]

theorem lisdigit_head (D : List Nat) (hne : D ≠ []) (hD : ∀ c ∈ D, 48 ≤ c ∧ c ≤ 57) :
    lisdigit ((D.headD 0 : Nat) : Int) = true := by
  cases D with
  | nil => exact absurd rfl hne
  | cons d D1 =>
    have h := hD d (List.mem_cons_self _ _)
    simp [lisdigit]
    omega

theorem hexNumeral_eq (dot : Nat) (sign H : List Nat) (Fr : Option (List Nat))
    (ex : Option (List Nat × List Nat)) :
    hexNumeral dot sign H Fr ex
      = sign ++ 48 :: 120 :: (H ++ (fractionText dot Fr ++ exponentText ex)) := by
  unfold hexNumeral
  simp only [List.append_assoc, List.cons_append, List.nil_append]

theorem exponent_part_stops (ex : Option (List Nat × List Nat)) :
    exponentText ex = [] ∨ ∃ t, exponentText ex = 112 :: t := by
  cases ex with
  | none => exact Or.inl rfl
  | some x => exact Or.inr ⟨_, rfl⟩

theorem lua_strx2number_numeral (F : FloatArith) (sign H : List Nat) (Fr : Option (List Nat))
    (ex : Option (List Nat × List Nat)) (hdot : F.dot = 46)
    (hsign : sign = [] ∨ sign = [43] ∨ sign = [45])
    (hH : ∀ c ∈ H, (48 ≤ c ∧ c ≤ 57) ∨ (97 ≤ c ∧ c ≤ 102) ∨ (65 ≤ c ∧ c ≤ 70))
    (hFr : ∀ c ∈ Fr.getD [], (48 ≤ c ∧ c ≤ 57) ∨ (97 ≤ c ∧ c ≤ 102) ∨ (65 ≤ c ∧ c ≤ 70))
    (hne : H ++ Fr.getD [] ≠ [])
    (hex : ∀ x, ex = some x →
      (x.1 = [] ∨ x.1 = [43] ∨ x.1 = [45]) ∧ x.2 ≠ [] ∧ ∀ c ∈ x.2, 48 ≤ c ∧ c ≤ 57)
    (hrange : 4 * (H.length + (Fr.getD []).length) + exponentDigitsValue ex + 48
      ≤ 2147483647) :
    lua_strx2number F (hexNumeral F.dot sign H Fr ex)
      = Except.ok (F.ldexp
          (if sign = [45] then
            F.neg (strx_acc F ((significantDigits (H ++ Fr.getD [])).take 30))
           else strx_acc F ((significantDigits (H ++ Fr.getD [])).take 30))
          (spec_strx_exponent H Fr ex), []) := by
  have hsl := significantDigits_length_le (H ++ Fr.getD [])
  rw [List.length_append] at hsl
  have hpos : 0 < H.length + (Fr.getD []).length := by
    rw [← List.length_append]
    exact List.length_pos.mpr hne
  have hloop := strx_loop_numeral F hdot H (exponentText ex) Fr hH hFr (by omega)
    (exponent_part_stops ex)
  have hn := cint_ok
    ((((H.length + (Fr.getD []).length - (significantDigits (H ++ Fr.getD [])).length : Nat)
      : Int)) + ((significantDigits (H ++ Fr.getD [])).length : Int)) (by omega) (by omega)
  have he := cint_ok
    (((((significantDigits (H ++ Fr.getD [])).length - 30 : Nat) : Int)
      - ((Fr.getD []).length : Int)) * 4) (by omega) (by omega)
  have hn0 : ¬ ((((H.length + (Fr.getD []).length
      - (significantDigits (H ++ Fr.getD [])).length : Nat) : Int))
      + ((significantDigits (H ++ Fr.getD [])).length : Int) = 0) := by omega
  rw [hexNumeral_eq, lua_strx2number_after_loop F sign _ hsign _ _ _ _ hloop hn he, if_neg hn0]
  cases ex with
  | none =>
    have c1 : ¬ ((exponentText none).head? = some 112 ∨ (exponentText none).head? = some 80) := by
      simp [exponentText]
    rw [if_neg c1]
    refine congrArg Except.ok ?_
    refine congrArg (fun z => (F.ldexp _ z, ([] : List Nat))) ?_
    unfold spec_strx_exponent
    dsimp only
    omega
  | some x =>
    obtain ⟨hx1, hx2, hx3⟩ := hex x rfl
    have hV : decimalValue x.2 + 48 ≤ 2147483647 := by
      have : exponentDigitsValue (some x) = decimalValue x.2 := rfl
      omega
    have c1 : (exponentText (some x)).head? = some 112
        ∨ (exponentText (some x)).head? = some 80 := Or.inl rfl
    have hexp := strx_exp_digits x.2 0 hx3 hV
    have hexp2 : strx_exp x.2 0 = Except.ok ((decimalValue x.2 : Int), []) := hexp
    have hV2 : exponentDigitsValue (some x) = decimalValue x.2 := rfl
    rw [hV2] at hrange
    rw [if_pos c1, show (exponentText (some x)).tail = x.1 ++ x.2 from rfl,
      isneg_sign_digits x.1 x.2 hx1 hx2 hx3]
    dsimp only
    rw [if_neg (not_not.mpr (lisdigit_head x.2 hx2 hx3)), hexp2]
    dsimp only
    by_cases hm : x.1 = [45]
    · rw [if_pos (decide_eq_true hm), cint_ok _ (by omega) (by omega)]
      dsimp only
      rw [cint_ok _ (by omega) (by omega)]
      refine congrArg Except.ok ?_
      refine congrArg (fun z => (F.ldexp _ z, ([] : List Nat))) ?_
      unfold spec_strx_exponent signedDecimalValue
      dsimp only
      rw [if_pos hm]
      omega
    · have hm2 : ¬ decide (x.1 = [45]) = true := by
        intro h
        exact hm (of_decide_eq_true h)
      rw [if_neg hm2, cint_ok _ (by omega) (by omega)]
      dsimp only
      rw [cint_ok _ (by omega) (by omega)]
      refine congrArg Except.ok ?_
      refine congrArg (fun z => (F.ldexp _ z, ([] : List Nat))) ?_
      unfold spec_strx_exponent signedDecimalValue
      dsimp only
      rw [if_neg hm]
      omega

theorem lua_strx2number_no_digit (F : FloatArith) (sign : List Nat) (Fr0 : Option (List Nat))
    (ex : Option (List Nat × List Nat)) (hdot : F.dot = 46)
    (hsign : sign = [] ∨ sign = [43] ∨ sign = [45]) (hFr0 : Fr0 = none ∨ Fr0 = some []) :
    lua_strx2number F (hexNumeral F.dot sign [] Fr0 ex)
        = Except.ok (F.ofNat 0, hexNumeral F.dot sign [] Fr0 ex)
      ∧ ∀ str2number : List Nat → F.Number × List Nat,
          l_str2dloc F str2number (hexNumeral F.dot sign [] Fr0 ex) 120 = Except.ok none := by
  have hFr : ∀ c ∈ Fr0.getD [], (48 ≤ c ∧ c ≤ 57) ∨ (97 ≤ c ∧ c ≤ 102) ∨ (65 ≤ c ∧ c ≤ 70) := by
    rcases hFr0 with rfl | rfl <;> exact fun c hc => absurd hc (List.not_mem_nil c)
  have hlen : (Fr0.getD []).length = 0 := by
    rcases hFr0 with rfl | rfl <;> rfl
  have hsig : significantDigits ([] ++ Fr0.getD []) = [] := by
    rcases hFr0 with rfl | rfl <;> rfl
  have hloop := strx_loop_numeral F hdot [] (exponentText ex) Fr0
    (fun c hc => absurd hc (List.not_mem_nil c)) hFr (by rw [hlen]; decide)
    (exponent_part_stops ex)
  rw [hsig, hlen] at hloop
  have hn := cint_ok ((((([] : List Nat).length + 0 - ([] : List Nat).length : Nat) : Int))
    + ((([] : List Nat).length : Nat) : Int)) (by decide) (by decide)
  have he := cint_ok ((((([] : List Nat).length - 30 : Nat) : Int) - ((0 : Nat) : Int)) * 4)
    (by decide) (by decide)
  have h1 : lua_strx2number F (hexNumeral F.dot sign [] Fr0 ex)
      = Except.ok (F.ofNat 0, hexNumeral F.dot sign [] Fr0 ex) := by
    rw [hexNumeral_eq, lua_strx2number_after_loop F sign _ hsign _ _ _ _ hloop hn he]
    rfl
  refine ⟨h1, ?_⟩
  intro str2number
  unfold l_str2dloc
  rw [if_pos rfl, h1]
  dsimp only
  rw [if_pos rfl]

/-- C35, counterexample: with the arithmetic of binary64 the accumulator is
rounded at each digit once it passes 53 bits.  For `0x200000000000011` the
integer of the digits is `m = 2 ^ 57 + 17` and the exponent is 0, but the value
that `lua_strx2number` holds before the final scaling is `2 ^ 52 * 2 ^ 5`, that is
`2 ^ 57`, which is also what it returns, while the binary64 nearest to `m` is
`(2 ^ 52 + 1) * 2 ^ 5`.  And for `0x1p2147483648` the exponent is computed in an
`int` that overflows, which C leaves undefined. -/
theorem lua_strx2number_accumulator_rounded :
    lua_strx2number binary64 (hexNumeral 46 [] (bytes "200000000000011") none none)
      = Except.ok (Binary64.finite false (2 ^ 52) 5, [])
    ∧ strx_acc binary64 ((significantDigits (bytes "200000000000011")).take 30)
      = Binary64.finite false (2 ^ 52) 5
    ∧ hexValue ((significantDigits (bytes "200000000000011")).take 30) = 2 ^ 57 + 17
    ∧ spec_strx_exponent (bytes "200000000000011") none none = 0
    ∧ Binary64.round false (2 ^ 57 + 17) 0 = Binary64.finite false (2 ^ 52 + 1) 5
    ∧ lua_strx2number binary64
        (hexNumeral 46 [] (bytes "1") none (some ([], bytes "2147483648")))
      = Except.error Undefined.signedOverflow := by
  refine ⟨?_, ?_, ?_, ?_, ?_, ?_⟩
  · rfl
  · rfl
  · rfl
  · rfl
  · rfl
  · rfl

/-- C35, amended: for the text made of a sign (or nothing), `0x`, the
hexadecimal digits `H`, a fraction (the point of the locale `.` and the digits
`Fr`, when given) and an exponent (`p`, a sign or nothing, and the decimal
digits `D`, when given), with at least one hexadecimal digit and counters that
stay within an `int`, `lua_strx2number` accepts the whole text and returns
`ldexp(r, e)`, negated `r` after a `-`, where `r` is the result of accumulating
the first 30 significant digits by `r = r * 16.0 + digit` in the arithmetic of
`lua_Number` and `e` is four times the number of significant digits beyond the
30th less the number of digits after the point, plus the signed exponent.  In
binary64 `r` is the integer `m` of these digits, exactly, when `m < 2 ^ 53`.
With no hexadecimal digit at all nothing is valid (`*endptr` is the text
itself) and `l_str2dloc` returns NULL. -/
theorem lua_strx2number_value (F : FloatArith) (sign H : List Nat) (Fr : Option (List Nat))
    (ex : Option (List Nat × List Nat)) (hdot : F.dot = 46)
    (hsign : sign = [] ∨ sign = [43] ∨ sign = [45])
    (hH : ∀ c ∈ H, (48 ≤ c ∧ c ≤ 57) ∨ (97 ≤ c ∧ c ≤ 102) ∨ (65 ≤ c ∧ c ≤ 70))
    (hFr : ∀ c ∈ Fr.getD [], (48 ≤ c ∧ c ≤ 57) ∨ (97 ≤ c ∧ c ≤ 102) ∨ (65 ≤ c ∧ c ≤ 70))
    (hne : H ++ Fr.getD [] ≠ [])
    (hex : ∀ x, ex = some x →
      (x.1 = [] ∨ x.1 = [43] ∨ x.1 = [45]) ∧ x.2 ≠ [] ∧ ∀ c ∈ x.2, 48 ≤ c ∧ c ≤ 57)
    (hrange : 4 * (H.length + (Fr.getD []).length) + exponentDigitsValue ex + 48
      ≤ 2147483647) :
    lua_strx2number F (hexNumeral F.dot sign H Fr ex)
      = Except.ok (F.ldexp
          (if sign = [45] then
            F.neg (strx_acc F ((significantDigits (H ++ Fr.getD [])).take 30))
           else strx_acc F ((significantDigits (H ++ Fr.getD [])).take 30))
          (spec_strx_exponent H Fr ex), [])
    ∧ (hexValue ((significantDigits (H ++ Fr.getD [])).take 30) < 2 ^ 53 →
        strx_acc binary64 ((significantDigits (H ++ Fr.getD [])).take 30)
          = Binary64.finite false
              (hexValue ((significantDigits (H ++ Fr.getD [])).take 30)) 0)
    ∧ (∀ Fr0 : Option (List Nat), Fr0 = none ∨ Fr0 = some [] →
        lua_strx2number F (hexNumeral F.dot sign [] Fr0 ex)
            = Except.ok (F.ofNat 0, hexNumeral F.dot sign [] Fr0 ex)
          ∧ ∀ str2number : List Nat → F.Number × List Nat,
              l_str2dloc F str2number (hexNumeral F.dot sign [] Fr0 ex) 120
                = Except.ok none) := by
  refine ⟨lua_strx2number_numeral F sign H Fr ex hdot hsign hH hFr hne hex hrange, ?_, ?_⟩
  · intro hm
    refine binary64_acc_exact _ ?_ hm
    intro c hc
    have h1 : c ∈ H ++ Fr.getD [] :=
      (List.dropWhile_suffix _).subset (List.mem_of_mem_take hc)
    rcases List.mem_append.mp h1 with h2 | h2
    · exact hH c h2
    · exact hFr c h2
  · intro Fr0 hFr0
    exact lua_strx2number_no_digit F sign Fr0 ex hdot hsign hFr0

/-- Witness of C35: the text `-0x1a.8p-2` in binary64: `-424 * 2 ^ (-6)`. -/
theorem lua_strx2number_value_witness :
    lua_strx2number binary64
        (hexNumeral 46 [45] (bytes "1a") (some (bytes "8")) (some ([45], bytes "2")))
      = Except.ok (Binary64.finite true 424 (-6), []) :=
  (lua_strx2number_value binary64 [45] (bytes "1a") (some (bytes "8"))
    (some ([45], bytes "2")) rfl (by decide) (by decide) (by decide) (by decide)
    (by
      intro x hx
      cases hx
      exact ⟨by decide, by decide, by decide⟩)
    (by decide)).1

end Lua
